import Mathlib

/-!
# SCGI C Library (scgilib.c / scgilib.h): the request parser and the ready queue

A shallow embedding of the parts of `scgilib.c` that turn the bytes of a
connection into a `scgi_request`, and of the queue through which finished
requests reach the host.

Conventions of the embedding.

* A byte is a natural number (`0 .. 255` on the wire); a C string is the list
  of its bytes before the terminating NUL.
* `int` is 32 bits and `unsigned long` 64 bits (LP64); a conversion to `int`
  keeps the low 32 bits in two's complement (`to_int`).
* The inbound buffer `d->buf` is the list of its first `d->buflen` bytes.  The
  memory behind them is zero: it comes from `calloc`, `recv` writes only below
  `buflen`, and the only other store the library makes there is a zero.  So a
  read past the end of the list yields `0` (`byteAt`) and a store of `0` past
  the end changes nothing (`List.set`).
* A pointer into `d->buf` is the offset it points at.
* A connection and its request are created together, destroyed together and
  point at each other, so one handle names both: the socket number `sock`.
  An intrusive doubly linked list is the list of the handles it links,
  first to last.
-/

namespace Scgilib

/-! ## Constants of scgilib.h -/

def SCGI_INITIAL_OUTBUF_SIZE : Nat := 16384
def SCGI_INITIAL_INBUF_SIZE : Nat := 16384
def SCGI_MAX_INBUF_SIZE : Nat := 131072
def SCGI_MAX_OUTBUF_SIZE : Nat := 524288

/-- The states of a client: `SCGI_SOCKSTATE_READING_REQUEST` (0) and
`SCGI_SOCKSTATE_WRITING_RESPONSE` (1). -/
inductive scgi_sockstate where
  | SCGI_SOCKSTATE_READING_REQUEST
  | SCGI_SOCKSTATE_WRITING_RESPONSE
  deriving DecidableEq, Repr

/-- The enum `types_of_states_for_the_request_parser`. -/
inductive parser_state where
  | SCGI_PARSE_HEADLENGTH
  | SCGI_PARSE_HEADNAME
  | SCGI_PARSE_HEADVAL
  | SCGI_PARSE_BODY
  deriving DecidableEq, Repr

/-- The enum `types_of_methods_for_http_protocol`. -/
inductive http_method where
  | SCGI_METHOD_UNSPECIFIED
  | SCGI_METHOD_UNKNOWN
  | SCGI_METHOD_GET
  | SCGI_METHOD_POST
  | SCGI_METHOD_HEAD
  deriving DecidableEq, Repr

open scgi_sockstate parser_state http_method

/-! ## The strings the parser compares with (ASCII codes) -/

/-- The string `CONTENT_LENGTH`. -/
def CONTENT_LENGTH : List Nat := [67, 79, 78, 84, 69, 78, 84, 95, 76, 69, 78, 71, 84, 72]
/-- The string `SCGI`. -/
def SCGI : List Nat := [83, 67, 71, 73]
/-- The string `1`. -/
def ONE : List Nat := [49]
/-- The string `HTTP_COOKIE`. -/
def HTTP_COOKIE : List Nat := [72, 84, 84, 80, 95, 67, 79, 79, 75, 73, 69]
/-- The string `REQUEST_METHOD`. -/
def REQUEST_METHOD : List Nat := [82, 69, 81, 85, 69, 83, 84, 95, 77, 69, 84, 72, 79, 68]
/-- The string `GET`. -/
def GET : List Nat := [71, 69, 84]
/-- The string `POST`. -/
def POST : List Nat := [80, 79, 83, 84]
/-- The string `HEAD`. -/
def HEAD : List Nat := [72, 69, 65, 68]
/-- The string `HTTP_CONNECTION`. -/
def HTTP_CONNECTION : List Nat := [72, 84, 84, 80, 95, 67, 79, 78, 78, 69, 67, 84, 73, 79, 78]
/-- The string `HTTP_CACHE_CONTROL`. -/
def HTTP_CACHE_CONTROL : List Nat :=
  [72, 84, 84, 80, 95, 67, 65, 67, 72, 69, 95, 67, 79, 78, 84, 82, 79, 76]
/-- The string `HTTP_ACCEPT_CHARSET`. -/
def HTTP_ACCEPT_CHARSET : List Nat :=
  [72, 84, 84, 80, 95, 65, 67, 67, 69, 80, 84, 95, 67, 72, 65, 82, 83, 69, 84]
/-- The string `HTTP_ACCEPT_ENCODING`. -/
def HTTP_ACCEPT_ENCODING : List Nat :=
  [72, 84, 84, 80, 95, 65, 67, 67, 69, 80, 84, 95, 69, 78, 67, 79, 68, 73, 78, 71]
/-- The string `HTTP_ACCEPT_LANGUAGE`. -/
def HTTP_ACCEPT_LANGUAGE : List Nat :=
  [72, 84, 84, 80, 95, 65, 67, 67, 69, 80, 84, 95, 76, 65, 78, 71, 85, 65, 71, 69]
/-- The string `HTTP_ACCEPT`. -/
def HTTP_ACCEPT : List Nat := [72, 84, 84, 80, 95, 65, 67, 67, 69, 80, 84]
/-- The string `HTTP_USER_AGENT`. -/
def HTTP_USER_AGENT : List Nat := [72, 84, 84, 80, 95, 85, 83, 69, 82, 95, 65, 71, 69, 78, 84]
/-- The string `USER_AGENT`. -/
def USER_AGENT : List Nat := [85, 83, 69, 82, 95, 65, 71, 69, 78, 84]
/-- The string `HTTP_HOST`. -/
def HTTP_HOST : List Nat := [72, 84, 84, 80, 95, 72, 79, 83, 84]
/-- The string `QUERY_STRING`. -/
def QUERY_STRING : List Nat := [81, 85, 69, 82, 89, 95, 83, 84, 82, 73, 78, 71]
/-- The string `REQUEST_URI`. -/
def REQUEST_URI : List Nat := [82, 69, 81, 85, 69, 83, 84, 95, 85, 82, 73]
/-- The string `REMOTE_ADDR`. -/
def REMOTE_ADDR : List Nat := [82, 69, 77, 79, 84, 69, 95, 65, 68, 68, 82]
/-- The string `SERVER_ADDR`. -/
def SERVER_ADDR : List Nat := [83, 69, 82, 86, 69, 82, 95, 65, 68, 68, 82]
/-- The string `SERVER_PORT`. -/
def SERVER_PORT : List Nat := [83, 69, 82, 86, 69, 82, 95, 80, 79, 82, 84]
/-- The string `SERVER_PROTOCOL`. -/
def SERVER_PROTOCOL : List Nat :=
  [83, 69, 82, 86, 69, 82, 95, 80, 82, 79, 84, 79, 67, 79, 76]

/-! ## The data model of scgilib.h -/

/-- The struct `SCGI_HEADER`: a name and a value, both C strings.  The links
`next` and `prev` are the position in the list of the request. -/
structure scgi_header where
  name : List Nat
  value : List Nat
  deriving DecidableEq, Repr

/-- The struct `SCGI_REQUEST`.  `headers` is the list from `first_header` to
`last_header`; a `char *` field is `none` when the pointer is NULL; `dead` is
the address of the integer of the host, when one is registered.  The links of
the two request lists are the positions in the lists of `scgi_globals`, and
`descriptor` is the connection that holds this record. -/
structure scgi_request where
  headers : List scgi_header
  body : Option (List Nat)
  scgi_content_length : Int
  scgi_scgiheader : Nat
  dead : Option Nat
  request_method : http_method
  http_host : Option (List Nat)
  query_string : Option (List Nat)
  request_uri : Option (List Nat)
  http_cache_control : Option (List Nat)
  raw_http_cookie : Option (List Nat)
  http_connection : Option (List Nat)
  http_accept_encoding : Option (List Nat)
  http_accept_language : Option (List Nat)
  http_accept_charset : Option (List Nat)
  http_accept : Option (List Nat)
  user_agent : Option (List Nat)
  remote_addr : Option (List Nat)
  server_port : Option (List Nat)
  server_addr : Option (List Nat)
  server_protocol : Option (List Nat)
  deriving DecidableEq, Repr

/-- The struct `SCGI_DESC`.  `buf` holds the `buflen` bytes received so far;
`string_starts` and `writehead` are offsets into `buf` and `outbuf`
(`string_starts` is NULL until the parser first stores it, and is not read
before; it is 0 here until then; `writehead` is `none` while it is NULL).
`outbuf` holds the bytes stored in the outbound buffer, with zeros behind them
as in `buf`.  The `int` fields that a `send` result or a length of the host
enters are integers; the others cannot go below zero and are naturals. -/
structure scgi_desc where
  sock : Nat
  req : scgi_request
  buf : List Nat
  bufsize : Nat
  outbuf : List Nat
  outbufsize : Int
  outbuflen : Int
  idle : Nat
  state : scgi_sockstate
  writehead : Option Int
  parsed_chars : Nat
  string_starts : Nat
  true_header_length : Int
  true_request_length : Int
  parser_state : parser_state
  deriving DecidableEq, Repr

/-- The field `buflen`: how much data the peer has sent so far. -/
def scgi_desc.buflen (d : scgi_desc) : Nat := d.buf.length

/-- The global variables of scgilib.c that a connection shares with the others:
the list of all requests (`first_scgi_req` to `last_scgi_req`), the queue of
parsed requests not yet handed out (`first_scgi_unrecved_req` to
`last_scgi_unrecved_req`), and `dead_cells`, the addresses of the integers of
the host into which the library has stored 1. -/
structure scgi_globals where
  first_scgi_req : List Nat
  first_scgi_unrecved_req : List Nat
  dead_cells : List Nat
  deriving DecidableEq, Repr

/-- The macro `SCGI_LINK`: put `link` at the end of the list. -/
def SCGI_LINK (link : Nat) (list : List Nat) : List Nat := list ++ [link]

/-- The macro `SCGI_UNLINK`: take `link` out of the list. -/
def SCGI_UNLINK (link : Nat) (list : List Nat) : List Nat := list.erase link

/-- The connection and request that `scgi_answer_the_phone` creates for the
socket `caller`. -/
def scgi_answer_the_phone_desc (caller : Nat) : scgi_desc where
  sock := caller
  req :=
    { headers := [], body := none, scgi_content_length := -1, scgi_scgiheader := 0,
      dead := none, request_method := SCGI_METHOD_UNSPECIFIED, http_host := none,
      query_string := none, request_uri := none, http_cache_control := none,
      raw_http_cookie := none, http_connection := none, http_accept_encoding := none,
      http_accept_language := none, http_accept_charset := none, http_accept := none,
      user_agent := none, remote_addr := none, server_port := none, server_addr := none,
      server_protocol := none }
  buf := []
  bufsize := SCGI_INITIAL_INBUF_SIZE
  outbuf := []
  outbufsize := SCGI_INITIAL_OUTBUF_SIZE
  outbuflen := 0
  idle := 0
  state := SCGI_SOCKSTATE_READING_REQUEST
  writehead := none
  parsed_chars := 0
  string_starts := 0
  true_header_length := 0
  true_request_length := 0
  parser_state := SCGI_PARSE_HEADLENGTH

/-! ## C library functions -/

/-- The byte `buf[i]`; the memory past the received bytes is zero. -/
def byteAt (buf : List Nat) (i : Nat) : Nat := buf.getD i 0

/-- The C string that starts at `buf + start`: the bytes up to the first NUL. -/
def cstr (buf : List Nat) (start : Nat) : List Nat := (buf.drop start).takeWhile (fun c => c != 0)

/-- The function `strlen(buf + start)`. -/
def strlen (buf : List Nat) (start : Nat) : Nat := (cstr buf start).length

/-- The function `isdigit` in the C locale. -/
def isdigit (c : Nat) : Bool := decide (48 ≤ c) && decide (c ≤ 57)

/-- The function `isspace` in the C locale. -/
def isspace (c : Nat) : Bool := c == 32 || (decide (9 ≤ c) && decide (c ≤ 13))

/-- The value `ULONG_MAX`. -/
def ULONG_MAX : Nat := 2 ^ 64 - 1

/-- The number that a run of decimal digits denotes. -/
def decimal_value (digits : List Nat) : Nat := digits.foldl (fun acc c => acc * 10 + (c - 48)) 0

/-- The function `strtoul(s, NULL, 10)` on a C string: white space, an optional
sign, then the longest run of digits; `ULONG_MAX` when the number does not fit,
and the negation modulo `2 ^ 64` after a minus sign. -/
def strtoul (s : List Nat) : Nat :=
  let s1 := s.dropWhile isspace
  let neg := s1.head? == some 45
  let s2 := if s1.head? == some 45 || s1.head? == some 43 then s1.tail else s1
  let v := decimal_value (s2.takeWhile isdigit)
  if v > ULONG_MAX then ULONG_MAX
  else if neg then (2 ^ 64 - v) % 2 ^ 64
  else v

/-- The value an `int` takes when an integer is stored in it: the low 32 bits,
in two's complement. -/
def int32 (x : Int) : Int := (x + 2 ^ 31) % 2 ^ 32 - 2 ^ 31

/-- The conversion of an `unsigned long` to `int`. -/
def to_int (x : Nat) : Int := int32 (x : Int)

/-! ## Teardown -/

/-- The function `free_scgi_request` for the request `r` with the fields `req`:
store 1 in the registered integer of the host, take the request out of the list
of all requests and, when it is there, out of the queue of parsed requests. -/
def free_scgi_request (g : scgi_globals) (r : Nat) (req : scgi_request) : scgi_globals :=
  { g with
    dead_cells :=
      match req.dead with
      | some cell => cell :: g.dead_cells
      | none => g.dead_cells
    first_scgi_req := SCGI_UNLINK r g.first_scgi_req
    first_scgi_unrecved_req :=
      if r ∈ g.first_scgi_unrecved_req then SCGI_UNLINK r g.first_scgi_unrecved_req
      else g.first_scgi_unrecved_req }

/-- The function `scgi_kill_socket`, as far as the globals go: the buffers and
the record of `d` are freed, its socket closed and its request freed.  The
caller drops `d` from the connection list of its port. -/
def scgi_kill_socket (g : scgi_globals) (d : scgi_desc) : scgi_globals :=
  free_scgi_request g d.sock d.req

/-! ## Recording a header -/

/-- The loop of `scgi_is_number`; `first` is its local variable. -/
def scgi_is_number_loop : Bool → List Nat → Bool
  | _, [] => true
  | first, c :: arg =>
    if first && c == 45 then scgi_is_number_loop false arg
    else if !isdigit c then false
    else scgi_is_number_loop false arg

/-- The function `scgi_is_number`. -/
def scgi_is_number (arg : List Nat) : Bool :=
  match arg with
  | [] => false
  | _ => scgi_is_number_loop true arg

/-- The `if` / `else if` chain of `scgi_add_header` (with the `SCGIKEY` lines)
that copies a value into the field of the request set aside for it. -/
def scgi_add_header_fields (req : scgi_request) (name val : List Nat) : scgi_request :=
  if name = HTTP_COOKIE then { req with raw_http_cookie := some val }
  else if name = REQUEST_METHOD then
    if val = GET then { req with request_method := SCGI_METHOD_GET }
    else if val = POST then { req with request_method := SCGI_METHOD_POST }
    else if val = HEAD then { req with request_method := SCGI_METHOD_HEAD }
    else { req with request_method := SCGI_METHOD_UNKNOWN }
  else if name = HTTP_CONNECTION then { req with http_connection := some val }
  else if name = HTTP_CACHE_CONTROL then { req with http_cache_control := some val }
  else if name = HTTP_ACCEPT_CHARSET then { req with http_accept_charset := some val }
  else if name = HTTP_ACCEPT_ENCODING then { req with http_accept_encoding := some val }
  else if name = HTTP_ACCEPT_LANGUAGE then { req with http_accept_language := some val }
  else if name = HTTP_ACCEPT then { req with http_accept := some val }
  else if name = HTTP_USER_AGENT then { req with user_agent := some val }
  else if name = USER_AGENT then { req with user_agent := some val }
  else if name = HTTP_HOST then { req with http_host := some val }
  else if name = QUERY_STRING then { req with query_string := some val }
  else if name = REQUEST_URI then { req with request_uri := some val }
  else if name = REMOTE_ADDR then { req with remote_addr := some val }
  else if name = SERVER_ADDR then { req with server_addr := some val }
  else if name = SERVER_PORT then { req with server_port := some val }
  else if name = SERVER_PROTOCOL then { req with server_protocol := some val }
  else req

/-- The part of `scgi_add_header` behind the checks of the first header: the
header is linked at the end of the list of the request, a header `SCGI` with
the value `1` sets `scgi_scgiheader`, and the fields set aside for certain
headers are filled. -/
def scgi_add_header_record (req : scgi_request) (name val : List Nat) : scgi_request :=
  let req1 : scgi_request := { req with headers := req.headers ++ [⟨name, val⟩] }
  let req2 : scgi_request :=
    if name = SCGI ∧ val = ONE then { req1 with scgi_scgiheader := 1 } else req1
  scgi_add_header_fields req2 name val

/-- The function `scgi_add_header`.  The result `none` is the return value 0:
the connection has been killed.  `some d` is the return value 1. -/
def scgi_add_header (g : scgi_globals) (d : scgi_desc) (name val : List Nat) :
    scgi_globals × Option scgi_desc :=
  if d.req.headers = [] then
    if name ≠ CONTENT_LENGTH ∨ scgi_is_number val = false then (scgi_kill_socket g d, none)
    else if to_int (strtoul val) < 0 then
      (scgi_kill_socket g { d with req := { d.req with scgi_content_length := to_int (strtoul val) } },
        none)
    else
      (g, some { d with req :=
        scgi_add_header_record { d.req with scgi_content_length := to_int (strtoul val) } name val })
  else (g, some { d with req := scgi_add_header_record d.req name val })

/-! ## The parser -/

/-- What one round of a loop of `scgi_parse_input` does: go on with the next
byte (`next`), or `return` (`ret`) with the connection alive (`some`) or killed
(`none`). -/
inductive parse_result where
  | next (d : scgi_desc)
  | ret (g : scgi_globals) (d : Option scgi_desc)
  deriving DecidableEq, Repr

open parse_result

/-- One round of the `while ( parser < end )` loop of the current
`parser_state`, a `goto scgi_parse_input_label` included.  On entry the local
`parser` is `&d->buf[d->parsed_chars]`: the function starts it there and every
round that goes on advances both by one. -/
def scgi_parse_input_step (g : scgi_globals) (d : scgi_desc) : parse_result :=
  let parser := d.parsed_chars
  let c := byteAt d.buf parser
  let d1 : scgi_desc := { d with parsed_chars := d.parsed_chars + 1 }
  match d.parser_state with
  | SCGI_PARSE_HEADLENGTH =>
    if c = 58 then
      let tmp := d.buf.set parser 0
      next { d1 with
        parser_state := SCGI_PARSE_HEADNAME
        true_header_length := to_int ((strtoul (cstr tmp 0) + strlen tmp 0 + 2) % 2 ^ 64)
        string_starts := parser + 1 }
    else if c < 48 ∨ c > 57 then ret (scgi_kill_socket g d1) none
    else next d1
  | SCGI_PARSE_HEADNAME =>
    if (d1.parsed_chars : Int) = d.true_header_length then
      if c ≠ 44 ∨ byteAt d.buf (parser - 1) ≠ 0 then ret (scgi_kill_socket g d1) none
      else if d.req.scgi_scgiheader = 0 then ret (scgi_kill_socket g d1) none
      else if d.req.scgi_content_length = 0 then
        ret { g with first_scgi_unrecved_req := SCGI_LINK d.sock g.first_scgi_unrecved_req }
          (some { d1 with req := { d.req with body := some [] } })
      else
        let len : Int :=
          to_int (strtoul (match d.req.headers with
            | h :: _ => h.value
            | [] => []))
        next { d1 with
          true_request_length := int32 (len + d.true_header_length)
          string_starts := parser + 1
          parser_state := SCGI_PARSE_BODY }
    else if c = 0 then
      if parser = d.string_starts then ret (scgi_kill_socket g d1) none
      else next { d1 with parser_state := SCGI_PARSE_HEADVAL }
    else next d1
  | SCGI_PARSE_HEADVAL =>
    if (d1.parsed_chars : Int) = d.true_header_length then ret (scgi_kill_socket g d1) none
    else if c = 0 then
      let headernamelen := strlen d.buf d.string_starts
      let headername := cstr d.buf d.string_starts
      let headerval := cstr d.buf (d.string_starts + headernamelen + 1)
      match scgi_add_header g d1 headername headerval with
      | (g1, none) => ret g1 none
      | (_, some d2) =>
        next { d2 with parser_state := SCGI_PARSE_HEADNAME, string_starts := parser + 1 }
    else next d1
  | SCGI_PARSE_BODY =>
    let total_req_length : Int := int32 (d.true_header_length + d.req.scgi_content_length)
    if (d1.parsed_chars : Int) = total_req_length then
      let buf1 := d.buf.set (parser + 1) 0
      ret { g with first_scgi_unrecved_req := SCGI_LINK d.sock g.first_scgi_unrecved_req }
        (some { d1 with buf := buf1, req := { d.req with body := some (cstr buf1 d.string_starts) } })
    else next d1

/-- The loops of `scgi_parse_input`: rounds while `parser < end`, at most
`fuel` of them. -/
def scgi_parse_input_loop : Nat → scgi_globals → scgi_desc → scgi_globals × Option scgi_desc
  | 0, g, d => (g, some d)
  | fuel + 1, g, d =>
    if d.parsed_chars < d.buflen then
      match scgi_parse_input_step g d with
      | next d1 => scgi_parse_input_loop fuel g d1
      | ret g1 r => (g1, r)
    else (g, some d)

/-- The function `scgi_parse_input`.  Every round consumes one byte, so the
`buflen - parsed_chars` rounds given to the loop are all it can make. -/
def scgi_parse_input (g : scgi_globals) (d : scgi_desc) : scgi_globals × Option scgi_desc :=
  if d.parsed_chars = d.buflen then (g, some d)
  else if d.parsed_chars = 0 ∧ (byteAt d.buf 0 = 48 ∨ byteAt d.buf 0 = 58) then
    (scgi_kill_socket g d, none)
  else scgi_parse_input_loop (d.buflen - d.parsed_chars) g d

/-! ## Notions used to state and prove the properties -/

/-- The parser's half of a read, as the specification words it: the bytes
`data` are stored behind the bytes received so far, `buflen` grows by
their number, and `scgi_parse_input` runs.  The capacity of the buffer plays no
part in it.  A read of `scgi_listen_to_request` is this when the buffer has
room for all the bytes (`listen_eq_receive`); when it has not, the read grows
the buffer first, takes fewer bytes, or kills the connection, and the states of
the program are those of `scgi_listen_all`.  A connection that was killed is
gone and receives nothing. -/
def scgi_receive (s : scgi_globals × Option scgi_desc) (data : List Nat) :
    scgi_globals × Option scgi_desc :=
  match s.2 with
  | none => s
  | some d => scgi_parse_input s.1 { d with buf := d.buf ++ data }

/-- The parser fed with the fragments one after the other by `scgi_receive`.
For fragments that together fit the buffer it is the run of reads that deliver
them (`listen_all_eq_receive_all`). -/
def scgi_receive_all (s : scgi_globals × Option scgi_desc) (fragments : List (List Nat)) :
    scgi_globals × Option scgi_desc :=
  fragments.foldl scgi_receive s

/-- The first `n` rounds of the loops of `scgi_parse_input`, without the test
`parser < end`: `next d` when none of them returned. -/
def scgi_parse_input_run : Nat → scgi_globals → scgi_desc → parse_result
  | 0, _, d => next d
  | n + 1, g, d =>
    match scgi_parse_input_step g d with
    | next d1 => scgi_parse_input_run n g d1
    | ret g1 r => ret g1 r

/-- What the function hands back when its loop stops in the state `r`. -/
def parse_result.finish (g : scgi_globals) : parse_result → scgi_globals × Option scgi_desc
  | next d => (g, some d)
  | ret g1 r => (g1, r)

/-- The connection `d` when only the first `len` bytes of its input have arrived. -/
def scgi_desc.upto (len : Nat) (d : scgi_desc) : scgi_desc := { d with buf := d.buf.take len }

/-- The result `r` with the input buffer cut back to its first `len` bytes. -/
def parse_result.upto (len : Nat) : parse_result → parse_result
  | next d => next (d.upto len)
  | ret g r => ret g (r.map (scgi_desc.upto len))

/-- What the parser keeps true of its cursor: the current token starts at or
before the cursor, and while a value is being read the NUL that ended its name
lies between the two. -/
def parse_inv (d : scgi_desc) : Prop :=
  d.string_starts ≤ d.parsed_chars ∧
  (d.parser_state = SCGI_PARSE_HEADVAL → d.string_starts + strlen d.buf d.string_starts < d.parsed_chars)

/-- The bytes of one header on the wire: the name, a NUL, the value, a NUL. -/
def wire_header (h : scgi_header) : List Nat := h.name ++ 0 :: (h.value ++ [0])

/-- The bytes of a header block on the wire. -/
def wire_headers (hs : List scgi_header) : List Nat := (hs.map wire_header).flatten

/-- The bytes of a request on the wire: the digits of the length of the header
block, a colon, the header block, a comma, the body. -/
def wire_request (digits : List Nat) (hs : List scgi_header) (body : List Nat) : List Nat :=
  digits ++ 58 :: (wire_headers hs ++ 44 :: body)

/-- The request with the headers `hs` recorded one after the other behind the
first. -/
def record_headers (req : scgi_request) (hs : List scgi_header) : scgi_request :=
  hs.foldl (fun r h => scgi_add_header_record r h.name h.value) req

/-- A well-formed request on the wire: `digits` is a decimal number without a
leading zero that gives the length of the header block; the first header is
`CONTENT_LENGTH` with the decimal number `v` of bytes of `body` as its value;
the headers `rest` behind it have non-empty names, no NUL inside a name or a
value, and the header `SCGI` with the value `1` among them; and the whole
request is short enough for its length to be an `int`, as `buflen` is. -/
structure well_formed (digits v : List Nat) (rest : List scgi_header) (body : List Nat) :
    Prop where
  digits_ok : ∀ c ∈ digits, isdigit c = true
  no_leading_zero : digits.head? ≠ some 48
  length_ok : decimal_value digits = (wire_headers (⟨CONTENT_LENGTH, v⟩ :: rest)).length
  value_ne : v ≠ []
  value_digits : ∀ c ∈ v, isdigit c = true
  value_ok : decimal_value v = body.length
  rest_ok : ∀ h ∈ rest, h.name ≠ [] ∧ (∀ c ∈ h.name, c ≠ 0) ∧ ∀ c ∈ h.value, c ≠ 0
  scgi : (⟨SCGI, ONE⟩ : scgi_header) ∈ rest
  fits : (wire_request digits (⟨CONTENT_LENGTH, v⟩ :: rest) body).length < 2 ^ 31

/-- The request of a connection once the headers of a well-formed request are
recorded: the first header with the body length `n` it announces, then the
headers `rest`. -/
def recorded_request (sock : Nat) (v : List Nat) (n : Nat) (rest : List scgi_header) :
    scgi_request :=
  record_headers
    (scgi_add_header_record
      { (scgi_answer_the_phone_desc sock).req with scgi_content_length := (n : Int) }
      CONTENT_LENGTH v)
    rest

/-! ## A sample request -/

/-- The digits `44`: the length of the header block of the sample request. -/
def sample_digits : List Nat := [52, 52]

/-- The value `12` of the header `CONTENT_LENGTH` of the sample request. -/
def sample_value : List Nat := [49, 50]

/-- The headers of the sample request behind the first: `SCGI` with the value
`1` and `REQUEST_METHOD` with the value `GET`. -/
def sample_rest : List scgi_header := [⟨SCGI, ONE⟩, ⟨REQUEST_METHOD, GET⟩]

/-- The twelve bytes `Hello World!`. -/
def sample_body : List Nat := [72, 101, 108, 108, 111, 32, 87, 111, 114, 108, 100, 33]

/-- The sample request on the wire. -/
def sample_stream : List Nat :=
  wire_request sample_digits (⟨CONTENT_LENGTH, sample_value⟩ :: sample_rest) sample_body

/-- The globals with one connection, on socket 7, and nothing in the queue. -/
def sample_globals : scgi_globals :=
  { first_scgi_req := [7], first_scgi_unrecved_req := [], dead_cells := [] }

/-- A request whose three body bytes `A`, NUL, `B` hold a NUL: the digits `24`
for a header block of `CONTENT_LENGTH` with the value `3` and `SCGI` with the
value `1`. -/
def nul_body_stream : List Nat :=
  wire_request [50, 52] [⟨CONTENT_LENGTH, [51]⟩, ⟨SCGI, ONE⟩] [65, 0, 66]

/-- The stream of the end-to-end scenario as the specification gives it: the
digits `70`, a colon, the headers `CONTENT_LENGTH` with the value `12`, `SCGI`
with the value `1` and `REQUEST_METHOD` with the value `GET`, a comma, and the
twelve bytes `Hello World!`. -/
def scenario_stream : List Nat :=
  wire_request [55, 48] (⟨CONTENT_LENGTH, sample_value⟩ :: sample_rest) sample_body

/-- The states of the parser on a connection whose inbound buffer has not
grown: fresh from `scgi_answer_the_phone`, with more bytes behind those
received, and after a round of the parser on a byte it has received, whether
the round went on or returned with the connection alive.  Bytes are appended
without regard to the capacity, so every state of a connection that
`scgi_listen_to_request` has read into without a call of `resize_buffer` is
among them (`listening_reachable`).  The states behind a growth of the buffer
are not: they are those of `listening`. -/
inductive reachable : scgi_desc → Prop where
  | fresh (caller : Nat) : reachable (scgi_answer_the_phone_desc caller)
  | received (d : scgi_desc) (data : List Nat) :
    reachable d → reachable { d with buf := d.buf ++ data }
  | round (g : scgi_globals) (d d1 : scgi_desc) :
    reachable d → d.parsed_chars < d.buf.length →
    scgi_parse_input_step g d = parse_result.next d1 → reachable d1
  | returned (g g1 : scgi_globals) (d d1 : scgi_desc) :
    reachable d → d.parsed_chars < d.buf.length →
    scgi_parse_input_step g d = parse_result.ret g1 (some d1) → reachable d1

/-- The flag `scgi_scgiheader` is 0 or 1, and 1 exactly when a header `SCGI`
with the value `1` is in the header list. -/
def flag_inv (req : scgi_request) : Prop :=
  (req.scgi_scgiheader = 1 ↔ (⟨SCGI, ONE⟩ : scgi_header) ∈ req.headers) ∧
  (req.scgi_scgiheader = 0 ∨ req.scgi_scgiheader = 1)

/-- What holds of every connection of `reachable`, whose inbound buffer has not
grown: the cursor facts of `parse_inv` within the received bytes, the meaning
of the flag, and, while a header name is being read, that no byte of the name
so far is NUL and that the byte before a first name is the colon. -/
def reach_inv (d : scgi_desc) : Prop :=
  parse_inv d ∧ d.parsed_chars ≤ d.buf.length ∧ flag_inv d.req ∧
  (d.parser_state = SCGI_PARSE_HEADNAME →
    (∀ i, d.string_starts ≤ i → i < d.parsed_chars → byteAt d.buf i ≠ 0) ∧
    (d.req.headers = [] → 1 ≤ d.string_starts ∧ byteAt d.buf (d.string_starts - 1) = 58))

/-- The digits `4294967296`, the number 2 to the power 32, and a colon. -/
def huge_length_stream : List Nat := [52, 50, 57, 52, 57, 54, 55, 50, 57, 54, 58]

/-- A connection that has read a header block of 17 bytes, the one header
`CONTENT_LENGTH` with the value `0`, and stands before the byte at the end
offset 21: the stream `17:`, the header, and nothing yet behind it. -/
def no_marker_desc : scgi_desc :=
  ((scgi_receive_all (sample_globals, some (scgi_answer_the_phone_desc 7))
    [[49, 55, 58] ++ wire_header ⟨CONTENT_LENGTH, [48]⟩]).2).getD (scgi_answer_the_phone_desc 7)

/-! ## The library as a whole and `scgi_recv` -/

/-- The struct `SCGI_PORT`; `descs` is the list of its connections, from
`first_scgi_desc` to `last_scgi_desc`. -/
structure scgi_port where
  port : Int
  sock : Nat
  descs : List scgi_desc
  deriving DecidableEq, Repr

/-- The state of the library: the list of ports (`first_scgi_port` to
`last_scgi_port`) with their connections, and the other globals. -/
structure scgi_library where
  ports : List scgi_port
  globals : scgi_globals
  deriving DecidableEq, Repr

/-- The store `req->descriptor->state = SCGI_SOCKSTATE_WRITING_RESPONSE`: the
connection of the request `req` is the one with its socket number. -/
def set_writing_response (req : Nat) (ports : List scgi_port) : List scgi_port :=
  ports.map (fun p => { p with descs := p.descs.map (fun d =>
    if d.sock = req then { d with state := SCGI_SOCKSTATE_WRITING_RESPONSE } else d) })

/-- The function `scgi_recv`.  `scgi_update_connections` is the multiplexer
pass: what it does to the library depends on the sockets, so it is a
parameter.  The result is the request handed out, `none` for NULL. -/
def scgi_recv (scgi_update_connections : scgi_library → scgi_library) (s : scgi_library) :
    Option Nat × scgi_library :=
  let s1 := if s.globals.first_scgi_unrecved_req = [] then scgi_update_connections s else s
  match s1.globals.first_scgi_unrecved_req with
  | [] => (none, s1)
  | req :: _ =>
    (some req,
      { ports := set_writing_response req s1.ports
        globals := { s1.globals with
          first_scgi_unrecved_req := SCGI_UNLINK req s1.globals.first_scgi_unrecved_req } })

/-- The library after the parser has finished the request `req`:
`SCGI_LINK( d->req, first_scgi_unrecved_req, ... )`. -/
def link_unrecved (s : scgi_library) (req : Nat) : scgi_library :=
  { s with globals := { s.globals with
      first_scgi_unrecved_req := SCGI_LINK req s.globals.first_scgi_unrecved_req } }

/-- What happens to the queue of parsed requests over time: the parser
finishes a request outside `scgi_recv`, or the host calls `scgi_recv`, whose
multiplexer pass, if the call makes one, finishes the requests `pass` in that
order. -/
inductive host_event where
  | completed (req : Nat)
  | recv (pass : List Nat)
  deriving DecidableEq, Repr

/-- The library together with the requests handed out by `scgi_recv` so far and
the requests whose parsing has completed so far, both in order. -/
structure host_trace where
  lib : scgi_library
  returned : List Nat
  completed : List Nat
  deriving DecidableEq, Repr

/-- One event in the life of the library. -/
def host_step (t : host_trace) : host_event → host_trace
  | host_event.completed req =>
    { t with lib := link_unrecved t.lib req, completed := t.completed ++ [req] }
  | host_event.recv pass =>
    { lib := (scgi_recv (fun s => pass.foldl link_unrecved s) t.lib).2
      returned := t.returned ++ (scgi_recv (fun s => pass.foldl link_unrecved s) t.lib).1.toList
      completed :=
        if t.lib.globals.first_scgi_unrecved_req = [] then t.completed ++ pass
        else t.completed }

/-- A sequence of events, from the library `s` with nothing handed out yet. -/
def host_run (s : scgi_library) (events : List host_event) : host_trace :=
  events.foldl host_step { lib := s, returned := [], completed := [] }

/-! ## The list macros on the pointers themselves -/

/-- One intrusive doubly linked list in memory: the variables `first` and
`last`, and the fields `next` and `prev` of the record at each address (`none`
is NULL). -/
structure scgi_links where
  first : Option Nat
  last : Option Nat
  next : Nat → Option Nat
  prev : Nat → Option Nat

/-- The macro `SCGI_LINK`, statement by statement.  The store through `last`
when `first` is set needs `last` set, as it is in a list. -/
def SCGI_LINK_ptr (link : Nat) (l : scgi_links) : scgi_links :=
  let l1 : scgi_links :=
    match l.first with
    | none => { l with first := some link, last := some link }
    | some _ =>
      match l.last with
      | some k => { l with next := Function.update l.next k (some link) }
      | none => l
  let l2 : scgi_links := { l1 with next := Function.update l1.next link none }
  let l3 : scgi_links :=
    if l2.first = some link then { l2 with prev := Function.update l2.prev link none }
    else { l2 with prev := Function.update l2.prev link l2.last }
  { l3 with last := some link }

/-- The macro `SCGI_UNLINK`, statement by statement. -/
def SCGI_UNLINK_ptr (link : Nat) (l : scgi_links) : scgi_links :=
  let l1 : scgi_links :=
    match l.prev link with
    | none =>
      match l.next link with
      | some f => { l with first := some f, prev := Function.update l.prev f none }
      | none => { l with first := none }
    | some p => { l with next := Function.update l.next p (l.next link) }
  match l1.next link with
  | none =>
    match l1.prev link with
    | some k => { l1 with last := some k, next := Function.update l1.next k none }
    | none => { l1 with last := none }
  | some n => { l1 with prev := Function.update l1.prev n (l1.prev link) }

/-- The records `xs`, in this order, are chained through `next` and `prev`
behind the record `before` (NULL for none). -/
def chained (l : scgi_links) : Option Nat → List Nat → Prop
  | _, [] => True
  | before, x :: rest => l.prev x = before ∧ l.next x = rest.head? ∧ chained l (some x) rest

/-- The memory `l` holds the list `xs`: distinct records, `first` and `last`
at its ends, chained in this order. -/
def holds_list (l : scgi_links) (xs : List Nat) : Prop :=
  xs.Nodup ∧ l.first = xs.head? ∧ l.last = xs.getLast? ∧ chained l none xs

/-- A request whose first header is `CONTENT_LENGTH` with the value `-`, a
minus sign and no digit: the digits `24`, a colon, that header, `SCGI` with
the value `1`, a comma, and no body. -/
def minus_stream : List Nat :=
  wire_request [50, 52] [⟨CONTENT_LENGTH, [45]⟩, ⟨SCGI, ONE⟩] []

/-! ## Growing the inbound buffer and reading from the socket -/

/-- The constant `SCGI_KICK_IDLE_AFTER_X_SECS` of scgilib.h. -/
def SCGI_KICK_IDLE_AFTER_X_SECS : Nat := 60

/-- The constant `SCGI_PULSES_PER_SEC` of scgilib.h. -/
def SCGI_PULSES_PER_SEC : Nat := 10

/-- The function `scgi_deal_with_socket_out_of_ram`. -/
def scgi_deal_with_socket_out_of_ram (g : scgi_globals) (d : scgi_desc) : scgi_globals :=
  scgi_kill_socket g d

/-- What `sprintf( tmp, "%s", *buf )` leaves in the first `len` bytes of a
block that `calloc` has zeroed: the bytes of the buffer before its first NUL,
and zeros behind them. -/
def sprintf_s (buf : List Nat) (len : Nat) : List Nat :=
  cstr buf 0 ++ List.replicate (len - strlen buf 0) 0

/-- The function `resize_buffer`.  `inbound` is the test `*buf == d->buf`,
`calloc_ok` whether `calloc` gives the new block.  The result `none` is the
return value 0: the connection has been killed.  The sizes and the bytes of
the new block are those of the C function.  The parser keeps `string_starts`
as a pointer into the old block, which the function frees and does not follow
up: in the C program the pointer dangles from here until the parser sets it
again, and what is read through it is not defined.  Here the field is an
offset and stays as it is, so that such a read finds the bytes of the new
block; the properties that rest on a read through `string_starts` are stated
for connections whose buffer has not grown. -/
def resize_buffer (g : scgi_globals) (d : scgi_desc) (inbound : Bool) (calloc_ok : Bool) :
    scgi_globals × Option scgi_desc :=
  if inbound then
    if d.bufsize * 2 ≥ SCGI_MAX_INBUF_SIZE then (scgi_kill_socket g d, none)
    else if calloc_ok = false then (scgi_deal_with_socket_out_of_ram g d, none)
    else (g, some { d with bufsize := d.bufsize * 2, buf := sprintf_s d.buf d.buflen })
  else
    if int32 (d.outbufsize * 2) ≥ (SCGI_MAX_OUTBUF_SIZE : Int) then (scgi_kill_socket g d, none)
    else if calloc_ok = false then (scgi_deal_with_socket_out_of_ram g d, none)
    else (g, some { d with outbufsize := int32 (d.outbufsize * 2), outbuf := cstr d.outbuf 0 })

/-- What the socket holds for a call of `recv`: the bytes that wait to be read,
of which `recv` takes as many as it is asked for at most (no byte waiting is
the result 0, the end of the stream), or the error `EWOULDBLOCK`, or another
error. -/
inductive recv_result where
  | data (bytes : List Nat)
  | would_block
  | failure
  deriving DecidableEq, Repr

/-- The part of `scgi_listen_to_request` from the call of `recv` on; `start`
is the local variable, the value of `buflen` on entry. -/
def scgi_listen_to_request_read (g : scgi_globals) (d : scgi_desc) (start : Nat)
    (incoming : recv_result) : scgi_globals × Option scgi_desc :=
  match incoming with
  | recv_result.data bytes =>
    if (bytes.take (d.bufsize - 5 - start)).length > 0 then
      scgi_parse_input g { d with buf := d.buf ++ bytes.take (d.bufsize - 5 - start) }
    else (scgi_kill_socket g d, none)
  | recv_result.would_block => (g, some d)
  | recv_result.failure => (scgi_kill_socket g d, none)

/-- The function `scgi_listen_to_request`. -/
def scgi_listen_to_request (g : scgi_globals) (d : scgi_desc) (calloc_ok : Bool)
    (incoming : recv_result) : scgi_globals × Option scgi_desc :=
  if d.buflen ≥ d.bufsize - 5 then
    match resize_buffer g d true calloc_ok with
    | (g1, none) => (g1, none)
    | (g1, some d1) => scgi_listen_to_request_read g1 d1 d.buflen incoming
  else scgi_listen_to_request_read g d d.buflen incoming

/-- A run of readable events on one connection, each with what `calloc` and the
socket answer. -/
def scgi_listen_all (s : scgi_globals × Option scgi_desc) (events : List (Bool × recv_result)) :
    scgi_globals × Option scgi_desc :=
  events.foldl (fun s e =>
    match s.2 with
    | none => s
    | some d => scgi_listen_to_request s.1 d e.1 e.2) s

/-! ## Staging a response and writing to the socket -/

/-- The value `PTRDIFF_MAX`. -/
def PTRDIFF_MAX : Nat := 2 ^ 63 - 1

/-- The conversion of an `int` to `size_t`. -/
def size_t (n : Int) : Nat := (n % 2 ^ 64).toNat

/-- Whether `calloc( nmemb, sizeof(char) )` gives a block: there must be memory
for it, and no request above `PTRDIFF_MAX` is granted. -/
def calloc (memory : Bool) (nmemb : Nat) : Bool := memory && decide (nmemb ≤ PTRDIFF_MAX)

/-- The buffer `dst` after `memcpy( dst, txt, len )`, where `txt` holds at least
`len` bytes. -/
def memcpy (dst txt : List Nat) (len : Nat) : List Nat := txt.take len ++ dst.drop len

/-- The function `scgi_send` on the connection `req->descriptor`, with its
return value.  `txt` is the memory the pointer points at, `memory` whether
there is memory for a new block. -/
def scgi_send (d : scgi_desc) (txt : List Nat) (len : Int) (memory : Bool) : Int × scgi_desc :=
  if len ≥ d.outbufsize - 5 then
    if calloc memory (size_t (int32 (len + 6))) = false then (0, d)
    else
      (1, { d with
        outbuf := memcpy [] txt (size_t len)
        outbuflen := len
        outbufsize := int32 (len + 6) })
  else (1, { d with outbuf := memcpy d.outbuf txt (size_t len), outbuflen := len })

/-- The function `scgi_write`: `txt` is a C string. -/
def scgi_write (d : scgi_desc) (txt : List Nat) (memory : Bool) : Int × scgi_desc :=
  scgi_send d txt (to_int (strlen txt 0)) memory

/-- The function `scgi_flush_response`; `sent_amount` is what `send` returns. -/
def scgi_flush_response (g : scgi_globals) (d : scgi_desc) (sent_amount : Int) :
    scgi_globals × Option scgi_desc :=
  if sent_amount ≥ d.outbuflen then (scgi_kill_socket g d, none)
  else
    (g, some { d with
      outbuflen := d.outbuflen - sent_amount
      writehead := some (d.writehead.getD 0 + sent_amount) })

/-- The bytes that `send( d->sock, d->writehead, d->outbuflen, 0 )` takes when it
returns `sent_amount`: that many from the write head on, which is the start of
`outbuf` while `writehead` is NULL. -/
def sent_bytes (d : scgi_desc) (sent_amount : Int) : List Nat :=
  (List.range sent_amount.toNat).map
    (fun i => byteAt d.outbuf ((d.writehead.getD 0).toNat + i))

/-- A writable event on a connection that may be gone already: the call of
`scgi_flush_response`, and the bytes the socket has taken so far. -/
def scgi_flush (s : scgi_globals × Option scgi_desc × List Nat) (sent_amount : Int) :
    scgi_globals × Option scgi_desc × List Nat :=
  match s.2.1 with
  | none => s
  | some d =>
    ((scgi_flush_response s.1 d sent_amount).1, (scgi_flush_response s.1 d sent_amount).2,
      s.2.2 ++ sent_bytes d sent_amount)

/-- A run of writable events, one for each result of `send`. -/
def scgi_flush_all (s : scgi_globals × Option scgi_desc × List Nat) (results : List Int) :
    scgi_globals × Option scgi_desc × List Nat :=
  results.foldl scgi_flush s

/-! ## The connections of a port and the multiplexer pass -/

/-- `SCGI_UNLINK( d, d->port->first_scgi_desc, d->port->last_scgi_desc, next, prev )`
on the list of the records: the record of `d`, the one with its socket number,
goes. -/
def unlink_desc (d : scgi_desc) (descs : List scgi_desc) : List scgi_desc :=
  descs.eraseP (fun e => e.sock == d.sock)

/-- The function `scgi_kill_socket` on the whole library: the connection is
taken out of the list of its port, `d->port`, which is the port whose list
holds it, and its request is freed. -/
def scgi_library.scgi_kill_socket (s : scgi_library) (d : scgi_desc) : scgi_library :=
  { ports := s.ports.map (fun p => { p with descs := unlink_desc d p.descs })
    globals := Scgilib.scgi_kill_socket s.globals d }

/-- The socket numbers of all connections of the library, port by port. -/
def scgi_library.socks (s : scgi_library) : List Nat :=
  (s.ports.map (fun p => p.descs.map (fun d => d.sock))).flatten

/-- What the operating system answers during one pass over a port: whether
`select` succeeds and which sockets it finds readable, writable and in an
exceptional state; the socket that `accept` returns, if it returns one, and
whether `fcntl` succeeds on it; and for the socket of each connection what
`calloc`, `recv` and `send` answer when the pass comes to call them. -/
structure pass_events where
  select_ok : Bool
  readable : Nat → Bool
  writable : Nat → Bool
  exceptional : Nat → Bool
  accept : Option Nat
  fcntl_ok : Bool
  calloc_ok : Nat → Bool
  recv : Nat → recv_result
  send : Nat → Int

/-- The set `scgi_inset` handed to `select`: the listening socket and the
sockets of the connections in the state READING_REQUEST. -/
def scgi_inset (p : scgi_port) : List Nat :=
  p.sock :: (p.descs.filter (fun d => d.state = SCGI_SOCKSTATE_READING_REQUEST)).map
    (fun d => d.sock)

/-- The set `scgi_outset` handed to `select`: the sockets of the connections in
the state WRITING_RESPONSE. -/
def scgi_outset (p : scgi_port) : List Nat :=
  (p.descs.filter (fun d => d.state = SCGI_SOCKSTATE_WRITING_RESPONSE)).map (fun d => d.sock)

/-- The set `scgi_excset` handed to `select`: the sockets of all connections. -/
def scgi_excset (p : scgi_port) : List Nat := p.descs.map (fun d => d.sock)

/-- What `select` leaves of a set: the sockets in it that are ready. -/
def select (ready : Nat → Bool) (set : List Nat) : List Nat := set.filter ready

/-- The test `FD_ISSET`. -/
def FD_ISSET (fd : Nat) (set : List Nat) : Bool := decide (fd ∈ set)

/-- The function `scgi_answer_the_phone`. -/
def scgi_answer_the_phone (ev : pass_events) (g : scgi_globals) (p : scgi_port) :
    scgi_globals × scgi_port :=
  match ev.accept with
  | none => (g, p)
  | some caller =>
    if ev.fcntl_ok = false then (g, p)
    else
      ({ g with first_scgi_req := SCGI_LINK caller g.first_scgi_req },
        { p with descs := p.descs ++ [scgi_answer_the_phone_desc caller] })

/-- The body of the second loop of `scgi_update_connections_port` for the
connection `d`: count the pass, kick the connection out on an exception or
when it has been idle too long, and handle its input or output when the socket
is ready for it.  The sets are those that `select` has left. -/
def scgi_update_connection (ev : pass_events) (inset outset excset : List Nat)
    (g : scgi_globals) (d : scgi_desc) : scgi_globals × Option scgi_desc :=
  if FD_ISSET d.sock excset = true
      ∨ d.idle + 1 > SCGI_KICK_IDLE_AFTER_X_SECS * SCGI_PULSES_PER_SEC then
    (scgi_kill_socket g { d with idle := d.idle + 1 }, none)
  else if d.state = SCGI_SOCKSTATE_READING_REQUEST ∧ FD_ISSET d.sock inset = true then
    scgi_listen_to_request g { d with idle := 0 } (ev.calloc_ok d.sock) (ev.recv d.sock)
  else if d.state = SCGI_SOCKSTATE_WRITING_RESPONSE ∧ d.outbuflen > 0
      ∧ FD_ISSET d.sock outset = true then
    scgi_flush_response g { d with idle := 0 } (ev.send d.sock)
  else (g, some { d with idle := d.idle + 1 })

/-- The second loop of `scgi_update_connections_port` over the connections of
the port, first to last.  A connection that is killed leaves the list. -/
def scgi_update_connections_loop (ev : pass_events) (inset outset excset : List Nat) :
    List scgi_desc → scgi_globals → scgi_globals × List scgi_desc
  | [], g => (g, [])
  | d :: rest, g =>
    match scgi_update_connection ev inset outset excset g d with
    | (g1, some d1) =>
      ((scgi_update_connections_loop ev inset outset excset rest g1).1,
        d1 :: (scgi_update_connections_loop ev inset outset excset rest g1).2)
    | (g1, none) => scgi_update_connections_loop ev inset outset excset rest g1

/-- The part of `scgi_update_connections_port` behind `select`, with the sets
that `select` has left. -/
def scgi_update_connections_port_ready (ev : pass_events) (inset outset excset : List Nat)
    (g : scgi_globals) (p : scgi_port) : scgi_globals × scgi_port :=
  if FD_ISSET p.sock excset = false ∧ FD_ISSET p.sock inset = true then
    ((scgi_update_connections_loop ev inset outset excset
        (scgi_answer_the_phone ev g p).2.descs (scgi_answer_the_phone ev g p).1).1,
      { (scgi_answer_the_phone ev g p).2 with
        descs := (scgi_update_connections_loop ev inset outset excset
          (scgi_answer_the_phone ev g p).2.descs (scgi_answer_the_phone ev g p).1).2 })
  else
    ((scgi_update_connections_loop ev inset outset excset p.descs g).1,
      { p with descs := (scgi_update_connections_loop ev inset outset excset p.descs g).2 })

/-- The function `scgi_update_connections_port`.  The result `none` is the
`exit(1)` behind a failure of `select`. -/
def scgi_update_connections_port (ev : pass_events) (g : scgi_globals) (p : scgi_port) :
    Option (scgi_globals × scgi_port) :=
  if ev.select_ok = false then none
  else
    some (scgi_update_connections_port_ready ev (select ev.readable (scgi_inset p))
      (select ev.writable (scgi_outset p)) (select ev.exceptional (scgi_excset p)) g p)

/-- A run of passes over one port, each with the answers of the operating
system during it. -/
def scgi_update_connections_port_all (g : scgi_globals) (p : scgi_port) :
    List pass_events → Option (scgi_globals × scgi_port)
  | [] => some (g, p)
  | ev :: evs =>
    match scgi_update_connections_port ev g p with
    | none => none
    | some r => scgi_update_connections_port_all r.1 r.2 evs

/-- The connection `d1` is the connection `d` in all that the parser leaves
alone: the socket, the registered integer of the host, the number of bytes
received, the capacity of the inbound buffer, the outbound buffer with its
capacity, length and write head, and the idle count and state. -/
def parser_frame (d d1 : scgi_desc) : Prop :=
  d1.sock = d.sock ∧ d1.req.dead = d.req.dead ∧ d1.buf.length = d.buf.length ∧
  d1.bufsize = d.bufsize ∧ d1.outbuf = d.outbuf ∧ d1.outbufsize = d.outbufsize ∧
  d1.outbuflen = d.outbuflen ∧ d1.idle = d.idle ∧ d1.state = d.state ∧
  d1.writehead = d.writehead

/-- The connection `d1` is the connection `d` for the multiplexer: the same
socket, the same registered integer of the host, the same state and the same
idle count. -/
def same_connection (d d1 : scgi_desc) : Prop :=
  d1.sock = d.sock ∧ d1.req.dead = d.req.dead ∧ d1.state = d.state ∧ d1.idle = d.idle

/-- A fresh connection on the socket 7 whose request has the integer at the
address 100 registered in `dead`. -/
def registered_desc : scgi_desc :=
  { scgi_answer_the_phone_desc 7 with
    req := { (scgi_answer_the_phone_desc 7).req with dead := some 100 } }

/-- A library with one port and three fresh connections, on the sockets 5, 7
and 9, of which the first two have their requests in the queue. -/
def sample_library : scgi_library :=
  { ports := [⟨8080, 3,
      [scgi_answer_the_phone_desc 5, scgi_answer_the_phone_desc 7,
        scgi_answer_the_phone_desc 9]⟩]
    globals := ⟨[5, 7, 9], [5, 7], []⟩ }

/-- A fresh connection whose inbound buffer has grown to the capacity 65536. -/
def grown_desc : scgi_desc := { scgi_answer_the_phone_desc 7 with bufsize := 65536 }

/-- The headroom of the inbound buffer: the bytes received leave the margin of
5 free, and the capacity is the initial one doubled at most twice. -/
def inbound_inv (d : scgi_desc) : Prop :=
  d.buflen + 5 ≤ d.bufsize ∧
  (d.bufsize = SCGI_INITIAL_INBUF_SIZE ∨ d.bufsize = 2 * SCGI_INITIAL_INBUF_SIZE
    ∨ d.bufsize = 4 * SCGI_INITIAL_INBUF_SIZE)

/-- Whether the results of `send` on successive writable events are possible
ones while `remaining` bytes wait to be sent: each is at least 0 and at most
what is left. -/
def valid_results : Int → List Int → Bool
  | _, [] => true
  | remaining, k :: ks =>
    decide (0 ≤ k) && decide (k ≤ remaining) && valid_results (remaining - k) ks

/-- A connection in the state WRITING_RESPONSE with the response `Hi` staged by
`scgi_send` and nothing sent yet. -/
def staged_desc : scgi_desc :=
  { (scgi_send (scgi_answer_the_phone_desc 7) [72, 105] 2 true).2 with
    state := SCGI_SOCKSTATE_WRITING_RESPONSE }

/-- A connection that has received the 16379 digits `1` of a length not yet
ended by a colon: the buffer of capacity 16384 is full to within the margin. -/
def full_desc : scgi_desc :=
  { scgi_answer_the_phone_desc 7 with buf := List.replicate 16379 49, parsed_chars := 16379 }

/-- During the pass with the answers `ev` the socket `sock` is not handled:
`select` finds it neither readable nor writable nor in an exceptional state. -/
def not_handled (ev : pass_events) (sock : Nat) : Prop :=
  ev.readable sock = false ∧ ev.writable sock = false ∧ ev.exceptional sock = false

/-- A pass in which `select` succeeds and finds no socket ready, and no
connection comes in. -/
def quiet_events : pass_events :=
  { select_ok := true
    readable := fun _ => false
    writable := fun _ => false
    exceptional := fun _ => false
    accept := none
    fcntl_ok := true
    calloc_ok := fun _ => true
    recv := fun _ => recv_result.would_block
    send := fun _ => 0 }

/-- A port with one connection, on the socket 7, that has just been handled:
its idle count is 0. -/
def idle_port : scgi_port := { port := 8080, sock := 3, descs := [scgi_answer_the_phone_desc 7] }


/-- The syntax of a numeric value in the words of the specification: an
optional leading `-`, then one or more ASCII digits, and nothing else. -/
def optional_minus_digits (s : List Nat) : Bool :=
  if s.head? = some 45 then decide (s.tail ≠ []) && s.tail.all isdigit
  else decide (s ≠ []) && s.all isdigit


/-- The value `-4294967296`: a minus sign and the digits of 2 to the power 32. -/
def minus_two_pow_32 : List Nat := [45, 52, 50, 57, 52, 57, 54, 55, 50, 57, 54]

/-- The value `4294967301`: the digits of 2 to the power 32 plus 5. -/
def two_pow_32_plus_5 : List Nat := [52, 50, 57, 52, 57, 54, 55, 51, 48, 49]


/-- The method that the value of a header `REQUEST_METHOD` stands for, in the
words of the specification: `GET`, `POST` and `HEAD` stand for their methods,
every other value for the unknown method. -/
def method_of_value (val : List Nat) : http_method :=
  if val = GET then SCGI_METHOD_GET
  else if val = POST then SCGI_METHOD_POST
  else if val = HEAD then SCGI_METHOD_HEAD
  else SCGI_METHOD_UNKNOWN

/-- The method that a list of received headers stands for, in the words of the
specification: unspecified when no header `REQUEST_METHOD` is in the list, and
otherwise what the value of the last such header stands for. -/
def method_of_headers (hs : List scgi_header) : http_method :=
  match (hs.filter (fun h => decide (h.name = REQUEST_METHOD))).getLast? with
  | none => SCGI_METHOD_UNSPECIFIED
  | some h => method_of_value h.value

/-- The value `get`, in lower case. -/
def get_lower : List Nat := [103, 101, 116]


/-- The connection of the sample request once the whole stream has arrived and
has been parsed: its request is ready. -/
def sample_ready_desc : scgi_desc :=
  ((scgi_receive_all (sample_globals, some (scgi_answer_the_phone_desc 7)) [sample_stream]).2).getD
    (scgi_answer_the_phone_desc 7)


/-! ## The redirect helper -/

/-- The bytes of the format of `scgi_302_redirect` before the address:
`Status: 302 Found`, a line feed and a carriage return, and `Location: `. -/
def redirect_head : List Nat :=
  [83, 116, 97, 116, 117, 115, 58, 32, 51, 48, 50, 32, 70, 111, 117, 110, 100, 10, 13, 76, 111,
    99, 97, 116, 105, 111, 110, 58, 32]

/-- The bytes of the format of `scgi_302_redirect` behind the address: a line
feed and a carriage return, `Content-Length: 0`, and twice a line feed and a
carriage return. -/
def redirect_tail : List Nat :=
  [10, 13, 67, 111, 110, 116, 101, 110, 116, 45, 76, 101, 110, 103, 116, 104, 58, 32, 48, 10,
    13, 10, 13]

/-- The text that the `sprintf` of `scgi_302_redirect` formats for the C string
`address`. -/
def redirect_text (address : List Nat) : List Nat :=
  redirect_head ++ cstr address 0 ++ redirect_tail

/-- The memory at `b` after the `sprintf` of `scgi_302_redirect`: the formatted
text and its terminating NUL, and behind them what the block held before. -/
def sprintf_redirect (b address : List Nat) : List Nat :=
  redirect_text address ++ 0 :: b.drop ((redirect_text address).length + 1)

/-- The function `scgi_302_redirect` on the connection `req->descriptor`.
`stack` is what the 256 bytes of the local array `buf` hold on entry, `heap`
whether there is memory for the block of `SCGI_CREATE`, which `calloc` clears,
and `memory` whether there is memory for `scgi_send`.  The result `none` is the
`abort()` of `SCGI_CREATE`; otherwise it is what `scgi_send` returns and the
connection. -/
def scgi_302_redirect (d : scgi_desc) (address stack : List Nat) (heap memory : Bool) :
    Option (Int × scgi_desc) :=
  if to_int (100 + strlen address 0) ≥ 250 then
    if calloc heap (size_t (int32 (to_int (100 + strlen address 0) + 1))) = false then none
    else
      some (scgi_send d
        (sprintf_redirect
          (List.replicate (size_t (int32 (to_int (100 + strlen address 0) + 1))) 0) address)
        (to_int (100 + strlen address 0)) memory)
  else
    some (scgi_send d (sprintf_redirect stack address) (to_int (100 + strlen address 0)) memory)

/-- The address `/a`. -/
def sample_address : List Nat := [47, 97]

/-- A local array of 256 bytes that holds the byte 170 everywhere. -/
def sample_stack : List Nat := List.replicate 256 170


/-- The fields of the request set aside for certain headers, one after the
other. -/
def convenience_fields (req : scgi_request) : List (Option (List Nat)) :=
  [req.raw_http_cookie, req.http_connection, req.http_cache_control, req.http_accept_charset,
    req.http_accept_encoding, req.http_accept_language, req.http_accept, req.user_agent,
    req.http_host, req.query_string, req.request_uri, req.remote_addr, req.server_addr,
    req.server_port, req.server_protocol]

/-- The header names that fill the fields of `convenience_fields`, in the same
order; the field `user_agent` has two. -/
def convenience_names : List (List (List Nat)) :=
  [[HTTP_COOKIE], [HTTP_CONNECTION], [HTTP_CACHE_CONTROL], [HTTP_ACCEPT_CHARSET],
    [HTTP_ACCEPT_ENCODING], [HTTP_ACCEPT_LANGUAGE], [HTTP_ACCEPT], [HTTP_USER_AGENT, USER_AGENT],
    [HTTP_HOST], [QUERY_STRING], [REQUEST_URI], [REMOTE_ADDR], [SERVER_ADDR], [SERVER_PORT],
    [SERVER_PROTOCOL]]

/-- The value of the last header of `hs` whose name is one of `names`, if there
is such a header. -/
def last_value (names : List (List Nat)) (hs : List scgi_header) : Option (List Nat) :=
  ((hs.filter (fun h => decide (h.name ∈ names))).getLast?).map (fun h => h.value)


/-- The first 32 bytes of an upload of 20000 bytes: the digits `28`, a colon,
the headers `CONTENT_LENGTH` with the value `20000` and `SCGI` with the value
`1`, and the comma. -/
def upload_head : List Nat :=
  [50, 56, 58] ++ wire_header ⟨CONTENT_LENGTH, [50, 48, 48, 48, 48]⟩ ++ wire_header ⟨SCGI, ONE⟩
    ++ [44]

/-- The connection of that upload when the buffer of 16384 bytes is full to
within the margin: the parser has read the 32 bytes of `upload_head`, which
leave it in the state BODY with the body starting at offset 32, and then the
first 16347 bytes of the body, each the letter `B`. -/
def upload_desc : scgi_desc :=
  { ((scgi_receive_all (sample_globals, some (scgi_answer_the_phone_desc 7)) [upload_head]).2).getD
      (scgi_answer_the_phone_desc 7) with
    buf := upload_head ++ List.replicate 16347 66
    parsed_chars := 16379 }


/-- The states a connection goes through while it reads its request: fresh
from `scgi_answer_the_phone`; after a successful `resize_buffer`, which
`scgi_listen_to_request` calls when the buffer is full to within the margin;
after a `recv` that was asked for `bufsize - 5 - buflen` bytes at most; and
after a round of the loop of the parser, which the loop makes while
`parser < end`, whether the round went on or returned with the connection
alive. -/
inductive listening : scgi_desc → Prop where
  | fresh (caller : Nat) : listening (scgi_answer_the_phone_desc caller)
  | grown (g g1 : scgi_globals) (d d1 : scgi_desc) (calloc_ok : Bool) :
    listening d → d.buflen ≥ d.bufsize - 5 →
    resize_buffer g d true calloc_ok = (g1, some d1) → listening d1
  | received (d : scgi_desc) (bytes : List Nat) :
    listening d → listening { d with buf := d.buf ++ bytes.take (d.bufsize - 5 - d.buflen) }
  | round (g : scgi_globals) (d d1 : scgi_desc) :
    listening d → d.parsed_chars < d.buflen →
    scgi_parse_input_step g d = parse_result.next d1 → listening d1
  | returned (g g1 : scgi_globals) (d d1 : scgi_desc) :
    listening d → d.parsed_chars < d.buflen →
    scgi_parse_input_step g d = parse_result.ret g1 (some d1) → listening d1


/-- The connection of the sample request after the one readable event that
delivers the whole stream. -/
def heard_desc : scgi_desc :=
  ((scgi_listen_all (sample_globals, some (scgi_answer_the_phone_desc 7))
    [(true, recv_result.data sample_stream)]).2).getD (scgi_answer_the_phone_desc 7)


/-- What the specification says of a request in the ready queue: the flag
`scgi_scgiheader` is 1, there are at least two headers and the first is named
`CONTENT_LENGTH`, `scgi_content_length` is not negative, and the body is not
NULL and is no longer than `scgi_content_length`. -/
def ready_request (req : scgi_request) : Prop :=
  req.scgi_scgiheader = 1 ∧ 2 ≤ req.headers.length ∧
  req.headers.head?.map (fun h => h.name) = some CONTENT_LENGTH ∧
  0 ≤ req.scgi_content_length ∧
  ∃ b, req.body = some b ∧ (b.length : Int) ≤ req.scgi_content_length

/-- The cursor of the parser is at or behind the offset at which the request
became ready: the end of the body in the state BODY, the end of the header
block otherwise. -/
def past_end (d : scgi_desc) : Prop :=
  (d.parser_state = SCGI_PARSE_BODY →
    int32 (d.true_header_length + d.req.scgi_content_length) ≤ (d.parsed_chars : Int)) ∧
  (d.parser_state ≠ SCGI_PARSE_BODY →
    d.parser_state ≠ SCGI_PARSE_HEADLENGTH ∧ d.true_header_length ≤ (d.parsed_chars : Int))

/-- What the parser keeps true of a connection and its request: the meaning of
the flag; once a header is recorded, the first header is `CONTENT_LENGTH` and
the length is not negative; in the state BODY the body starts at the end
offset of the header block, at or before the cursor, and the flag is set; and
a request that has a body is as the specification says of a ready request,
with the cursor past the offset at which it became ready. -/
def queue_inv (d : scgi_desc) : Prop :=
  flag_inv d.req ∧
  (d.req.headers ≠ [] →
    d.req.headers.head?.map (fun h => h.name) = some CONTENT_LENGTH ∧
    0 ≤ d.req.scgi_content_length) ∧
  (d.parser_state = SCGI_PARSE_BODY →
    (d.string_starts : Int) = d.true_header_length ∧ d.string_starts ≤ d.parsed_chars ∧
    d.req.scgi_scgiheader = 1) ∧
  (d.req.body ≠ none → ready_request d.req ∧ past_end d)

/-- What an operation on the connection `d` with the globals `g` leaves when
the connection stays alive as `d1` with the globals `g1`: the same socket,
`queue_inv`, and either the same globals, the request keeping its body if it
had one, or the request, which had no body, now with a body and linked at the
end of the ready queue. -/
def advance (g : scgi_globals) (d : scgi_desc) (g1 : scgi_globals) (d1 : scgi_desc) : Prop :=
  queue_inv d1 ∧ d1.sock = d.sock ∧
  ((g1 = g ∧ (d.req.body ≠ none → d1.req.body ≠ none)) ∨
    (g1 = { g with first_scgi_unrecved_req := SCGI_LINK d.sock g.first_scgi_unrecved_req } ∧
      d.req.body = none ∧ d1.req.body ≠ none))


/-- What holds of the globals and of the connections `ds` of the library, all
ports together: no request is twice in the ready queue, no two connections
have the same socket, every connection satisfies `queue_inv` and has its
request in the list of all requests, and every request in the ready queue is
the request of a connection and has a body. -/
def queue_sound (g : scgi_globals) (ds : List scgi_desc) : Prop :=
  g.first_scgi_unrecved_req.Nodup ∧ (ds.map (fun d => d.sock)).Nodup ∧
  (∀ d ∈ ds, queue_inv d ∧ d.sock ∈ g.first_scgi_req) ∧
  (∀ s ∈ g.first_scgi_unrecved_req, ∃ d ∈ ds, d.sock = s ∧ d.req.body ≠ none)

/-- The connections of all ports of the library, port by port. -/
def scgi_library.descs (s : scgi_library) : List scgi_desc :=
  (s.ports.map (fun p => p.descs)).flatten

/-- The states of the library while it runs and no inbound buffer grows: at the
start the ports have no connection and the lists of requests are empty; then
come passes of `scgi_update_connections_port` over one port or another, in
which `accept` returns a socket that no connection holds and every connection
of the port that reads its request from a readable socket has room in its
inbound buffer, so that no read of the pass calls `resize_buffer`; calls of
`scgi_recv`, of which the part behind its pass is taken here, the pass being
accounted for by the passes; and calls of `scgi_send` for the request of a
connection.  Behind a growth of the buffer the parser of the C program reads
through a `string_starts` that dangles (see `resize_buffer`), and its states
are not part of this. -/
inductive running : scgi_library → Prop where
  | start (ports : List scgi_port) : (∀ p ∈ ports, p.descs = []) →
    running { ports := ports
              globals := { first_scgi_req := [], first_scgi_unrecved_req := [], dead_cells := [] } }
  | pass (s : scgi_library) (before behind : List scgi_port) (p p1 : scgi_port)
      (ev : pass_events) (g1 : scgi_globals) :
    running s → s.ports = before ++ p :: behind →
    (∀ c, ev.accept = some c → c ∉ s.descs.map (fun d => d.sock)) →
    (∀ d ∈ p.descs, d.state = SCGI_SOCKSTATE_READING_REQUEST → ev.readable d.sock = true →
      d.buflen < d.bufsize - 5) →
    scgi_update_connections_port ev s.globals p = some (g1, p1) →
    running { ports := before ++ p1 :: behind, globals := g1 }
  | recv (s : scgi_library) : running s → running (scgi_recv (fun x => x) s).2
  | send (s : scgi_library) (before behind : List scgi_port) (p : scgi_port)
      (pre post : List scgi_desc) (d : scgi_desc) (txt : List Nat) (len : Int) (memory : Bool) :
    running s → s.ports = before ++ p :: behind → p.descs = pre ++ d :: post →
    running { ports := before ++ { p with
                descs := pre ++ (scgi_send d txt len memory).2 :: post } :: behind
              globals := s.globals }


/-- A pass in which a connection comes in on the socket 7: the listening
socket 3 is readable and `accept` returns 7. -/
def ringing_events : pass_events :=
  { select_ok := true
    readable := fun s => s == 3
    writable := fun _ => false
    exceptional := fun _ => false
    accept := some 7
    fcntl_ok := true
    calloc_ok := fun _ => true
    recv := fun _ => recv_result.would_block
    send := fun _ => 0 }

/-- A pass in which the socket 7 is readable and holds the sample request. -/
def sending_events : pass_events :=
  { select_ok := true
    readable := fun s => s == 7
    writable := fun _ => false
    exceptional := fun _ => false
    accept := none
    fcntl_ok := true
    calloc_ok := fun _ => true
    recv := fun _ => recv_result.data sample_stream
    send := fun _ => 0 }

/-- A port without connections, listening on the socket 3. -/
def empty_port : scgi_port := { port := 8080, sock := 3, descs := [] }

/-- The port after the pass `ringing_events`: the connection on the socket 7
has been accepted, and the pass has counted it idle once. -/
def accepted_port : scgi_port :=
  { port := 8080, sock := 3, descs := [{ scgi_answer_the_phone_desc 7 with idle := 1 }] }

/-- The globals and the port after the pass `sending_events` behind that. -/
def ready_pass : scgi_globals × scgi_port :=
  (scgi_update_connections_port sending_events sample_globals accepted_port).getD
    (sample_globals, accepted_port)

/-- The library with that one port after the two passes: the sample request is
in the ready queue. -/
def ready_library : scgi_library := { ports := [ready_pass.2], globals := ready_pass.1 }


/-- A connection in the state WRITING_RESPONSE for which `scgi_send` has staged
the empty response: the length 0 of an empty text, on the connection of
`staged_desc`. -/
def empty_response_desc : scgi_desc := (scgi_send staged_desc [] 0 true).2

/-- A port whose one connection is `empty_response_desc`. -/
def empty_response_port : scgi_port :=
  { port := 8080, sock := 3, descs := [empty_response_desc] }

/-- A pass in which `select` finds every socket writable, and none readable or
in an exceptional state. -/
def writable_events : pass_events :=
  { select_ok := true
    readable := fun _ => false
    writable := fun _ => true
    exceptional := fun _ => false
    accept := none
    fcntl_ok := true
    calloc_ok := fun _ => true
    recv := fun _ => recv_result.would_block
    send := fun _ => 0 }

/-- The sample request in three fragments: 5 bytes, 30 bytes, and the rest. -/
def sample_fragments : List (List Nat) :=
  [sample_stream.take 5, (sample_stream.drop 5).take 30, sample_stream.drop 35]

/-- The readable events that deliver `fragments` one after the other, each to a
call of `recv` that takes all of it; `calloc` would give memory. -/
def events_of (fragments : List (List Nat)) : List (Bool × recv_result) :=
  fragments.map (fun f => (true, recv_result.data f))

/-- A request of 24 header bytes whose first header announces a body of no
bytes: the digits `24`, a colon, `CONTENT_LENGTH` with the value `0`, `SCGI`
with the value `1`, and the comma. -/
def empty_body_stream : List Nat :=
  wire_request [50, 52] (⟨CONTENT_LENGTH, [48]⟩ :: [⟨SCGI, ONE⟩]) []

/-- That request in two fragments: 20 bytes and the rest. -/
def empty_body_fragments : List (List Nat) :=
  [empty_body_stream.take 20, empty_body_stream.drop 20]

/-- The stream `4a:` byte by byte. -/
def bad_length_fragments : List (List Nat) := [[52], [97], [58]]

/-- The digits `44` and the colon in two fragments. -/
def length_fragments : List (List Nat) := [[52], [52, 58]]
/-- The connection after the parser has read the 32 bytes of `upload_head`. -/
def upload_parsed : scgi_desc :=
  ((scgi_receive_all (sample_globals, some (scgi_answer_the_phone_desc 7)) [upload_head]).2).getD
    (scgi_answer_the_phone_desc 7)

/-- The upload as two reads take it: the 16379 bytes that the buffer of a fresh
connection holds, and the 3653 bytes behind them. -/
def upload_fragments : List (List Nat) :=
  [upload_head ++ List.replicate 16347 66, List.replicate 3653 66]

/-- The first 32 bytes of an upload of 70000 bytes: the digits `28`, a colon,
the headers `CONTENT_LENGTH` with the value `70000` and `SCGI` with the value
`1`, and the comma. -/
def oversize_head : List Nat :=
  [50, 56, 58] ++ wire_header ⟨CONTENT_LENGTH, [55, 48, 48, 48, 48]⟩ ++ wire_header ⟨SCGI, ONE⟩
    ++ [44]

/-- The connection after the parser has read the 32 bytes of `oversize_head`. -/
def oversize_parsed : scgi_desc :=
  ((scgi_receive_all (sample_globals, some (scgi_answer_the_phone_desc 7))
    [oversize_head]).2).getD (scgi_answer_the_phone_desc 7)

/-- That upload, 70032 bytes with its body of letters `B`, as four reads take
it: 16379 bytes into the initial buffer, 16384 bytes after the first growth,
32768 bytes after the second, and the 4501 bytes that remain. -/
def oversize_fragments : List (List Nat) :=
  [oversize_head ++ List.replicate 16347 66, List.replicate 16384 66, List.replicate 32768 66,
    List.replicate 4501 66]

/-- A header name of 65600 letters `A`. -/
def long_name : List Nat := List.replicate 65600 65

/-- The first 30 bytes of a request without a body whose header block has 65627
bytes: the digits `65627`, a colon, and the headers `CONTENT_LENGTH` with the
value `0` and `SCGI` with the value `1`; the header `long_name` with the value
`1` and the comma follow. -/
def long_name_head : List Nat :=
  [54, 53, 54, 50, 55, 58] ++ wire_header ⟨CONTENT_LENGTH, [48]⟩ ++ wire_header ⟨SCGI, ONE⟩

/-- The connection after the parser has read the 30 bytes of `long_name_head`. -/
def long_name_parsed : scgi_desc :=
  ((scgi_receive_all (sample_globals, some (scgi_answer_the_phone_desc 7))
    [long_name_head]).2).getD (scgi_answer_the_phone_desc 7)

/-- That request, 65634 bytes, as four reads take it: 16379 bytes into the
initial buffer, 16384 bytes after the first growth, 32768 bytes after the
second, and the 103 bytes that remain. -/
def long_name_fragments : List (List Nat) :=
  [long_name_head ++ List.replicate 16349 65, List.replicate 16384 65, List.replicate 32768 65,
    List.replicate 99 65 ++ [0, 49, 0, 44]]

/-- A length of 65531 digits `1` and its colon, as four reads take them: 16379
digits into the initial buffer, 16384 digits after the first growth, 32768
digits after the second, and the colon. -/
def long_digits_fragments : List (List Nat) :=
  [List.replicate 16379 49, List.replicate 16384 49, List.replicate 32768 49, [58]]

/-! # Properties -/

/-! ## Buffers and C strings -/

theorem byteAt_take (buf : List Nat) (L i : Nat) (h : i < L) :
    byteAt (buf.take L) i = byteAt buf i := by
  unfold byteAt
  simp only [List.getD_eq_getElem?_getD]
  rw [List.getElem?_take_of_lt h]

theorem takeWhile_take (p : Nat → Bool) (l : List Nat) (m : Nat)
    (h : (l.takeWhile p).length ≤ m) : (l.take m).takeWhile p = l.takeWhile p := by
  induction l generalizing m with
  | nil => simp
  | cons a l ih =>
    cases m with
    | zero =>
      by_cases hp : p a
      · simp [List.takeWhile_cons, hp] at h
      · simp [List.takeWhile_cons, hp]
    | succ m =>
      by_cases hp : p a
      · simp only [List.takeWhile_cons, hp, if_true, List.length_cons, Nat.add_le_add_iff_right] at h
        simp [List.take_succ_cons, List.takeWhile_cons, hp, ih m h]
      · simp [List.take_succ_cons, List.takeWhile_cons, hp]

theorem cstr_take (buf : List Nat) (start L : Nat) (h : start + strlen buf start ≤ L) :
    cstr (buf.take L) start = cstr buf start := by
  unfold cstr strlen cstr at *
  rw [List.drop_take]
  apply takeWhile_take
  omega

theorem strlen_take (buf : List Nat) (start L : Nat) (h : start + strlen buf start ≤ L) :
    strlen (buf.take L) start = strlen buf start := by
  unfold strlen; rw [cstr_take buf start L h]

theorem takeWhile_length_le_of_getD (l : List Nat) (j : Nat) (hj : j < l.length)
    (h0 : l.getD j 0 = 0) : (l.takeWhile (fun c => c != 0)).length ≤ j := by
  induction l generalizing j with
  | nil => simp at hj
  | cons a l ih =>
    cases j with
    | zero =>
      simp at h0
      simp [List.takeWhile_cons, h0]
    | succ j =>
      by_cases hp : a = 0
      · simp [List.takeWhile_cons, hp]
      · simp only [List.length_cons, Nat.add_lt_add_iff_right] at hj
        simp only [List.getD_cons_succ] at h0
        simp [List.takeWhile_cons, hp, ih j hj h0]

theorem strlen_le_of_byteAt (buf : List Nat) (start j : Nat) (hs : start ≤ j)
    (hj : j < buf.length) (h0 : byteAt buf j = 0) : start + strlen buf start ≤ j := by
  unfold strlen cstr
  have h := takeWhile_length_le_of_getD (buf.drop start) (j - start) (by simp; omega)
    (by
      unfold byteAt at h0
      simp only [List.getD_eq_getElem?_getD, List.getElem?_drop] at *
      rw [show start + (j - start) = j by omega]; exact h0)
  omega

theorem strlen_le (buf : List Nat) (start : Nat) (hs : start ≤ buf.length) :
    start + strlen buf start ≤ buf.length := by
  unfold strlen cstr
  have := (@List.takeWhile_sublist Nat (buf.drop start) (fun c => c != 0)).length_le
  simp at this
  omega
@[simp] theorem upto_buf (len : Nat) (d : scgi_desc) : (d.upto len).buf = d.buf.take len := rfl
@[simp] theorem upto_parsed_chars (len : Nat) (d : scgi_desc) :
    (d.upto len).parsed_chars = d.parsed_chars := rfl
@[simp] theorem upto_parser_state (len : Nat) (d : scgi_desc) :
    (d.upto len).parser_state = d.parser_state := rfl
@[simp] theorem upto_string_starts (len : Nat) (d : scgi_desc) :
    (d.upto len).string_starts = d.string_starts := rfl
@[simp] theorem upto_true_header_length (len : Nat) (d : scgi_desc) :
    (d.upto len).true_header_length = d.true_header_length := rfl
@[simp] theorem upto_req (len : Nat) (d : scgi_desc) : (d.upto len).req = d.req := rfl
@[simp] theorem upto_sock (len : Nat) (d : scgi_desc) : (d.upto len).sock = d.sock := rfl

theorem upto_of_length_le (len : Nat) (d : scgi_desc) (h : d.buf.length ≤ len) :
    d.upto len = d := by
  cases d
  simp only [scgi_desc.upto, scgi_desc.mk.injEq, and_true, true_and]
  exact List.take_of_length_le h

theorem scgi_kill_socket_upto (g : scgi_globals) (len : Nat) (d : scgi_desc) :
    scgi_kill_socket g (d.upto len) = scgi_kill_socket g d := rfl

theorem scgi_add_header_upto (g : scgi_globals) (len : Nat) (d : scgi_desc) (name val : List Nat) :
    scgi_add_header g (d.upto len) name val =
      ((scgi_add_header g d name val).1, (scgi_add_header g d name val).2.map (scgi_desc.upto len)) := by
  unfold scgi_add_header
  simp only [upto_req]
  split_ifs <;> rfl

/-- A header that is recorded leaves everything but the request as it was. -/
theorem scgi_add_header_some (g g1 : scgi_globals) (d d2 : scgi_desc) (name val : List Nat)
    (h : scgi_add_header g d name val = (g1, some d2)) :
    g1 = g ∧ d2 = { d with req := d2.req } := by
  unfold scgi_add_header at h
  split_ifs at h <;> cases h <;> exact ⟨rfl, rfl⟩
theorem set_take_comm (buf : List Nat) (L i : Nat) (v : Nat) :
    (buf.take L).set i v = (buf.set i v).take L := by
  rw [List.set_take]

theorem step_upto (g : scgi_globals) (d : scgi_desc) (L : Nat) (hinv : parse_inv d)
    (hp : d.parsed_chars < L) (hlen : d.parsed_chars < d.buf.length) :
    scgi_parse_input_step g (d.upto L) = (scgi_parse_input_step g d).upto L := by
  obtain ⟨hss, hval⟩ := hinv
  have hc : byteAt (d.buf.take L) d.parsed_chars = byteAt d.buf d.parsed_chars := byteAt_take _ _ _ hp
  cases hst : d.parser_state
  · -- HEADLENGTH
    simp only [scgi_parse_input_step, upto_parser_state, hst, upto_buf, upto_parsed_chars, hc]
    have htmp : strlen (d.buf.set d.parsed_chars 0) 0 ≤ d.parsed_chars := by
      have := strlen_le_of_byteAt (d.buf.set d.parsed_chars 0) 0 d.parsed_chars (Nat.zero_le _)
        (by simpa using hlen) (by simp [byteAt, List.getD_eq_getElem?_getD, hlen])
      omega
    rw [set_take_comm, cstr_take _ 0 L (by omega), strlen_take _ 0 L (by omega)]
    split_ifs <;> rfl
  · -- HEADNAME
    have hc1 : byteAt (d.buf.take L) (d.parsed_chars - 1) = byteAt d.buf (d.parsed_chars - 1) :=
      byteAt_take _ _ _ (by omega)
    simp only [scgi_parse_input_step, upto_parser_state, hst, upto_buf, upto_parsed_chars, hc, hc1,
      upto_true_header_length, upto_req, upto_string_starts, upto_sock]
    split_ifs <;> rfl
  · -- HEADVAL
    have hv := hval hst
    have hz : d.buf = d.buf := rfl
    simp only [scgi_parse_input_step, upto_parser_state, hst, upto_buf, upto_parsed_chars, hc,
      upto_true_header_length, upto_req, upto_string_starts, upto_sock]
    by_cases h1 : ((d.parsed_chars + 1 : Nat) : Int) = d.true_header_length
    · rw [if_pos h1, if_pos h1]; rfl
    · rw [if_neg h1, if_neg h1]
      by_cases h2 : byteAt d.buf d.parsed_chars = 0
      · rw [if_pos h2, if_pos h2]
        have hn : strlen (d.buf.take L) d.string_starts = strlen d.buf d.string_starts :=
          strlen_take _ _ _ (by omega)
        have hn2 : cstr (d.buf.take L) d.string_starts = cstr d.buf d.string_starts :=
          cstr_take _ _ _ (by omega)
        have hv2 : cstr (d.buf.take L) (d.string_starts + strlen d.buf d.string_starts + 1) =
            cstr d.buf (d.string_starts + strlen d.buf d.string_starts + 1) := by
          apply cstr_take
          have := strlen_le_of_byteAt d.buf (d.string_starts + strlen d.buf d.string_starts + 1)
            d.parsed_chars (by omega) hlen h2
          omega
        rw [hn, hn2, hv2]
        have hup := scgi_add_header_upto g L { d with parsed_chars := d.parsed_chars + 1 }
          (cstr d.buf d.string_starts)
          (cstr d.buf (d.string_starts + strlen d.buf d.string_starts + 1))
        simp only [scgi_desc.upto, hst] at hup ⊢
        rw [hup]
        generalize scgi_add_header g _ _ _ = r
        rcases r with ⟨g1, _ | d2⟩ <;> rfl
      · rw [if_neg h2, if_neg h2]; rfl
  · -- BODY
    simp only [scgi_parse_input_step, upto_parser_state, hst, upto_buf, upto_parsed_chars, hc,
      upto_true_header_length, upto_req, upto_string_starts, upto_sock]
    split_ifs
    · have hb : cstr ((d.buf.take L).set (d.parsed_chars + 1) 0) d.string_starts
          = cstr (d.buf.set (d.parsed_chars + 1) 0) d.string_starts := by
        rw [set_take_comm]
        apply cstr_take
        by_cases hl : d.parsed_chars + 1 < d.buf.length
        · have := strlen_le_of_byteAt (d.buf.set (d.parsed_chars + 1) 0) d.string_starts
            (d.parsed_chars + 1) (by omega) (by simpa using hl)
            (by simp [byteAt, List.getD_eq_getElem?_getD, hl])
          omega
        · have := strlen_le (d.buf.set (d.parsed_chars + 1) 0) d.string_starts (by simp; omega)
          simp only [List.length_set] at this
          omega
      rw [hb]
      simp only [parse_result.upto, Option.map_some', scgi_desc.upto, set_take_comm]
    · rfl
/-- A round that goes on consumes one byte, leaves the buffer alone and keeps
the cursor facts. -/
theorem step_next (g : scgi_globals) (d d1 : scgi_desc) (hinv : parse_inv d)
    (hlen : d.parsed_chars < d.buf.length) (h : scgi_parse_input_step g d = next d1) :
    d1.buf = d.buf ∧ d1.parsed_chars = d.parsed_chars + 1 ∧ d1.sock = d.sock ∧ parse_inv d1 := by
  obtain ⟨hss, hval⟩ := hinv
  cases hst : d.parser_state
  · simp only [scgi_parse_input_step, hst] at h
    split_ifs at h <;> injection h with h <;> subst h <;>
      simp [parse_inv, hst] <;> omega
  · simp only [scgi_parse_input_step, hst] at h
    split_ifs at h <;> injection h with h <;> subst h <;>
      simp [parse_inv, hst] <;>
      first
        | omega
        | exact ⟨Nat.le_succ_of_le hss, Nat.lt_succ_of_le
            (strlen_le_of_byteAt d.buf d.string_starts d.parsed_chars hss hlen (by assumption))⟩
  · simp only [scgi_parse_input_step, hst] at h
    split_ifs at h with h1 h2
    · revert h
      generalize hr : scgi_add_header g _ _ _ = r
      rcases r with ⟨g1, _ | d2⟩
      · intro h; simp at h
      · intro h
        have := (scgi_add_header_some _ _ _ _ _ _ hr).2
        injection h with h
        subst h
        rw [this]
        simp [parse_inv]
    · injection h with h
      subst h
      have := hval hst
      simp [parse_inv, hst]
      omega
  · simp only [scgi_parse_input_step, hst] at h
    split_ifs at h <;> injection h with h <;> subst h <;>
      simp [parse_inv, hst] <;> omega
theorem step_ret_some (g g1 : scgi_globals) (d d2 : scgi_desc)
    (h : scgi_parse_input_step g d = ret g1 (some d2)) :
    d2.buf.length = d.buf.length ∧ d2.parsed_chars = d.parsed_chars + 1 := by
  cases hst : d.parser_state <;> simp only [scgi_parse_input_step, hst] at h
  · split_ifs at h <;> simp at h
  · split_ifs at h <;>
      first
        | (injection h with h1 h2; injection h2 with h2; subst h2; simp; done)
        | (exfalso; simp at h; done)
  · split_ifs at h
    · simp at h
    · revert h
      generalize scgi_add_header g _ _ _ = r
      rcases r with ⟨g1, _ | d2⟩ <;> intro h <;> simp at h
  · split_ifs at h <;>
      first
        | (injection h with h1 h2; injection h2 with h2; subst h2; simp; done)
        | (exfalso; simp at h; done)

theorem run_next (g : scgi_globals) (n : Nat) (d d1 : scgi_desc) (hinv : parse_inv d)
    (hlen : d.parsed_chars + n ≤ d.buf.length) (h : scgi_parse_input_run n g d = next d1) :
    d1.buf = d.buf ∧ d1.parsed_chars = d.parsed_chars + n ∧ d1.sock = d.sock ∧ parse_inv d1 := by
  induction n generalizing d with
  | zero =>
    simp only [scgi_parse_input_run] at h
    injection h with h
    subst h
    exact ⟨rfl, rfl, rfl, hinv⟩
  | succ n ih =>
    simp only [scgi_parse_input_run] at h
    rcases hs : scgi_parse_input_step g d with d0 | ⟨g1, r⟩
    · rw [hs] at h
      obtain ⟨hb, hp, hk, hi⟩ := step_next g d d0 hinv (by omega) hs
      obtain ⟨hb1, hp1, hk1, hi1⟩ := ih d0 hi (by rw [hb, hp]; omega) h
      exact ⟨hb1.trans hb, by omega, hk1.trans hk, hi1⟩
    · rw [hs] at h
      simp at h

theorem run_ret_some (g g1 : scgi_globals) (n : Nat) (d d2 : scgi_desc) (hinv : parse_inv d)
    (hlen : d.parsed_chars + n ≤ d.buf.length)
    (h : scgi_parse_input_run n g d = ret g1 (some d2)) :
    d2.buf.length = d.buf.length ∧ d2.parsed_chars ≤ d.parsed_chars + n := by
  induction n generalizing d with
  | zero => simp [scgi_parse_input_run] at h
  | succ n ih =>
    simp only [scgi_parse_input_run] at h
    rcases hs : scgi_parse_input_step g d with d0 | ⟨g0, r⟩
    · rw [hs] at h
      obtain ⟨hb, hp, -, hi⟩ := step_next g d d0 hinv (by omega) hs
      obtain ⟨hb1, hp1⟩ := ih d0 hi (by rw [hb, hp]; omega) h
      exact ⟨by rw [hb1, hb], by omega⟩
    · rw [hs] at h
      injection h with h1 h2
      subst h1 h2
      obtain ⟨hb, hp⟩ := step_ret_some g g0 d d2 hs
      exact ⟨hb, by omega⟩

theorem run_upto (g : scgi_globals) (n L : Nat) (d : scgi_desc) (hinv : parse_inv d)
    (hL : d.parsed_chars + n ≤ L) (hlen : d.parsed_chars + n ≤ d.buf.length) :
    scgi_parse_input_run n g (d.upto L) = (scgi_parse_input_run n g d).upto L := by
  induction n generalizing d with
  | zero => rfl
  | succ n ih =>
    simp only [scgi_parse_input_run]
    rw [step_upto g d L hinv (by omega) (by omega)]
    rcases hs : scgi_parse_input_step g d with d0 | ⟨g0, r⟩
    · obtain ⟨hb, hp, -, hi⟩ := step_next g d d0 hinv (by omega) hs
      simp only [parse_result.upto]
      exact ih d0 hi (by omega) (by rw [hb, hp]; omega)
    · rfl

theorem run_add (g : scgi_globals) (a b : Nat) (d : scgi_desc) :
    scgi_parse_input_run (a + b) g d =
      match scgi_parse_input_run a g d with
      | next d1 => scgi_parse_input_run b g d1
      | ret g1 r => ret g1 r := by
  induction a generalizing d with
  | zero => simp [scgi_parse_input_run]
  | succ a ih =>
    rw [Nat.add_right_comm]
    simp only [scgi_parse_input_run]
    rcases scgi_parse_input_step g d with d0 | ⟨g0, r⟩
    · exact ih d0
    · rfl

theorem loop_eq_run (g : scgi_globals) (n : Nat) (d : scgi_desc) (hinv : parse_inv d)
    (hlen : d.parsed_chars + n ≤ d.buf.length) :
    scgi_parse_input_loop n g d = (scgi_parse_input_run n g d).finish g := by
  induction n generalizing d with
  | zero => rfl
  | succ n ih =>
    simp only [scgi_parse_input_loop, scgi_parse_input_run, scgi_desc.buflen]
    rw [if_pos (by omega)]
    rcases hs : scgi_parse_input_step g d with d0 | ⟨g0, r⟩
    · obtain ⟨hb, hp, -, hi⟩ := step_next g d d0 hinv (by omega) hs
      exact ih d0 hi (by rw [hb, hp]; omega)
    · rfl

theorem receive_all_none (g : scgi_globals) (frags : List (List Nat)) :
    scgi_receive_all (g, none) frags = (g, none) := by
  induction frags with
  | nil => rfl
  | cons f rest ih => simpa [scgi_receive_all, scgi_receive] using ih

theorem receive_all_cons (s : scgi_globals × Option scgi_desc) (f : List Nat)
    (rest : List (List Nat)) :
    scgi_receive_all s (f :: rest) = scgi_receive_all (scgi_receive s f) rest := rfl

theorem receive_upto (g : scgi_globals) (D : scgi_desc) (pre f post : List Nat)
    (hbuf : D.buf = pre ++ (f ++ post)) :
    scgi_receive (g, some (D.upto pre.length)) f
      = scgi_parse_input g (D.upto (pre.length + f.length)) := by
  have h1 : ({ D.upto pre.length with buf := (D.upto pre.length).buf ++ f } : scgi_desc)
      = D.upto (pre.length + f.length) := by
    have a : List.take pre.length (pre ++ (f ++ post)) = pre := List.take_left' rfl
    have b : List.take (pre.length + f.length) (pre ++ (f ++ post)) = pre ++ f := by
      rw [← List.append_assoc]
      exact List.take_left' (by simp)
    simp only [scgi_desc.upto, hbuf, a, b]
  simp only [scgi_receive]
  rw [h1]

/-- The parser on a buffer of which it has consumed nothing but the first
`parsed_chars` bytes, in terms of the rounds it makes. -/
theorem parse_input_eq_run (g : scgi_globals) (d : scgi_desc) (hinv : parse_inv d)
    (hlen : d.parsed_chars < d.buf.length)
    (hfirst : ¬ (d.parsed_chars = 0 ∧ (byteAt d.buf 0 = 48 ∨ byteAt d.buf 0 = 58))) :
    scgi_parse_input g d
      = (scgi_parse_input_run (d.buf.length - d.parsed_chars) g d).finish g := by
  simp only [scgi_parse_input, scgi_desc.buflen]
  rw [if_neg (by omega), if_neg hfirst]
  exact loop_eq_run g _ d hinv (by omega)

/-- Delivery in fragments against delivery at once, for any stream: when the
parser, given the whole stream at once, kills the connection or returns only
at the last byte, it comes to the same result however the stream is cut. -/
theorem receive_all_eq_parse_input (g : scgi_globals) (frags : List (List Nat)) :
    ∀ (D : scgi_desc) (pre : List Nat), D.buf = pre ++ frags.flatten →
      D.parsed_chars = pre.length → parse_inv D → (∀ f ∈ frags, f ≠ []) →
      ((scgi_parse_input g D).2 = none ∨
        ∃ d, (scgi_parse_input g D).2 = some d ∧ d.parsed_chars = D.buf.length) →
      scgi_receive_all (g, some (D.upto pre.length)) frags = scgi_parse_input g D := by
  induction frags with
  | nil =>
    intro D pre hbuf hp hinv _ _
    simp only [List.flatten_nil, List.append_nil] at hbuf
    rw [upto_of_length_le _ _ (by rw [hbuf])]
    simp [scgi_receive_all, scgi_parse_input, scgi_desc.buflen, hbuf, hp]
  | cons f rest ih =>
    intro D pre hbuf hp hinv hne hfull
    have hf : f ≠ [] := hne f (List.mem_cons_self _ _)
    have hfl : 0 < f.length := List.length_pos.mpr hf
    simp only [List.flatten_cons] at hbuf
    have hlenD : D.buf.length = pre.length + f.length + rest.flatten.length := by
      rw [hbuf]; simp; omega
    rw [receive_all_cons, receive_upto g D pre f rest.flatten hbuf]
    by_cases hfirst : D.parsed_chars = 0 ∧ (byteAt D.buf 0 = 48 ∨ byteAt D.buf 0 = 58)
    · -- the first byte is rejected on entry
      have e1 : scgi_parse_input g D = (scgi_kill_socket g D, none) := by
        simp only [scgi_parse_input, scgi_desc.buflen]
        rw [if_neg (by omega), if_pos hfirst]
      have e2 : scgi_parse_input g (D.upto (pre.length + f.length))
          = (scgi_kill_socket g D, none) := by
        simp only [scgi_parse_input, scgi_desc.buflen, upto_parsed_chars, upto_buf,
          List.length_take]
        rw [if_neg (by omega), byteAt_take _ _ _ (by omega), if_pos hfirst]
        rfl
      rw [e1, e2, receive_all_none]
    · have hinvU : parse_inv (D.upto (pre.length + f.length)) := by
        refine ⟨hinv.1, fun h => ?_⟩
        have := hinv.2 h
        simp only [upto_buf, upto_string_starts, upto_parsed_chars]
        rw [strlen_take _ _ _ (by omega)]
        exact this
      have hfirstU : ¬ ((D.upto (pre.length + f.length)).parsed_chars = 0 ∧
          (byteAt (D.upto (pre.length + f.length)).buf 0 = 48 ∨
            byteAt (D.upto (pre.length + f.length)).buf 0 = 58)) := by
        simp only [upto_parsed_chars, upto_buf]
        rw [byteAt_take _ _ _ (by omega)]
        exact hfirst
      have eU := parse_input_eq_run g (D.upto (pre.length + f.length)) hinvU
        (by simp only [upto_parsed_chars, upto_buf, List.length_take]; omega) hfirstU
      have eD := parse_input_eq_run g D hinv (by omega) hfirst
      have hn1 : (D.upto (pre.length + f.length)).buf.length
          - (D.upto (pre.length + f.length)).parsed_chars = f.length := by
        simp only [upto_parsed_chars, upto_buf, List.length_take]; omega
      have hn2 : D.buf.length - D.parsed_chars = f.length + rest.flatten.length := by omega
      rw [hn1, run_upto g f.length _ D hinv (by omega) (by omega)] at eU
      rw [hn2, run_add] at eD
      rcases hrun : scgi_parse_input_run f.length g D with d1 | ⟨g1, _ | d2⟩
      · -- the rounds for this fragment all go on
        rw [hrun] at eU eD
        simp only [parse_result.upto, parse_result.finish] at eU
        dsimp only at eD
        obtain ⟨hb1, hp1, -, hi1⟩ := run_next g f.length D d1 hinv (by omega) hrun
        have e3 : scgi_parse_input g d1 = scgi_parse_input g D := by
          rw [eD]
          by_cases hend : rest.flatten.length = 0
          · rw [hend]
            simp [scgi_parse_input, scgi_desc.buflen, scgi_parse_input_run,
              parse_result.finish, hb1, hp1]
            omega
          · rw [parse_input_eq_run g d1 hi1 (by rw [hb1, hp1]; omega) (by omega)]
            rw [hb1, hp1, show D.buf.length - (D.parsed_chars + f.length) = rest.flatten.length by omega]
        have := ih d1 (pre ++ f) (by rw [hb1, hbuf]; simp) (by rw [hp1, hp]; simp) hi1
          (fun x hx => hne x (List.mem_cons_of_mem _ hx)) (by rw [e3, hb1]; exact hfull)
        rw [eU, ← e3, ← this]
        simp
      · -- the connection is killed within this fragment
        rw [hrun] at eU eD
        simp only [parse_result.upto, parse_result.finish, Option.map_none'] at eU eD
        rw [eU, eD, receive_all_none]
      · -- the parser returns within this fragment
        rw [hrun] at eU eD
        simp only [parse_result.upto, parse_result.finish, Option.map_some'] at eU eD
        obtain ⟨hb2, hp2⟩ := run_ret_some g g1 f.length D d2 hinv (by omega) hrun
        rw [eD] at hfull
        simp only [reduceCtorEq, Option.some.injEq, exists_eq_left', false_or] at hfull
        have hrest : rest = [] := by
          rcases rest with _ | ⟨x, xs⟩
          · rfl
          · exfalso
            have hx := hne x (by simp)
            have : 0 < x.length := List.length_pos.mpr hx
            simp only [List.flatten_cons, List.length_append] at hlenD
            omega
        subst hrest
        rw [eU, eD, upto_of_length_le _ _ (by rw [hb2, hlenD]; simp)]
        rfl

/-! ## Rounds over a buffer of a known shape -/

theorem byteAt_append_right (pre l : List Nat) (i : Nat) :
    byteAt (pre ++ l) (pre.length + i) = byteAt l i := by
  unfold byteAt
  simp only [List.getD_eq_getElem?_getD]
  rw [List.getElem?_append_right (by omega)]
  simp

theorem byteAt_append_left (pre l : List Nat) (i : Nat) (h : i < pre.length) :
    byteAt (pre ++ l) i = byteAt pre i := by
  unfold byteAt
  simp only [List.getD_eq_getElem?_getD]
  rw [List.getElem?_append_left h]

theorem byteAt_mem (l : List Nat) (i : Nat) (h : i < l.length) : byteAt l i ∈ l := by
  unfold byteAt
  rw [List.getD_eq_getElem _ _ h]
  exact List.getElem_mem h

theorem cstr_append_right (pre l : List Nat) (k : Nat) :
    cstr (pre ++ l) (pre.length + k) = cstr l k := by
  unfold cstr
  rw [List.drop_append]

theorem cstr_nul (w post : List Nat) (hw : ∀ c ∈ w, c ≠ 0) : cstr (w ++ 0 :: post) 0 = w := by
  unfold cstr
  simp only [List.drop_zero]
  rw [List.takeWhile_append_of_pos (by simpa using hw)]
  simp

theorem cstr_end (w : List Nat) (hw : ∀ c ∈ w, c ≠ 0) : cstr w 0 = w := by
  unfold cstr
  simp only [List.drop_zero]
  rw [List.takeWhile_eq_self_iff]
  simpa using hw

theorem run_skip (g : scgi_globals) (k : Nat) (d : scgi_desc)
    (h : ∀ i, i < k → scgi_parse_input_step g { d with parsed_chars := d.parsed_chars + i }
      = next { d with parsed_chars := d.parsed_chars + i + 1 }) :
    scgi_parse_input_run k g d = next { d with parsed_chars := d.parsed_chars + k } := by
  induction k generalizing d with
  | zero => rfl
  | succ k ih =>
    simp only [scgi_parse_input_run]
    have h0 := h 0 (by omega)
    simp only [Nat.add_zero] at h0
    rw [show ({ d with parsed_chars := d.parsed_chars } : scgi_desc) = d from rfl] at h0
    rw [h0]
    have := ih { d with parsed_chars := d.parsed_chars + 1 } (by
      intro i hi
      have := h (i + 1) (by omega)
      simp only [← Nat.add_assoc] at this
      simpa [Nat.add_assoc, Nat.add_comm 1 i] using this)
    simpa [Nat.add_assoc, Nat.add_comm 1 k] using this
theorem isdigit_iff (c : Nat) : isdigit c = true ↔ 48 ≤ c ∧ c ≤ 57 := by
  simp [isdigit]

theorem step_headlength_digit (g : scgi_globals) (d : scgi_desc)
    (hst : d.parser_state = SCGI_PARSE_HEADLENGTH)
    (hc : isdigit (byteAt d.buf d.parsed_chars) = true) :
    scgi_parse_input_step g d = next { d with parsed_chars := d.parsed_chars + 1 } := by
  rw [isdigit_iff] at hc
  simp only [scgi_parse_input_step, hst]
  rw [if_neg (by omega), if_neg (by omega)]

theorem step_headlength_colon (g : scgi_globals) (d : scgi_desc)
    (hst : d.parser_state = SCGI_PARSE_HEADLENGTH)
    (hc : byteAt d.buf d.parsed_chars = 58) :
    scgi_parse_input_step g d = next { d with
      parsed_chars := d.parsed_chars + 1
      parser_state := SCGI_PARSE_HEADNAME
      true_header_length :=
        to_int ((strtoul (cstr (d.buf.set d.parsed_chars 0) 0)
          + strlen (d.buf.set d.parsed_chars 0) 0 + 2) % 2 ^ 64)
      string_starts := d.parsed_chars + 1 } := by
  simp only [scgi_parse_input_step, hst]
  rw [if_pos hc]

theorem step_headname_plain (g : scgi_globals) (d : scgi_desc)
    (hst : d.parser_state = SCGI_PARSE_HEADNAME)
    (hthl : ((d.parsed_chars + 1 : Nat) : Int) ≠ d.true_header_length)
    (hc : byteAt d.buf d.parsed_chars ≠ 0) :
    scgi_parse_input_step g d = next { d with parsed_chars := d.parsed_chars + 1 } := by
  simp only [scgi_parse_input_step, hst]
  rw [if_neg hthl, if_neg hc]

theorem step_headname_nul (g : scgi_globals) (d : scgi_desc)
    (hst : d.parser_state = SCGI_PARSE_HEADNAME)
    (hthl : ((d.parsed_chars + 1 : Nat) : Int) ≠ d.true_header_length)
    (hc : byteAt d.buf d.parsed_chars = 0) (hss : d.parsed_chars ≠ d.string_starts) :
    scgi_parse_input_step g d = next { d with
      parsed_chars := d.parsed_chars + 1
      parser_state := SCGI_PARSE_HEADVAL } := by
  simp only [scgi_parse_input_step, hst]
  rw [if_neg hthl, if_pos hc, if_neg hss]

theorem step_headname_end_ready (g : scgi_globals) (d : scgi_desc)
    (hst : d.parser_state = SCGI_PARSE_HEADNAME)
    (hthl : ((d.parsed_chars + 1 : Nat) : Int) = d.true_header_length)
    (hc : byteAt d.buf d.parsed_chars = 44) (hprev : byteAt d.buf (d.parsed_chars - 1) = 0)
    (hscgi : d.req.scgi_scgiheader ≠ 0) (hcl : d.req.scgi_content_length = 0) :
    scgi_parse_input_step g d =
      ret { g with first_scgi_unrecved_req := SCGI_LINK d.sock g.first_scgi_unrecved_req }
        (some { d with
          parsed_chars := d.parsed_chars + 1
          req := { d.req with body := some [] } }) := by
  simp only [scgi_parse_input_step, hst]
  rw [if_pos hthl, if_neg (by simp [hc, hprev]), if_neg hscgi, if_pos hcl]

theorem step_headname_end_body (g : scgi_globals) (d : scgi_desc)
    (hst : d.parser_state = SCGI_PARSE_HEADNAME)
    (hthl : ((d.parsed_chars + 1 : Nat) : Int) = d.true_header_length)
    (hc : byteAt d.buf d.parsed_chars = 44) (hprev : byteAt d.buf (d.parsed_chars - 1) = 0)
    (hscgi : d.req.scgi_scgiheader ≠ 0) (hcl : d.req.scgi_content_length ≠ 0) :
    scgi_parse_input_step g d =
      next { d with
        parsed_chars := d.parsed_chars + 1
        true_request_length :=
          int32 (to_int (strtoul (match d.req.headers with
            | h :: _ => h.value
            | [] => [])) + d.true_header_length)
        string_starts := d.parsed_chars + 1
        parser_state := SCGI_PARSE_BODY } := by
  simp only [scgi_parse_input_step, hst]
  rw [if_pos hthl, if_neg (by simp [hc, hprev]), if_neg hscgi, if_neg hcl]

theorem step_headval_plain (g : scgi_globals) (d : scgi_desc)
    (hst : d.parser_state = SCGI_PARSE_HEADVAL)
    (hthl : ((d.parsed_chars + 1 : Nat) : Int) ≠ d.true_header_length)
    (hc : byteAt d.buf d.parsed_chars ≠ 0) :
    scgi_parse_input_step g d = next { d with parsed_chars := d.parsed_chars + 1 } := by
  simp only [scgi_parse_input_step, hst]
  rw [if_neg hthl, if_neg hc]

theorem step_headval_nul (g : scgi_globals) (d : scgi_desc)
    (hst : d.parser_state = SCGI_PARSE_HEADVAL)
    (hthl : ((d.parsed_chars + 1 : Nat) : Int) ≠ d.true_header_length)
    (hc : byteAt d.buf d.parsed_chars = 0) :
    scgi_parse_input_step g d =
      match scgi_add_header g { d with parsed_chars := d.parsed_chars + 1 }
          (cstr d.buf d.string_starts)
          (cstr d.buf (d.string_starts + strlen d.buf d.string_starts + 1)) with
      | (g1, none) => ret g1 none
      | (_, some d2) =>
        next { d2 with
          parser_state := SCGI_PARSE_HEADNAME
          string_starts := d.parsed_chars + 1 } := by
  simp only [scgi_parse_input_step, hst]
  rw [if_neg hthl, if_pos hc]

theorem step_body_plain (g : scgi_globals) (d : scgi_desc)
    (hst : d.parser_state = SCGI_PARSE_BODY)
    (htot : ((d.parsed_chars + 1 : Nat) : Int)
      ≠ int32 (d.true_header_length + d.req.scgi_content_length)) :
    scgi_parse_input_step g d = next { d with parsed_chars := d.parsed_chars + 1 } := by
  simp only [scgi_parse_input_step, hst]
  rw [if_neg htot]

theorem step_body_end (g : scgi_globals) (d : scgi_desc)
    (hst : d.parser_state = SCGI_PARSE_BODY)
    (htot : ((d.parsed_chars + 1 : Nat) : Int)
      = int32 (d.true_header_length + d.req.scgi_content_length)) :
    scgi_parse_input_step g d =
      ret { g with first_scgi_unrecved_req := SCGI_LINK d.sock g.first_scgi_unrecved_req }
        (some { d with
          parsed_chars := d.parsed_chars + 1
          buf := d.buf.set (d.parsed_chars + 1) 0
          req := { d.req with
            body := some (cstr (d.buf.set (d.parsed_chars + 1) 0) d.string_starts) } }) := by
  simp only [scgi_parse_input_step, hst]
  rw [if_pos htot]
theorem strtoul_digits (ds : List Nat) (hd : ∀ c ∈ ds, isdigit c = true) :
    strtoul ds = if decimal_value ds > ULONG_MAX then ULONG_MAX else decimal_value ds := by
  have h1 : ds.dropWhile isspace = ds := by
    cases ds with
    | nil => rfl
    | cons c t =>
      have hc := (isdigit_iff c).1 (hd c (by simp))
      have : isspace c = false := by
        simp only [isspace, Bool.or_eq_false_iff, beq_eq_false_iff_ne, Bool.and_eq_false_imp,
          decide_eq_true_eq, decide_eq_false_iff_not]
        omega
      simp [List.dropWhile_cons, this]
  have h2 : (ds.head? == some 45) = false := by
    cases ds with
    | nil => rfl
    | cons c t =>
      have hc := (isdigit_iff c).1 (hd c (by simp))
      simp only [List.head?_cons, beq_eq_false_iff_ne, ne_eq, Option.some.injEq]
      omega
  have h3 : (ds.head? == some 43) = false := by
    cases ds with
    | nil => rfl
    | cons c t =>
      have hc := (isdigit_iff c).1 (hd c (by simp))
      simp only [List.head?_cons, beq_eq_false_iff_ne, ne_eq, Option.some.injEq]
      omega
  have h4 : ds.takeWhile isdigit = ds := by
    rw [List.takeWhile_eq_self_iff]; exact hd
  simp only [strtoul, h1, h2, h3, Bool.or_self, Bool.false_eq_true, if_false, h4]

theorem to_int_small (n : Nat) (h : n < 2 ^ 31) : to_int n = (n : Int) := by
  unfold to_int int32
  omega

theorem int32_small (x : Int) (h0 : 0 ≤ x) (h : x < 2 ^ 31) : int32 x = x := by
  unfold int32
  omega

theorem digits_nul_free (ds : List Nat) (hd : ∀ c ∈ ds, isdigit c = true) : ∀ c ∈ ds, c ≠ 0 := by
  intro c hc
  have := (isdigit_iff c).1 (hd c hc)
  omega

theorem run_digits (g : scgi_globals) (d : scgi_desc) (ds post : List Nat)
    (hst : d.parser_state = SCGI_PARSE_HEADLENGTH) (hbuf : d.buf = ds ++ post)
    (hp : d.parsed_chars = 0) (hd : ∀ c ∈ ds, isdigit c = true) :
    scgi_parse_input_run ds.length g d = next { d with parsed_chars := ds.length } := by
  have := run_skip g ds.length d (by
    intro i hi
    refine step_headlength_digit g { d with parsed_chars := d.parsed_chars + i } hst ?_
    simp only [hbuf, hp, Nat.zero_add]
    rw [byteAt_append_left _ _ _ hi]
    exact hd _ (byteAt_mem _ _ hi))
  simpa [hp] using this

theorem set_append_cons (pre post : List Nat) (c v : Nat) :
    (pre ++ c :: post).set pre.length v = pre ++ v :: post := by
  induction pre with
  | nil => rfl
  | cons a pre ih => simp [List.set, ih]

theorem byteAt_append_cons (pre post : List Nat) (c : Nat) :
    byteAt (pre ++ c :: post) pre.length = c := by
  have := byteAt_append_right pre (c :: post) 0
  simpa [byteAt] using this

theorem step_colon (g : scgi_globals) (d : scgi_desc) (ds post : List Nat)
    (hst : d.parser_state = SCGI_PARSE_HEADLENGTH) (hbuf : d.buf = ds ++ 58 :: post)
    (hp : d.parsed_chars = ds.length) (hd : ∀ c ∈ ds, isdigit c = true)
    (hsmall : decimal_value ds + ds.length + 2 < 2 ^ 31) :
    scgi_parse_input_step g d = next { d with
      parsed_chars := ds.length + 1
      parser_state := SCGI_PARSE_HEADNAME
      true_header_length := ((decimal_value ds + ds.length + 2 : Nat) : Int)
      string_starts := ds.length + 1 } := by
  rw [step_headlength_colon g d hst (by rw [hbuf, hp]; exact byteAt_append_cons _ _ _)]
  have hc : cstr (d.buf.set d.parsed_chars 0) 0 = ds := by
    rw [hbuf, hp, set_append_cons]
    exact cstr_nul _ _ (digits_nul_free ds hd)
  have hl : strlen (d.buf.set d.parsed_chars 0) 0 = ds.length := by
    unfold strlen; rw [hc]
  have hv : strtoul ds = decimal_value ds := by
    rw [strtoul_digits ds hd, if_neg]
    unfold ULONG_MAX
    omega
  rw [hc, hl, hv, Nat.mod_eq_of_lt (by omega), to_int_small _ hsmall, hp]
theorem run_one (g : scgi_globals) (d : scgi_desc) :
    scgi_parse_input_run 1 g d = scgi_parse_input_step g d := by
  simp only [scgi_parse_input_run]
  rcases scgi_parse_input_step g d with d0 | ⟨g0, r⟩ <;> rfl

/-- The rounds over one header `name NUL value NUL` that lies before the end of
the header block: they end in the call of `scgi_add_header` for it. -/
theorem run_header (g : scgi_globals) (d : scgi_desc) (pre post name value : List Nat)
    (hst : d.parser_state = SCGI_PARSE_HEADNAME)
    (hbuf : d.buf = pre ++ (name ++ 0 :: (value ++ 0 :: post)))
    (hp : d.parsed_chars = pre.length) (hss : d.string_starts = pre.length)
    (hn : name ≠ []) (hn0 : ∀ c ∈ name, c ≠ 0) (hv0 : ∀ c ∈ value, c ≠ 0)
    (hthl : ((pre.length + name.length + value.length + 2 : Nat) : Int) < d.true_header_length) :
    scgi_parse_input_run (name.length + 1 + value.length + 1) g d =
      match scgi_add_header g { d with
          parsed_chars := pre.length + name.length + value.length + 2
          parser_state := SCGI_PARSE_HEADVAL } name value with
      | (g1, none) => ret g1 none
      | (_, some d2) =>
        next { d2 with
          parser_state := SCGI_PARSE_HEADNAME
          string_starts := pre.length + name.length + value.length + 2 } := by
  have hnl : 0 < name.length := List.length_pos.mpr hn
  have hbuf2 : d.buf = (pre ++ name ++ [0]) ++ (value ++ 0 :: post) := by
    rw [hbuf]; simp
  have hbuf1 : d.buf = (pre ++ name) ++ 0 :: (value ++ 0 :: post) := by
    rw [hbuf]; simp
  have hbuf3 : d.buf = (pre ++ name ++ [0] ++ value) ++ 0 :: post := by
    rw [hbuf]; simp
  -- the bytes of the name
  have e1 : scgi_parse_input_run name.length g d
      = next { d with parsed_chars := pre.length + name.length } := by
    have := run_skip g name.length d (by
      intro i hi
      refine step_headname_plain g { d with parsed_chars := d.parsed_chars + i } hst ?_ ?_
      · show ((d.parsed_chars + i + 1 : Nat) : Int) ≠ d.true_header_length
        omega
      · show byteAt d.buf (d.parsed_chars + i) ≠ 0
        rw [hbuf, hp, byteAt_append_right, byteAt_append_left _ _ _ hi]
        exact hn0 _ (byteAt_mem _ _ hi))
    rw [this, hp]
  -- the NUL behind the name
  have e2 : scgi_parse_input_step g { d with parsed_chars := pre.length + name.length }
      = next { d with
          parsed_chars := pre.length + name.length + 1
          parser_state := SCGI_PARSE_HEADVAL } := by
    refine step_headname_nul g { d with parsed_chars := pre.length + name.length } hst ?_ ?_ ?_
    · show ((pre.length + name.length + 1 : Nat) : Int) ≠ d.true_header_length
      omega
    · show byteAt d.buf (pre.length + name.length) = 0
      rw [hbuf1, ← List.length_append]
      exact byteAt_append_cons _ _ _
    · show pre.length + name.length ≠ d.string_starts
      omega
  -- the bytes of the value
  have e3 : scgi_parse_input_run value.length g { d with
        parsed_chars := pre.length + name.length + 1
        parser_state := SCGI_PARSE_HEADVAL }
      = next { d with
          parsed_chars := pre.length + name.length + 1 + value.length
          parser_state := SCGI_PARSE_HEADVAL } := by
    exact run_skip g value.length _ (by
      intro i hi
      refine step_headval_plain g _ rfl ?_ ?_
      · show ((pre.length + name.length + 1 + i + 1 : Nat) : Int) ≠ d.true_header_length
        omega
      · show byteAt d.buf (pre.length + name.length + 1 + i) ≠ 0
        rw [hbuf2, show pre.length + name.length + 1 = (pre ++ name ++ [0]).length by simp [Nat.add_assoc],
          byteAt_append_right, byteAt_append_left _ _ _ hi]
        exact hv0 _ (byteAt_mem _ _ hi))
  -- the NUL behind the value
  have hname : cstr d.buf d.string_starts = name := by
    rw [hss, hbuf]
    have := cstr_append_right pre (name ++ 0 :: (value ++ 0 :: post)) 0
    rw [Nat.add_zero] at this
    rw [this]
    exact cstr_nul _ _ hn0
  have hlen : strlen d.buf d.string_starts = name.length := by
    unfold strlen; rw [hname]
  have hvalue : cstr d.buf (d.string_starts + strlen d.buf d.string_starts + 1) = value := by
    rw [hlen, hss, hbuf2]
    have := cstr_append_right (pre ++ name ++ [0]) (value ++ 0 :: post) 0
    simp only [List.length_append, List.length_singleton, Nat.add_zero] at this
    rw [this]
    exact cstr_nul _ _ hv0
  have e4 : scgi_parse_input_step g { d with
        parsed_chars := pre.length + name.length + 1 + value.length
        parser_state := SCGI_PARSE_HEADVAL }
      = match scgi_add_header g { d with
          parsed_chars := pre.length + name.length + value.length + 2
          parser_state := SCGI_PARSE_HEADVAL } name value with
        | (g1, none) => ret g1 none
        | (_, some d2) =>
          next { d2 with
            parser_state := SCGI_PARSE_HEADNAME
            string_starts := pre.length + name.length + value.length + 2 } := by
    have := step_headval_nul g { d with
        parsed_chars := pre.length + name.length + 1 + value.length
        parser_state := SCGI_PARSE_HEADVAL } rfl
      (by
        show ((pre.length + name.length + 1 + value.length + 1 : Nat) : Int)
          ≠ d.true_header_length
        omega)
      (by
        show byteAt d.buf (pre.length + name.length + 1 + value.length) = 0
        rw [hbuf3, show pre.length + name.length + 1 + value.length
          = (pre ++ name ++ [0] ++ value).length by simp; omega]
        exact byteAt_append_cons _ _ _)
    dsimp only at this
    rw [hvalue, hname] at this
    rw [this, show pre.length + name.length + 1 + value.length + 1
      = pre.length + name.length + value.length + 2 by omega]
  have c1 : scgi_parse_input_run (name.length + 1) g d
      = next { d with
          parsed_chars := pre.length + name.length + 1
          parser_state := SCGI_PARSE_HEADVAL } := by
    rw [run_add, e1]
    dsimp only
    rw [run_one]
    exact e2
  have c2 : scgi_parse_input_run (name.length + 1 + value.length) g d
      = next { d with
          parsed_chars := pre.length + name.length + 1 + value.length
          parser_state := SCGI_PARSE_HEADVAL } := by
    rw [run_add, c1]
    exact e3
  rw [run_add, c2]
  dsimp only
  rw [run_one]
  exact e4

/-! ## What recording a header does to the request -/

theorem add_header_fields_headers (req : scgi_request) (name val : List Nat) :
    (scgi_add_header_fields req name val).headers = req.headers := by
  simp only [scgi_add_header_fields, apply_ite scgi_request.headers, ite_self]

theorem add_header_fields_scgiheader (req : scgi_request) (name val : List Nat) :
    (scgi_add_header_fields req name val).scgi_scgiheader = req.scgi_scgiheader := by
  simp only [scgi_add_header_fields, apply_ite scgi_request.scgi_scgiheader, ite_self]

theorem add_header_fields_content_length (req : scgi_request) (name val : List Nat) :
    (scgi_add_header_fields req name val).scgi_content_length = req.scgi_content_length := by
  simp only [scgi_add_header_fields, apply_ite scgi_request.scgi_content_length, ite_self]

theorem add_header_fields_body (req : scgi_request) (name val : List Nat) :
    (scgi_add_header_fields req name val).body = req.body := by
  simp only [scgi_add_header_fields, apply_ite scgi_request.body, ite_self]

theorem add_header_fields_dead (req : scgi_request) (name val : List Nat) :
    (scgi_add_header_fields req name val).dead = req.dead := by
  simp only [scgi_add_header_fields, apply_ite scgi_request.dead, ite_self]

theorem record_headers_eq (req : scgi_request) (name val : List Nat) :
    (scgi_add_header_record req name val).headers = req.headers ++ [⟨name, val⟩] := by
  simp only [scgi_add_header_record, add_header_fields_headers]
  split_ifs <;> rfl

theorem record_content_length (req : scgi_request) (name val : List Nat) :
    (scgi_add_header_record req name val).scgi_content_length = req.scgi_content_length := by
  simp only [scgi_add_header_record, add_header_fields_content_length]
  split_ifs <;> rfl

theorem record_body (req : scgi_request) (name val : List Nat) :
    (scgi_add_header_record req name val).body = req.body := by
  simp only [scgi_add_header_record, add_header_fields_body]
  split_ifs <;> rfl

theorem record_dead (req : scgi_request) (name val : List Nat) :
    (scgi_add_header_record req name val).dead = req.dead := by
  simp only [scgi_add_header_record, add_header_fields_dead]
  split_ifs <;> rfl

theorem record_scgiheader (req : scgi_request) (name val : List Nat) :
    (scgi_add_header_record req name val).scgi_scgiheader
      = if name = SCGI ∧ val = ONE then 1 else req.scgi_scgiheader := by
  simp only [scgi_add_header_record, add_header_fields_scgiheader]
  split_ifs <;> rfl

theorem record_headers_headers (hs : List scgi_header) (req : scgi_request) :
    (record_headers req hs).headers = req.headers ++ hs := by
  induction hs generalizing req with
  | nil => simp [record_headers]
  | cons h hs ih =>
    have := ih (scgi_add_header_record req h.name h.value)
    simp only [record_headers, List.foldl_cons] at this ⊢
    rw [this, record_headers_eq]
    simp

theorem record_headers_content_length (hs : List scgi_header) (req : scgi_request) :
    (record_headers req hs).scgi_content_length = req.scgi_content_length := by
  induction hs generalizing req with
  | nil => rfl
  | cons h hs ih =>
    have := ih (scgi_add_header_record req h.name h.value)
    simp only [record_headers, List.foldl_cons] at this ⊢
    rw [this, record_content_length]

theorem record_headers_body (hs : List scgi_header) (req : scgi_request) :
    (record_headers req hs).body = req.body := by
  induction hs generalizing req with
  | nil => rfl
  | cons h hs ih =>
    have := ih (scgi_add_header_record req h.name h.value)
    simp only [record_headers, List.foldl_cons] at this ⊢
    rw [this, record_body]

theorem record_headers_scgiheader_of_set (hs : List scgi_header) (req : scgi_request)
    (h1 : req.scgi_scgiheader = 1) : (record_headers req hs).scgi_scgiheader = 1 := by
  induction hs generalizing req with
  | nil => exact h1
  | cons h hs ih =>
    have := ih (scgi_add_header_record req h.name h.value) (by
      rw [record_scgiheader]; split_ifs <;> simp [h1])
    simpa only [record_headers, List.foldl_cons] using this

theorem record_headers_scgiheader_of_mem (hs : List scgi_header) (req : scgi_request)
    (hm : (⟨SCGI, ONE⟩ : scgi_header) ∈ hs) : (record_headers req hs).scgi_scgiheader = 1 := by
  induction hs generalizing req with
  | nil => simp at hm
  | cons h hs ih =>
    simp only [record_headers, List.foldl_cons]
    rcases List.mem_cons.1 hm with heq | hmem
    · apply record_headers_scgiheader_of_set
      rw [record_scgiheader, ← heq]
      simp
    · exact ih _ hmem

theorem add_header_later (g : scgi_globals) (d : scgi_desc) (name val : List Nat)
    (h : d.req.headers ≠ []) :
    scgi_add_header g d name val
      = (g, some { d with req := scgi_add_header_record d.req name val }) := by
  unfold scgi_add_header
  rw [if_neg h]

theorem add_header_first (g : scgi_globals) (d : scgi_desc) (val : List Nat)
    (h : d.req.headers = []) (hnum : scgi_is_number val = true)
    (hpos : 0 ≤ to_int (strtoul val)) :
    scgi_add_header g d CONTENT_LENGTH val
      = (g, some { d with req := (scgi_add_header_record
          { d.req with scgi_content_length := to_int (strtoul val) } CONTENT_LENGTH val) }) := by
  unfold scgi_add_header
  rw [if_pos h, if_neg (by simp [hnum]), if_neg (by omega)]

theorem is_number_loop_digits (ds : List Nat) (b : Bool) (hd : ∀ c ∈ ds, isdigit c = true) :
    scgi_is_number_loop b ds = true := by
  induction ds generalizing b with
  | nil => rfl
  | cons c t ih =>
    have hc := hd c (by simp)
    have hc2 := (isdigit_iff c).1 hc
    have h45 : (c == 45) = false := by simp; omega
    simp only [scgi_is_number_loop, h45, Bool.and_false, Bool.false_eq_true, if_false, hc,
      Bool.not_true]
    exact ih false (fun x hx => hd x (by simp [hx]))

theorem is_number_digits (ds : List Nat) (hne : ds ≠ []) (hd : ∀ c ∈ ds, isdigit c = true) :
    scgi_is_number ds = true := by
  cases ds with
  | nil => exact absurd rfl hne
  | cons c t => exact is_number_loop_digits _ _ hd

theorem wire_headers_cons (h : scgi_header) (hs : List scgi_header) :
    wire_headers (h :: hs) = h.name ++ 0 :: (h.value ++ 0 :: wire_headers hs) := by
  simp [wire_headers, wire_header]

theorem wire_headers_cons_length (h : scgi_header) (hs : List scgi_header) :
    (wire_headers (h :: hs)).length
      = h.name.length + 1 + h.value.length + 1 + (wire_headers hs).length := by
  rw [wire_headers_cons]; simp; omega

/-- The rounds over the headers behind the first, all before the end of the
header block: each is recorded. -/
theorem run_headers (g : scgi_globals) (hs : List scgi_header) :
    ∀ (d : scgi_desc) (pre post : List Nat),
      d.parser_state = SCGI_PARSE_HEADNAME → d.buf = pre ++ (wire_headers hs ++ post) →
      d.parsed_chars = pre.length → d.string_starts = pre.length → d.req.headers ≠ [] →
      (∀ h ∈ hs, h.name ≠ [] ∧ (∀ c ∈ h.name, c ≠ 0) ∧ ∀ c ∈ h.value, c ≠ 0) →
      ((pre.length + (wire_headers hs).length : Nat) : Int) < d.true_header_length →
      scgi_parse_input_run (wire_headers hs).length g d = next { d with
        parsed_chars := pre.length + (wire_headers hs).length
        string_starts := pre.length + (wire_headers hs).length
        req := record_headers d.req hs } := by
  induction hs with
  | nil =>
    intro d pre post hst hbuf hp hss _ _ _
    simp only [wire_headers, List.map_nil, List.flatten_nil, List.length_nil, Nat.add_zero,
      scgi_parse_input_run, record_headers, List.foldl_nil]
    have e : d.string_starts = d.parsed_chars := by rw [hp, hss]
    rw [← hp]
    cases d
    simp only at e
    subst e
    rfl
  | cons h hs ih =>
    intro d pre post hst hbuf hp hss hne hall hthl
    obtain ⟨hn, hn0, hv0⟩ := hall h (by simp)
    rw [wire_headers_cons_length] at hthl ⊢
    rw [wire_headers_cons] at hbuf
    have hrun := run_header g d pre (wire_headers hs ++ post) h.name h.value hst
      (by rw [hbuf]; simp) hp hss hn hn0 hv0 (by omega)
    rw [add_header_later g { d with
        parsed_chars := pre.length + h.name.length + h.value.length + 2
        parser_state := SCGI_PARSE_HEADVAL } h.name h.value hne] at hrun
    dsimp only at hrun
    rw [run_add, hrun]
    dsimp only
    have := ih { d with
        parsed_chars := pre.length + h.name.length + h.value.length + 2
        parser_state := SCGI_PARSE_HEADNAME
        string_starts := pre.length + h.name.length + h.value.length + 2
        req := scgi_add_header_record d.req h.name h.value }
      (pre ++ (h.name ++ 0 :: (h.value ++ [0]))) post rfl
      (by
        show d.buf = _
        rw [hbuf]; simp)
      (by
        show pre.length + h.name.length + h.value.length + 2 = _
        simp; omega)
      (by
        show pre.length + h.name.length + h.value.length + 2 = _
        simp; omega)
      (by
        show (scgi_add_header_record d.req h.name h.value).headers ≠ []
        rw [record_headers_eq]; simp)
      (fun x hx => hall x (by simp [hx]))
      (by
        show ((_ : Nat) : Int) < d.true_header_length
        simp only [List.length_append, List.length_cons, List.length_nil]
        omega)
    rw [this]
    simp only [record_headers, List.foldl_cons, List.length_append, List.length_cons,
      List.length_nil, hst]
    congr 2 <;> omega

theorem wire_request_length (ds : List Nat) (hs : List scgi_header) (body : List Nat) :
    (wire_request ds hs body).length = ds.length + 1 + (wire_headers hs).length + 1 + body.length := by
  simp [wire_request]; omega

/-- The rounds over the length and the header block of a well-formed request. -/
theorem run_header_block (g : scgi_globals) (sock : Nat) (ds v : List Nat)
    (rest : List scgi_header) (body : List Nat) (hw : well_formed ds v rest body) :
    scgi_parse_input_run (ds.length + 1 + (wire_headers (⟨CONTENT_LENGTH, v⟩ :: rest)).length) g
        { scgi_answer_the_phone_desc sock with
          buf := wire_request ds (⟨CONTENT_LENGTH, v⟩ :: rest) body }
      = next { scgi_answer_the_phone_desc sock with
          buf := wire_request ds (⟨CONTENT_LENGTH, v⟩ :: rest) body
          parsed_chars := ds.length + 1 + (wire_headers (⟨CONTENT_LENGTH, v⟩ :: rest)).length
          parser_state := SCGI_PARSE_HEADNAME
          true_header_length :=
            ((ds.length + 1 + (wire_headers (⟨CONTENT_LENGTH, v⟩ :: rest)).length + 1 : Nat) : Int)
          string_starts := ds.length + 1 + (wire_headers (⟨CONTENT_LENGTH, v⟩ :: rest)).length
          req := recorded_request sock v body.length rest } := by
  have hfit := hw.fits
  rw [wire_request_length] at hfit
  have hN := hw.length_ok
  have hNlen := wire_headers_cons_length ⟨CONTENT_LENGTH, v⟩ rest
  simp only at hNlen
  have hcl : CONTENT_LENGTH.length = 14 := rfl
  -- the digits
  have e1 := run_digits g { scgi_answer_the_phone_desc sock with
      buf := wire_request ds (⟨CONTENT_LENGTH, v⟩ :: rest) body } ds
    (58 :: (wire_headers (⟨CONTENT_LENGTH, v⟩ :: rest) ++ 44 :: body)) rfl rfl rfl hw.digits_ok
  -- the colon
  have e2 := step_colon g { scgi_answer_the_phone_desc sock with
      buf := wire_request ds (⟨CONTENT_LENGTH, v⟩ :: rest) body
      parsed_chars := ds.length } ds
    (wire_headers (⟨CONTENT_LENGTH, v⟩ :: rest) ++ 44 :: body) rfl rfl rfl hw.digits_ok
    (by omega)
  -- the first header
  have hvnum : strtoul v = body.length := by
    rw [strtoul_digits v hw.value_digits, hw.value_ok, if_neg]
    unfold ULONG_MAX; omega
  have e3 := run_header g { scgi_answer_the_phone_desc sock with
      buf := wire_request ds (⟨CONTENT_LENGTH, v⟩ :: rest) body
      parsed_chars := ds.length + 1
      parser_state := SCGI_PARSE_HEADNAME
      true_header_length := ((decimal_value ds + ds.length + 2 : Nat) : Int)
      string_starts := ds.length + 1 }
    (ds ++ [58]) (wire_headers rest ++ 44 :: body) CONTENT_LENGTH v rfl
    (by
      show wire_request ds (⟨CONTENT_LENGTH, v⟩ :: rest) body = _
      simp [wire_request, wire_headers_cons])
    (by simp) (by simp) (by decide) (by decide) (digits_nul_free v hw.value_digits)
    (by
      show ((_ : Nat) : Int) < ((decimal_value ds + ds.length + 2 : Nat) : Int)
      simp only [List.length_append, List.length_singleton]
      omega)
  rw [add_header_first g _ v rfl (is_number_digits v hw.value_ne hw.value_digits)
    (by rw [hvnum, to_int_small _ (by omega)]; omega)] at e3
  dsimp only at e3
  -- the other headers
  have e4 := run_headers g rest { scgi_answer_the_phone_desc sock with
      buf := wire_request ds (⟨CONTENT_LENGTH, v⟩ :: rest) body
      parsed_chars := (ds ++ [58]).length + CONTENT_LENGTH.length + v.length + 2
      parser_state := SCGI_PARSE_HEADNAME
      true_header_length := ((decimal_value ds + ds.length + 2 : Nat) : Int)
      string_starts := (ds ++ [58]).length + CONTENT_LENGTH.length + v.length + 2
      req := scgi_add_header_record
        { (scgi_answer_the_phone_desc sock).req with
          scgi_content_length := to_int (strtoul v) } CONTENT_LENGTH v }
    (ds ++ [58] ++ (CONTENT_LENGTH ++ 0 :: (v ++ [0]))) (44 :: body) rfl
    (by
      show wire_request ds (⟨CONTENT_LENGTH, v⟩ :: rest) body = _
      simp [wire_request, wire_headers_cons])
    (by simp; omega) (by simp; omega)
    (by
      show (scgi_add_header_record _ CONTENT_LENGTH v).headers ≠ []
      rw [record_headers_eq]; simp)
    hw.rest_ok
    (by
      show ((_ : Nat) : Int) < ((decimal_value ds + ds.length + 2 : Nat) : Int)
      simp only [List.length_append, List.length_singleton, List.length_cons, List.length_nil]
      omega)
  rw [hNlen, show ds.length + 1 + (CONTENT_LENGTH.length + 1 + v.length + 1 + (wire_headers rest).length)
    = ds.length + 1 + (CONTENT_LENGTH.length + 1 + v.length + 1) + (wire_headers rest).length by omega]
  rw [run_add, run_add, run_add, e1]
  dsimp only
  rw [run_one, e2]
  dsimp only
  rw [e3]
  dsimp only
  rw [e4]
  simp only [recorded_request, hvnum, to_int_small body.length (by omega), List.length_append,
    List.length_singleton, List.length_cons, List.length_nil, hN, hNlen]
  congr 2 <;> omega

theorem wire_headers_ends_nul (h : scgi_header) (hs : List scgi_header) :
    ∃ front, wire_headers (h :: hs) = front ++ [0] := by
  induction hs generalizing h with
  | nil => exact ⟨h.name ++ 0 :: h.value, by simp [wire_headers, wire_header]⟩
  | cons h2 hs ih =>
    obtain ⟨front, hf⟩ := ih h2
    refine ⟨h.name ++ 0 :: (h.value ++ 0 :: front), ?_⟩
    rw [wire_headers_cons, hf]
    simp

theorem recorded_request_headers (sock : Nat) (v : List Nat) (n : Nat) (rest : List scgi_header) :
    (recorded_request sock v n rest).headers = ⟨CONTENT_LENGTH, v⟩ :: rest := by
  simp only [recorded_request, record_headers_headers, record_headers_eq]
  rfl

theorem recorded_request_content_length (sock : Nat) (v : List Nat) (n : Nat)
    (rest : List scgi_header) :
    (recorded_request sock v n rest).scgi_content_length = (n : Int) := by
  simp only [recorded_request, record_headers_content_length, record_content_length]

theorem recorded_request_scgiheader (sock : Nat) (v : List Nat) (n : Nat)
    (rest : List scgi_header) (h : (⟨SCGI, ONE⟩ : scgi_header) ∈ rest) :
    (recorded_request sock v n rest).scgi_scgiheader = 1 :=
  record_headers_scgiheader_of_mem _ _ h

/-- The whole run over a well-formed request: the last round, and no round
before it, returns with the request linked into the queue. -/
theorem run_well_formed (g : scgi_globals) (sock : Nat) (ds v : List Nat)
    (rest : List scgi_header) (body : List Nat) (hw : well_formed ds v rest body) :
    ∃ d : scgi_desc,
      scgi_parse_input_run (wire_request ds (⟨CONTENT_LENGTH, v⟩ :: rest) body).length g
          { scgi_answer_the_phone_desc sock with
            buf := wire_request ds (⟨CONTENT_LENGTH, v⟩ :: rest) body }
        = ret { g with first_scgi_unrecved_req := SCGI_LINK sock g.first_scgi_unrecved_req }
            (some d) ∧
      d.parsed_chars = (wire_request ds (⟨CONTENT_LENGTH, v⟩ :: rest) body).length ∧
      d.req = { recorded_request sock v body.length rest with body := some (cstr body 0) } ∧
      d.parser_state = (if body = [] then SCGI_PARSE_HEADNAME else SCGI_PARSE_BODY) ∧
      d.true_header_length
        = ((ds.length + 1 + (wire_headers (⟨CONTENT_LENGTH, v⟩ :: rest)).length + 1 : Nat) : Int) ∧
      d.buf = wire_request ds (⟨CONTENT_LENGTH, v⟩ :: rest) body := by
  have hfit := hw.fits
  rw [wire_request_length] at hfit
  have hblock := run_header_block g sock ds v rest body hw
  obtain ⟨front, hfront⟩ := wire_headers_ends_nul ⟨CONTENT_LENGTH, v⟩ rest
  have hflen : (wire_headers (⟨CONTENT_LENGTH, v⟩ :: rest)).length = front.length + 1 := by
    rw [hfront]; simp
  have hcomma : byteAt (wire_request ds (⟨CONTENT_LENGTH, v⟩ :: rest) body)
      (ds.length + 1 + (wire_headers (⟨CONTENT_LENGTH, v⟩ :: rest)).length) = 44 := by
    have := byteAt_append_cons (ds ++ [58] ++ wire_headers (⟨CONTENT_LENGTH, v⟩ :: rest)) body 44
    simp only [List.length_append, List.length_singleton] at this
    rw [← this]
    simp [wire_request]
  have hprev : byteAt (wire_request ds (⟨CONTENT_LENGTH, v⟩ :: rest) body)
      (ds.length + 1 + (wire_headers (⟨CONTENT_LENGTH, v⟩ :: rest)).length - 1) = 0 := by
    have := byteAt_append_cons (ds ++ [58] ++ front) (44 :: body) 0
    simp only [List.length_append, List.length_singleton] at this
    rw [hflen, show ds.length + 1 + (front.length + 1) - 1 = ds.length + 1 + front.length by omega,
      ← this]
    simp [wire_request, hfront]
  have hflag := recorded_request_scgiheader sock v body.length rest hw.scgi
  have hclen := recorded_request_content_length sock v body.length rest
  rw [wire_request_length]
  by_cases hb : body = []
  · -- no body: the comma ends the request
    subst hb
    have e5 := step_headname_end_ready g ({ scgi_answer_the_phone_desc sock with
        buf := wire_request ds (⟨CONTENT_LENGTH, v⟩ :: rest) []
        parsed_chars := ds.length + 1 + (wire_headers (⟨CONTENT_LENGTH, v⟩ :: rest)).length
        parser_state := SCGI_PARSE_HEADNAME
        true_header_length :=
          ((ds.length + 1 + (wire_headers (⟨CONTENT_LENGTH, v⟩ :: rest)).length + 1 : Nat) : Int)
        string_starts := ds.length + 1 + (wire_headers (⟨CONTENT_LENGTH, v⟩ :: rest)).length
        req := recorded_request sock v ([] : List Nat).length rest }) rfl rfl hcomma hprev
      (by
        show (recorded_request sock v ([] : List Nat).length rest).scgi_scgiheader ≠ 0
        rw [hflag]; decide)
      (by
        show (recorded_request sock v ([] : List Nat).length rest).scgi_content_length = 0
        rw [hclen]; rfl)
    have hrun : scgi_parse_input_run
        (ds.length + 1 + (wire_headers (⟨CONTENT_LENGTH, v⟩ :: rest)).length + 1) g
        { scgi_answer_the_phone_desc sock with
          buf := wire_request ds (⟨CONTENT_LENGTH, v⟩ :: rest) [] }
        = scgi_parse_input_step g { scgi_answer_the_phone_desc sock with
          buf := wire_request ds (⟨CONTENT_LENGTH, v⟩ :: rest) []
          parsed_chars := ds.length + 1 + (wire_headers (⟨CONTENT_LENGTH, v⟩ :: rest)).length
          parser_state := SCGI_PARSE_HEADNAME
          true_header_length :=
            ((ds.length + 1 + (wire_headers (⟨CONTENT_LENGTH, v⟩ :: rest)).length + 1 : Nat) : Int)
          string_starts := ds.length + 1 + (wire_headers (⟨CONTENT_LENGTH, v⟩ :: rest)).length
          req := recorded_request sock v ([] : List Nat).length rest } := by
      rw [run_add, hblock]
      dsimp only
      rw [run_one]
    rw [e5] at hrun
    exact ⟨_, hrun, by simp, rfl, by simp, rfl, rfl⟩
  · -- a body follows
    have hbl : 0 < body.length := List.length_pos.mpr hb
    have e5 := step_headname_end_body g ({ scgi_answer_the_phone_desc sock with
        buf := wire_request ds (⟨CONTENT_LENGTH, v⟩ :: rest) body
        parsed_chars := ds.length + 1 + (wire_headers (⟨CONTENT_LENGTH, v⟩ :: rest)).length
        parser_state := SCGI_PARSE_HEADNAME
        true_header_length :=
          ((ds.length + 1 + (wire_headers (⟨CONTENT_LENGTH, v⟩ :: rest)).length + 1 : Nat) : Int)
        string_starts := ds.length + 1 + (wire_headers (⟨CONTENT_LENGTH, v⟩ :: rest)).length
        req := recorded_request sock v body.length rest }) rfl rfl hcomma hprev
      (by
        show (recorded_request sock v body.length rest).scgi_scgiheader ≠ 0
        rw [hflag]; decide)
      (by
        show (recorded_request sock v body.length rest).scgi_content_length ≠ 0
        rw [hclen]; omega)
    have htot : int32 (((ds.length + 1 + (wire_headers (⟨CONTENT_LENGTH, v⟩ :: rest)).length + 1
        : Nat) : Int) + (recorded_request sock v body.length rest).scgi_content_length)
        = ((ds.length + 1 + (wire_headers (⟨CONTENT_LENGTH, v⟩ :: rest)).length + 1 + body.length
          : Nat) : Int) := by
      rw [hclen, int32_small _ (by omega) (by omega)]
      omega
    have e6 := run_skip g (body.length - 1) { scgi_answer_the_phone_desc sock with
        buf := wire_request ds (⟨CONTENT_LENGTH, v⟩ :: rest) body
        parsed_chars := ds.length + 1 + (wire_headers (⟨CONTENT_LENGTH, v⟩ :: rest)).length + 1
        parser_state := SCGI_PARSE_BODY
        true_header_length :=
          ((ds.length + 1 + (wire_headers (⟨CONTENT_LENGTH, v⟩ :: rest)).length + 1 : Nat) : Int)
        true_request_length :=
          int32 (to_int (strtoul (match (recorded_request sock v body.length rest).headers with
            | h :: _ => h.value
            | [] => [])) +
            ((ds.length + 1 + (wire_headers (⟨CONTENT_LENGTH, v⟩ :: rest)).length + 1 : Nat) : Int))
        string_starts := ds.length + 1 + (wire_headers (⟨CONTENT_LENGTH, v⟩ :: rest)).length + 1
        req := recorded_request sock v body.length rest } (by
      intro i hi
      refine step_body_plain g _ rfl ?_
      dsimp only
      rw [htot]
      omega)
    have e7 := step_body_end g { scgi_answer_the_phone_desc sock with
        buf := wire_request ds (⟨CONTENT_LENGTH, v⟩ :: rest) body
        parsed_chars := ds.length + 1 + (wire_headers (⟨CONTENT_LENGTH, v⟩ :: rest)).length + 1
          + (body.length - 1)
        parser_state := SCGI_PARSE_BODY
        true_header_length :=
          ((ds.length + 1 + (wire_headers (⟨CONTENT_LENGTH, v⟩ :: rest)).length + 1 : Nat) : Int)
        true_request_length :=
          int32 (to_int (strtoul (match (recorded_request sock v body.length rest).headers with
            | h :: _ => h.value
            | [] => [])) +
            ((ds.length + 1 + (wire_headers (⟨CONTENT_LENGTH, v⟩ :: rest)).length + 1 : Nat) : Int))
        string_starts := ds.length + 1 + (wire_headers (⟨CONTENT_LENGTH, v⟩ :: rest)).length + 1
        req := recorded_request sock v body.length rest } rfl (by
      dsimp only
      rw [htot]
      omega)
    have hset : (wire_request ds (⟨CONTENT_LENGTH, v⟩ :: rest) body).set
        (ds.length + 1 + (wire_headers (⟨CONTENT_LENGTH, v⟩ :: rest)).length + 1
          + (body.length - 1) + 1) 0 = wire_request ds (⟨CONTENT_LENGTH, v⟩ :: rest) body := by
      apply List.set_eq_of_length_le
      rw [wire_request_length]; omega
    have hbody : cstr (wire_request ds (⟨CONTENT_LENGTH, v⟩ :: rest) body)
        (ds.length + 1 + (wire_headers (⟨CONTENT_LENGTH, v⟩ :: rest)).length + 1)
        = cstr body 0 := by
      have := cstr_append_right (ds ++ [58] ++ wire_headers (⟨CONTENT_LENGTH, v⟩ :: rest) ++ [44])
        body 0
      simp only [List.length_append, List.length_singleton, Nat.add_zero] at this
      rw [← this]
      simp [wire_request]
    have hrun : scgi_parse_input_run
        (ds.length + 1 + (wire_headers (⟨CONTENT_LENGTH, v⟩ :: rest)).length + 1 + body.length) g
        { scgi_answer_the_phone_desc sock with
          buf := wire_request ds (⟨CONTENT_LENGTH, v⟩ :: rest) body }
        = scgi_parse_input_step g { scgi_answer_the_phone_desc sock with
          buf := wire_request ds (⟨CONTENT_LENGTH, v⟩ :: rest) body
          parsed_chars := ds.length + 1 + (wire_headers (⟨CONTENT_LENGTH, v⟩ :: rest)).length + 1
            + (body.length - 1)
          parser_state := SCGI_PARSE_BODY
          true_header_length :=
            ((ds.length + 1 + (wire_headers (⟨CONTENT_LENGTH, v⟩ :: rest)).length + 1 : Nat) : Int)
          true_request_length :=
            int32 (to_int (strtoul (match (recorded_request sock v body.length rest).headers with
              | h :: _ => h.value
              | [] => [])) +
              ((ds.length + 1 + (wire_headers (⟨CONTENT_LENGTH, v⟩ :: rest)).length + 1 : Nat) : Int))
          string_starts := ds.length + 1 + (wire_headers (⟨CONTENT_LENGTH, v⟩ :: rest)).length + 1
          req := recorded_request sock v body.length rest } := by
      rw [show ds.length + 1 + (wire_headers (⟨CONTENT_LENGTH, v⟩ :: rest)).length + 1 + body.length
        = ds.length + 1 + (wire_headers (⟨CONTENT_LENGTH, v⟩ :: rest)).length
          + (1 + ((body.length - 1) + 1)) by omega]
      rw [run_add, hblock]
      dsimp only
      rw [run_add, run_one, e5]
      dsimp only
      rw [run_add, e6]
      dsimp only
      rw [run_one]
    rw [e7] at hrun
    refine ⟨_, hrun, ?_, ?_, ?_, rfl, hset⟩
    · dsimp only
      omega
    · dsimp only
      rw [hset, hbody]
    · simp [hb]

theorem parse_inv_fresh (sock : Nat) (s : List Nat) :
    parse_inv { scgi_answer_the_phone_desc sock with buf := s } :=
  ⟨Nat.le_refl _, fun h => by cases h⟩

/-- Delivery in fragments against delivery at once on a fresh connection. -/
theorem receive_all_fresh (g : scgi_globals) (sock : Nat) (s : List Nat)
    (frags : List (List Nat)) (hne : ∀ f ∈ frags, f ≠ []) (hcat : frags.flatten = s)
    (hfull : (scgi_parse_input g { scgi_answer_the_phone_desc sock with buf := s }).2 = none ∨
      ∃ d, (scgi_parse_input g { scgi_answer_the_phone_desc sock with buf := s }).2 = some d ∧
        d.parsed_chars = s.length) :
    scgi_receive_all (g, some (scgi_answer_the_phone_desc sock)) frags
      = scgi_parse_input g { scgi_answer_the_phone_desc sock with buf := s } := by
  have := receive_all_eq_parse_input g frags { scgi_answer_the_phone_desc sock with buf := s } []
    (by simp [hcat]) rfl (parse_inv_fresh sock s) hne hfull
  rw [← this]
  rfl

/-- The parser on a well-formed request delivered at once: the request is
linked into the queue at the last byte. -/
theorem parse_well_formed (g : scgi_globals) (sock : Nat) (ds v : List Nat)
    (rest : List scgi_header) (body : List Nat) (hw : well_formed ds v rest body) :
    ∃ d : scgi_desc,
      scgi_parse_input g { scgi_answer_the_phone_desc sock with
          buf := wire_request ds (⟨CONTENT_LENGTH, v⟩ :: rest) body }
        = ({ g with first_scgi_unrecved_req := SCGI_LINK sock g.first_scgi_unrecved_req },
            some d) ∧
      scgi_parse_input_run (wire_request ds (⟨CONTENT_LENGTH, v⟩ :: rest) body).length g
          { scgi_answer_the_phone_desc sock with
            buf := wire_request ds (⟨CONTENT_LENGTH, v⟩ :: rest) body }
        = ret { g with first_scgi_unrecved_req := SCGI_LINK sock g.first_scgi_unrecved_req }
            (some d) ∧
      d.parsed_chars = (wire_request ds (⟨CONTENT_LENGTH, v⟩ :: rest) body).length ∧
      d.req = { recorded_request sock v body.length rest with body := some (cstr body 0) } ∧
      d.parser_state = (if body = [] then SCGI_PARSE_HEADNAME else SCGI_PARSE_BODY) ∧
      d.true_header_length
        = ((ds.length + 1 + (wire_headers (⟨CONTENT_LENGTH, v⟩ :: rest)).length + 1 : Nat) : Int) ∧
      d.buf = wire_request ds (⟨CONTENT_LENGTH, v⟩ :: rest) body := by
  obtain ⟨d, hrun, hrest⟩ := run_well_formed g sock ds v rest body hw
  refine ⟨d, ?_, hrun, hrest⟩
  have hlen := wire_request_length ds (⟨CONTENT_LENGTH, v⟩ :: rest) body
  cases ds with
  | nil =>
    have := hw.length_ok
    rw [wire_headers_cons_length] at this
    simp only [decimal_value, List.foldl_nil] at this
    omega
  | cons c t =>
    have hc := (isdigit_iff c).1 (hw.digits_ok c (by simp))
    have hz : c ≠ 48 := by
      have := hw.no_leading_zero
      simpa using this
    rw [parse_input_eq_run g _ (parse_inv_fresh sock _) (by
      show 0 < (wire_request (c :: t) (⟨CONTENT_LENGTH, v⟩ :: rest) body).length
      rw [hlen]; omega) (by
      show ¬ (0 = 0 ∧ (byteAt (wire_request (c :: t) (⟨CONTENT_LENGTH, v⟩ :: rest) body) 0 = 48 ∨
        byteAt (wire_request (c :: t) (⟨CONTENT_LENGTH, v⟩ :: rest) body) 0 = 58))
      simp only [wire_request, byteAt, List.cons_append, List.getD_cons_zero]
      omega)]
    show (scgi_parse_input_run
      ((wire_request (c :: t) (⟨CONTENT_LENGTH, v⟩ :: rest) body).length - 0) g _).finish g = _
    rw [Nat.sub_zero, hrun]
    rfl

/-- The parser on a well-formed request delivered in fragments. -/
theorem receive_well_formed (g : scgi_globals) (sock : Nat) (ds v : List Nat)
    (rest : List scgi_header) (body : List Nat) (frags : List (List Nat))
    (hw : well_formed ds v rest body) (hne : ∀ f ∈ frags, f ≠ [])
    (hcat : frags.flatten = wire_request ds (⟨CONTENT_LENGTH, v⟩ :: rest) body) :
    scgi_receive_all (g, some (scgi_answer_the_phone_desc sock)) frags
      = scgi_parse_input g { scgi_answer_the_phone_desc sock with
          buf := wire_request ds (⟨CONTENT_LENGTH, v⟩ :: rest) body } := by
  obtain ⟨d, hp, -, hlen, -, -, -, -⟩ := parse_well_formed g sock ds v rest body hw
  exact receive_all_fresh g sock _ frags hne hcat (Or.inr ⟨d, by rw [hp], hlen⟩)

/-- Delivery in fragments of the first part of a stream: while the rounds over
that part all go on, the connection is where those rounds lead, with the
globals untouched. -/
theorem receive_all_run_next (g : scgi_globals) (frags : List (List Nat)) :
    ∀ (D d1 : scgi_desc) (pre post : List Nat), D.buf = pre ++ (frags.flatten ++ post) →
      D.parsed_chars = pre.length → parse_inv D → (∀ f ∈ frags, f ≠ []) →
      ¬ (byteAt D.buf 0 = 48 ∨ byteAt D.buf 0 = 58) →
      scgi_parse_input_run frags.flatten.length g D = next d1 →
      scgi_receive_all (g, some (D.upto pre.length)) frags
        = (g, some (d1.upto (pre.length + frags.flatten.length))) := by
  induction frags with
  | nil =>
    intro D d1 pre post _ _ _ _ _ hrun
    simp only [List.flatten_nil, List.length_nil, scgi_parse_input_run] at hrun
    injection hrun with hrun
    subst hrun
    rfl
  | cons f rest ih =>
    intro D d1 pre post hbuf hp hinv hne hfirst hrun
    have hf : f ≠ [] := hne f (List.mem_cons_self _ _)
    have hfl : 0 < f.length := List.length_pos.mpr hf
    simp only [List.flatten_cons, List.append_assoc] at hbuf
    have hlenD : D.buf.length = pre.length + f.length + rest.flatten.length + post.length := by
      rw [hbuf]; simp; omega
    simp only [List.flatten_cons, List.length_append] at hrun ⊢
    rw [run_add] at hrun
    rcases hrunf : scgi_parse_input_run f.length g D with d0 | ⟨g0, r⟩
    · rw [hrunf] at hrun
      dsimp only at hrun
      obtain ⟨hb0, hp0, -, hi0⟩ := run_next g f.length D d0 hinv (by omega) hrunf
      rw [receive_all_cons, receive_upto g D pre f (rest.flatten ++ post) hbuf]
      have hinvU : parse_inv (D.upto (pre.length + f.length)) := by
        refine ⟨hinv.1, fun h => ?_⟩
        have := hinv.2 h
        simp only [upto_buf, upto_string_starts, upto_parsed_chars]
        rw [strlen_take _ _ _ (by omega)]
        exact this
      have eU := parse_input_eq_run g (D.upto (pre.length + f.length)) hinvU
        (by simp only [upto_parsed_chars, upto_buf, List.length_take]; omega)
        (by
          simp only [upto_parsed_chars, upto_buf]
          rw [byteAt_take _ _ _ (by omega)]
          exact fun h => hfirst h.2)
      have hn1 : (D.upto (pre.length + f.length)).buf.length
          - (D.upto (pre.length + f.length)).parsed_chars = f.length := by
        simp only [upto_parsed_chars, upto_buf, List.length_take]; omega
      rw [hn1, run_upto g f.length _ D hinv (by omega) (by omega), hrunf] at eU
      simp only [parse_result.upto, parse_result.finish] at eU
      rw [eU]
      have := ih d0 d1 (pre ++ f) post (by rw [hb0, hbuf]; simp) (by rw [hp0, hp]; simp) hi0
        (fun x hx => hne x (List.mem_cons_of_mem _ hx)) (by rw [hb0]; exact hfirst) hrun
      simp only [List.length_append] at this
      rw [this, Nat.add_assoc]
    · rw [hrunf] at hrun
      simp at hrun

/-- A run that returns with the parser at the end of its `n` bytes made no
return before. -/
theorem run_next_before_end (g g1 : scgi_globals) (n m : Nat) (D d : scgi_desc)
    (hinv : parse_inv D) (hlen : D.parsed_chars + n ≤ D.buf.length)
    (hrun : scgi_parse_input_run n g D = ret g1 (some d))
    (hend : d.parsed_chars = D.parsed_chars + n) (hm : m < n) :
    ∃ d1, scgi_parse_input_run m g D = next d1 := by
  rcases hrunm : scgi_parse_input_run m g D with d1 | ⟨g0, r⟩
  · exact ⟨d1, rfl⟩
  · exfalso
    have hsplit := run_add g m (n - m) D
    rw [show m + (n - m) = n by omega, hrun, hrunm] at hsplit
    dsimp only at hsplit
    injection hsplit with h1 h2
    subst h1 h2
    have := (run_ret_some g g1 m D d hinv (by omega) hrunm).2
    omega

theorem well_formed_first_byte (ds v : List Nat) (rest : List scgi_header) (body : List Nat)
    (hw : well_formed ds v rest body) :
    ¬ (byteAt (wire_request ds (⟨CONTENT_LENGTH, v⟩ :: rest) body) 0 = 48 ∨
      byteAt (wire_request ds (⟨CONTENT_LENGTH, v⟩ :: rest) body) 0 = 58) := by
  cases ds with
  | nil =>
    have := hw.length_ok
    rw [wire_headers_cons_length] at this
    simp only [decimal_value, List.foldl_nil] at this
    omega
  | cons c t =>
    have hc := (isdigit_iff c).1 (hw.digits_ok c (by simp))
    have hz : c ≠ 48 := by
      have := hw.no_leading_zero
      simpa using this
    simp only [wire_request, byteAt, List.cons_append, List.getD_cons_zero]
    omega

theorem flatten_take_drop (frags : List (List Nat)) (k : Nat) :
    frags.flatten = (frags.take k).flatten ++ (frags.drop k).flatten := by
  rw [← List.flatten_append, List.take_append_drop]

theorem flatten_drop_pos (frags : List (List Nat)) (k : Nat) (hne : ∀ f ∈ frags, f ≠ [])
    (hk : k < frags.length) : 0 < (frags.drop k).flatten.length := by
  rcases hd : frags.drop k with _ | ⟨x, xs⟩
  · have := congrArg List.length hd
    simp at this
    omega
  · have hx : x ∈ frags := List.mem_of_mem_drop (by rw [hd]; simp)
    have := List.length_pos.mpr (hne x hx)
    simp
    omega

/-- Before the last fragment of a well-formed request has arrived the
connection is alive and the globals are as they were. -/
theorem receive_well_formed_before (g : scgi_globals) (sock : Nat) (ds v : List Nat)
    (rest : List scgi_header) (body : List Nat) (frags : List (List Nat))
    (hw : well_formed ds v rest body) (hne : ∀ f ∈ frags, f ≠ [])
    (hcat : frags.flatten = wire_request ds (⟨CONTENT_LENGTH, v⟩ :: rest) body)
    (k : Nat) (hk : k < frags.length) :
    ∃ d1 : scgi_desc,
      scgi_parse_input_run (frags.take k).flatten.length g
          { scgi_answer_the_phone_desc sock with
            buf := wire_request ds (⟨CONTENT_LENGTH, v⟩ :: rest) body } = next d1 ∧
      scgi_receive_all (g, some (scgi_answer_the_phone_desc sock)) (frags.take k)
        = (g, some (d1.upto (frags.take k).flatten.length)) := by
  obtain ⟨d, hrun, hend, -, -, -, -⟩ := run_well_formed g sock ds v rest body hw
  have hsplit := flatten_take_drop frags k
  have hpos := flatten_drop_pos frags k hne hk
  have hlen : (wire_request ds (⟨CONTENT_LENGTH, v⟩ :: rest) body).length
      = (frags.take k).flatten.length + (frags.drop k).flatten.length := by
    rw [← hcat, hsplit]
    simp
  obtain ⟨d1, hd1⟩ := run_next_before_end g _ _ (frags.take k).flatten.length
    { scgi_answer_the_phone_desc sock with
      buf := wire_request ds (⟨CONTENT_LENGTH, v⟩ :: rest) body } d
    (parse_inv_fresh sock _) (by
      show 0 + _ ≤ (wire_request ds (⟨CONTENT_LENGTH, v⟩ :: rest) body).length
      omega) hrun (by
      rw [hend]
      show _ = 0 + _
      omega) (by omega)
  refine ⟨d1, hd1, ?_⟩
  have := receive_all_run_next g (frags.take k)
    { scgi_answer_the_phone_desc sock with
      buf := wire_request ds (⟨CONTENT_LENGTH, v⟩ :: rest) body } d1 []
    (frags.drop k).flatten
    (by
      show wire_request ds (⟨CONTENT_LENGTH, v⟩ :: rest) body = _
      rw [← hcat, hsplit]; simp)
    rfl (parse_inv_fresh sock _) (fun f hf => hne f (List.mem_of_mem_take hf))
    (well_formed_first_byte ds v rest body hw) hd1
  simp only [List.length_nil, Nat.zero_add] at this
  rw [← this]
  rfl

theorem step_body_stays (g : scgi_globals) (d : scgi_desc)
    (hst : d.parser_state = SCGI_PARSE_BODY) :
    (∃ d1, scgi_parse_input_step g d = next d1 ∧ d1.parser_state = SCGI_PARSE_BODY) ∨
    (∃ g1 d1, scgi_parse_input_step g d = ret g1 (some d1) ∧
      d1.parser_state = SCGI_PARSE_BODY) := by
  by_cases h : ((d.parsed_chars + 1 : Nat) : Int)
      = int32 (d.true_header_length + d.req.scgi_content_length)
  · right
    exact ⟨_, _, step_body_end g d hst h, hst⟩
  · left
    exact ⟨_, step_body_plain g d hst h, hst⟩

theorem run_body_stays (g : scgi_globals) (n : Nat) (d : scgi_desc)
    (hst : d.parser_state = SCGI_PARSE_BODY) :
    (∃ d1, scgi_parse_input_run n g d = next d1 ∧ d1.parser_state = SCGI_PARSE_BODY) ∨
    (∃ g1 d1, scgi_parse_input_run n g d = ret g1 (some d1) ∧
      d1.parser_state = SCGI_PARSE_BODY) := by
  induction n generalizing d with
  | zero => exact Or.inl ⟨d, rfl, hst⟩
  | succ n ih =>
    simp only [scgi_parse_input_run]
    rcases step_body_stays g d hst with ⟨d1, h1, h2⟩ | ⟨g1, d1, h1, h2⟩
    · rw [h1]
      exact ih d1 h2
    · rw [h1]
      exact Or.inr ⟨g1, d1, rfl, h2⟩

/-! ## The sample request is well formed -/

theorem sample_well_formed : well_formed sample_digits sample_value sample_rest sample_body :=
  ⟨by decide, by decide, by decide, by decide, by decide, by decide, by decide, by decide,
    by decide⟩

/-! ## Well-formed requests, fragment by fragment -/

/-- The parser on a well-formed request, fed fragment by fragment without
regard to the capacity of the buffer: the connection is never torn down, the
queue of parsed requests is untouched until the last fragment and then has the
request appended once at its end, and the header list of the request is the
sequence of pairs in wire order. -/
theorem receive_complete (g : scgi_globals) (sock : Nat) (ds v : List Nat)
    (rest : List scgi_header) (body : List Nat) (frags : List (List Nat))
    (hw : well_formed ds v rest body) (hne : ∀ f ∈ frags, f ≠ [])
    (hcat : frags.flatten = wire_request ds (⟨CONTENT_LENGTH, v⟩ :: rest) body) :
    (∀ k, (scgi_receive_all (g, some (scgi_answer_the_phone_desc sock)) (frags.take k)).2
      ≠ none) ∧
    (∀ k, k < frags.length →
      (scgi_receive_all (g, some (scgi_answer_the_phone_desc sock)) (frags.take k)).1 = g) ∧
    ∃ d : scgi_desc,
      scgi_receive_all (g, some (scgi_answer_the_phone_desc sock)) frags
        = ({ g with first_scgi_unrecved_req := g.first_scgi_unrecved_req ++ [sock] }, some d) ∧
      d.req.headers = ⟨CONTENT_LENGTH, v⟩ :: rest := by
  obtain ⟨d, hp, -, -, hreq, -, -, -⟩ := parse_well_formed g sock ds v rest body hw
  have hall := receive_well_formed g sock ds v rest body frags hw hne hcat
  rw [hp] at hall
  refine ⟨fun k => ?_, fun k hk => ?_, d, hall, ?_⟩
  · by_cases hk : k < frags.length
    · obtain ⟨d1, -, h1⟩ := receive_well_formed_before g sock ds v rest body frags hw hne hcat k hk
      rw [h1]
      simp
    · rw [List.take_of_length_le (by omega), hall]
      simp
  · obtain ⟨d1, -, h1⟩ := receive_well_formed_before g sock ds v rest body frags hw hne hcat k hk
    rw [h1]
  · rw [hreq]
    exact recorded_request_headers sock v body.length rest

/-- C3, as stated, fails: for the well-formed request with `CONTENT_LENGTH` 3
and the body bytes `A`, NUL, `B`, which one read takes from the socket, the
parser reaches the end offset `true_header_length + 3` and the body of the
request is the single byte `A`. -/
theorem body_fidelity_counterexample :
    well_formed [50, 52] [51] [⟨SCGI, ONE⟩] [65, 0, 66] ∧
    (scgi_listen_all (sample_globals, some (scgi_answer_the_phone_desc 7))
        [(true, recv_result.data nul_body_stream)]).2.map
      (fun d => (decide ((d.parsed_chars : Int)
        = d.true_header_length + d.req.scgi_content_length), d.req.scgi_content_length,
        d.req.body))
      = some (true, 3, some [65]) ∧
    [65] ≠ [65, 0, 66] := by
  refine ⟨⟨by decide, by decide, by decide, by decide, by decide, by decide, by decide,
    by decide, by decide⟩, by decide, by decide⟩

/-- The body the parser stores for a well-formed request with a body of n > 0
bytes, fed fragment by fragment without regard to the capacity of the buffer:
when the parser reaches the end offset `true_header_length + n` the request is
linked into the queue and its body is the run of body bytes before the first
NUL among them: all n bytes when none of them is NUL. -/
theorem receive_body (g : scgi_globals) (sock : Nat) (ds v : List Nat)
    (rest : List scgi_header) (body : List Nat) (frags : List (List Nat))
    (hw : well_formed ds v rest body) (_hb : body ≠ []) (hne : ∀ f ∈ frags, f ≠ [])
    (hcat : frags.flatten = wire_request ds (⟨CONTENT_LENGTH, v⟩ :: rest) body) :
    ∃ d : scgi_desc,
      scgi_receive_all (g, some (scgi_answer_the_phone_desc sock)) frags
        = ({ g with first_scgi_unrecved_req := g.first_scgi_unrecved_req ++ [sock] }, some d) ∧
      d.req.scgi_content_length = (body.length : Int) ∧
      (d.parsed_chars : Int) = d.true_header_length + d.req.scgi_content_length ∧
      d.req.body = some (body.takeWhile (fun c => c != 0)) ∧
      ((∀ c ∈ body, c ≠ 0) → d.req.body = some body) := by
  obtain ⟨d, hp, -, hlen, hreq, -, hthl, -⟩ := parse_well_formed g sock ds v rest body hw
  have hall := receive_well_formed g sock ds v rest body frags hw hne hcat
  rw [hp] at hall
  have hcl : d.req.scgi_content_length = (body.length : Int) := by
    rw [hreq]
    exact recorded_request_content_length sock v body.length rest
  have hbody : d.req.body = some (body.takeWhile (fun c => c != 0)) := by
    rw [hreq]
    simp [cstr]
  refine ⟨d, hall, hcl, ?_, hbody, fun h0 => ?_⟩
  · rw [hlen, hthl, hcl, wire_request_length]
    omega
  · rw [hbody, List.takeWhile_eq_self_iff.2 (by simpa using h0)]

/-- C4, as stated, fails: on the stream of the scenario, with the length `70`
before a header block of 44 bytes, the parser, given the stream at once or
byte by byte, links no request into the queue and stores no body: it is still
reading a header name when the stream ends, 14 bytes short of offset 74. -/
theorem scenario_counterexample :
    (scgi_parse_input sample_globals
        { scgi_answer_the_phone_desc 7 with buf := scenario_stream }).1.first_scgi_unrecved_req
      = [] ∧
    (scgi_parse_input sample_globals
        { scgi_answer_the_phone_desc 7 with buf := scenario_stream }).2.map
      (fun d => (d.req.body, d.parser_state, d.parsed_chars, d.true_header_length))
      = some (none, SCGI_PARSE_HEADNAME, 60, 74) ∧
    (scgi_receive_all (sample_globals, some (scgi_answer_the_phone_desc 7))
        (scenario_stream.map (fun b => [b]))).1.first_scgi_unrecved_req = [] := by
  refine ⟨by decide, by decide, by decide⟩

/-- C4, amended. The end-to-end scenario with the length `44` of its header
block: the stream `44:`, the headers `CONTENT_LENGTH` with the value `12`,
`SCGI` with the value `1` and `REQUEST_METHOD` with the value `GET`, a comma,
and twelve body bytes none of which is NUL, however it is cut into fragments,
leaves the request in the queue with the method GET, the given bytes as its
body and those three headers, in that order, as its header list. -/
theorem scenario_with_length_44 (g : scgi_globals) (sock : Nat) (body : List Nat)
    (frags : List (List Nat)) (hlen : body.length = 12) (h0 : ∀ c ∈ body, c ≠ 0)
    (hne : ∀ f ∈ frags, f ≠ [])
    (hcat : frags.flatten
      = wire_request sample_digits (⟨CONTENT_LENGTH, sample_value⟩ :: sample_rest) body) :
    ∃ d : scgi_desc,
      scgi_receive_all (g, some (scgi_answer_the_phone_desc sock)) frags
        = ({ g with first_scgi_unrecved_req := g.first_scgi_unrecved_req ++ [sock] }, some d) ∧
      d.req.request_method = SCGI_METHOD_GET ∧
      d.req.body = some body ∧
      d.req.headers = [⟨CONTENT_LENGTH, sample_value⟩, ⟨SCGI, ONE⟩, ⟨REQUEST_METHOD, GET⟩] := by
  have hw : well_formed sample_digits sample_value sample_rest body :=
    ⟨by decide, by decide, by decide, by decide, by decide, by rw [hlen]; rfl, by decide,
      by decide, by rw [wire_request_length, hlen]; decide⟩
  obtain ⟨d, hp, -, -, hreq, -, -, -⟩ := parse_well_formed g sock sample_digits sample_value
    sample_rest body hw
  have hall := receive_well_formed g sock sample_digits sample_value sample_rest body frags
    hw hne hcat
  rw [hp] at hall
  refine ⟨d, hall, ?_, ?_, ?_⟩
  · rw [hreq]
    rfl
  · rw [hreq]
    simp only [cstr, List.drop_zero]
    rw [List.takeWhile_eq_self_iff.2 (by simpa using h0)]
  · rw [hreq]
    exact recorded_request_headers sock sample_value body.length sample_rest

/-- C4 amended, at the body `Hello World!` delivered in three fragments. -/
theorem scenario_with_length_44_witness :
    sample_body.length = 12 ∧ (∀ c ∈ sample_body, c ≠ 0) ∧
    (∀ f ∈ [sample_stream.take 1, (sample_stream.drop 1).take 1, sample_stream.drop 2],
      f ≠ []) ∧
    [sample_stream.take 1, (sample_stream.drop 1).take 1, sample_stream.drop 2].flatten
      = wire_request sample_digits (⟨CONTENT_LENGTH, sample_value⟩ :: sample_rest) sample_body ∧
    ∃ d : scgi_desc,
      scgi_receive_all (sample_globals, some (scgi_answer_the_phone_desc 7))
          [sample_stream.take 1, (sample_stream.drop 1).take 1, sample_stream.drop 2]
        = ({ sample_globals with
              first_scgi_unrecved_req := sample_globals.first_scgi_unrecved_req ++ [7] },
            some d) ∧
      d.req.request_method = SCGI_METHOD_GET ∧
      d.req.body = some sample_body ∧
      d.req.headers = [⟨CONTENT_LENGTH, sample_value⟩, ⟨SCGI, ONE⟩, ⟨REQUEST_METHOD, GET⟩] :=
  ⟨by decide, by decide, by decide, by decide,
    scenario_with_length_44 sample_globals 7 sample_body
      [sample_stream.take 1, (sample_stream.drop 1).take 1, sample_stream.drop 2]
      (by decide) (by decide) (by decide) (by decide)⟩

/-- The parser on a well-formed request whose first header announces a body of
no bytes, fed fragment by fragment without regard to the capacity of the
buffer: the parser is never in the Body state, the queue is untouched while
fragments are outstanding, and the parse call for the last fragment, the one
that consumes the closing comma, links the request into the queue with a body
that is present and empty. -/
theorem receive_zero_length (g : scgi_globals) (sock : Nat) (ds v : List Nat)
    (rest : List scgi_header) (frags : List (List Nat))
    (hw : well_formed ds v rest []) (hne : ∀ f ∈ frags, f ≠ [])
    (hcat : frags.flatten = wire_request ds (⟨CONTENT_LENGTH, v⟩ :: rest) []) :
    (∀ k, k < frags.length → ∃ dk : scgi_desc,
      scgi_receive_all (g, some (scgi_answer_the_phone_desc sock)) (frags.take k)
        = (g, some dk) ∧ dk.parser_state ≠ SCGI_PARSE_BODY) ∧
    ∃ d : scgi_desc,
      scgi_receive_all (g, some (scgi_answer_the_phone_desc sock)) frags
        = ({ g with first_scgi_unrecved_req := g.first_scgi_unrecved_req ++ [sock] }, some d) ∧
      d.req.scgi_content_length = 0 ∧ d.req.body = some [] ∧
      d.parser_state = SCGI_PARSE_HEADNAME ∧
      byteAt d.buf (d.parsed_chars - 1) = 44 ∧ d.parsed_chars = d.buf.length := by
  obtain ⟨d, hp, hrun, hlen, hreq, hst, -, hbuf⟩ := parse_well_formed g sock ds v rest [] hw
  have hall := receive_well_formed g sock ds v rest [] frags hw hne hcat
  rw [hp] at hall
  refine ⟨fun k hk => ?_, d, hall, ?_, ?_, ?_, ?_, ?_⟩
  · obtain ⟨d1, hd1, h1⟩ := receive_well_formed_before g sock ds v rest [] frags hw hne hcat k hk
    refine ⟨_, h1, fun hbody => ?_⟩
    have hsplit := flatten_take_drop frags k
    have hl : (wire_request ds (⟨CONTENT_LENGTH, v⟩ :: rest) []).length
        = (frags.take k).flatten.length + (frags.drop k).flatten.length := by
      rw [← hcat, hsplit]; simp
    rw [hl, run_add, hd1] at hrun
    dsimp only at hrun
    rcases run_body_stays g (frags.drop k).flatten.length d1 hbody with
      ⟨d2, h2, -⟩ | ⟨g2, d2, h2, h3⟩
    · rw [h2] at hrun
      simp at hrun
    · rw [h2] at hrun
      injection hrun with e1 e2
      injection e2 with e2
      subst e2
      rw [hst] at h3
      simp at h3
  · rw [hreq]
    exact recorded_request_content_length sock v 0 rest
  · rw [hreq]
    rfl
  · simpa using hst
  · rw [hlen, hbuf, wire_request_length]
    have := byteAt_append_cons (ds ++ [58] ++ wire_headers (⟨CONTENT_LENGTH, v⟩ :: rest)) [] 44
    simp only [List.length_append, List.length_singleton] at this
    simp only [List.length_nil, Nat.add_zero, Nat.add_sub_cancel]
    rw [← this]
    simp [wire_request]
  · rw [hlen, hbuf]

/-! ## The length of the header block -/

theorem first_byte_of_digits (ds post : List Nat) (hne : ds ≠ [])
    (hd : ∀ c ∈ ds, isdigit c = true) (hz : ds.head? ≠ some 48) :
    ¬ (byteAt (ds ++ post) 0 = 48 ∨ byteAt (ds ++ post) 0 = 58) := by
  cases ds with
  | nil => exact absurd rfl hne
  | cons c t =>
    have hc := (isdigit_iff c).1 (hd c (by simp))
    have hz2 : c ≠ 48 := by simpa using hz
    simp only [byteAt, List.cons_append, List.getD_cons_zero]
    omega

/-- The parser on a length and its colon, delivered at once. -/
theorem parse_length (g : scgi_globals) (sock : Nat) (ds : List Nat) (hne : ds ≠ [])
    (hd : ∀ c ∈ ds, isdigit c = true) (hz : ds.head? ≠ some 48) :
    scgi_parse_input g { scgi_answer_the_phone_desc sock with buf := ds ++ [58] }
      = (g, some { scgi_answer_the_phone_desc sock with
          buf := ds ++ [58]
          parsed_chars := ds.length + 1
          parser_state := SCGI_PARSE_HEADNAME
          true_header_length :=
            to_int ((strtoul ds + ds.length + 2) % 2 ^ 64)
          string_starts := ds.length + 1 }) := by
  rw [parse_input_eq_run g _ (parse_inv_fresh sock _) (by
    show 0 < (ds ++ [58]).length
    simp) (fun h => first_byte_of_digits ds [58] hne hd hz h.2)]
  show (scgi_parse_input_run ((ds ++ [58]).length - 0) g _).finish g = _
  rw [Nat.sub_zero, List.length_append, List.length_singleton, run_add,
    run_digits g _ ds [58] rfl rfl rfl hd]
  dsimp only
  rw [run_one, step_headlength_colon g _ rfl (byteAt_append_cons ds [] 58)]
  dsimp only
  rw [set_append_cons]
  have hc : cstr (ds ++ [0]) 0 = ds := cstr_nul ds [] (digits_nul_free ds hd)
  simp only [parse_result.finish, strlen, hc]

/-! ## What every reachable connection satisfies -/

theorem flag_inv_record (req : scgi_request) (name val : List Nat) (h : flag_inv req) :
    flag_inv (scgi_add_header_record req name val) := by
  obtain ⟨h1, h2⟩ := h
  unfold flag_inv
  rw [record_scgiheader, record_headers_eq]
  by_cases hc : name = SCGI ∧ val = ONE
  · rw [if_pos hc]
    obtain ⟨rfl, rfl⟩ := hc
    simp
  · rw [if_neg hc]
    refine ⟨?_, h2⟩
    rw [h1]
    constructor
    · intro hm
      exact List.mem_append_left _ hm
    · intro hm
      rcases List.mem_append.1 hm with hm | hm
      · exact hm
      · exfalso
        simp only [List.mem_singleton, scgi_header.mk.injEq] at hm
        exact hc ⟨hm.1.symm, hm.2.symm⟩

theorem add_header_req (g g1 : scgi_globals) (d d2 : scgi_desc) (name val : List Nat)
    (h : scgi_add_header g d name val = (g1, some d2)) :
    d2.req = scgi_add_header_record d.req name val ∨
    d2.req = scgi_add_header_record
      { d.req with scgi_content_length := to_int (strtoul val) } name val := by
  unfold scgi_add_header at h
  split_ifs at h
  · cases h
  · cases h
  · cases h
    exact Or.inr rfl
  · cases h
    exact Or.inl rfl

theorem add_header_flag_inv (g g1 : scgi_globals) (d d2 : scgi_desc) (name val : List Nat)
    (req : scgi_request) (hreq : d.req = req) (hf : flag_inv req)
    (h : scgi_add_header g d name val = (g1, some d2)) :
    flag_inv d2.req ∧ d2.req.headers ≠ [] := by
  subst hreq
  rcases add_header_req g g1 d d2 name val h with e | e
  · rw [e]
    exact ⟨flag_inv_record _ _ _ hf, by rw [record_headers_eq]; simp⟩
  · rw [e]
    exact ⟨flag_inv_record _ _ _ ⟨hf.1, hf.2⟩, by rw [record_headers_eq]; simp⟩

theorem byteAt_append_of_lt (buf data : List Nat) (i : Nat) (h : i < buf.length) :
    byteAt (buf ++ data) i = byteAt buf i := by
  have := byteAt_take (buf ++ data) buf.length i h
  rw [List.take_left' rfl] at this
  exact this.symm

theorem takeWhile_append_of_lt (p : Nat → Bool) (l m : List Nat)
    (h : (l.takeWhile p).length < l.length) : (l ++ m).takeWhile p = l.takeWhile p := by
  induction l with
  | nil => simp at h
  | cons a l ih =>
    by_cases hp : p a
    · simp only [List.takeWhile_cons, hp, if_true, List.length_cons,
        Nat.add_lt_add_iff_right] at h
      simp [List.takeWhile_cons, hp, ih h]
    · simp [List.takeWhile_cons, hp]

theorem strlen_append_of_lt (buf data : List Nat) (start : Nat)
    (h : start + strlen buf start < buf.length) :
    strlen (buf ++ data) start = strlen buf start := by
  unfold strlen cstr at h ⊢
  rw [List.drop_append_of_le_length (by omega)]
  rw [takeWhile_append_of_lt _ _ _ (by simp; omega)]

theorem reach_inv_fresh (caller : Nat) : reach_inv (scgi_answer_the_phone_desc caller) := by
  refine ⟨⟨Nat.le_refl _, fun h => by cases h⟩, Nat.le_refl _, ⟨?_, Or.inl rfl⟩, fun h => by cases h⟩
  simp [scgi_answer_the_phone_desc]

theorem reach_inv_received (d : scgi_desc) (data : List Nat) (h : reach_inv d) :
    reach_inv { d with buf := d.buf ++ data } := by
  obtain ⟨⟨hss, hval⟩, hlen, hflag, hname⟩ := h
  refine ⟨⟨hss, fun hst => ?_⟩, ?_, hflag, fun hst => ?_⟩
  · show d.string_starts + strlen (d.buf ++ data) d.string_starts < d.parsed_chars
    have := hval hst
    rw [strlen_append_of_lt _ _ _ (by omega)]
    exact this
  · show d.parsed_chars ≤ (d.buf ++ data).length
    simp; omega
  · obtain ⟨h1, h2⟩ := hname hst
    refine ⟨fun i (hi1 : d.string_starts ≤ i) (hi2 : i < d.parsed_chars) => ?_, fun hh => ?_⟩
    · show byteAt (d.buf ++ data) i ≠ 0
      rw [byteAt_append_of_lt _ _ _ (by omega)]
      exact h1 i hi1 hi2
    · obtain ⟨h3, h4⟩ := h2 hh
      refine ⟨h3, ?_⟩
      show byteAt (d.buf ++ data) (d.string_starts - 1) = 58
      rw [byteAt_append_of_lt _ _ _ (by omega)]
      exact h4

theorem reach_inv_round (g : scgi_globals) (d d1 : scgi_desc) (h : reach_inv d)
    (hlen : d.parsed_chars < d.buf.length) (hs : scgi_parse_input_step g d = next d1) :
    reach_inv d1 := by
  obtain ⟨hpi, hle, hflag, hname⟩ := h
  obtain ⟨hb, hp, -, hpi1⟩ := step_next g d d1 hpi hlen hs
  refine ⟨hpi1, by rw [hb, hp]; omega, ?_, ?_⟩
  · -- the flag
    cases hst : d.parser_state <;> simp only [scgi_parse_input_step, hst] at hs
    · split_ifs at hs <;> injection hs with hs <;> subst hs <;> exact hflag
    · split_ifs at hs <;> injection hs with hs <;> subst hs <;> exact hflag
    · split_ifs at hs
      · revert hs
        generalize hr : scgi_add_header g _ _ _ = r
        rcases r with ⟨g1, _ | d2⟩
        · intro hs; simp at hs
        · intro hs
          injection hs with hs
          subst hs
          have key := fun hq => add_header_flag_inv g g1 _ d2 _ _ d.req hq hflag hr
          exact (key rfl).1
      · injection hs with hs
        subst hs
        exact hflag
    · split_ifs at hs <;> injection hs with hs <;> subst hs <;> exact hflag
  · -- the name being read
    intro hst1
    cases hst : d.parser_state <;> simp only [scgi_parse_input_step, hst] at hs
    · split_ifs at hs with hc
      · injection hs with hs
        subst hs
        refine ⟨fun i hi1 hi2 => ?_, fun _ => ⟨by simp, ?_⟩⟩
        · simp only at hi1 hi2
          omega
        · simpa using hc
      · injection hs with hs
        subst hs
        simp at hst1
    · obtain ⟨h1, h2⟩ := hname hst
      split_ifs at hs with hc1 hc2 hc3 hc4 hc5 hc6
      · injection hs with hs
        subst hs
        cases hst1
      · injection hs with hs
        subst hs
        cases hst1
      · injection hs with hs
        subst hs
        refine ⟨fun i hi1 hi2 => ?_, h2⟩
        simp only at hi1 hi2
        by_cases hi : i = d.parsed_chars
        · rw [hi]; exact hc5
        · exact h1 i hi1 (by omega)
    · split_ifs at hs
      · revert hs
        generalize hr : scgi_add_header g _ _ _ = r
        rcases r with ⟨g1, _ | d2⟩
        · intro hs; simp at hs
        · intro hs
          injection hs with hs
          subst hs
          refine ⟨fun i hi1 hi2 => ?_, fun hh => ?_⟩
          · simp only at hi1 hi2
            have := (scgi_add_header_some _ _ _ _ _ _ hr).2
            rw [this] at hi2
            simp only at hi2
            omega
          · have key := fun hq => add_header_flag_inv g g1 _ d2 _ _ d.req hq hflag hr
            exact absurd hh (key rfl).2
      · injection hs with hs
        subst hs
        simp at hst1
    · split_ifs at hs <;> injection hs with hs <;> subst hs <;>
        simp at hst1
theorem reach_inv_returned (g g1 : scgi_globals) (d d1 : scgi_desc) (h : reach_inv d)
    (hlen : d.parsed_chars < d.buf.length)
    (hs : scgi_parse_input_step g d = ret g1 (some d1)) : reach_inv d1 := by
  obtain ⟨⟨hss, hval⟩, hle, hflag, hname⟩ := h
  cases hst : d.parser_state <;> simp only [scgi_parse_input_step, hst] at hs
  · split_ifs at hs <;> simp at hs
  · obtain ⟨h1, h2⟩ := hname hst
    split_ifs at hs with hc1 hc2 hc3 hc4 hc5 hc6
    · simp at hs
    · simp at hs
    · injection hs with e1 e2
      injection e2 with e2
      subst e2
      refine ⟨⟨Nat.le_succ_of_le hss, fun hh => by simp at hh⟩, hlen, ⟨hflag.1, hflag.2⟩,
        fun _ => ⟨fun i (hi1 : d.string_starts ≤ i) (hi2 : i < d.parsed_chars + 1) => ?_, h2⟩⟩
      show byteAt d.buf i ≠ 0
      by_cases hi : i = d.parsed_chars
      · rw [hi]
        have : byteAt d.buf d.parsed_chars = 44 := by
          by_contra hne
          exact hc2 (Or.inl hne)
        rw [this]
        decide
      · exact h1 i hi1 (by omega)
    · simp at hs
  · split_ifs at hs
    · simp at hs
    · revert hs
      generalize scgi_add_header g _ _ _ = r
      rcases r with ⟨g2, _ | d2⟩ <;> intro hs <;> simp at hs
  · split_ifs at hs
    · injection hs with e1 e2
      injection e2 with e2
      subst e2
      refine ⟨⟨Nat.le_succ_of_le hss, fun hh => by simp at hh⟩, ?_, ⟨hflag.1, hflag.2⟩,
        fun hh => by simp at hh⟩
      show d.parsed_chars + 1 ≤ (d.buf.set (d.parsed_chars + 1) 0).length
      rw [List.length_set]
      exact hlen

/-- Every connection of `reachable` satisfies `reach_inv`. -/
theorem reachable_inv (d : scgi_desc) (h : reachable d) : reach_inv d := by
  induction h with
  | fresh caller => exact reach_inv_fresh caller
  | received d data _ ih => exact reach_inv_received d data ih
  | round g d d1 _ hlen hs ih => exact reach_inv_round g d d1 ih hlen hs
  | returned g g1 d d1 _ hlen hs ih => exact reach_inv_returned g g1 d d1 ih hlen hs

theorem loop_reachable (fuel : Nat) (g g1 : scgi_globals) (d d1 : scgi_desc) (h : reachable d)
    (hl : scgi_parse_input_loop fuel g d = (g1, some d1)) : reachable d1 := by
  induction fuel generalizing d with
  | zero =>
    simp only [scgi_parse_input_loop] at hl
    injection hl with _ e
    injection e with e
    subst e
    exact h
  | succ n ih =>
    simp only [scgi_parse_input_loop, scgi_desc.buflen] at hl
    split_ifs at hl with hlt
    · rcases hs : scgi_parse_input_step g d with d0 | ⟨g0, r⟩
      · rw [hs] at hl
        exact ih d0 (reachable.round g d d0 h hlt hs) hl
      · rw [hs] at hl
        dsimp only at hl
        injection hl with e1 e2
        subst e1 e2
        exact reachable.returned g g0 d d1 h hlt hs
    · injection hl with _ e
      injection e with e
      subst e
      exact h

theorem parse_input_reachable (g g1 : scgi_globals) (d d1 : scgi_desc) (h : reachable d)
    (hp : scgi_parse_input g d = (g1, some d1)) : reachable d1 := by
  unfold scgi_parse_input at hp
  split_ifs at hp
  · injection hp with _ e
    injection e with e
    subst e
    exact h
  · simp at hp
  · exact loop_reachable _ g g1 d d1 h hp

/-- Whatever fragments the parser is fed with on a fresh connection, the
connection stays in `reachable`. -/
theorem receive_all_reachable (frags : List (List Nat)) :
    ∀ (s : scgi_globals × Option scgi_desc), (∀ d, s.2 = some d → reachable d) →
      ∀ d, (scgi_receive_all s frags).2 = some d → reachable d := by
  induction frags with
  | nil => intro s hs d hd; exact hs d hd
  | cons f rest ih =>
    intro s hs d hd
    rw [receive_all_cons] at hd
    refine ih (scgi_receive s f) (fun d0 hd0 => ?_) d hd
    rcases s with ⟨g, _ | d⟩
    · simp [scgi_receive] at hd0
    · simp only [scgi_receive] at hd0
      rcases hr : scgi_parse_input g { d with buf := d.buf ++ f } with ⟨g1, r⟩
      rw [hr] at hd0
      simp only at hd0
      subst hd0
      exact parse_input_reachable g g1 _ d0 (reachable.received d f (hs d rfl)) hr

/-- C9, as stated, fails: after the ten digits `4294967296` and the colon,
`true_header_length` is 12 and not 4294967296 + 10 + 2: the sum is stored in an
`int`. -/
theorem header_block_boundary_counterexample :
    decimal_value (huge_length_stream.take 10) = 4294967296 ∧
    (scgi_parse_input sample_globals
        { scgi_answer_the_phone_desc 7 with buf := huge_length_stream }).2.map
      (fun d => (d.parser_state, d.true_header_length))
      = some (SCGI_PARSE_HEADNAME, 12) ∧
    (12 : Int) ≠ 4294967296 + 10 + 2 := by
  refine ⟨by decide, by decide, by decide⟩

/-! ## Teardown and the queue -/

theorem kill_not_in_queue (g : scgi_globals) (d : scgi_desc)
    (hq : g.first_scgi_unrecved_req.Nodup) :
    d.sock ∉ (scgi_kill_socket g d).first_scgi_unrecved_req := by
  simp only [scgi_kill_socket, free_scgi_request, SCGI_UNLINK]
  split_ifs with h
  · exact hq.not_mem_erase
  · exact h

theorem step_boundary_no_flag (g : scgi_globals) (d : scgi_desc)
    (hst : d.parser_state = SCGI_PARSE_HEADNAME ∨ d.parser_state = SCGI_PARSE_HEADVAL)
    (hb : ((d.parsed_chars + 1 : Nat) : Int) = d.true_header_length)
    (hflag : d.req.scgi_scgiheader = 0) :
    scgi_parse_input_step g d = ret (scgi_kill_socket g d) none := by
  rcases hst with hst | hst
  · simp only [scgi_parse_input_step, hst]
    rw [if_pos hb]
    split_ifs <;> rfl
  · simp only [scgi_parse_input_step, hst]
    rw [if_pos hb]
    rfl

/-- The first-header rule as far as the code keeps it: when the first complete
name/value pair of a connection (no header recorded yet) has a name other than
`CONTENT_LENGTH` or a value that `scgi_is_number` rejects, `scgi_add_header`
returns 0 with the connection torn down and no header recorded; the round of
the parser that reads the NUL behind such a value returns with the connection
torn down; the request is not in the queue afterwards, and whatever bytes
follow change nothing. -/
theorem first_header_rule (g : scgi_globals) (d : scgi_desc) (name val : List Nat)
    (hq : g.first_scgi_unrecved_req.Nodup) (h0 : d.req.headers = [])
    (hbad : name ≠ CONTENT_LENGTH ∨ scgi_is_number val = false) :
    scgi_add_header g d name val = (scgi_kill_socket g d, none) ∧
    (d.parser_state = SCGI_PARSE_HEADVAL →
      ((d.parsed_chars + 1 : Nat) : Int) ≠ d.true_header_length →
      byteAt d.buf d.parsed_chars = 0 → cstr d.buf d.string_starts = name →
      cstr d.buf (d.string_starts + strlen d.buf d.string_starts + 1) = val →
      scgi_parse_input_step g d = ret (scgi_kill_socket g d) none) ∧
    d.sock ∉ (scgi_kill_socket g d).first_scgi_unrecved_req ∧
    (∀ frags, scgi_receive_all (scgi_add_header g d name val) frags
      = (scgi_kill_socket g d, none)) := by
  have hadd : ∀ d0 : scgi_desc, d0.req.headers = [] →
      scgi_add_header g d0 name val = (scgi_kill_socket g d0, none) := by
    intro d0 h00
    unfold scgi_add_header
    rw [if_pos h00, if_pos hbad]
  refine ⟨hadd d h0, fun hst hb hc hn hv => ?_, kill_not_in_queue g d hq, fun frags => ?_⟩
  · rw [step_headval_nul g d hst hb hc, hn, hv,
      hadd { d with parsed_chars := d.parsed_chars + 1 } h0]
    rfl
  · rw [hadd d h0, receive_all_none]

/-- The rule at a fresh connection and the pair `SCGI` with the value `1`. -/
theorem first_header_rule_witness :
    sample_globals.first_scgi_unrecved_req.Nodup ∧
    (scgi_answer_the_phone_desc 7).req.headers = [] ∧
    (SCGI ≠ CONTENT_LENGTH ∨ scgi_is_number ONE = false) ∧
    (scgi_add_header sample_globals (scgi_answer_the_phone_desc 7) SCGI ONE
      = (scgi_kill_socket sample_globals (scgi_answer_the_phone_desc 7), none) ∧
    ((scgi_answer_the_phone_desc 7).parser_state = SCGI_PARSE_HEADVAL →
      (((scgi_answer_the_phone_desc 7).parsed_chars + 1 : Nat) : Int)
        ≠ (scgi_answer_the_phone_desc 7).true_header_length →
      byteAt (scgi_answer_the_phone_desc 7).buf (scgi_answer_the_phone_desc 7).parsed_chars = 0 →
      cstr (scgi_answer_the_phone_desc 7).buf (scgi_answer_the_phone_desc 7).string_starts
        = SCGI →
      cstr (scgi_answer_the_phone_desc 7).buf ((scgi_answer_the_phone_desc 7).string_starts
        + strlen (scgi_answer_the_phone_desc 7).buf (scgi_answer_the_phone_desc 7).string_starts
        + 1) = ONE →
      scgi_parse_input_step sample_globals (scgi_answer_the_phone_desc 7)
        = ret (scgi_kill_socket sample_globals (scgi_answer_the_phone_desc 7)) none) ∧
    (scgi_answer_the_phone_desc 7).sock
      ∉ (scgi_kill_socket sample_globals (scgi_answer_the_phone_desc 7)).first_scgi_unrecved_req ∧
    (∀ frags, scgi_receive_all
        (scgi_add_header sample_globals (scgi_answer_the_phone_desc 7) SCGI ONE) frags
      = (scgi_kill_socket sample_globals (scgi_answer_the_phone_desc 7), none))) :=
  ⟨by decide, by decide, by decide,
    first_header_rule sample_globals (scgi_answer_the_phone_desc 7) SCGI ONE (by decide)
      (by decide) (by decide)⟩

/-- C5 against the code, at the value `-`.  The value is a minus sign and no
digit, so it is not a number, and `scgi_is_number` takes it for one.  On a
connection with no header yet, `scgi_add_header` with `CONTENT_LENGTH` and
this value does not return 0: it records the header with the length 0 and
leaves the connection alive.  And the stream that goes on with `SCGI` = `1`
and the comma puts the request into the queue, given at once or byte by byte,
with these two headers and an empty body. -/
theorem first_header_minus_accepted :
    scgi_is_number [45] = true ∧
    strtoul [45] = 0 ∧
    (scgi_add_header sample_globals (scgi_answer_the_phone_desc 7) CONTENT_LENGTH [45]).1
      = sample_globals ∧
    (scgi_add_header sample_globals (scgi_answer_the_phone_desc 7) CONTENT_LENGTH [45]).2.map
      (fun d => (d.req.headers, d.req.scgi_content_length, d.state))
      = some ([⟨CONTENT_LENGTH, [45]⟩], 0, SCGI_SOCKSTATE_READING_REQUEST) ∧
    (scgi_parse_input sample_globals
        { scgi_answer_the_phone_desc 7 with buf := minus_stream }).1.first_scgi_unrecved_req
      = [7] ∧
    (scgi_parse_input sample_globals
        { scgi_answer_the_phone_desc 7 with buf := minus_stream }).2.map
      (fun d => (d.req.headers, d.req.scgi_content_length, d.req.body))
      = some ([⟨CONTENT_LENGTH, [45]⟩, ⟨SCGI, ONE⟩], 0, some []) ∧
    (scgi_receive_all (sample_globals, some (scgi_answer_the_phone_desc 7))
        (minus_stream.map (fun b => [b]))).1.first_scgi_unrecved_req = [7] := by
  refine ⟨by decide, by decide, by decide, by decide, by decide, by decide, by decide⟩

/-- C6. SCGI marker rule: for every reachable connection the flag
`scgi_scgiheader` is 1 exactly when a header `SCGI` with the value `1` has been
recorded; and a reachable connection that has recorded no such header and
stands, reading a name or a value, before the byte at the end offset of the
header block is torn down by the parse call for the next bytes, at that byte
and whatever it is: the request is not in the queue afterwards and never gets
there. -/
theorem scgi_marker_rule (g : scgi_globals) (d : scgi_desc) (data : List Nat)
    (hr : reachable d) (hno : (⟨SCGI, ONE⟩ : scgi_header) ∉ d.req.headers)
    (hst : d.parser_state = SCGI_PARSE_HEADNAME ∨ d.parser_state = SCGI_PARSE_HEADVAL)
    (hb : ((d.parsed_chars + 1 : Nat) : Int) = d.true_header_length)
    (hall : d.parsed_chars = d.buf.length) (hdata : data ≠ [])
    (hq : g.first_scgi_unrecved_req.Nodup) :
    (∀ d0, reachable d0 →
      (d0.req.scgi_scgiheader = 1 ↔ (⟨SCGI, ONE⟩ : scgi_header) ∈ d0.req.headers)) ∧
    d.req.scgi_scgiheader = 0 ∧
    scgi_parse_input_step g { d with buf := d.buf ++ data } = ret (scgi_kill_socket g d) none ∧
    scgi_receive (g, some d) data = (scgi_kill_socket g d, none) ∧
    d.sock ∉ (scgi_kill_socket g d).first_scgi_unrecved_req ∧
    (∀ frags, scgi_receive_all (scgi_receive (g, some d) data) frags
      = (scgi_kill_socket g d, none)) := by
  have hinv := fun d0 (h0 : reachable d0) => (reachable_inv d0 h0).2.2.1
  have hflag : d.req.scgi_scgiheader = 0 := by
    obtain ⟨h1, h2⟩ := hinv d hr
    rcases h2 with h2 | h2
    · exact h2
    · exact absurd (h1.1 h2) hno
  have hstep : scgi_parse_input_step g { d with buf := d.buf ++ data }
      = ret (scgi_kill_socket g d) none :=
    step_boundary_no_flag g { d with buf := d.buf ++ data } hst hb hflag
  have hrecv : scgi_receive (g, some d) data = (scgi_kill_socket g d, none) := by
    have hdl : 0 < data.length := List.length_pos.mpr hdata
    simp only [scgi_receive, scgi_parse_input, scgi_desc.buflen, List.length_append]
    rw [if_neg (by omega)]
    split_ifs
    · rfl
    · rw [show d.buf.length + data.length - d.parsed_chars = (data.length - 1) + 1 by omega]
      simp only [scgi_parse_input_loop, scgi_desc.buflen, List.length_append]
      rw [if_pos (by omega), hstep]
  refine ⟨fun d0 h0 => (hinv d0 h0).1, hflag, hstep, hrecv, kill_not_in_queue g d hq,
    fun frags => ?_⟩
  rw [hrecv, receive_all_none]

theorem no_marker_desc_reachable : reachable no_marker_desc :=
  receive_all_reachable [[49, 55, 58] ++ wire_header ⟨CONTENT_LENGTH, [48]⟩]
    (sample_globals, some (scgi_answer_the_phone_desc 7))
    (fun d hd => by
      simp only [Option.some.injEq] at hd
      subst hd
      exact reachable.fresh 7)
    no_marker_desc (by decide)

/-- C6, at the connection that has read `17:` and the one header
`CONTENT_LENGTH` with the value `0`, when a comma arrives. -/
theorem scgi_marker_rule_witness :
    reachable no_marker_desc ∧
    (⟨SCGI, ONE⟩ : scgi_header) ∉ no_marker_desc.req.headers ∧
    (no_marker_desc.parser_state = SCGI_PARSE_HEADNAME ∨
      no_marker_desc.parser_state = SCGI_PARSE_HEADVAL) ∧
    ((no_marker_desc.parsed_chars + 1 : Nat) : Int) = no_marker_desc.true_header_length ∧
    no_marker_desc.parsed_chars = no_marker_desc.buf.length ∧ [44] ≠ [] ∧
    sample_globals.first_scgi_unrecved_req.Nodup ∧
    ((∀ d0, reachable d0 →
      (d0.req.scgi_scgiheader = 1 ↔ (⟨SCGI, ONE⟩ : scgi_header) ∈ d0.req.headers)) ∧
    no_marker_desc.req.scgi_scgiheader = 0 ∧
    scgi_parse_input_step sample_globals { no_marker_desc with buf := no_marker_desc.buf ++ [44] }
      = ret (scgi_kill_socket sample_globals no_marker_desc) none ∧
    scgi_receive (sample_globals, some no_marker_desc) [44]
      = (scgi_kill_socket sample_globals no_marker_desc, none) ∧
    no_marker_desc.sock ∉ (scgi_kill_socket sample_globals no_marker_desc).first_scgi_unrecved_req ∧
    (∀ frags, scgi_receive_all (scgi_receive (sample_globals, some no_marker_desc) [44]) frags
      = (scgi_kill_socket sample_globals no_marker_desc, none))) :=
  ⟨no_marker_desc_reachable, by decide, by decide, by decide, by decide, by decide, by decide,
    scgi_marker_rule sample_globals no_marker_desc [44] no_marker_desc_reachable (by decide)
      (by decide) (by decide) (by decide) (by decide) (by decide)⟩

/-! ## The length before the colon -/

theorem parse_first_byte_kill (g : scgi_globals) (sock : Nat) (s : List Nat)
    (h : s.head? = some 48 ∨ s.head? = some 58) :
    scgi_parse_input g { scgi_answer_the_phone_desc sock with buf := s }
      = (scgi_kill_socket g (scgi_answer_the_phone_desc sock), none) := by
  cases s with
  | nil => simp at h
  | cons c t =>
    simp only [List.head?_cons, Option.some.injEq] at h
    simp only [scgi_parse_input, scgi_desc.buflen]
    rw [if_neg (by
      show (0 : Nat) ≠ (c :: t).length
      simp), if_pos ⟨rfl, by simpa [byteAt] using h⟩]
    rfl

theorem parse_digits_only (g : scgi_globals) (sock : Nat) (s : List Nat) (hne : s ≠ [])
    (hd : ∀ c ∈ s, isdigit c = true) (hz : s.head? ≠ some 48) :
    scgi_parse_input g { scgi_answer_the_phone_desc sock with buf := s }
      = (g, some { scgi_answer_the_phone_desc sock with buf := s, parsed_chars := s.length }) := by
  have hf := first_byte_of_digits s [] hne hd hz
  rw [List.append_nil] at hf
  rw [parse_input_eq_run g _ (parse_inv_fresh sock _) (by
    show 0 < s.length
    exact List.length_pos.mpr hne) (fun h => hf h.2)]
  show (scgi_parse_input_run (s.length - 0) g _).finish g = _
  rw [Nat.sub_zero, run_digits g _ s [] rfl (by simp) rfl hd]
  rfl

theorem parse_bad_length (g : scgi_globals) (sock : Nat) (ds post : List Nat) (b : Nat)
    (hd : ∀ c ∈ ds, isdigit c = true) (hb : isdigit b = false) (hb2 : b ≠ 58) :
    scgi_parse_input g { scgi_answer_the_phone_desc sock with buf := ds ++ b :: post }
      = (scgi_kill_socket g (scgi_answer_the_phone_desc sock), none) := by
  by_cases hhead : (ds ++ b :: post).head? = some 48 ∨ (ds ++ b :: post).head? = some 58
  · exact parse_first_byte_kill g sock _ hhead
  · rw [parse_input_eq_run g _ (parse_inv_fresh sock _) (by
      show 0 < (ds ++ b :: post).length
      simp) (fun h => hhead (by
        rcases hl : ds ++ b :: post with _ | ⟨c, t⟩
        · simp at hl
        · have h2 := h.2
          simp only [] at h2
          rw [hl] at h2
          simpa [byteAt] using h2))]
    show (scgi_parse_input_run ((ds ++ b :: post).length - 0) g _).finish g = _
    rw [Nat.sub_zero, show (ds ++ b :: post).length = ds.length + (1 + post.length) by
      simp; omega, run_add, run_digits g _ ds (b :: post) rfl rfl rfl hd]
    dsimp only
    rw [run_add, run_one]
    have hb3 : ¬ (48 ≤ b ∧ b ≤ 57) := by
      rw [← isdigit_iff, hb]; simp
    have hstep : scgi_parse_input_step g { scgi_answer_the_phone_desc sock with
        buf := ds ++ b :: post, parsed_chars := ds.length }
        = ret (scgi_kill_socket g (scgi_answer_the_phone_desc sock)) none := by
      simp only [scgi_parse_input_step]
      rw [byteAt_append_cons, if_neg hb2, if_pos (by omega)]
      rfl
    rw [hstep]
    rfl

theorem digits_or_split (s : List Nat) :
    (∀ c ∈ s, isdigit c = true) ∨
    ∃ ds b post, s = ds ++ b :: post ∧ (∀ c ∈ ds, isdigit c = true) ∧ isdigit b = false := by
  induction s with
  | nil => left; simp
  | cons a t ih =>
    by_cases ha : isdigit a = true
    · rcases ih with h | ⟨ds, b, post, h1, h2, h3⟩
      · left
        intro c hc
        rcases List.mem_cons.1 hc with rfl | hc
        · exact ha
        · exact h c hc
      · right
        refine ⟨a :: ds, b, post, by rw [h1]; rfl, ?_, h3⟩
        intro c hc
        rcases List.mem_cons.1 hc with rfl | hc
        · exact ha
        · exact h2 c hc
    · right
      exact ⟨[], a, t, rfl, by simp, by simpa using ha⟩

theorem first_bad_byte (pre post : List Nat) (b : Nat) (hpre : 58 ∉ pre) (hb : isdigit b = false)
    (hb2 : b ≠ 58) :
    ∃ ds b1 post1, pre ++ b :: post = ds ++ b1 :: post1 ∧ (∀ c ∈ ds, isdigit c = true) ∧
      isdigit b1 = false ∧ b1 ≠ 58 := by
  induction pre with
  | nil => exact ⟨[], b, post, rfl, by simp, hb, hb2⟩
  | cons a t ih =>
    have ha : a ≠ 58 := fun h => hpre (by simp [h])
    by_cases hda : isdigit a = true
    · obtain ⟨ds, b1, post1, h1, h2, h3, h4⟩ := ih (fun h => hpre (by simp [h]))
      refine ⟨a :: ds, b1, post1, by simp [h1], ?_, h3, h4⟩
      intro c hc
      rcases List.mem_cons.1 hc with rfl | hc
      · exact hda
      · exact h2 c hc
    · exact ⟨[], a, t ++ b :: post, rfl, by simp, by simpa using hda, ha⟩
theorem flatten_eq_nil_of_ne (frags : List (List Nat)) (hne : ∀ f ∈ frags, f ≠ [])
    (h : frags.flatten = []) : frags = [] := by
  cases frags with
  | nil => rfl
  | cons f rest =>
    exfalso
    have hf := hne f (by simp)
    simp only [List.flatten_cons, List.append_eq_nil] at h
    exact hf h.1

/-- The length before the colon, for every stream fed to the parser fragment by
fragment without regard to the capacity of the buffer.  A stream of one or more
digits, the first not `0`, and a colon leaves the parser alive in HeaderName.
The parser is alive and out of HeaderLength only if the stream begins with one
or more digits, the first not `0`, followed by a colon.  And if the first byte
is `0` or a colon, or a byte that is not a digit comes before the first colon,
the connection is torn down and its request is not in the queue. -/
theorem receive_length_validation (g : scgi_globals) (sock : Nat) (frags : List (List Nat))
    (hne : ∀ f ∈ frags, f ≠ []) (hq : g.first_scgi_unrecved_req.Nodup) :
    (∀ ds, frags.flatten = ds ++ [58] → ds ≠ [] → (∀ c ∈ ds, isdigit c = true) →
      ds.head? ≠ some 48 →
      ∃ d : scgi_desc,
        scgi_receive_all (g, some (scgi_answer_the_phone_desc sock)) frags = (g, some d) ∧
        d.parser_state = SCGI_PARSE_HEADNAME) ∧
    (∀ g1 d, scgi_receive_all (g, some (scgi_answer_the_phone_desc sock)) frags = (g1, some d) →
      d.parser_state ≠ SCGI_PARSE_HEADLENGTH →
      ∃ ds post, frags.flatten = ds ++ 58 :: post ∧ ds ≠ [] ∧ (∀ c ∈ ds, isdigit c = true) ∧
        ds.head? ≠ some 48) ∧
    ((frags.flatten.head? = some 48 ∨ frags.flatten.head? = some 58 ∨
        ∃ pre b post, frags.flatten = pre ++ b :: post ∧ 58 ∉ pre ∧ b ≠ 58 ∧
          isdigit b = false) →
      scgi_receive_all (g, some (scgi_answer_the_phone_desc sock)) frags
        = (scgi_kill_socket g (scgi_answer_the_phone_desc sock), none) ∧
      sock ∉ (scgi_kill_socket g (scgi_answer_the_phone_desc sock)).first_scgi_unrecved_req) := by
  have hkill : ∀ s, frags.flatten = s →
      scgi_parse_input g { scgi_answer_the_phone_desc sock with buf := s }
        = (scgi_kill_socket g (scgi_answer_the_phone_desc sock), none) →
      scgi_receive_all (g, some (scgi_answer_the_phone_desc sock)) frags
        = (scgi_kill_socket g (scgi_answer_the_phone_desc sock), none) := by
    intro s hs hp
    rw [receive_all_fresh g sock s frags hne hs (Or.inl (by rw [hp])), hp]
  refine ⟨fun ds hcat hne0 hd hz => ?_, fun g1 d hres hst => ?_, fun hbad => ?_⟩
  · have hp := parse_length g sock ds hne0 hd hz
    have hall := receive_all_fresh g sock (ds ++ [58]) frags hne hcat
      (Or.inr ⟨_, by rw [hp], by simp⟩)
    rw [hp] at hall
    exact ⟨_, hall, rfl⟩
  · rcases digits_or_split frags.flatten with hd | ⟨ds, b, post, hs, hd, hb⟩
    · -- nothing but digits
      exfalso
      by_cases hnil : frags.flatten = []
      · have := flatten_eq_nil_of_ne frags hne hnil
        subst this
        simp only [scgi_receive_all, List.foldl_nil, Prod.mk.injEq, Option.some.injEq] at hres
        rw [← hres.2] at hst
        exact hst rfl
      · by_cases hz : frags.flatten.head? = some 48
        · rw [hkill _ rfl (parse_first_byte_kill g sock _ (Or.inl hz))] at hres
          simp at hres
        · have hp := parse_digits_only g sock frags.flatten hnil hd hz
          rw [receive_all_fresh g sock _ frags hne rfl (Or.inr ⟨_, by rw [hp], rfl⟩), hp] at hres
          simp only [Prod.mk.injEq, Option.some.injEq] at hres
          rw [← hres.2] at hst
          exact hst rfl
    · by_cases hb2 : b = 58
      · subst hb2
        by_cases hhead : frags.flatten.head? = some 48 ∨ frags.flatten.head? = some 58
        · exfalso
          rw [hkill _ rfl (parse_first_byte_kill g sock _ hhead)] at hres
          simp at hres
        · refine ⟨ds, post, hs, ?_, hd, ?_⟩
          · rintro rfl
            exact hhead (Or.inr (by rw [hs]; rfl))
          · intro h48
            apply hhead
            left
            rw [hs]
            cases ds with
            | nil => simp at h48
            | cons c t => simpa using h48
      · exfalso
        rw [hkill _ hs (parse_bad_length g sock ds post b hd hb hb2)] at hres
        simp at hres
  · refine ⟨?_, kill_not_in_queue g (scgi_answer_the_phone_desc sock) hq⟩
    rcases hbad with h | h | ⟨pre, b, post, hs, hpre, hb2, hb⟩
    · exact hkill _ rfl (parse_first_byte_kill g sock _ (Or.inl h))
    · exact hkill _ rfl (parse_first_byte_kill g sock _ (Or.inr h))
    · obtain ⟨ds, b1, post1, h1, h2, h3, h4⟩ := first_bad_byte pre post b hpre hb hb2
      exact hkill _ (hs.trans h1) (parse_bad_length g sock ds post1 b1 h2 h3 h4)

/-! ## Handing out requests -/

theorem foldl_link_queue (pass : List Nat) (s : scgi_library) :
    (pass.foldl link_unrecved s).globals.first_scgi_unrecved_req
      = s.globals.first_scgi_unrecved_req ++ pass := by
  induction pass generalizing s with
  | nil => simp
  | cons r rest ih =>
    simp only [List.foldl_cons]
    rw [ih]
    simp [link_unrecved, SCGI_LINK]

theorem recv_queue (upd : scgi_library → scgi_library) (s : scgi_library) :
    (scgi_recv upd s).1.toList ++ (scgi_recv upd s).2.globals.first_scgi_unrecved_req
      = (if s.globals.first_scgi_unrecved_req = [] then upd s
          else s).globals.first_scgi_unrecved_req := by
  simp only [scgi_recv]
  rcases h : (if s.globals.first_scgi_unrecved_req = [] then upd s
      else s).globals.first_scgi_unrecved_req with _ | ⟨req, rest⟩
  · simp [h]
  · simp [SCGI_UNLINK]

theorem host_step_inv (q0 : List Nat) (t : host_trace) (e : host_event)
    (h : t.returned ++ t.lib.globals.first_scgi_unrecved_req = q0 ++ t.completed) :
    (host_step t e).returned ++ (host_step t e).lib.globals.first_scgi_unrecved_req
      = q0 ++ (host_step t e).completed := by
  cases e with
  | completed req =>
    simp only [host_step, link_unrecved, SCGI_LINK]
    rw [← List.append_assoc, h, List.append_assoc]
  | recv pass =>
    simp only [host_step]
    rw [List.append_assoc, recv_queue]
    split_ifs with hq
    · rw [foldl_link_queue, hq, List.nil_append, ← List.append_assoc, ← h, hq, List.append_nil]
    · exact h

theorem host_run_inv (q0 : List Nat) (events : List host_event) :
    ∀ t : host_trace, t.returned ++ t.lib.globals.first_scgi_unrecved_req = q0 ++ t.completed →
      (events.foldl host_step t).returned
          ++ (events.foldl host_step t).lib.globals.first_scgi_unrecved_req
        = q0 ++ (events.foldl host_step t).completed := by
  induction events with
  | nil => intro t h; exact h
  | cons e rest ih =>
    intro t h
    exact ih (host_step t e) (host_step_inv q0 t e h)

/-- C10. FIFO fetch.  `scgi_recv` makes a multiplexer pass only if the queue
is empty on entry (with a request queued, its result does not depend on the
pass); it returns NULL exactly when the queue is empty after that; otherwise
it returns the request at the head of the queue, the one linked earliest,
takes it out of the queue and sets the state of its connection to
WRITING_RESPONSE.  Over any sequence of completions and calls, the requests
handed out, followed by those still queued, are the requests queued at the
start followed by the completed ones, in the order of their completion: what
is handed out is handed out in that order, and no request twice when none was
completed twice. -/
theorem fifo_fetch (upd : scgi_library → scgi_library) (s : scgi_library)
    (events : List host_event) :
    (s.globals.first_scgi_unrecved_req ≠ [] → scgi_recv upd s = scgi_recv id s) ∧
    ((scgi_recv upd s).1 = none ↔
      (if s.globals.first_scgi_unrecved_req = [] then upd s
        else s).globals.first_scgi_unrecved_req = []) ∧
    (∀ req rest,
      (if s.globals.first_scgi_unrecved_req = [] then upd s
        else s).globals.first_scgi_unrecved_req = req :: rest →
      (scgi_recv upd s).1 = some req ∧
      (scgi_recv upd s).2.globals.first_scgi_unrecved_req = rest ∧
      ((req :: rest).Nodup → req ∉ (scgi_recv upd s).2.globals.first_scgi_unrecved_req) ∧
      (∀ p ∈ (scgi_recv upd s).2.ports, ∀ d ∈ p.descs, d.sock = req →
        d.state = SCGI_SOCKSTATE_WRITING_RESPONSE)) ∧
    ((host_run s events).returned ++ (host_run s events).lib.globals.first_scgi_unrecved_req
      = s.globals.first_scgi_unrecved_req ++ (host_run s events).completed) ∧
    ((host_run s events).returned
      <+: s.globals.first_scgi_unrecved_req ++ (host_run s events).completed) ∧
    ((s.globals.first_scgi_unrecved_req ++ (host_run s events).completed).Nodup →
      (host_run s events).returned.Nodup) := by
  have hrun : (host_run s events).returned
        ++ (host_run s events).lib.globals.first_scgi_unrecved_req
      = s.globals.first_scgi_unrecved_req ++ (host_run s events).completed :=
    host_run_inv s.globals.first_scgi_unrecved_req events
      { lib := s, returned := [], completed := [] } (by simp)
  refine ⟨fun hq => ?_, ?_, fun req rest hq => ?_, hrun, ⟨_, hrun⟩, fun hnd => ?_⟩
  · simp only [scgi_recv, if_neg hq]
  · simp only [scgi_recv]
    rcases h : (if s.globals.first_scgi_unrecved_req = [] then upd s
        else s).globals.first_scgi_unrecved_req with _ | ⟨req, rest⟩
    · simp [h]
    · simp
  · have e : scgi_recv upd s = (some req,
        { ports := set_writing_response req
            (if s.globals.first_scgi_unrecved_req = [] then upd s else s).ports
          globals := { (if s.globals.first_scgi_unrecved_req = [] then upd s else s).globals with
            first_scgi_unrecved_req := rest } }) := by
      simp only [scgi_recv, hq, SCGI_UNLINK, List.erase_cons_head]
    rw [e]
    refine ⟨rfl, rfl, fun hnd => (List.nodup_cons.1 hnd).1, fun p hp d hd hsock => ?_⟩
    simp only [set_writing_response, List.mem_map] at hp
    obtain ⟨p0, -, rfl⟩ := hp
    simp only [List.mem_map] at hd
    obtain ⟨d0, -, rfl⟩ := hd
    split_ifs at hsock ⊢ with h0
    · rfl
    · exact absurd hsock h0
  · rw [← hrun] at hnd
    exact (List.nodup_append.1 hnd).1

/-! ## The list macros: pointers against lists -/

theorem chained_frame (l l1 : scgi_links) (xs : List Nat) (before : Option Nat)
    (h : chained l before xs)
    (hsame : ∀ x ∈ xs, l1.next x = l.next x ∧ l1.prev x = l.prev x) :
    chained l1 before xs := by
  induction xs generalizing before with
  | nil => trivial
  | cons x rest ih =>
    obtain ⟨h1, h2, h3⟩ := h
    obtain ⟨e1, e2⟩ := hsame x (by simp)
    exact ⟨e2.trans h1, e1.trans h2, ih (some x) h3 (fun y hy => hsame y (by simp [hy]))⟩

theorem chained_link (l l1 : scgi_links) (link k : Nat) (xs : List Nat) (before : Option Nat)
    (h : chained l before xs) (hlast : xs.getLast? = some k) (hnew : link ∉ xs)
    (hnd : xs.Nodup)
    (hnext : l1.next = Function.update (Function.update l.next k (some link)) link none)
    (hprev : l1.prev = Function.update l.prev link (some k)) :
    chained l1 before (xs ++ [link]) := by
  induction xs generalizing before with
  | nil => simp at hlast
  | cons x rest ih =>
    obtain ⟨h1, h2, h3⟩ := h
    have hx : x ≠ link := fun e => hnew (by simp [e])
    cases rest with
    | nil =>
      simp only [List.getLast?_singleton, Option.some.injEq] at hlast
      subst hlast
      refine ⟨?_, ?_, ?_, ?_, trivial⟩
      · rw [hprev, Function.update_noteq hx]; exact h1
      · rw [hnext, Function.update_noteq hx, Function.update_same]; rfl
      · rw [hprev, Function.update_same]
      · rw [hnext, Function.update_same]; rfl
    | cons y r =>
      have hk : k ∈ y :: r := by
        have := List.getLast?_cons_cons ▸ hlast
        exact List.mem_of_getLast?_eq_some this
      have hxk : x ≠ k := fun e => (List.nodup_cons.1 hnd).1 (e ▸ hk)
      refine ⟨?_, ?_, ?_⟩
      · rw [hprev, Function.update_noteq hx]; exact h1
      · rw [hnext, Function.update_noteq hx, Function.update_noteq hxk]; exact h2
      · exact ih (some x) h3 (by rw [← hlast, List.getLast?_cons_cons])
          (fun hm => hnew (by simp only [List.mem_cons] at hm ⊢; exact Or.inr hm))
          (List.nodup_cons.1 hnd).2

/-- The macro `SCGI_LINK` on pointers puts the record at the end of the list:
it is the list operation `SCGI_LINK`. -/
theorem SCGI_LINK_ptr_holds (l : scgi_links) (xs : List Nat) (link : Nat)
    (h : holds_list l xs) (hnew : link ∉ xs) :
    holds_list (SCGI_LINK_ptr link l) (SCGI_LINK link xs) := by
  obtain ⟨hnd, hfirst, hlast, hch⟩ := h
  cases xs with
  | nil =>
    simp only [List.head?_nil] at hfirst
    simp only [SCGI_LINK_ptr, hfirst, SCGI_LINK, List.nil_append]
    refine ⟨by simp, rfl, rfl, ?_, ?_, trivial⟩
    · simp
    · simp
  | cons x rest =>
    simp only [List.head?_cons] at hfirst
    obtain ⟨k, hk⟩ : ∃ k, (x :: rest).getLast? = some k := by
      cases hg : (x :: rest).getLast? with
      | none => simp at hg
      | some k => exact ⟨k, rfl⟩
    rw [hk] at hlast
    have hx : x ≠ link := fun e => hnew (by simp [e])
    have hfl : ¬ (some x = some link) := by simpa using hx
    simp only [SCGI_LINK_ptr, hfirst, hlast, SCGI_LINK, if_neg hfl]
    refine ⟨?_, rfl, ?_, ?_⟩
    · rw [List.nodup_append]
      exact ⟨hnd, by simp, by simpa using hnew⟩
    · rw [List.getLast?_append]; rfl
    · exact chained_link l _ link k (x :: rest) none hch hk hnew hnd rfl rfl
theorem SCGI_UNLINK_ptr_eq (l : scgi_links) (x : Nat)
    (hp : l.prev x ≠ some x) (hn : l.next x ≠ some x) :
    SCGI_UNLINK_ptr x l =
      { first := if l.prev x = none then l.next x else l.first,
        last := if l.next x = none then l.prev x else l.last,
        next := fun n => if l.prev x = some n then l.next x else l.next n,
        prev := fun n => if l.next x = some n then l.prev x else l.prev n } := by
  cases hp1 : l.prev x with
  | none =>
    cases hn1 : l.next x with
    | none =>
      simp [SCGI_UNLINK_ptr, hp1, hn1]
    | some f =>
      have hfx : f ≠ x := fun e => hn (by rw [hn1, e])
      have hxf : x ≠ f := fun e => hfx e.symm
      simp only [SCGI_UNLINK_ptr, hp1, hn1, Function.update_noteq hxf, Function.update_idem,
        if_true, reduceCtorEq, if_false, Option.some.injEq]
      congr 1
      funext n
      by_cases e : f = n
      · subst e; simp
      · rw [if_neg e, Function.update_noteq (fun h => e h.symm)]
  | some p =>
    have hpx : p ≠ x := fun e => hp (by rw [hp1, e])
    have hxp : x ≠ p := fun e => hpx e.symm
    cases hn1 : l.next x with
    | none =>
      simp only [SCGI_UNLINK_ptr, hp1, hn1, Function.update_noteq hxp, Function.update_idem,
        if_true, reduceCtorEq, if_false, Option.some.injEq]
      congr 1
      funext n
      by_cases e : p = n
      · subst e; simp
      · rw [if_neg e, Function.update_noteq (fun h => e h.symm)]
    | some f =>
      simp only [SCGI_UNLINK_ptr, hp1, hn1, Function.update_noteq hxp,
        if_true, reduceCtorEq, if_false, Option.some.injEq]
      congr 1
      · funext n
        by_cases e : p = n
        · subst e; simp
        · rw [if_neg e, Function.update_noteq (fun h => e h.symm)]
      · funext n
        by_cases e : f = n
        · subst e; simp
        · rw [if_neg e, Function.update_noteq (fun h => e h.symm)]
theorem chained_mid (l : scgi_links) (x : Nat) (A B : List Nat) (before : Option Nat)
    (h : chained l before (A ++ x :: B)) :
    (A = [] → l.prev x = before) ∧ (∀ a, A.getLast? = some a → l.prev x = some a) ∧
      l.next x = B.head? := by
  induction A generalizing before with
  | nil => exact ⟨fun _ => h.1, fun a ha => by simp at ha, h.2.1⟩
  | cons a A ih =>
    obtain ⟨-, -, h3⟩ := h
    obtain ⟨i1, i2, i3⟩ := ih (some a) h3
    refine ⟨fun e => by simp at e, fun b hb => ?_, i3⟩
    cases A with
    | nil =>
      simp only [List.getLast?_singleton, Option.some.injEq] at hb
      rw [i1 rfl, hb]
    | cons c A => exact i2 b (by rw [← hb, List.getLast?_cons_cons])

theorem chained_unlink (l l1 : scgi_links) (x : Nat) (A B : List Nat) (before : Option Nat)
    (h : chained l before (A ++ x :: B)) (hnd : (A ++ x :: B).Nodup)
    (hout : ∀ a, before = some a → a ∉ A ++ x :: B)
    (hnext : ∀ n, l1.next n = if l.prev x = some n then l.next x else l.next n)
    (hprev : ∀ n, l1.prev n = if l.next x = some n then l.prev x else l.prev n) :
    chained l1 before (A ++ B) := by
  induction A generalizing before with
  | nil =>
    obtain ⟨h1, h2, h3⟩ := h
    simp only [List.nil_append] at hnd hout ⊢
    have hxB : x ∉ B := (List.nodup_cons.1 hnd).1
    cases B with
    | nil => trivial
    | cons b B =>
      obtain ⟨k1, k2, k3⟩ := h3
      have hbB : b ∉ B := (List.nodup_cons.1 (List.nodup_cons.1 hnd).2).1
      have hpb : ¬ l.prev x = some b := by
        rw [h1]; intro e; exact hout b e (by simp)
      refine ⟨?_, ?_, ?_⟩
      · rw [hprev, h2]; simp [h1]
      · rw [hnext, if_neg hpb]; exact k2
      · refine chained_frame l l1 B (some b) k3 (fun y hy => ⟨?_, ?_⟩)
        · rw [hnext, if_neg]
          rw [h1]; intro e; exact hout y e (by simp [hy])
        · rw [hprev, if_neg]
          rw [h2]; intro e
          simp only [List.head?_cons, Option.some.injEq] at e
          exact hbB (e ▸ hy)
  | cons a A ih =>
    have hmid := chained_mid l x (a :: A) B before h
    obtain ⟨h1, h2, h3⟩ := h
    have hnd1 : (A ++ x :: B).Nodup := (List.nodup_cons.1 hnd).2
    have haout : a ∉ A ++ x :: B := (List.nodup_cons.1 hnd).1
    refine ⟨?_, ?_, ?_⟩
    · rw [hprev, if_neg]; exact h1
      rw [hmid.2.2]; intro e
      exact haout (by
        have : a ∈ B := List.mem_of_mem_head? e
        simp [this])
    · cases A with
      | nil =>
        have : l.prev x = some a := hmid.2.1 a rfl
        rw [hnext, if_pos this, hmid.2.2]; rfl
      | cons c A =>
        obtain ⟨k, hk⟩ : ∃ k, (c :: A).getLast? = some k := by
          cases hg : (c :: A).getLast? with
          | none => simp at hg
          | some k => exact ⟨k, rfl⟩
        have hpk : l.prev x = some k := hmid.2.1 k (by rw [← hk, List.getLast?_cons_cons])
        have hka : k ≠ a := by
          intro e
          have : k ∈ c :: A := List.mem_of_getLast?_eq_some hk
          exact haout (by rw [← e]; exact List.mem_append_left _ this)
        rw [hnext, hpk, if_neg (by simpa using hka)]
        exact h2
    · exact ih (some a) h3 hnd1 (fun b hb => by
        simp only [Option.some.injEq] at hb; subst hb; exact haout)

/-- The macro `SCGI_UNLINK` on pointers takes the record out of the list and
keeps the order of the others: it is the list operation `SCGI_UNLINK`. -/
theorem SCGI_UNLINK_ptr_holds (l : scgi_links) (xs : List Nat) (link : Nat)
    (h : holds_list l xs) (hmem : link ∈ xs) :
    holds_list (SCGI_UNLINK_ptr link l) (SCGI_UNLINK link xs) := by
  obtain ⟨hnd, hfirst, hlast, hch⟩ := h
  obtain ⟨A, B, rfl⟩ := List.append_of_mem hmem
  have hA : link ∉ A := fun hm => by
    have := (List.nodup_append.1 hnd).2.2
    exact this hm (by simp) 
  have hB : link ∉ B := (List.nodup_cons.1 (List.nodup_append.1 hnd).2.1).1
  have herase : SCGI_UNLINK link (A ++ link :: B) = A ++ B := by
    simp only [SCGI_UNLINK]
    rw [List.erase_append_right _ hA, List.erase_cons_head]
  obtain ⟨m1, m2, m3⟩ := chained_mid l link A B none hch
  have hp : l.prev link ≠ some link := by
    intro e
    cases A with
    | nil => rw [m1 rfl] at e; exact Option.noConfusion e
    | cons a A =>
      obtain ⟨k, hk⟩ : ∃ k, (a :: A).getLast? = some k := by
        cases hg : (a :: A).getLast? with
        | none => simp at hg
        | some k => exact ⟨k, rfl⟩
      rw [m2 k hk] at e
      simp only [Option.some.injEq] at e
      exact hA (e ▸ List.mem_of_getLast?_eq_some hk)
  have hn : l.next link ≠ some link := by
    intro e
    rw [m3] at e
    exact hB (List.mem_of_mem_head? e)
  rw [herase, SCGI_UNLINK_ptr_eq l link hp hn]
  refine ⟨?_, ?_, ?_, ?_⟩
  · have := List.nodup_append.1 hnd
    rw [List.nodup_append]
    exact ⟨this.1, (List.nodup_cons.1 this.2.1).2,
      fun a ha hb => this.2.2 ha (List.mem_cons_of_mem _ hb)⟩
  · cases A with
    | nil => simp [m1 rfl, m3]
    | cons a A =>
      obtain ⟨k, hk⟩ : ∃ k, (a :: A).getLast? = some k := by
        cases hg : (a :: A).getLast? with
        | none => simp at hg
        | some k => exact ⟨k, rfl⟩
      simp [m2 k hk, hfirst]
  · cases B with
    | nil =>
      simp only [m3, List.head?_nil, if_true, List.append_nil]
      cases A with
      | nil => exact m1 rfl
      | cons a A =>
        obtain ⟨k, hk⟩ : ∃ k, (a :: A).getLast? = some k := by
          cases hg : (a :: A).getLast? with
          | none => simp at hg
          | some k => exact ⟨k, rfl⟩
        rw [m2 k hk, hk]
    | cons b B =>
      simp only [m3, List.head?_cons, reduceCtorEq, if_false]
      rw [hlast, List.getLast?_append, List.getLast?_append]
      simp [List.getLast?_cons_cons]
  · exact chained_unlink l _ link A B none hch hnd (fun a ha => Option.noConfusion ha)
      (fun _ => rfl) (fun _ => rfl)

/-! ## What the parser leaves alone -/

theorem parser_frame_refl (d : scgi_desc) : parser_frame d d :=
  ⟨rfl, rfl, rfl, rfl, rfl, rfl, rfl, rfl, rfl, rfl⟩

theorem parser_frame_trans (d d1 d2 : scgi_desc) (h1 : parser_frame d d1)
    (h2 : parser_frame d1 d2) : parser_frame d d2 := by
  obtain ⟨a1, a2, a3, a4, a5, a6, a7, a8, a9, a10⟩ := h1
  obtain ⟨b1, b2, b3, b4, b5, b6, b7, b8, b9, b10⟩ := h2
  exact ⟨b1.trans a1, b2.trans a2, b3.trans a3, b4.trans a4, b5.trans a5, b6.trans a6,
    b7.trans a7, b8.trans a8, b9.trans a9, b10.trans a10⟩

/-- Teardown looks at the socket number and the registered integer only. -/
theorem kill_socket_congr (g : scgi_globals) (d d1 : scgi_desc) (hs : d1.sock = d.sock)
    (hd : d1.req.dead = d.req.dead) : scgi_kill_socket g d1 = scgi_kill_socket g d := by
  simp only [scgi_kill_socket, free_scgi_request, hs, hd]

theorem add_header_frame (g g1 : scgi_globals) (d : scgi_desc) (r : Option scgi_desc)
    (name val : List Nat) (h : scgi_add_header g d name val = (g1, r)) :
    (r = none → g1 = scgi_kill_socket g d) ∧
    (∀ d2, r = some d2 → g1 = g ∧ parser_frame d d2) := by
  refine ⟨fun hr => ?_, fun d2 hr => ?_⟩
  · subst hr
    unfold scgi_add_header at h
    split_ifs at h
    · injection h with h1 h2
      exact h1.symm
    · injection h with h1 h2
      simp only [scgi_kill_socket, free_scgi_request] at h1 ⊢
      exact h1.symm
    · injection h with h1 h2
      exact Option.noConfusion h2
    · injection h with h1 h2
      exact Option.noConfusion h2
  · subst hr
    obtain ⟨e1, e2⟩ := scgi_add_header_some g g1 d d2 name val h
    have hdead : d2.req.dead = d.req.dead := by
      rcases add_header_req g g1 d d2 name val h with e | e
      · rw [e, record_dead]
      · rw [e, record_dead]
    refine ⟨e1, ?_, hdead, ?_, ?_, ?_, ?_, ?_, ?_, ?_, ?_⟩ <;> rw [e2]

theorem parser_frame_update (d : scgi_desc) (pc ss : Nat) (thl trl : Int)
    (ps : parser_state) :
    parser_frame d
      { d with
        parsed_chars := pc
        string_starts := ss
        true_header_length := thl
        true_request_length := trl
        parser_state := ps } :=
  ⟨rfl, rfl, rfl, rfl, rfl, rfl, rfl, rfl, rfl, rfl⟩

theorem parser_frame_body (d : scgi_desc) (pc ss : Nat) (thl trl : Int) (ps : parser_state)
    (b : List Nat) (body : Option (List Nat)) (hb : b.length = d.buf.length) :
    parser_frame d
      { d with
        parsed_chars := pc
        string_starts := ss
        true_header_length := thl
        true_request_length := trl
        parser_state := ps
        buf := b
        req := { d.req with body := body } } :=
  ⟨rfl, rfl, hb, rfl, rfl, rfl, rfl, rfl, rfl, rfl⟩

/-- A round of the parser that goes on leaves the connection as it was outside
the parser. -/
theorem step_frame_next (g : scgi_globals) (d d1 : scgi_desc)
    (h : scgi_parse_input_step g d = next d1) : parser_frame d d1 := by
  cases hst : d.parser_state
  · simp only [scgi_parse_input_step, hst] at h
    split_ifs at h <;> injection h with h <;> subst h <;>
      exact parser_frame_update d _ _ _ _ _
  · simp only [scgi_parse_input_step, hst] at h
    split_ifs at h <;> injection h with h <;> subst h <;>
      exact parser_frame_update d _ _ _ _ _
  · simp only [scgi_parse_input_step, hst] at h
    split_ifs at h with h1 h2
    · revert h
      generalize hr : scgi_add_header g _ _ _ = r
      rcases r with ⟨g1, _ | d2⟩
      · intro h; simp at h
      · intro h
        injection h with h
        subst h
        have hf := ((add_header_frame _ _ _ _ _ _ hr).2 d2 rfl).2
        exact parser_frame_trans d d2 _
          (parser_frame_trans d _ d2 (parser_frame_update d _ _ _ _ _) hf)
          (parser_frame_update d2 _ _ _ _ _)
    · injection h with h
      subst h
      exact parser_frame_update d _ _ _ _ _
  · simp only [scgi_parse_input_step, hst] at h
    split_ifs at h <;> injection h with h <;> subst h <;>
      exact parser_frame_update d _ _ _ _ _
theorem kill_socket_parsed (g : scgi_globals) (d : scgi_desc) (pc : Nat) :
    scgi_kill_socket g { d with parsed_chars := pc } = scgi_kill_socket g d := rfl

/-- A round of the parser that returns with the connection alive has linked
its request into the queue and left the connection as it was outside the
parser. -/
theorem step_frame_ret_some (g g1 : scgi_globals) (d d1 : scgi_desc)
    (h : scgi_parse_input_step g d = ret g1 (some d1)) :
    parser_frame d d1 ∧
    g1 = { g with first_scgi_unrecved_req := SCGI_LINK d.sock g.first_scgi_unrecved_req } := by
  cases hst : d.parser_state <;> simp only [scgi_parse_input_step, hst] at h
  · split_ifs at h <;> simp at h
  · split_ifs at h <;>
      first
        | (injection h with h1 h2; injection h2 with h2; subst h2; subst h1
           exact ⟨parser_frame_body d _ _ _ _ _ _ _ rfl, rfl⟩)
        | (exfalso; simp at h; done)
  · split_ifs at h
    · simp at h
    · revert h
      generalize scgi_add_header g _ _ _ = r
      rcases r with ⟨g1, _ | d2⟩ <;> intro h <;> simp at h
  · split_ifs at h <;>
      first
        | (injection h with h1 h2; injection h2 with h2; subst h2; subst h1
           exact ⟨parser_frame_body d _ _ _ _ _ _ _ (List.length_set _ _ _), rfl⟩)
        | (exfalso; simp at h; done)

/-- A round of the parser that returns with the connection gone has torn it
down. -/
theorem step_frame_ret_none (g g1 : scgi_globals) (d : scgi_desc)
    (h : scgi_parse_input_step g d = ret g1 none) : g1 = scgi_kill_socket g d := by
  cases hst : d.parser_state <;> simp only [scgi_parse_input_step, hst] at h
  · split_ifs at h <;>
      first
        | (injection h with h1 h2; rw [← h1]; exact kill_socket_congr g d _ rfl rfl)
        | (exfalso; simp at h; done)
  · split_ifs at h <;>
      first
        | (injection h with h1 h2; rw [← h1]; exact kill_socket_congr g d _ rfl rfl)
        | (exfalso; simp at h; done)
  · split_ifs at h
    · injection h with h1 h2
      rw [← h1]
      exact kill_socket_congr g d _ rfl rfl
    · revert h
      generalize hr : scgi_add_header g _ _ _ = r
      rcases r with ⟨g2, _ | d2⟩
      · intro h
        injection h with h1 h2
        rw [← h1, (add_header_frame _ _ _ _ _ _ hr).1 rfl]
        exact kill_socket_congr g d _ rfl rfl
      · intro h; simp at h
  · split_ifs at h <;> simp at h

/-- One round of the parser: it goes on or returns with the connection as it
was outside the parser, and with its request linked into the queue or not; or
it returns behind a teardown of this connection. -/
theorem step_frame (g : scgi_globals) (d : scgi_desc) :
    (∀ d1, scgi_parse_input_step g d = next d1 → parser_frame d d1) ∧
    (∀ g1 d1, scgi_parse_input_step g d = ret g1 (some d1) →
      parser_frame d d1 ∧
      g1 = { g with first_scgi_unrecved_req := SCGI_LINK d.sock g.first_scgi_unrecved_req }) ∧
    (∀ g1, scgi_parse_input_step g d = ret g1 none → g1 = scgi_kill_socket g d) :=
  ⟨fun d1 h => step_frame_next g d d1 h, fun g1 d1 h => step_frame_ret_some g g1 d d1 h,
    fun g1 h => step_frame_ret_none g g1 d h⟩

/-- The loops of the parser, with any fuel: the connection comes back as it was
outside the parser, with the globals as they were or its request linked into
the queue; or it is torn down. -/
theorem loop_frame (fuel : Nat) (g : scgi_globals) (d : scgi_desc) :
    (∀ g1, scgi_parse_input_loop fuel g d = (g1, none) → g1 = scgi_kill_socket g d) ∧
    (∀ g1 d1, scgi_parse_input_loop fuel g d = (g1, some d1) →
      parser_frame d d1 ∧
      (g1 = g ∨ g1 = { g with
        first_scgi_unrecved_req := SCGI_LINK d.sock g.first_scgi_unrecved_req })) := by
  induction fuel generalizing d with
  | zero =>
    simp only [scgi_parse_input_loop]
    refine ⟨fun g1 h => by simp at h, fun g1 d1 h => ?_⟩
    injection h with h1 h2
    injection h2 with h2
    subst h1; subst h2
    exact ⟨parser_frame_refl d, Or.inl rfl⟩
  | succ n ih =>
    simp only [scgi_parse_input_loop]
    obtain ⟨s1, s2, s3⟩ := step_frame g d
    split_ifs with hlt
    · rcases hs : scgi_parse_input_step g d with d0 | ⟨g0, r⟩
      · have hf := s1 d0 hs
        obtain ⟨i1, i2⟩ := ih d0
        refine ⟨fun g1 h => ?_, fun g1 d1 h => ?_⟩
        · rw [i1 g1 h]
          exact kill_socket_congr g d d0 hf.1 hf.2.1
        · obtain ⟨j1, j2⟩ := i2 g1 d1 h
          refine ⟨parser_frame_trans d d0 d1 hf j1, ?_⟩
          rw [hf.1] at j2
          exact j2
      · refine ⟨fun g1 h => ?_, fun g1 d1 h => ?_⟩
        · injection h with h1 h2
          subst h1; subst h2
          exact s3 g0 hs
        · injection h with h1 h2
          subst h1; subst h2
          obtain ⟨k1, k2⟩ := s2 g0 d1 hs
          exact ⟨k1, Or.inr k2⟩
    · refine ⟨fun g1 h => by simp at h, fun g1 d1 h => ?_⟩
      injection h with h1 h2
      injection h2 with h2
      subst h1; subst h2
      exact ⟨parser_frame_refl d, Or.inl rfl⟩

/-- The function `scgi_parse_input`: the connection comes back as it was
outside the parser, with the globals as they were or its request linked into
the queue; or it is torn down. -/
theorem parse_input_frame (g : scgi_globals) (d : scgi_desc) :
    (∀ g1, scgi_parse_input g d = (g1, none) → g1 = scgi_kill_socket g d) ∧
    (∀ g1 d1, scgi_parse_input g d = (g1, some d1) →
      parser_frame d d1 ∧
      (g1 = g ∨ g1 = { g with
        first_scgi_unrecved_req := SCGI_LINK d.sock g.first_scgi_unrecved_req })) := by
  simp only [scgi_parse_input]
  split_ifs with h1 h2
  · refine ⟨fun g1 h => by simp at h, fun g1 d1 h => ?_⟩
    injection h with e1 e2
    injection e2 with e2
    subst e1; subst e2
    exact ⟨parser_frame_refl d, Or.inl rfl⟩
  · refine ⟨fun g1 h => ?_, fun g1 d1 h => by simp at h⟩
    injection h with e1 e2
    exact e1.symm
  · exact loop_frame _ g d

/-! ## What a read and a write leave alone -/

theorem sprintf_s_length (buf : List Nat) : (sprintf_s buf buf.length).length = buf.length := by
  have h : strlen buf 0 ≤ buf.length := by
    simp only [strlen, cstr, List.drop_zero]
    exact (List.takeWhile_sublist _).length_le
  simp only [sprintf_s, List.length_append, List.length_replicate]
  simp only [strlen] at h ⊢
  omega

theorem resize_buffer_inbound (g : scgi_globals) (d : scgi_desc) (calloc_ok : Bool) :
    resize_buffer g d true calloc_ok =
      if d.bufsize * 2 ≥ SCGI_MAX_INBUF_SIZE ∨ calloc_ok = false then
        (scgi_kill_socket g d, none)
      else (g, some { d with bufsize := d.bufsize * 2, buf := sprintf_s d.buf d.buflen }) := by
  simp only [resize_buffer, scgi_deal_with_socket_out_of_ram, if_true]
  split_ifs with h1 h2 h3 h4 <;> first | rfl | (exfalso; tauto)

theorem listen_read_frame (g : scgi_globals) (d : scgi_desc) (start : Nat)
    (incoming : recv_result) :
    (∀ g1, scgi_listen_to_request_read g d start incoming = (g1, none) →
      g1 = scgi_kill_socket g d) ∧
    (∀ g1 d1, scgi_listen_to_request_read g d start incoming = (g1, some d1) →
      same_connection d d1 ∧ d1.bufsize = d.bufsize ∧ d1.outbuf = d.outbuf ∧
      d1.outbufsize = d.outbufsize ∧ d1.outbuflen = d.outbuflen ∧
      d1.writehead = d.writehead ∧
      (g1 = g ∨ g1 = { g with
        first_scgi_unrecved_req := SCGI_LINK d.sock g.first_scgi_unrecved_req })) := by
  cases incoming with
  | data bytes =>
    simp only [scgi_listen_to_request_read]
    split_ifs with h
    · obtain ⟨p1, p2⟩ := parse_input_frame g
        { d with buf := d.buf ++ bytes.take (d.bufsize - 5 - start) }
      refine ⟨fun g1 e => p1 g1 e, fun g1 d1 e => ?_⟩
      obtain ⟨⟨f1, f2, f3, f4, f5, f6, f7, f8, f9, f10⟩, hg⟩ := p2 g1 d1 e
      exact ⟨⟨f1, f2, f9, f8⟩, f4, f5, f6, f7, f10, hg⟩
    · refine ⟨fun g1 e => ?_, fun g1 d1 e => by simp at e⟩
      injection e with e1 e2
      exact e1.symm
  | would_block =>
    simp only [scgi_listen_to_request_read]
    refine ⟨fun g1 e => by simp at e, fun g1 d1 e => ?_⟩
    injection e with e1 e2
    injection e2 with e2
    subst e1; subst e2
    exact ⟨⟨rfl, rfl, rfl, rfl⟩, rfl, rfl, rfl, rfl, rfl, Or.inl rfl⟩
  | failure =>
    simp only [scgi_listen_to_request_read]
    refine ⟨fun g1 e => ?_, fun g1 d1 e => by simp at e⟩
    injection e with e1 e2
    exact e1.symm

/-- The function `scgi_listen_to_request`: the connection is torn down, or it
is the same connection with the same outbound side, and the globals are as
they were or its request has been linked into the queue. -/
theorem listen_frame (g : scgi_globals) (d : scgi_desc) (calloc_ok : Bool)
    (incoming : recv_result) :
    (∀ g1, scgi_listen_to_request g d calloc_ok incoming = (g1, none) →
      g1 = scgi_kill_socket g d) ∧
    (∀ g1 d1, scgi_listen_to_request g d calloc_ok incoming = (g1, some d1) →
      same_connection d d1 ∧ d1.outbuf = d.outbuf ∧
      d1.outbufsize = d.outbufsize ∧ d1.outbuflen = d.outbuflen ∧
      d1.writehead = d.writehead ∧
      (d1.bufsize = d.bufsize ∨ d1.bufsize = d.bufsize * 2) ∧
      (g1 = g ∨ g1 = { g with
        first_scgi_unrecved_req := SCGI_LINK d.sock g.first_scgi_unrecved_req })) := by
  simp only [scgi_listen_to_request, resize_buffer_inbound]
  split_ifs with h1 h2
  · refine ⟨fun g1 e => ?_, fun g1 d1 e => by simp at e⟩
    injection e with e1 e2
    exact e1.symm
  · obtain ⟨p1, p2⟩ := listen_read_frame g
      { d with bufsize := d.bufsize * 2, buf := sprintf_s d.buf d.buflen } d.buflen incoming
    refine ⟨fun g1 e => p1 g1 e, fun g1 d1 e => ?_⟩
    obtain ⟨c, b1, b2, b3, b4, b5, hg⟩ := p2 g1 d1 e
    exact ⟨c, b2, b3, b4, b5, Or.inr b1, hg⟩
  · obtain ⟨p1, p2⟩ := listen_read_frame g d d.buflen incoming
    refine ⟨fun g1 e => p1 g1 e, fun g1 d1 e => ?_⟩
    obtain ⟨c, b1, b2, b3, b4, b5, hg⟩ := p2 g1 d1 e
    exact ⟨c, b2, b3, b4, b5, Or.inl b1, hg⟩

/-- The function `scgi_flush_response`: the connection is torn down, or it is
the same connection with the same inbound side, and the globals are as they
were. -/
theorem flush_frame (g : scgi_globals) (d : scgi_desc) (sent_amount : Int) :
    (∀ g1, scgi_flush_response g d sent_amount = (g1, none) → g1 = scgi_kill_socket g d) ∧
    (∀ g1 d1, scgi_flush_response g d sent_amount = (g1, some d1) →
      same_connection d d1 ∧ g1 = g ∧ d1.buf = d.buf ∧ d1.bufsize = d.bufsize ∧
      d1.outbufsize = d.outbufsize ∧ d1.outbuf = d.outbuf) := by
  simp only [scgi_flush_response]
  split_ifs with h
  · refine ⟨fun g1 e => ?_, fun g1 d1 e => by simp at e⟩
    injection e with e1 e2
    exact e1.symm
  · refine ⟨fun g1 e => by simp at e, fun g1 d1 e => ?_⟩
    injection e with e1 e2
    injection e2 with e2
    subst e1; subst e2
    exact ⟨⟨rfl, rfl, rfl, rfl⟩, rfl, rfl, rfl, rfl, rfl⟩

/-! ## One connection in a pass of the multiplexer -/

theorem kill_dead_cells (g : scgi_globals) (d : scgi_desc) (c : Nat) :
    c ∈ (scgi_kill_socket g d).dead_cells ↔ c ∈ g.dead_cells ∨ d.req.dead = some c := by
  simp only [scgi_kill_socket, free_scgi_request]
  cases d.req.dead with
  | none => simp
  | some c1 =>
    simp only [List.mem_cons, Option.some.injEq]
    constructor
    · rintro (h | h)
      · exact Or.inr h.symm
      · exact Or.inl h
    · rintro (h | h)
      · exact Or.inr h
      · exact Or.inl h.symm

/-- The body of the loop of a pass for one connection: the connection is torn
down, or it is the same connection but for its idle count, no integer of the
host has been written and the list of all requests is as it was. -/
theorem update_connection_frame (ev : pass_events) (inset outset excset : List Nat)
    (g : scgi_globals) (d : scgi_desc) :
    (∀ g1, scgi_update_connection ev inset outset excset g d = (g1, none) →
      g1 = scgi_kill_socket g d) ∧
    (∀ g1 d1, scgi_update_connection ev inset outset excset g d = (g1, some d1) →
      d1.sock = d.sock ∧ d1.req.dead = d.req.dead ∧ d1.state = d.state ∧
      g1.dead_cells = g.dead_cells ∧ g1.first_scgi_req = g.first_scgi_req) := by
  simp only [scgi_update_connection]
  split_ifs with h1 h2 h3
  · refine ⟨fun g1 e => ?_, fun g1 d1 e => by simp at e⟩
    injection e with e1 e2
    exact e1.symm
  · obtain ⟨p1, p2⟩ := listen_frame g { d with idle := 0 } (ev.calloc_ok d.sock) (ev.recv d.sock)
    refine ⟨fun g1 e => p1 g1 e, fun g1 d1 e => ?_⟩
    obtain ⟨⟨c1, c2, c3, -⟩, -, -, -, -, -, hg⟩ := p2 g1 d1 e
    refine ⟨c1, c2, c3, ?_⟩
    rcases hg with hg | hg <;> subst hg <;> exact ⟨rfl, rfl⟩
  · obtain ⟨p1, p2⟩ := flush_frame g { d with idle := 0 } (ev.send d.sock)
    refine ⟨fun g1 e => p1 g1 e, fun g1 d1 e => ?_⟩
    obtain ⟨⟨c1, c2, c3, -⟩, hg, -⟩ := p2 g1 d1 e
    subst hg
    exact ⟨c1, c2, c3, rfl, rfl⟩
  · refine ⟨fun g1 e => by simp at e, fun g1 d1 e => ?_⟩
    injection e with e1 e2
    injection e2 with e2
    subst e1; subst e2
    exact ⟨rfl, rfl, rfl, rfl, rfl⟩

theorem loop_cons_none (ev : pass_events) (inset outset excset : List Nat)
    (d : scgi_desc) (rest : List scgi_desc) (g g1 : scgi_globals)
    (hu : scgi_update_connection ev inset outset excset g d = (g1, none)) :
    scgi_update_connections_loop ev inset outset excset (d :: rest) g
      = scgi_update_connections_loop ev inset outset excset rest g1 := by
  simp only [scgi_update_connections_loop, hu]

theorem loop_cons_some (ev : pass_events) (inset outset excset : List Nat)
    (d d1 : scgi_desc) (rest : List scgi_desc) (g g1 : scgi_globals)
    (hu : scgi_update_connection ev inset outset excset g d = (g1, some d1)) :
    scgi_update_connections_loop ev inset outset excset (d :: rest) g
      = ((scgi_update_connections_loop ev inset outset excset rest g1).1,
          d1 :: (scgi_update_connections_loop ev inset outset excset rest g1).2) := by
  simp only [scgi_update_connections_loop, hu]

/-- The connections that a pass leaves are connections it found, in the same
order. -/
theorem loop_socks_sublist (ev : pass_events) (inset outset excset : List Nat)
    (ds : List scgi_desc) (g : scgi_globals) :
    ((scgi_update_connections_loop ev inset outset excset ds g).2.map (fun d => d.sock)).Sublist
      (ds.map (fun d => d.sock)) := by
  induction ds generalizing g with
  | nil => simp [scgi_update_connections_loop]
  | cons d rest ih =>
    rcases hu : scgi_update_connection ev inset outset excset g d with ⟨g1, _ | d1⟩
    · rw [loop_cons_none ev inset outset excset d rest g g1 hu]
      exact (ih g1).trans (List.sublist_cons_self _ _)
    · have hs := ((update_connection_frame ev inset outset excset g d).2 g1 d1 hu).1
      rw [loop_cons_some ev inset outset excset d d1 rest g g1 hu]
      simp only [List.map_cons, hs]
      exact (ih g1).cons₂ _

/-- The integers of the host that a pass has written are those registered for
the connections it has torn down. -/
theorem loop_dead_cells (ev : pass_events) (inset outset excset : List Nat)
    (ds : List scgi_desc) (g : scgi_globals) (hnd : (ds.map (fun d => d.sock)).Nodup)
    (c : Nat) :
    c ∈ (scgi_update_connections_loop ev inset outset excset ds g).1.dead_cells ↔
      c ∈ g.dead_cells ∨ ∃ d ∈ ds, d.req.dead = some c ∧
        d.sock ∉ (scgi_update_connections_loop ev inset outset excset ds g).2.map
          (fun d => d.sock) := by
  induction ds generalizing g with
  | nil => simp [scgi_update_connections_loop]
  | cons d rest ih =>
    have hnd1 : (rest.map (fun d => d.sock)).Nodup := (List.nodup_cons.1 hnd).2
    have hd : d.sock ∉ rest.map (fun d => d.sock) := (List.nodup_cons.1 hnd).1
    rcases hu : scgi_update_connection ev inset outset excset g d with ⟨g1, _ | d1⟩
    · have hg := (update_connection_frame ev inset outset excset g d).1 g1 hu
      have hsub := loop_socks_sublist ev inset outset excset rest g1
      have hdout : d.sock ∉ (scgi_update_connections_loop ev inset outset excset rest g1).2.map
          (fun d => d.sock) := fun h => hd (hsub.subset h)
      have hc : c ∈ g1.dead_cells ↔ c ∈ g.dead_cells ∨ d.req.dead = some c := by
        rw [hg]
        exact kill_dead_cells g d c
      rw [loop_cons_none ev inset outset excset d rest g g1 hu, ih g1 hnd1, hc]
      constructor
      · rintro ((h | h) | ⟨d2, hm, h2, h3⟩)
        · exact Or.inl h
        · exact Or.inr ⟨d, List.mem_cons_self _ _, h, hdout⟩
        · exact Or.inr ⟨d2, List.mem_cons_of_mem _ hm, h2, h3⟩
      · rintro (h | ⟨d2, hm, h2, h3⟩)
        · exact Or.inl (Or.inl h)
        · rcases List.mem_cons.1 hm with e | hm
          · subst e
            exact Or.inl (Or.inr h2)
          · exact Or.inr ⟨d2, hm, h2, h3⟩
    · obtain ⟨hs, -, -, hdc, -⟩ := (update_connection_frame ev inset outset excset g d).2 g1 d1 hu
      rw [loop_cons_some ev inset outset excset d d1 rest g g1 hu]
      show c ∈ (scgi_update_connections_loop ev inset outset excset rest g1).1.dead_cells ↔
        c ∈ g.dead_cells ∨ ∃ d0 ∈ d :: rest, d0.req.dead = some c ∧
          d0.sock ∉ (d1 :: (scgi_update_connections_loop ev inset outset excset rest g1).2).map
            (fun d => d.sock)
      rw [ih g1 hnd1, hdc]
      simp only [List.map_cons, List.mem_cons, hs, not_or]
      constructor
      · rintro (h | ⟨d2, hm, h2, h3⟩)
        · exact Or.inl h
        · refine Or.inr ⟨d2, Or.inr hm, h2, ?_, h3⟩
          intro e
          exact hd (e ▸ List.mem_map_of_mem (fun d => d.sock) hm)
      · rintro (h | ⟨d2, hm, h2, h3, h4⟩)
        · exact Or.inl h
        · rcases hm with e | hm
          · subst e
            exact absurd rfl h3
          · exact Or.inr ⟨d2, hm, h2, h4⟩

/-! ## The liveness signal -/

theorem send_dead (d : scgi_desc) (txt : List Nat) (len : Int) (memory : Bool) :
    (scgi_send d txt len memory).2.req.dead = d.req.dead := by
  simp only [scgi_send]
  split_ifs <;> rfl

theorem scgi_write_eq (d : scgi_desc) (txt : List Nat) (memory : Bool) :
    scgi_write d txt memory = scgi_send d txt (to_int (strlen txt 0)) memory := rfl

theorem write_dead (d : scgi_desc) (txt : List Nat) (memory : Bool) :
    (scgi_write d txt memory).2.req.dead = d.req.dead := by
  rw [scgi_write_eq]
  exact send_dead d txt _ memory

/-- C11. Liveness signal.  For a connection whose request has the integer `c`
of the host registered in `dead`: `scgi_kill_socket` and `free_scgi_request`
store 1 into it; accepting a connection stores into no integer; the parser,
a read and a flush either tear this connection down, which stores 1, or leave
the registration and store into no integer; `scgi_send` and `scgi_write`
leave the registration, and the globals are out of their reach; `scgi_recv`
stores nothing beyond what its pass stores; the teardown of a connection with
another registration or none does not store into `c`; and over the loop of a
pass in which no other connection has `c` registered, `c` holds 1 afterwards
exactly if it held 1 before or this connection was torn down in the pass. -/
theorem liveness_signal (g : scgi_globals) (d : scgi_desc) (c : Nat)
    (hreg : d.req.dead = some c) :
    c ∈ (scgi_kill_socket g d).dead_cells ∧
    c ∈ (free_scgi_request g d.sock d.req).dead_cells ∧
    (∀ ev p, (scgi_answer_the_phone ev g p).1.dead_cells = g.dead_cells) ∧
    (∀ g1 r, scgi_parse_input g d = (g1, r) →
      (r = none ∧ g1 = scgi_kill_socket g d) ∨
      (∃ d1, r = some d1 ∧ d1.req.dead = some c ∧ g1.dead_cells = g.dead_cells)) ∧
    (∀ calloc_ok incoming g1 r, scgi_listen_to_request g d calloc_ok incoming = (g1, r) →
      (r = none ∧ g1 = scgi_kill_socket g d) ∨
      (∃ d1, r = some d1 ∧ d1.req.dead = some c ∧ g1.dead_cells = g.dead_cells)) ∧
    (∀ sent_amount g1 r, scgi_flush_response g d sent_amount = (g1, r) →
      (r = none ∧ g1 = scgi_kill_socket g d) ∨
      (∃ d1, r = some d1 ∧ d1.req.dead = some c ∧ g1.dead_cells = g.dead_cells)) ∧
    (∀ txt len memory, (scgi_send d txt len memory).2.req.dead = some c) ∧
    (∀ txt memory, (scgi_write d txt memory).2.req.dead = some c) ∧
    (∀ (upd : scgi_library → scgi_library) (s : scgi_library),
      (scgi_recv upd s).2.globals.dead_cells
        = (if s.globals.first_scgi_unrecved_req = [] then upd s else s).globals.dead_cells) ∧
    (∀ d2 : scgi_desc, d2.req.dead ≠ some c →
      (c ∈ (scgi_kill_socket g d2).dead_cells ↔ c ∈ g.dead_cells)) ∧
    (∀ ev inset outset excset (ds : List scgi_desc), d ∈ ds →
      (ds.map (fun e => e.sock)).Nodup → (∀ d2 ∈ ds, d2 ≠ d → d2.req.dead ≠ some c) →
      (c ∈ (scgi_update_connections_loop ev inset outset excset ds g).1.dead_cells ↔
        c ∈ g.dead_cells ∨
          d.sock ∉ (scgi_update_connections_loop ev inset outset excset ds g).2.map
            (fun e => e.sock))) := by
  have hkill : c ∈ (scgi_kill_socket g d).dead_cells := (kill_dead_cells g d c).2 (Or.inr hreg)
  have hlink : ∀ g1 : scgi_globals, (g1 = g ∨ g1 = { g with
      first_scgi_unrecved_req := SCGI_LINK d.sock g.first_scgi_unrecved_req }) →
      g1.dead_cells = g.dead_cells := by
    rintro g1 (h | h) <;> subst h <;> rfl
  refine ⟨hkill, hkill, ?_, ?_, ?_, ?_, ?_, ?_, ?_, ?_, ?_⟩
  · intro ev p
    simp only [scgi_answer_the_phone]
    cases ev.accept with
    | none => rfl
    | some caller =>
      dsimp only
      split_ifs <;> rfl
  · intro g1 r h
    obtain ⟨p1, p2⟩ := parse_input_frame g d
    cases r with
    | none => exact Or.inl ⟨rfl, p1 g1 h⟩
    | some d1 =>
      obtain ⟨hf, hg⟩ := p2 g1 d1 h
      exact Or.inr ⟨d1, rfl, hf.2.1.trans hreg, hlink g1 hg⟩
  · intro ok incoming g1 r h
    obtain ⟨p1, p2⟩ := listen_frame g d ok incoming
    cases r with
    | none => exact Or.inl ⟨rfl, p1 g1 h⟩
    | some d1 =>
      obtain ⟨hc, -, -, -, -, -, hg⟩ := p2 g1 d1 h
      exact Or.inr ⟨d1, rfl, hc.2.1.trans hreg, hlink g1 hg⟩
  · intro k g1 r h
    obtain ⟨p1, p2⟩ := flush_frame g d k
    cases r with
    | none => exact Or.inl ⟨rfl, p1 g1 h⟩
    | some d1 =>
      obtain ⟨hc, hg, -⟩ := p2 g1 d1 h
      exact Or.inr ⟨d1, rfl, hc.2.1.trans hreg, by rw [hg]⟩
  · intro txt len memory
    rw [send_dead, hreg]
  · intro txt memory
    rw [write_dead, hreg]
  · intro upd s
    simp only [scgi_recv]
    split <;> rfl
  · intro d2 h2
    rw [kill_dead_cells]
    exact ⟨fun h => h.resolve_right h2, Or.inl⟩
  · intro ev inset outset excset ds hmem hnd hother
    rw [loop_dead_cells ev inset outset excset ds g hnd c]
    constructor
    · rintro (h | ⟨d2, hm, h2, h3⟩)
      · exact Or.inl h
      · by_cases e : d2 = d
        · subst e
          exact Or.inr h3
        · exact absurd h2 (hother d2 hm e)
    · rintro (h | h)
      · exact Or.inl h
      · exact Or.inr ⟨d, hmem, hreg, h⟩
/-- C11, at a fresh connection on the socket 7 with the integer at the address 100 registered. -/
theorem liveness_signal_witness :
    registered_desc.req.dead = some 100 ∧
    (100 ∈ (scgi_kill_socket sample_globals registered_desc).dead_cells ∧
    100 ∈ (free_scgi_request sample_globals registered_desc.sock registered_desc.req).dead_cells ∧
    (∀ ev p, (scgi_answer_the_phone ev sample_globals p).1.dead_cells = sample_globals.dead_cells) ∧
    (∀ g1 r, scgi_parse_input sample_globals registered_desc = (g1, r) →
      (r = none ∧ g1 = scgi_kill_socket sample_globals registered_desc) ∨
      (∃ d1, r = some d1 ∧ d1.req.dead = some 100 ∧ g1.dead_cells = sample_globals.dead_cells)) ∧
    (∀ calloc_ok incoming g1 r, scgi_listen_to_request sample_globals registered_desc calloc_ok incoming = (g1, r) →
      (r = none ∧ g1 = scgi_kill_socket sample_globals registered_desc) ∨
      (∃ d1, r = some d1 ∧ d1.req.dead = some 100 ∧ g1.dead_cells = sample_globals.dead_cells)) ∧
    (∀ sent_amount g1 r, scgi_flush_response sample_globals registered_desc sent_amount = (g1, r) →
      (r = none ∧ g1 = scgi_kill_socket sample_globals registered_desc) ∨
      (∃ d1, r = some d1 ∧ d1.req.dead = some 100 ∧ g1.dead_cells = sample_globals.dead_cells)) ∧
    (∀ txt len memory, (scgi_send registered_desc txt len memory).2.req.dead = some 100) ∧
    (∀ txt memory, (scgi_write registered_desc txt memory).2.req.dead = some 100) ∧
    (∀ (upd : scgi_library → scgi_library) (s : scgi_library),
      (scgi_recv upd s).2.globals.dead_cells
        = (if s.globals.first_scgi_unrecved_req = [] then upd s else s).globals.dead_cells) ∧
    (∀ d2 : scgi_desc, d2.req.dead ≠ some 100 →
      (100 ∈ (scgi_kill_socket sample_globals d2).dead_cells ↔ 100 ∈ sample_globals.dead_cells)) ∧
    (∀ ev inset outset excset (ds : List scgi_desc), registered_desc ∈ ds →
      (ds.map (fun e => e.sock)).Nodup → (∀ d2 ∈ ds, d2 ≠ registered_desc → d2.req.dead ≠ some 100) →
      (100 ∈ (scgi_update_connections_loop ev inset outset excset ds sample_globals).1.dead_cells ↔
        100 ∈ sample_globals.dead_cells ∨
          registered_desc.sock ∉ (scgi_update_connections_loop ev inset outset excset ds sample_globals).2.map
            (fun e => e.sock)))) :=
  ⟨rfl, liveness_signal sample_globals registered_desc 100 rfl⟩

/-! ## Teardown and the lists -/

theorem eraseP_eq_filter_of_nodup (ds : List scgi_desc) (a : Nat)
    (hnd : (ds.map (fun e => e.sock)).Nodup) :
    ds.eraseP (fun e => e.sock == a) = ds.filter (fun e => e.sock != a) := by
  induction ds with
  | nil => rfl
  | cons x rest ih =>
    have hnd1 := (List.nodup_cons.1 hnd).2
    have hx := (List.nodup_cons.1 hnd).1
    by_cases h : x.sock = a
    · have hfil : rest.filter (fun e => e.sock != a) = rest := by
        rw [List.filter_eq_self]
        intro e he
        simp only [bne_iff_ne, ne_eq]
        intro e2
        exact hx (List.mem_map.2 ⟨e, he, e2.trans h.symm⟩)
      simpa [List.eraseP_cons, h] using hfil.symm
    · simp [List.eraseP_cons, h, ih hnd1]

/-- The list of records without `d` and the macro on the handles agree. -/
theorem unlink_desc_socks (d : scgi_desc) (ds : List scgi_desc)
    (hnd : (ds.map (fun e => e.sock)).Nodup) :
    (unlink_desc d ds).map (fun e => e.sock) = SCGI_UNLINK d.sock (ds.map (fun e => e.sock)) := by
  simp only [unlink_desc, SCGI_UNLINK]
  rw [eraseP_eq_filter_of_nodup ds d.sock hnd, hnd.erase_eq_filter, List.filter_map]
  rfl

/-- Teardown and the request lists: the request leaves both, and the other
requests stay in order. -/
theorem kill_lists (g : scgi_globals) (d : scgi_desc) (hreq : g.first_scgi_req.Nodup)
    (hq : g.first_scgi_unrecved_req.Nodup) :
    (scgi_kill_socket g d).first_scgi_req
      = g.first_scgi_req.filter (fun r => r != d.sock) ∧
    (scgi_kill_socket g d).first_scgi_unrecved_req
      = g.first_scgi_unrecved_req.filter (fun r => r != d.sock) := by
  simp only [scgi_kill_socket, free_scgi_request, SCGI_UNLINK]
  refine ⟨hreq.erase_eq_filter _, ?_⟩
  split_ifs with h
  · exact hq.erase_eq_filter _
  · symm
    rw [List.filter_eq_self]
    intro r hr
    simp only [bne_iff_ne, ne_eq]
    intro e
    exact h (e ▸ hr)

/-- C12. Teardown unlinks completely and only its target.  In a library whose
connections have distinct sockets and whose request lists have no request
twice, after `scgi_kill_socket` on a connection its socket is in the list of
no port, its request is neither in the list of all requests nor in the queue,
whether it was queued or not, and each of these lists is the list it was with
that one entry left out: all other entries, unchanged, in the same order. -/
theorem teardown_unlinks (s : scgi_library) (d : scgi_desc) (hsocks : s.socks.Nodup)
    (hreq : s.globals.first_scgi_req.Nodup) (hq : s.globals.first_scgi_unrecved_req.Nodup) :
    d.sock ∉ (s.scgi_kill_socket d).socks ∧
    d.sock ∉ (s.scgi_kill_socket d).globals.first_scgi_req ∧
    d.sock ∉ (s.scgi_kill_socket d).globals.first_scgi_unrecved_req ∧
    (s.scgi_kill_socket d).ports
      = s.ports.map (fun p =>
          { p with descs := p.descs.filter (fun e => e.sock != d.sock) }) ∧
    (s.scgi_kill_socket d).globals.first_scgi_req
      = s.globals.first_scgi_req.filter (fun r => r != d.sock) ∧
    (s.scgi_kill_socket d).globals.first_scgi_unrecved_req
      = s.globals.first_scgi_unrecved_req.filter (fun r => r != d.sock) := by
  obtain ⟨k1, k2⟩ := kill_lists s.globals d hreq hq
  have hports : (s.scgi_kill_socket d).ports
      = s.ports.map (fun p =>
          { p with descs := p.descs.filter (fun e => e.sock != d.sock) }) := by
    simp only [scgi_library.scgi_kill_socket]
    apply List.map_congr_left
    intro p hp
    have hnd : (p.descs.map (fun e => e.sock)).Nodup := by
      have := (List.nodup_flatten.1 hsocks).1 (p.descs.map (fun e => e.sock))
        (List.mem_map.2 ⟨p, hp, rfl⟩)
      exact this
    simp only [unlink_desc]
    rw [eraseP_eq_filter_of_nodup p.descs d.sock hnd]
  refine ⟨?_, ?_, ?_, hports, k1, k2⟩
  · simp only [scgi_library.socks, hports, List.mem_flatten, List.mem_map, not_exists, not_and]
    rintro l ⟨l0, ⟨p, -, rfl⟩, rfl⟩ hmem
    simp only [List.mem_map, List.mem_filter, bne_iff_ne, ne_eq] at hmem
    obtain ⟨e, ⟨-, h1⟩, h2⟩ := hmem
    exact h1 h2
  · show d.sock ∉ (scgi_kill_socket s.globals d).first_scgi_req
    rw [k1]
    simp
  · show d.sock ∉ (scgi_kill_socket s.globals d).first_scgi_unrecved_req
    rw [k2]
    simp
/-- C12, at a port with the connections 5, 7 and 9 and the teardown of 7, which was queued. -/
theorem teardown_unlinks_witness :
    sample_library.socks.Nodup ∧
    sample_library.globals.first_scgi_req.Nodup ∧
    sample_library.globals.first_scgi_unrecved_req.Nodup ∧
    ((scgi_answer_the_phone_desc 7).sock ∉ (sample_library.scgi_kill_socket (scgi_answer_the_phone_desc 7)).socks ∧
    (scgi_answer_the_phone_desc 7).sock ∉ (sample_library.scgi_kill_socket (scgi_answer_the_phone_desc 7)).globals.first_scgi_req ∧
    (scgi_answer_the_phone_desc 7).sock ∉ (sample_library.scgi_kill_socket (scgi_answer_the_phone_desc 7)).globals.first_scgi_unrecved_req ∧
    (sample_library.scgi_kill_socket (scgi_answer_the_phone_desc 7)).ports
      = sample_library.ports.map (fun p =>
          { p with descs := p.descs.filter (fun e => e.sock != (scgi_answer_the_phone_desc 7).sock) }) ∧
    (sample_library.scgi_kill_socket (scgi_answer_the_phone_desc 7)).globals.first_scgi_req
      = sample_library.globals.first_scgi_req.filter (fun r => r != (scgi_answer_the_phone_desc 7).sock) ∧
    (sample_library.scgi_kill_socket (scgi_answer_the_phone_desc 7)).globals.first_scgi_unrecved_req
      = sample_library.globals.first_scgi_unrecved_req.filter (fun r => r != (scgi_answer_the_phone_desc 7).sock)) :=
  ⟨by decide, by decide, by decide,
    teardown_unlinks sample_library (scgi_answer_the_phone_desc 7) (by decide) (by decide)
      (by decide)⟩

/-! ## The growth of the inbound buffer -/

/-- C13, as stated, fails: at the capacity 65536 the doubled capacity is
131072, which is `SCGI_MAX_INBUF_SIZE` and does not exceed it, yet
`resize_buffer` refuses and tears the connection down, with memory at hand. -/
theorem inbound_growth_counterexample :
    grown_desc.bufsize * 2 = SCGI_MAX_INBUF_SIZE ∧
    ¬ (grown_desc.bufsize * 2 > SCGI_MAX_INBUF_SIZE) ∧
    resize_buffer sample_globals grown_desc true true
      = (scgi_kill_socket sample_globals grown_desc, none) := by
  refine ⟨by decide, by decide, by decide⟩

/-- C13, amended. Inbound growth policy.  A read with `buflen < bufsize - 5`
leaves the capacity alone.  A read with `buflen >= bufsize - 5` first doubles
the capacity: the doubling is refused and the connection torn down if the
doubled capacity reaches `SCGI_MAX_INBUF_SIZE`, equal included, or if there is
no memory; otherwise it succeeds and the read goes on with the doubled
capacity.  So from the initial 16384 the capacity doubles at 16384 and at
32768 and is refused at 65536. -/
theorem inbound_growth (g : scgi_globals) (d : scgi_desc) (calloc_ok : Bool)
    (incoming : recv_result) :
    (d.buflen < d.bufsize - 5 →
      scgi_listen_to_request g d calloc_ok incoming
        = scgi_listen_to_request_read g d d.buflen incoming) ∧
    (d.buflen ≥ d.bufsize - 5 → d.bufsize * 2 ≥ SCGI_MAX_INBUF_SIZE →
      scgi_listen_to_request g d calloc_ok incoming = (scgi_kill_socket g d, none)) ∧
    (d.buflen ≥ d.bufsize - 5 → d.bufsize * 2 < SCGI_MAX_INBUF_SIZE → calloc_ok = false →
      scgi_listen_to_request g d calloc_ok incoming = (scgi_kill_socket g d, none)) ∧
    (d.buflen ≥ d.bufsize - 5 → d.bufsize * 2 < SCGI_MAX_INBUF_SIZE → calloc_ok = true →
      scgi_listen_to_request g d calloc_ok incoming
        = scgi_listen_to_request_read g
            { d with bufsize := d.bufsize * 2, buf := sprintf_s d.buf d.buflen }
            d.buflen incoming) ∧
    (d.bufsize = SCGI_INITIAL_INBUF_SIZE ∨ d.bufsize = 32768 →
      resize_buffer g d true true
        = (g, some { d with bufsize := d.bufsize * 2, buf := sprintf_s d.buf d.buflen })) ∧
    (d.bufsize = 65536 → resize_buffer g d true true = (scgi_kill_socket g d, none)) := by
  refine ⟨fun h => ?_, fun h1 h2 => ?_, fun h1 h2 h3 => ?_, fun h1 h2 h3 => ?_, fun h => ?_,
    fun h => ?_⟩
  · simp only [scgi_listen_to_request]
    rw [if_neg (by omega)]
  · simp only [scgi_listen_to_request, resize_buffer_inbound]
    rw [if_pos h1, if_pos (Or.inl h2)]
  · simp only [scgi_listen_to_request, resize_buffer_inbound]
    rw [if_pos h1, if_pos (Or.inr h3)]
  · simp only [scgi_listen_to_request, resize_buffer_inbound]
    rw [if_pos h1, if_neg]
    rintro (h | h)
    · omega
    · rw [h3] at h
      exact Bool.noConfusion h
  · rw [resize_buffer_inbound, if_neg]
    rintro (h1 | h1)
    · rcases h with h | h <;> rw [h] at h1 <;> revert h1 <;> decide
    · exact Bool.noConfusion h1
  · rw [resize_buffer_inbound, if_pos]
    left
    rw [h]
    decide

/-! ## The bound of the inbound buffer -/

theorem listen_room (g : scgi_globals) (d : scgi_desc) (calloc_ok : Bool)
    (incoming : recv_result) (h : d.buflen < d.bufsize - 5) :
    scgi_listen_to_request g d calloc_ok incoming
      = scgi_listen_to_request_read g d d.buflen incoming := by
  simp only [scgi_listen_to_request]
  rw [if_neg (by omega)]

theorem listen_refused (g : scgi_globals) (d : scgi_desc) (calloc_ok : Bool)
    (incoming : recv_result) (h : d.buflen ≥ d.bufsize - 5)
    (h2 : d.bufsize * 2 ≥ SCGI_MAX_INBUF_SIZE ∨ calloc_ok = false) :
    scgi_listen_to_request g d calloc_ok incoming = (scgi_kill_socket g d, none) := by
  simp only [scgi_listen_to_request, resize_buffer_inbound]
  rw [if_pos h, if_pos h2]

theorem listen_grown (g : scgi_globals) (d : scgi_desc) (calloc_ok : Bool)
    (incoming : recv_result) (h : d.buflen ≥ d.bufsize - 5)
    (h2 : ¬ (d.bufsize * 2 ≥ SCGI_MAX_INBUF_SIZE ∨ calloc_ok = false)) :
    scgi_listen_to_request g d calloc_ok incoming
      = scgi_listen_to_request_read g
          { d with bufsize := d.bufsize * 2, buf := sprintf_s d.buf d.buflen }
          d.buflen incoming := by
  simp only [scgi_listen_to_request, resize_buffer_inbound]
  rw [if_pos h, if_neg h2]

theorem listen_read_inv (g g1 : scgi_globals) (d d1 : scgi_desc) (incoming : recv_result)
    (start : Nat) (hstart : start = d.buf.length) (hroom : d.buf.length + 5 ≤ d.bufsize)
    (h : scgi_listen_to_request_read g d start incoming = (g1, some d1)) :
    d1.buf.length + 5 ≤ d1.bufsize ∧ d1.bufsize = d.bufsize := by
  subst hstart
  cases incoming with
  | data bytes =>
    simp only [scgi_listen_to_request_read] at h
    split_ifs at h with hpos
    · obtain ⟨hf, -⟩ := (parse_input_frame g _).2 g1 d1 h
      obtain ⟨-, -, f3, f4, -⟩ := hf
      dsimp only at f3 f4
      simp only [List.length_append, List.length_take] at f3
      refine ⟨?_, f4⟩
      rw [f3, f4]
      omega
    · injection h with h1 h2
      exact Option.noConfusion h2
  | would_block =>
    simp only [scgi_listen_to_request_read] at h
    injection h with h1 h2
    injection h2 with h2
    subst h2
    exact ⟨hroom, rfl⟩
  | failure =>
    simp only [scgi_listen_to_request_read] at h
    injection h with h1 h2
    exact Option.noConfusion h2

/-- A readable event keeps the headroom of the inbound buffer. -/
theorem listen_inv (g g1 : scgi_globals) (d d1 : scgi_desc) (calloc_ok : Bool)
    (incoming : recv_result) (hinv : inbound_inv d)
    (h : scgi_listen_to_request g d calloc_ok incoming = (g1, some d1)) : inbound_inv d1 := by
  obtain ⟨hroom, hcap⟩ := hinv
  simp only [scgi_desc.buflen, SCGI_INITIAL_INBUF_SIZE] at hroom hcap
  by_cases h1 : d.buflen ≥ d.bufsize - 5
  · by_cases h2 : d.bufsize * 2 ≥ SCGI_MAX_INBUF_SIZE ∨ calloc_ok = false
    · rw [listen_refused g d calloc_ok incoming h1 h2] at h
      injection h with e1 e2
      exact Option.noConfusion e2
    · rw [listen_grown g d calloc_ok incoming h1 h2] at h
      have hlen : (sprintf_s d.buf d.buf.length).length = d.buf.length := sprintf_s_length d.buf
      have hcap2 : d.bufsize * 2 < 131072 := by
        simp only [SCGI_MAX_INBUF_SIZE] at h2
        omega
      obtain ⟨r1, r2⟩ := listen_read_inv g g1
        { d with bufsize := d.bufsize * 2, buf := sprintf_s d.buf d.buflen } d1 incoming
        d.buflen (by simp only [scgi_desc.buflen]; exact hlen.symm)
        (by
          show (sprintf_s d.buf d.buf.length).length + 5 ≤ d.bufsize * 2
          rw [hlen]
          omega) h
      dsimp only at r2
      simp only [inbound_inv, scgi_desc.buflen, SCGI_INITIAL_INBUF_SIZE]
      refine ⟨r1, ?_⟩
      rw [r2]
      omega
  · rw [listen_room g d calloc_ok incoming (by omega)] at h
    obtain ⟨r1, r2⟩ := listen_read_inv g g1 d d1 incoming d.buflen rfl hroom h
    simp only [inbound_inv, scgi_desc.buflen, SCGI_INITIAL_INBUF_SIZE]
    exact ⟨r1, by rw [r2]; exact hcap⟩

theorem listen_all_inv (events : List (Bool × recv_result)) (g g1 : scgi_globals)
    (d d1 : scgi_desc) (hinv : inbound_inv d)
    (h : scgi_listen_all (g, some d) events = (g1, some d1)) : inbound_inv d1 := by
  induction events generalizing g d with
  | nil =>
    simp only [scgi_listen_all, List.foldl_nil] at h
    injection h with h1 h2
    injection h2 with h2
    subst h2
    exact hinv
  | cons e rest ih =>
    simp only [scgi_listen_all, List.foldl_cons] at h
    rcases hs : scgi_listen_to_request g d e.1 e.2 with ⟨g2, _ | d2⟩
    · rw [hs] at h
      have hnone : ∀ (l : List (Bool × recv_result)) (g0 : scgi_globals),
          scgi_listen_all (g0, none) l = (g0, none) := by
        intro l
        induction l with
        | nil => intro g0; rfl
        | cons a l ihl => intro g0; simp only [scgi_listen_all, List.foldl_cons] at ihl ⊢; exact ihl g0
      have := hnone rest g2
      simp only [scgi_listen_all] at this
      rw [this] at h
      injection h with h1 h2
      exact Option.noConfusion h2
    · rw [hs] at h
      exact ih g2 d2 (listen_inv g g2 d d2 e.1 e.2 hinv hs) h

/-- C14. Inbound bound.  Whatever readable events a connection goes through,
with whatever answers of `calloc` and `recv`, as long as it is alive the bytes
it has buffered leave the margin of 5 free in a capacity of 65536 at most: the
buffered length stays below `SCGI_MAX_INBUF_SIZE`.  And on a connection whose
buffer is full to within the margin at a capacity whose double would be
refused, a readable event tears the connection down whatever `recv` holds,
whatever the state of the parser and the bytes received. -/
theorem inbound_bound (g : scgi_globals) (sock : Nat) (events : List (Bool × recv_result)) :
    (∀ g1 d, scgi_listen_all (g, some (scgi_answer_the_phone_desc sock)) events = (g1, some d) →
      d.buflen + 5 ≤ d.bufsize ∧ d.bufsize ≤ 65536 ∧ d.buflen < SCGI_MAX_INBUF_SIZE) ∧
    (∀ (d : scgi_desc) (g0 : scgi_globals) (calloc_ok : Bool) (incoming : recv_result),
      d.buflen ≥ d.bufsize - 5 → d.bufsize * 2 ≥ SCGI_MAX_INBUF_SIZE →
      scgi_listen_to_request g0 d calloc_ok incoming = (scgi_kill_socket g0 d, none)) := by
  refine ⟨fun g1 d h => ?_, fun d g0 calloc_ok incoming h1 h2 => ?_⟩
  · have hfresh : inbound_inv (scgi_answer_the_phone_desc sock) := by
      refine ⟨?_, Or.inl rfl⟩
      show (0 : Nat) + 5 ≤ 16384
      decide
    obtain ⟨r1, r2⟩ := listen_all_inv events g g1 _ d hfresh h
    simp only [SCGI_INITIAL_INBUF_SIZE, SCGI_MAX_INBUF_SIZE] at r2 ⊢
    refine ⟨r1, by omega, by omega⟩
  · exact listen_refused g0 d calloc_ok incoming h1 (Or.inl h2)

/-! ## Staging a response -/

theorem int32_of_fits (x : Int) (h0 : 0 ≤ x) (h1 : x < 2 ^ 31) : int32 x = x := by
  unfold int32
  norm_num at h1 ⊢
  omega

theorem size_t_of_nonneg (x : Int) (h0 : 0 ≤ x) (h1 : x < 2 ^ 31) : size_t x = x.toNat := by
  unfold size_t
  norm_num at h1 ⊢
  omega

/-- A block of `len + 6` bytes is granted only if `len + 6` is an `int`: beyond,
the sum wraps to a negative `int` and the request to more than `PTRDIFF_MAX`. -/
theorem calloc_fits (memory : Bool) (len : Int) (h0 : 0 ≤ len) (h1 : len < 2 ^ 31)
    (hc : calloc memory (size_t (int32 (len + 6))) = true) : len + 6 < 2 ^ 31 := by
  unfold calloc at hc
  simp only [Bool.and_eq_true, decide_eq_true_eq] at hc
  obtain ⟨-, hc⟩ := hc
  unfold size_t int32 PTRDIFF_MAX at hc
  norm_num at h1 hc ⊢
  omega

theorem memcpy_take (dst txt : List Nat) (n : Nat) (h : n ≤ txt.length) :
    (memcpy dst txt n).take n = txt.take n := by
  unfold memcpy
  rw [List.take_append_of_le_length (by simp [List.length_take]; omega)]
  rw [List.take_take]
  simp

theorem send_small (d : scgi_desc) (txt : List Nat) (len : Int) (memory : Bool)
    (h : ¬ len ≥ d.outbufsize - 5) :
    scgi_send d txt len memory
      = (1, { d with outbuf := memcpy d.outbuf txt (size_t len), outbuflen := len }) := by
  unfold scgi_send
  rw [if_neg h]

theorem send_large_ok (d : scgi_desc) (txt : List Nat) (len : Int) (memory : Bool)
    (h : len ≥ d.outbufsize - 5) (hc : calloc memory (size_t (int32 (len + 6))) = true) :
    scgi_send d txt len memory
      = (1, { d with
          outbuf := memcpy [] txt (size_t len)
          outbuflen := len
          outbufsize := int32 (len + 6) }) := by
  unfold scgi_send
  rw [if_pos h, if_neg (by rw [hc]; exact Bool.noConfusion)]

theorem send_large_fail (d : scgi_desc) (txt : List Nat) (len : Int) (memory : Bool)
    (h : len ≥ d.outbufsize - 5) (hc : calloc memory (size_t (int32 (len + 6))) = false) :
    scgi_send d txt len memory = (0, d) := by
  unfold scgi_send
  rw [if_pos h, if_pos hc]

/-- C16. Response staging.  For a payload `txt` of at least `len` bytes with
`len >= 0` an `int`: when no new block is needed or `calloc` grants it,
`scgi_send` returns 1, sets `outbuflen` to `len` and makes the first `len`
bytes of `outbuf` the payload.  If `len >= outbufsize - 5` the buffer is a new
block of capacity `len + 6` that holds the payload and nothing else, and
nothing else of the connection changes; if `len < outbufsize - 5` the payload
is copied into the old block, and the capacity and everything else stay.  If
`calloc` fails, `scgi_send` returns 0 and leaves the connection as it was.
And `scgi_write` is `scgi_send` with the length of the C string, `strlen`
converted to `int`. -/
theorem response_staging (d : scgi_desc) (txt : List Nat) (len : Int) (memory : Bool)
    (h0 : 0 ≤ len) (h1 : len < 2 ^ 31) (htxt : len.toNat ≤ txt.length) :
    ((len < d.outbufsize - 5 ∨ calloc memory (size_t (int32 (len + 6))) = true) →
      (scgi_send d txt len memory).1 = 1 ∧
      (scgi_send d txt len memory).2.outbuflen = len ∧
      (scgi_send d txt len memory).2.outbuf.take len.toNat = txt.take len.toNat) ∧
    (len ≥ d.outbufsize - 5 → calloc memory (size_t (int32 (len + 6))) = true →
      (scgi_send d txt len memory).2
        = { d with outbuf := txt.take len.toNat, outbuflen := len, outbufsize := len + 6 }) ∧
    (len < d.outbufsize - 5 →
      (scgi_send d txt len memory).2
        = { d with outbuf := txt.take len.toNat ++ d.outbuf.drop len.toNat, outbuflen := len }) ∧
    (len ≥ d.outbufsize - 5 → calloc memory (size_t (int32 (len + 6))) = false →
      scgi_send d txt len memory = (0, d)) ∧
    scgi_write d txt memory = scgi_send d txt (to_int (strlen txt 0)) memory ∧
    ((strlen txt 0 : Int) < 2 ^ 31 → to_int (strlen txt 0) = (strlen txt 0 : Int)) := by
  have hsz : size_t len = len.toNat := size_t_of_nonneg len h0 h1
  have hsmall : len < d.outbufsize - 5 →
      scgi_send d txt len memory
        = (1, { d with outbuf := txt.take len.toNat ++ d.outbuf.drop len.toNat,
                       outbuflen := len }) := by
    intro h
    rw [send_small d txt len memory (by omega), hsz]
    rfl
  have hlarge : len ≥ d.outbufsize - 5 → calloc memory (size_t (int32 (len + 6))) = true →
      scgi_send d txt len memory
        = (1, { d with outbuf := txt.take len.toNat, outbuflen := len,
                       outbufsize := len + 6 }) := by
    intro h hc
    have hfit := calloc_fits memory len h0 h1 hc
    rw [send_large_ok d txt len memory h hc, hsz, int32_of_fits (len + 6) (by omega) hfit]
    simp [memcpy]
  refine ⟨fun h => ?_, fun h hc => ?_, fun h => ?_, fun h hc => ?_, rfl, fun h => ?_⟩
  · by_cases hb : len < d.outbufsize - 5
    · rw [hsmall hb]
      refine ⟨rfl, rfl, ?_⟩
      show (txt.take len.toNat ++ d.outbuf.drop len.toNat).take len.toNat = txt.take len.toNat
      exact memcpy_take d.outbuf txt len.toNat htxt
    · have hc : calloc memory (size_t (int32 (len + 6))) = true := h.resolve_left hb
      rw [hlarge (by omega) hc]
      refine ⟨rfl, rfl, ?_⟩
      show (txt.take len.toNat).take len.toNat = txt.take len.toNat
      rw [List.take_take]
      simp
  · rw [hlarge h hc]
  · rw [hsmall h]
  · exact send_large_fail d txt len memory h hc
  · unfold to_int
    exact int32_of_fits _ (by omega) h
/-- C16, at a fresh connection and the payload `Hi`. -/
theorem response_staging_witness :
    0 ≤ (2 : Int) ∧
    (2 : Int) < 2 ^ 31 ∧
    (2 : Int).toNat ≤ [72, 105].length ∧
    ((((2 : Int) < (scgi_answer_the_phone_desc 7).outbufsize - 5 ∨ calloc true (size_t (int32 ((2 : Int) + 6))) = true) →
      (scgi_send (scgi_answer_the_phone_desc 7) [72, 105] (2 : Int) true).1 = 1 ∧
      (scgi_send (scgi_answer_the_phone_desc 7) [72, 105] (2 : Int) true).2.outbuflen = (2 : Int) ∧
      (scgi_send (scgi_answer_the_phone_desc 7) [72, 105] (2 : Int) true).2.outbuf.take (2 : Int).toNat = [72, 105].take (2 : Int).toNat) ∧
    ((2 : Int) ≥ (scgi_answer_the_phone_desc 7).outbufsize - 5 → calloc true (size_t (int32 ((2 : Int) + 6))) = true →
      (scgi_send (scgi_answer_the_phone_desc 7) [72, 105] (2 : Int) true).2
        = { (scgi_answer_the_phone_desc 7) with outbuf := [72, 105].take (2 : Int).toNat, outbuflen := (2 : Int), outbufsize := (2 : Int) + 6 }) ∧
    ((2 : Int) < (scgi_answer_the_phone_desc 7).outbufsize - 5 →
      (scgi_send (scgi_answer_the_phone_desc 7) [72, 105] (2 : Int) true).2
        = { (scgi_answer_the_phone_desc 7) with outbuf := [72, 105].take (2 : Int).toNat ++ (scgi_answer_the_phone_desc 7).outbuf.drop (2 : Int).toNat, outbuflen := (2 : Int) }) ∧
    ((2 : Int) ≥ (scgi_answer_the_phone_desc 7).outbufsize - 5 → calloc true (size_t (int32 ((2 : Int) + 6))) = false →
      scgi_send (scgi_answer_the_phone_desc 7) [72, 105] (2 : Int) true = (0, (scgi_answer_the_phone_desc 7))) ∧
    scgi_write (scgi_answer_the_phone_desc 7) [72, 105] true = scgi_send (scgi_answer_the_phone_desc 7) [72, 105] (to_int (strlen [72, 105] 0)) true ∧
    ((strlen [72, 105] 0 : Int) < 2 ^ 31 → to_int (strlen [72, 105] 0) = (strlen [72, 105] 0 : Int))) :=
  ⟨by decide, by norm_num, by decide,
    response_staging (scgi_answer_the_phone_desc 7) [72, 105] 2 true (by decide) (by norm_num)
      (by decide)⟩

/-! ## Delivery of the response -/

theorem flush_all_none (g : scgi_globals) (acc : List Nat) (ks : List Int) :
    scgi_flush_all (g, none, acc) ks = (g, none, acc) := by
  induction ks with
  | nil => rfl
  | cons k ks ih =>
    simp only [scgi_flush_all, List.foldl_cons] at ih ⊢
    exact ih

theorem flush_all_cons (s : scgi_globals × Option scgi_desc × List Nat) (k : Int)
    (ks : List Int) : scgi_flush_all s (k :: ks) = scgi_flush_all (scgi_flush s k) ks := rfl

theorem valid_results_zero (ks : List Int) (h : valid_results 0 ks = true) : ks.sum = 0 := by
  induction ks with
  | nil => rfl
  | cons k ks ih =>
    simp only [valid_results, Bool.and_eq_true, decide_eq_true_eq] at h
    obtain ⟨⟨h1, h2⟩, h3⟩ := h
    have hk : k = 0 := by omega
    subst hk
    simp only [sub_zero] at h3
    simp [ih h3]

/-- The bytes that `send` takes from a buffer whose first bytes are `p`. -/
theorem sent_bytes_eq (d : scgi_desc) (p : List Nat) (w k : Nat)
    (hw : d.writehead.getD 0 = (w : Int)) (hp : d.outbuf.take p.length = p)
    (hk : w + k ≤ p.length) :
    sent_bytes d (k : Int) = (p.drop w).take k := by
  unfold sent_bytes
  rw [hw]
  simp only [Int.toNat_ofNat]
  apply List.ext_getElem
  · simp only [List.length_map, List.length_range, List.length_take, List.length_drop]
    omega
  · intro i h1 h2
    simp only [List.length_map, List.length_range] at h1
    simp only [List.getElem_map, List.getElem_range, List.getElem_take, List.getElem_drop]
    have hlen : p.length ≤ d.outbuf.length := by
      have := congrArg List.length hp
      simp only [List.length_take] at this
      omega
    unfold byteAt
    rw [List.getD_eq_getElem _ _ (by omega)]
    have hb : w + i < (d.outbuf.take p.length).length := by
      rw [List.length_take]
      omega
    have e : p[w + i] = (d.outbuf.take p.length)[w + i] := by
      congr 1
      exact hp.symm
    rw [e, List.getElem_take]

/-- Writable events on a connection that has `rem` bytes left to send from the
offset `w` of a buffer whose first `w + rem` bytes are `p`. -/
theorem flush_all_spec (g : scgi_globals) (p : List Nat) (ks : List Int) :
    ∀ (d : scgi_desc) (acc : List Nat) (rem w : Nat), 0 < rem →
      d.outbuflen = (rem : Int) → d.writehead.getD 0 = (w : Int) →
      d.outbuf.take p.length = p → w + rem = p.length →
      valid_results (rem : Int) ks = true →
      (scgi_flush_all (g, some d, acc) ks).2.2 = acc ++ (p.drop w).take ks.sum.toNat ∧
      0 ≤ ks.sum ∧ ks.sum ≤ (rem : Int) ∧
      (ks.sum < (rem : Int) →
        (scgi_flush_all (g, some d, acc) ks).1 = g ∧
        ∃ d1, (scgi_flush_all (g, some d, acc) ks).2.1 = some d1 ∧
          d1.outbuflen = (rem : Int) - ks.sum ∧ same_connection d d1) ∧
      (ks.sum = (rem : Int) →
        (scgi_flush_all (g, some d, acc) ks).2.1 = none ∧
        (scgi_flush_all (g, some d, acc) ks).1 = scgi_kill_socket g d) := by
  induction ks with
  | nil =>
    intro d acc rem w hrem hlen hw hp hsum hv
    refine ⟨by simp [scgi_flush_all], by simp, by simp, fun _ => ⟨rfl, d, rfl, ?_, rfl, rfl, rfl, rfl⟩,
      fun h => ?_⟩
    · rw [hlen]
      simp
    · simp only [List.sum_nil] at h
      omega
  | cons k ks ih =>
    intro d acc rem w hrem hlen hw hp hsum hv
    simp only [valid_results, Bool.and_eq_true, decide_eq_true_eq] at hv
    obtain ⟨⟨hk0, hk1⟩, hv1⟩ := hv
    obtain ⟨kn, rfl⟩ := Int.eq_ofNat_of_zero_le hk0
    have hkn : kn ≤ rem := by omega
    have hsent : sent_bytes d (kn : Int) = (p.drop w).take kn :=
      sent_bytes_eq d p w kn hw hp (by omega)
    rw [flush_all_cons]
    simp only [List.sum_cons]
    by_cases hfull : kn = rem
    · -- the last byte goes
      subst hfull
      have hz : ks.sum = 0 := valid_results_zero ks (by simpa using hv1)
      have hstep : scgi_flush (g, some d, acc) (kn : Int)
          = (scgi_kill_socket g d, none, acc ++ (p.drop w).take kn) := by
        simp only [scgi_flush, scgi_flush_response, hlen, ge_iff_le, le_refl, if_true, hsent]
      rw [hstep, flush_all_none, hz]
      refine ⟨by simp, by omega, by omega, fun h => ?_, fun _ => ⟨rfl, rfl⟩⟩
      omega
    · have hlt : kn < rem := by omega
      have hstep : scgi_flush (g, some d, acc) (kn : Int)
          = (g, some { d with outbuflen := d.outbuflen - (kn : Int),
                              writehead := some (d.writehead.getD 0 + (kn : Int)) },
              acc ++ (p.drop w).take kn) := by
        simp only [scgi_flush, scgi_flush_response, hlen, hsent]
        rw [if_neg (by omega)]
      rw [hstep]
      have hcast : ((rem - kn : Nat) : Int) = (rem : Int) - (kn : Int) := Nat.cast_sub hkn
      obtain ⟨i1, i2, i3, i4, i5⟩ := ih
        { d with outbuflen := d.outbuflen - (kn : Int),
                 writehead := some (d.writehead.getD 0 + (kn : Int)) }
        (acc ++ (p.drop w).take kn) (rem - kn) (w + kn) (by omega)
        (by show d.outbuflen - (kn : Int) = ((rem - kn : Nat) : Int); rw [hlen, hcast])
        (by show (some (d.writehead.getD 0 + (kn : Int))).getD 0 = ((w + kn : Nat) : Int)
            rw [hw]; simp)
        hp (by omega)
        (by rw [hcast]; exact hv1)
      rw [hcast] at i3 i4 i5
      refine ⟨?_, by omega, by omega, fun h => ?_, fun h => ?_⟩
      · rw [i1, List.append_assoc]
        congr 1
        rw [show ((kn : Int) + ks.sum).toNat = kn + ks.sum.toNat by omega, List.take_add,
          List.drop_drop]
      · obtain ⟨j1, d1, j2, j3, j4⟩ := i4 (by omega)
        exact ⟨j1, d1, j2, by rw [j3]; ring, j4⟩
      · obtain ⟨j1, j2⟩ := i5 (by omega)
        exact ⟨j1, by rw [j2]; exact kill_socket_congr g d _ rfl rfl⟩

/-- What a successful `scgi_send` leaves in the connection. -/
theorem send_staged (d : scgi_desc) (txt : List Nat) (len : Int) (memory : Bool)
    (h0 : 0 ≤ len) (h1 : len < 2 ^ 31) (htxt : len.toNat ≤ txt.length)
    (hst : (scgi_send d txt len memory).1 = 1) :
    (scgi_send d txt len memory).2.outbuflen = len ∧
    (scgi_send d txt len memory).2.outbuf.take len.toNat = txt.take len.toNat ∧
    (scgi_send d txt len memory).2.writehead = d.writehead ∧
    (scgi_send d txt len memory).2.sock = d.sock ∧
    (scgi_send d txt len memory).2.req = d.req ∧
    (scgi_send d txt len memory).2.state = d.state ∧
    (scgi_send d txt len memory).2.idle = d.idle := by
  have hsz : size_t len = len.toNat := size_t_of_nonneg len h0 h1
  by_cases hb : len ≥ d.outbufsize - 5
  · cases hc : calloc memory (size_t (int32 (len + 6)))
    · rw [send_large_fail d txt len memory hb hc] at hst
      exact absurd (show (0 : Int) = 1 from hst) (by decide)
    · rw [send_large_ok d txt len memory hb hc, hsz]
      exact ⟨rfl, memcpy_take [] txt len.toNat htxt, rfl, rfl, rfl, rfl, rfl⟩
  · rw [send_small d txt len memory hb, hsz]
    exact ⟨rfl, memcpy_take d.outbuf txt len.toNat htxt, rfl, rfl, rfl, rfl, rfl⟩

/-- C15. Byte-for-byte delivery.  A payload of `L > 0` bytes is staged by
`scgi_send` on a connection that has not written yet, and `send` then answers
the successive calls of `scgi_flush_response` with any results between 0 and
what is left.  Then the bytes the socket has taken, in order, are the first
bytes of the payload, as many as the results add up to.  As long as the
results add up to less than `L` the connection is alive with the rest still
to send; and when they add up to `L`, in the call that takes the last byte,
the connection is torn down and the socket has taken the payload exactly. -/
theorem byte_for_byte_delivery (g : scgi_globals) (d0 : scgi_desc) (txt : List Nat) (L : Int)
    (memory : Bool) (ks : List Int) (hL : 0 < L) (hint : L < 2 ^ 31)
    (htxt : L.toNat ≤ txt.length) (hw : d0.writehead = none)
    (hstaged : (scgi_send d0 txt L memory).1 = 1) (hvalid : valid_results L ks = true) :
    (scgi_flush_all (g, some (scgi_send d0 txt L memory).2, []) ks).2.2
      = (txt.take L.toNat).take ks.sum.toNat ∧
    0 ≤ ks.sum ∧ ks.sum ≤ L ∧
    (ks.sum < L →
      (scgi_flush_all (g, some (scgi_send d0 txt L memory).2, []) ks).1 = g ∧
      ∃ d1, (scgi_flush_all (g, some (scgi_send d0 txt L memory).2, []) ks).2.1 = some d1 ∧
        d1.outbuflen = L - ks.sum) ∧
    (ks.sum = L →
      (scgi_flush_all (g, some (scgi_send d0 txt L memory).2, []) ks).2.1 = none ∧
      (scgi_flush_all (g, some (scgi_send d0 txt L memory).2, []) ks).1
        = scgi_kill_socket g d0 ∧
      (scgi_flush_all (g, some (scgi_send d0 txt L memory).2, []) ks).2.2
        = txt.take L.toNat) := by
  obtain ⟨s1, s2, s3, s4, s5, -, -⟩ := send_staged d0 txt L memory (le_of_lt hL) hint htxt hstaged
  have hcast : ((L.toNat : Nat) : Int) = L := Int.toNat_of_nonneg (le_of_lt hL)
  have hplen : (txt.take L.toNat).length = L.toNat := by
    rw [List.length_take]
    omega
  obtain ⟨r1, r2, r3, r4, r5⟩ := flush_all_spec g (txt.take L.toNat) ks
    (scgi_send d0 txt L memory).2 [] L.toNat 0 (by omega) (by rw [s1, hcast])
    (by rw [s3, hw]; rfl) (by rw [hplen]; exact s2) (by rw [hplen]; omega)
    (by rw [hcast]; exact hvalid)
  rw [hcast] at r3 r4 r5
  simp only [List.nil_append, List.drop_zero] at r1
  refine ⟨r1, r2, r3, fun h => ?_, fun h => ?_⟩
  · obtain ⟨j1, d1, j2, j3, -⟩ := r4 h
    exact ⟨j1, d1, j2, j3⟩
  · obtain ⟨j1, j2⟩ := r5 h
    refine ⟨j1, ?_, ?_⟩
    · rw [j2]
      exact kill_socket_congr g d0 _ s4 (by rw [s5])
    · rw [r1, h, List.take_take]
      simp
/-- C15, at the payload `Hi!` on a fresh connection, taken by the socket in the portions 1, 0 and 2. -/
theorem byte_for_byte_delivery_witness :
    0 < (3 : Int) ∧
    (3 : Int) < 2 ^ 31 ∧
    (3 : Int).toNat ≤ [72, 105, 33].length ∧
    (scgi_answer_the_phone_desc 7).writehead = none ∧
    (scgi_send (scgi_answer_the_phone_desc 7) [72, 105, 33] (3 : Int) true).1 = 1 ∧
    valid_results (3 : Int) ([1, 0, 2] : List Int) = true ∧
    ((scgi_flush_all (sample_globals, some (scgi_send (scgi_answer_the_phone_desc 7) [72, 105, 33] (3 : Int) true).2, []) ([1, 0, 2] : List Int)).2.2
      = ([72, 105, 33].take (3 : Int).toNat).take ([1, 0, 2] : List Int).sum.toNat ∧
    0 ≤ ([1, 0, 2] : List Int).sum ∧ ([1, 0, 2] : List Int).sum ≤ (3 : Int) ∧
    (([1, 0, 2] : List Int).sum < (3 : Int) →
      (scgi_flush_all (sample_globals, some (scgi_send (scgi_answer_the_phone_desc 7) [72, 105, 33] (3 : Int) true).2, []) ([1, 0, 2] : List Int)).1 = sample_globals ∧
      ∃ d1, (scgi_flush_all (sample_globals, some (scgi_send (scgi_answer_the_phone_desc 7) [72, 105, 33] (3 : Int) true).2, []) ([1, 0, 2] : List Int)).2.1 = some d1 ∧
        d1.outbuflen = (3 : Int) - ([1, 0, 2] : List Int).sum) ∧
    (([1, 0, 2] : List Int).sum = (3 : Int) →
      (scgi_flush_all (sample_globals, some (scgi_send (scgi_answer_the_phone_desc 7) [72, 105, 33] (3 : Int) true).2, []) ([1, 0, 2] : List Int)).2.1 = none ∧
      (scgi_flush_all (sample_globals, some (scgi_send (scgi_answer_the_phone_desc 7) [72, 105, 33] (3 : Int) true).2, []) ([1, 0, 2] : List Int)).1
        = scgi_kill_socket sample_globals (scgi_answer_the_phone_desc 7) ∧
      (scgi_flush_all (sample_globals, some (scgi_send (scgi_answer_the_phone_desc 7) [72, 105, 33] (3 : Int) true).2, []) ([1, 0, 2] : List Int)).2.2
        = [72, 105, 33].take (3 : Int).toNat)) :=
  ⟨by decide, by norm_num, by decide, rfl, by decide, by decide,
    byte_for_byte_delivery sample_globals (scgi_answer_the_phone_desc 7) [72, 105, 33] 3 true
      [1, 0, 2] (by decide) (by norm_num) (by decide) rfl (by decide) (by decide)⟩

/-! ## The cap of the outbound buffer and errors of `send` -/

/-- C17 against the code.  A response of 600000 bytes needs an outbound
capacity above `SCGI_MAX_OUTBUF_SIZE`; `scgi_send` on a fresh connection stages
it all the same: it returns 1, the connection is as alive as before, and the
capacity `outbufsize` is 600006, above the cap. -/
theorem outbound_cap_exceeded :
    (scgi_send (scgi_answer_the_phone_desc 7) (List.replicate 600000 65) 600000 true).1 = 1 ∧
    (scgi_send (scgi_answer_the_phone_desc 7) (List.replicate 600000 65) 600000 true).2.outbufsize
      = 600006 ∧
    (scgi_send (scgi_answer_the_phone_desc 7) (List.replicate 600000 65) 600000 true).2.outbuflen
      = 600000 ∧
    (600006 : Int) > (SCGI_MAX_OUTBUF_SIZE : Int) := by
  have hb : (600000 : Int) ≥ (scgi_answer_the_phone_desc 7).outbufsize - 5 := by decide
  have hc : calloc true (size_t (int32 ((600000 : Int) + 6))) = true := by decide
  have hi : int32 ((600000 : Int) + 6) = 600006 := by decide
  rw [send_large_ok _ _ _ _ hb hc, hi]
  exact ⟨rfl, rfl, rfl, by decide⟩

/-- C20 against the code.  On a connection in the state WRITING_RESPONSE with
2 bytes to send, a `send` that fails with the result -1 does not tear the
connection down: `scgi_flush_response` returns with the connection alive,
`outbuflen` grown to 3 and the write head one byte before the buffer. -/
theorem flush_error_not_torn_down :
    staged_desc.state = SCGI_SOCKSTATE_WRITING_RESPONSE ∧
    staged_desc.outbuflen = 2 ∧
    scgi_flush_response sample_globals staged_desc (-1)
      = (sample_globals, some { staged_desc with outbuflen := 3, writehead := some (-1) }) := by
  refine ⟨by decide, by decide, by decide⟩

/-! ## The outcomes of a read -/

theorem full_desc_buflen : full_desc.buflen = 16379 := by
  show (List.replicate 16379 49).length = 16379
  exact List.length_replicate _ _

/-- C19, as stated, fails: on a connection whose buffer is full to within the
margin, a readable event on which `recv` answers `EWOULDBLOCK` does not leave
the connection unchanged: the capacity of the buffer has doubled. -/
theorem read_outcomes_counterexample :
    full_desc.bufsize = 16384 ∧
    (scgi_listen_to_request sample_globals full_desc true recv_result.would_block).2.map
      (fun d => d.bufsize) = some 32768 ∧
    scgi_listen_to_request sample_globals full_desc true recv_result.would_block
      ≠ (sample_globals, some full_desc) := by
  have hfull : full_desc.buflen ≥ full_desc.bufsize - 5 := by
    rw [full_desc_buflen]
    decide
  have hno : ¬ (full_desc.bufsize * 2 ≥ SCGI_MAX_INBUF_SIZE ∨ true = false) := by decide
  have h := listen_grown sample_globals full_desc true recv_result.would_block hfull hno
  rw [h]
  refine ⟨rfl, rfl, fun e => ?_⟩
  have e2 := congrArg (fun r => r.2.map (fun d => d.bufsize)) e
  revert e2
  simp only [scgi_listen_to_request_read, Option.map_some']
  decide

/-- C19, amended. Read outcomes in `scgi_listen_to_request`.  With room in the
buffer (`buflen < bufsize - 5`) the call is the read on the connection itself;
with a full buffer it is the teardown, if the growth is refused, or the read
on the connection with the doubled capacity and the recopied buffer.  And the
read on a connection comes out as follows.  If `recv` returns `k > 0` bytes,
they are stored behind the old end of the buffer, `buflen` grows by `k`, and
the result is that of the parser on it.  If `recv` returns 0, which it does
when the stream has ended, or fails with an error other than `EWOULDBLOCK`,
the connection is torn down: so is it by the whole call, with or without
room.  If `recv` fails with `EWOULDBLOCK`, the
connection is left as it was; the whole call leaves it unchanged if there was
room. -/
theorem read_outcomes (g : scgi_globals) (d : scgi_desc) (calloc_ok : Bool) :
    (∀ incoming, d.buflen < d.bufsize - 5 →
      scgi_listen_to_request g d calloc_ok incoming
        = scgi_listen_to_request_read g d d.buflen incoming) ∧
    (∀ incoming, d.buflen ≥ d.bufsize - 5 →
      scgi_listen_to_request g d calloc_ok incoming = (scgi_kill_socket g d, none) ∨
      scgi_listen_to_request g d calloc_ok incoming
        = scgi_listen_to_request_read g
            { d with bufsize := d.bufsize * 2, buf := sprintf_s d.buf d.buflen }
            d.buflen incoming) ∧
    (∀ bytes, 0 < (bytes.take (d.bufsize - 5 - d.buflen)).length →
      scgi_listen_to_request_read g d d.buflen (recv_result.data bytes)
        = scgi_parse_input g { d with buf := d.buf ++ bytes.take (d.bufsize - 5 - d.buflen) } ∧
      ({ d with buf := d.buf ++ bytes.take (d.bufsize - 5 - d.buflen) } : scgi_desc).buflen
        = d.buflen + (bytes.take (d.bufsize - 5 - d.buflen)).length ∧
      ({ d with buf := d.buf ++ bytes.take (d.bufsize - 5 - d.buflen) } : scgi_desc).buf.drop
        d.buflen = bytes.take (d.bufsize - 5 - d.buflen)) ∧
    (∀ bytes, (bytes.take (d.bufsize - 5 - d.buflen)).length = 0 →
      scgi_listen_to_request_read g d d.buflen (recv_result.data bytes)
        = (scgi_kill_socket g d, none) ∧
      scgi_listen_to_request g d calloc_ok (recv_result.data [])
        = (scgi_kill_socket g d, none)) ∧
    (scgi_listen_to_request_read g d d.buflen recv_result.failure = (scgi_kill_socket g d, none) ∧
      scgi_listen_to_request g d calloc_ok recv_result.failure = (scgi_kill_socket g d, none)) ∧
    (scgi_listen_to_request_read g d d.buflen recv_result.would_block = (g, some d) ∧
      (d.buflen < d.bufsize - 5 →
        scgi_listen_to_request g d calloc_ok recv_result.would_block = (g, some d))) := by
  have hcases : ∀ incoming, d.buflen ≥ d.bufsize - 5 →
      scgi_listen_to_request g d calloc_ok incoming = (scgi_kill_socket g d, none) ∨
      scgi_listen_to_request g d calloc_ok incoming
        = scgi_listen_to_request_read g
            { d with bufsize := d.bufsize * 2, buf := sprintf_s d.buf d.buflen }
            d.buflen incoming := by
    intro incoming h
    by_cases h2 : d.bufsize * 2 ≥ SCGI_MAX_INBUF_SIZE ∨ calloc_ok = false
    · exact Or.inl (listen_refused g d calloc_ok incoming h h2)
    · exact Or.inr (listen_grown g d calloc_ok incoming h h2)
  have hroom : ∀ incoming, d.buflen < d.bufsize - 5 →
      scgi_listen_to_request g d calloc_ok incoming
        = scgi_listen_to_request_read g d d.buflen incoming :=
    fun incoming h => listen_room g d calloc_ok incoming h
  refine ⟨hroom, hcases, fun bytes h => ?_, fun bytes h => ?_, ⟨rfl, ?_⟩, ⟨rfl, fun h => ?_⟩⟩
  · refine ⟨?_, ?_, ?_⟩
    · simp only [scgi_listen_to_request_read]
      rw [if_pos h]
    · simp only [scgi_desc.buflen, List.length_append]
    · simp only [scgi_desc.buflen, List.drop_left]
  · have hread : scgi_listen_to_request_read g d d.buflen (recv_result.data bytes)
        = (scgi_kill_socket g d, none) := by
      simp only [scgi_listen_to_request_read]
      rw [if_neg (by omega)]
    refine ⟨hread, ?_⟩
    by_cases hb : d.buflen < d.bufsize - 5
    · rw [hroom _ hb]
      simp only [scgi_listen_to_request_read, List.take_nil, List.length_nil, gt_iff_lt,
        lt_self_iff_false, if_false]
    · rcases hcases (recv_result.data []) (by omega) with e | e
      · exact e
      · rw [e]
        simp only [scgi_listen_to_request_read, List.take_nil, List.length_nil, gt_iff_lt,
          lt_self_iff_false, if_false]
        exact congrArg (fun x => (x, (none : Option scgi_desc))) (kill_socket_congr g d _ rfl rfl)
  · by_cases hb : d.buflen < d.bufsize - 5
    · rw [hroom _ hb]
      rfl
    · rcases hcases recv_result.failure (by omega) with e | e
      · exact e
      · rw [e]
        rfl
  · rw [hroom _ h]
    rfl

/-! ## The idle timeout -/

theorem FD_ISSET_select (ready : Nat → Bool) (fd : Nat) (set : List Nat)
    (h : ready fd = false) : FD_ISSET fd (select ready set) = false := by
  simp [FD_ISSET, select, List.mem_filter, h]

/-- The body of the loop for a connection whose socket is not handled: the
idle count goes up by one, and beyond 600 the connection is torn down. -/
theorem update_not_handled (ev : pass_events) (X Y Z : List Nat) (g : scgi_globals)
    (d : scgi_desc) (hq : not_handled ev d.sock) :
    scgi_update_connection ev (select ev.readable X) (select ev.writable Y)
        (select ev.exceptional Z) g d
      = if d.idle + 1 > SCGI_KICK_IDLE_AFTER_X_SECS * SCGI_PULSES_PER_SEC then
          (scgi_kill_socket g d, none)
        else (g, some { d with idle := d.idle + 1 }) := by
  obtain ⟨h1, h2, h3⟩ := hq
  simp only [scgi_update_connection, FD_ISSET_select _ _ _ h1, FD_ISSET_select _ _ _ h2,
    FD_ISSET_select _ _ _ h3, Bool.false_eq_true, false_or, and_false, if_false]
  split_ifs <;> rfl

theorem loop_find_not_handled (ev : pass_events) (X Y Z : List Nat) (d : scgi_desc)
    (hq : not_handled ev d.sock)
    (hidle : d.idle + 1 ≤ SCGI_KICK_IDLE_AFTER_X_SECS * SCGI_PULSES_PER_SEC) :
    ∀ (ds : List scgi_desc) (g : scgi_globals),
      ds.find? (fun e => e.sock == d.sock) = some d →
      (scgi_update_connections_loop ev (select ev.readable X) (select ev.writable Y)
          (select ev.exceptional Z) ds g).2.find? (fun e => e.sock == d.sock)
        = some { d with idle := d.idle + 1 } := by
  intro ds
  induction ds with
  | nil => intro g h; simp at h
  | cons e rest ih =>
    intro g h
    by_cases he : e.sock = d.sock
    · have hed : e = d := by
        simpa [List.find?_cons, he] using h
      subst hed
      have hu := update_not_handled ev X Y Z g e hq
      rw [if_neg (by omega)] at hu
      rw [loop_cons_some _ _ _ _ _ _ _ _ _ hu]
      simp [List.find?_cons]
    · have hrest : rest.find? (fun e => e.sock == d.sock) = some d := by
        simpa [List.find?_cons, he] using h
      rcases hu : scgi_update_connection ev (select ev.readable X) (select ev.writable Y)
          (select ev.exceptional Z) g e with ⟨g1, _ | e1⟩
      · rw [loop_cons_none _ _ _ _ _ _ _ _ hu]
        exact ih g1 hrest
      · have hs := ((update_connection_frame _ _ _ _ g e).2 g1 e1 hu).1
        rw [loop_cons_some _ _ _ _ _ _ _ _ _ hu]
        have hb : (e1.sock == d.sock) = false := by
          rw [hs]
          simpa using he
        dsimp only
        rw [List.find?_cons]
        simp only [hb]
        exact ih g1 hrest

theorem answer_the_phone_find (ev : pass_events) (g : scgi_globals) (p : scgi_port)
    (d : scgi_desc) (h : p.descs.find? (fun e => e.sock == d.sock) = some d) :
    (scgi_answer_the_phone ev g p).2.descs.find? (fun e => e.sock == d.sock) = some d := by
  unfold scgi_answer_the_phone
  cases ev.accept with
  | none => exact h
  | some caller =>
    dsimp only
    split_ifs
    · exact h
    · show (p.descs ++ [scgi_answer_the_phone_desc caller]).find? _ = some d
      rw [List.find?_append, h]
      rfl

theorem port_ready_descs (ev : pass_events) (inset outset excset : List Nat)
    (g : scgi_globals) (p : scgi_port) :
    (scgi_update_connections_port_ready ev inset outset excset g p).2.descs
      = if FD_ISSET p.sock excset = false ∧ FD_ISSET p.sock inset = true then
          (scgi_update_connections_loop ev inset outset excset
            (scgi_answer_the_phone ev g p).2.descs (scgi_answer_the_phone ev g p).1).2
        else (scgi_update_connections_loop ev inset outset excset p.descs g).2 := by
  unfold scgi_update_connections_port_ready
  split_ifs <;> rfl

theorem port_ready_globals (ev : pass_events) (inset outset excset : List Nat)
    (g : scgi_globals) (p : scgi_port) :
    (scgi_update_connections_port_ready ev inset outset excset g p).1
      = if FD_ISSET p.sock excset = false ∧ FD_ISSET p.sock inset = true then
          (scgi_update_connections_loop ev inset outset excset
            (scgi_answer_the_phone ev g p).2.descs (scgi_answer_the_phone ev g p).1).1
        else (scgi_update_connections_loop ev inset outset excset p.descs g).1 := by
  unfold scgi_update_connections_port_ready
  split_ifs <;> rfl

theorem port_pass_eq (ev : pass_events) (g : scgi_globals) (p : scgi_port)
    (hs : ev.select_ok = true) :
    scgi_update_connections_port ev g p
      = some (scgi_update_connections_port_ready ev (select ev.readable (scgi_inset p))
          (select ev.writable (scgi_outset p)) (select ev.exceptional (scgi_excset p)) g p) := by
  unfold scgi_update_connections_port
  rw [if_neg (by rw [hs]; exact Bool.noConfusion)]

/-- A pass over a port leaves a connection whose socket is not handled, and
that has not been idle for 600 passes before, with its idle count one up. -/
theorem pass_not_handled (ev : pass_events) (g : scgi_globals) (p : scgi_port) (d : scgi_desc)
    (hs : ev.select_ok = true) (hq : not_handled ev d.sock)
    (hidle : d.idle + 1 ≤ SCGI_KICK_IDLE_AFTER_X_SECS * SCGI_PULSES_PER_SEC)
    (h : p.descs.find? (fun e => e.sock == d.sock) = some d) :
    ∃ g1 p1, scgi_update_connections_port ev g p = some (g1, p1) ∧
      p1.descs.find? (fun e => e.sock == d.sock) = some { d with idle := d.idle + 1 } := by
  refine ⟨(scgi_update_connections_port_ready ev (select ev.readable (scgi_inset p))
      (select ev.writable (scgi_outset p)) (select ev.exceptional (scgi_excset p)) g p).1,
    (scgi_update_connections_port_ready ev (select ev.readable (scgi_inset p))
      (select ev.writable (scgi_outset p)) (select ev.exceptional (scgi_excset p)) g p).2,
    port_pass_eq ev g p hs, ?_⟩
  rw [port_ready_descs]
  split_ifs
  · exact loop_find_not_handled ev _ _ _ d hq hidle _ _ (answer_the_phone_find ev g p d h)
  · exact loop_find_not_handled ev _ _ _ d hq hidle _ _ h

/-- A run of passes in none of which the socket of a connection is handled
leaves the connection alive, its idle count up by the number of passes, as
long as that count does not go beyond 600. -/
theorem passes_not_handled (evs : List pass_events) :
    ∀ (g : scgi_globals) (p : scgi_port) (d : scgi_desc),
      (∀ ev ∈ evs, ev.select_ok = true ∧ not_handled ev d.sock) →
      d.idle + evs.length ≤ SCGI_KICK_IDLE_AFTER_X_SECS * SCGI_PULSES_PER_SEC →
      p.descs.find? (fun e => e.sock == d.sock) = some d →
      ∃ g1 p1, scgi_update_connections_port_all g p evs = some (g1, p1) ∧
        p1.descs.find? (fun e => e.sock == d.sock)
          = some { d with idle := d.idle + evs.length } := by
  induction evs with
  | nil =>
    intro g p d _ _ h
    exact ⟨g, p, rfl, h⟩
  | cons ev evs ih =>
    intro g p d hq hidle h
    obtain ⟨hs, hn⟩ := hq ev (List.mem_cons_self _ _)
    simp only [List.length_cons] at hidle
    obtain ⟨g1, p1, e1, f1⟩ := pass_not_handled ev g p d hs hn (by omega) h
    obtain ⟨g2, p2, e2, f2⟩ := ih g1 p1 { d with idle := d.idle + 1 }
      (fun e he => hq e (List.mem_cons_of_mem _ he)) (by show d.idle + 1 + evs.length ≤ _; omega)
      f1
    refine ⟨g2, p2, ?_, ?_⟩
    · simp only [scgi_update_connections_port_all, e1]
      exact e2
    · rw [f2]
      simp only [List.length_cons]
      congr 1
      show ({ d with idle := d.idle + 1 + evs.length } : scgi_desc)
        = { d with idle := d.idle + (evs.length + 1) }
      rw [Nat.add_assoc, Nat.add_comm 1]

/-- The body of the loop puts no request but that of its connection into the
queue. -/
theorem update_connection_queue (ev : pass_events) (inset outset excset : List Nat)
    (g g1 : scgi_globals) (e : scgi_desc) (r : Option scgi_desc)
    (hu : scgi_update_connection ev inset outset excset g e = (g1, r)) (x : Nat)
    (hx : x ∈ g1.first_scgi_unrecved_req) : x ∈ g.first_scgi_unrecved_req ∨ x = e.sock := by
  have hkill : ∀ d0 : scgi_desc, x ∈ (scgi_kill_socket g d0).first_scgi_unrecved_req →
      x ∈ g.first_scgi_unrecved_req := by
    intro d0 h
    simp only [scgi_kill_socket, free_scgi_request, SCGI_UNLINK] at h
    split_ifs at h
    · exact List.mem_of_mem_erase h
    · exact h
  have hlink : ∀ d0 : scgi_desc, d0.sock = e.sock →
      (g1 = g ∨ g1 = { g with
        first_scgi_unrecved_req := SCGI_LINK d0.sock g.first_scgi_unrecved_req }) →
      x ∈ g.first_scgi_unrecved_req ∨ x = e.sock := by
    rintro d0 hs (h | h)
    · rw [h] at hx
      exact Or.inl hx
    · rw [h] at hx
      simp only [SCGI_LINK, List.mem_append, List.mem_singleton] at hx
      rcases hx with hx | hx
      · exact Or.inl hx
      · exact Or.inr (hx.trans hs)
  simp only [scgi_update_connection] at hu
  split_ifs at hu with h1 h2 h3
  · injection hu with e1 e2
    rw [← e1] at hx
    exact Or.inl (hkill _ hx)
  · obtain ⟨p1, p2⟩ := listen_frame g { e with idle := 0 } (ev.calloc_ok e.sock) (ev.recv e.sock)
    cases r with
    | none =>
      rw [p1 g1 hu] at hx
      exact Or.inl (hkill _ hx)
    | some d1 =>
      obtain ⟨-, -, -, -, -, -, hg⟩ := p2 g1 d1 hu
      exact hlink { e with idle := 0 } rfl hg
  · obtain ⟨p1, p2⟩ := flush_frame g { e with idle := 0 } (ev.send e.sock)
    cases r with
    | none =>
      rw [p1 g1 hu] at hx
      exact Or.inl (hkill _ hx)
    | some d1 =>
      obtain ⟨-, hg, -⟩ := p2 g1 d1 hu
      rw [hg] at hx
      exact Or.inl hx
  · injection hu with e1 e2
    rw [← e1] at hx
    exact Or.inl hx

/-- A pass does not queue the request of a connection whose socket is not
handled. -/
theorem loop_queue_not_handled (ev : pass_events) (X Y Z : List Nat) (s : Nat)
    (hq : not_handled ev s) :
    ∀ (ds : List scgi_desc) (g : scgi_globals), s ∉ g.first_scgi_unrecved_req →
      s ∉ (scgi_update_connections_loop ev (select ev.readable X) (select ev.writable Y)
        (select ev.exceptional Z) ds g).1.first_scgi_unrecved_req := by
  intro ds
  induction ds with
  | nil => intro g h; exact h
  | cons e rest ih =>
    intro g h
    have hstep : ∀ g1 r, scgi_update_connection ev (select ev.readable X)
        (select ev.writable Y) (select ev.exceptional Z) g e = (g1, r) →
        s ∉ g1.first_scgi_unrecved_req := by
      intro g1 r hu hmem
      by_cases hes : e.sock = s
      · have hu2 := update_not_handled ev X Y Z g e (by rw [hes]; exact hq)
        rw [hu] at hu2
        split_ifs at hu2
        · injection hu2 with e1 e2
          rw [e1] at hmem
          simp only [scgi_kill_socket, free_scgi_request, SCGI_UNLINK] at hmem
          split_ifs at hmem
          · exact h (List.mem_of_mem_erase hmem)
          · exact h hmem
        · injection hu2 with e1 e2
          rw [e1] at hmem
          exact h hmem
      · rcases update_connection_queue ev _ _ _ g g1 e r hu s hmem with h1 | h1
        · exact h h1
        · exact hes h1.symm
    rcases hu : scgi_update_connection ev (select ev.readable X) (select ev.writable Y)
        (select ev.exceptional Z) g e with ⟨g1, _ | e1⟩
    · rw [loop_cons_none _ _ _ _ _ _ _ _ hu]
      exact ih g1 (hstep g1 none hu)
    · rw [loop_cons_some _ _ _ _ _ _ _ _ _ hu]
      exact ih g1 (hstep g1 (some e1) hu)

theorem answer_the_phone_queue (ev : pass_events) (g : scgi_globals) (p : scgi_port) :
    (scgi_answer_the_phone ev g p).1.first_scgi_unrecved_req = g.first_scgi_unrecved_req ∧
    (scgi_answer_the_phone ev g p).1.dead_cells = g.dead_cells := by
  unfold scgi_answer_the_phone
  cases ev.accept with
  | none => exact ⟨rfl, rfl⟩
  | some caller =>
    dsimp only
    split_ifs <;> exact ⟨rfl, rfl⟩

theorem pass_queue_not_handled (ev : pass_events) (g : scgi_globals) (p : scgi_port) (s : Nat)
    (hq : not_handled ev s) (h : s ∉ g.first_scgi_unrecved_req) :
    s ∉ (scgi_update_connections_port_ready ev (select ev.readable (scgi_inset p))
      (select ev.writable (scgi_outset p)) (select ev.exceptional (scgi_excset p))
      g p).1.first_scgi_unrecved_req := by
  rw [port_ready_globals]
  split_ifs
  · exact loop_queue_not_handled ev _ _ _ s hq _ _
      (by rw [(answer_the_phone_queue ev g p).1]; exact h)
  · exact loop_queue_not_handled ev _ _ _ s hq _ _ h

theorem passes_queue_not_handled (evs : List pass_events) (s : Nat) :
    ∀ (g g1 : scgi_globals) (p p1 : scgi_port),
      (∀ ev ∈ evs, ev.select_ok = true ∧ not_handled ev s) →
      s ∉ g.first_scgi_unrecved_req →
      scgi_update_connections_port_all g p evs = some (g1, p1) →
      s ∉ g1.first_scgi_unrecved_req := by
  induction evs with
  | nil =>
    intro g g1 p p1 _ h e
    simp only [scgi_update_connections_port_all, Option.some.injEq, Prod.mk.injEq] at e
    rw [← e.1]
    exact h
  | cons ev evs ih =>
    intro g g1 p p1 hq h e
    obtain ⟨hs, hn⟩ := hq ev (List.mem_cons_self _ _)
    simp only [scgi_update_connections_port_all, port_pass_eq ev g p hs] at e
    exact ih _ g1 _ p1 (fun e he => hq e (List.mem_cons_of_mem _ he))
      (pass_queue_not_handled ev g p s hn h) e

/-- The pass that takes the idle count of a connection beyond 600 takes the
connection out of the list. -/
theorem loop_kill_not_handled (ev : pass_events) (X Y Z : List Nat) (d : scgi_desc)
    (hq : not_handled ev d.sock)
    (hidle : d.idle + 1 > SCGI_KICK_IDLE_AFTER_X_SECS * SCGI_PULSES_PER_SEC) :
    ∀ (ds : List scgi_desc) (g : scgi_globals), d ∈ ds → (ds.map (fun e => e.sock)).Nodup →
      d.sock ∉ (scgi_update_connections_loop ev (select ev.readable X) (select ev.writable Y)
        (select ev.exceptional Z) ds g).2.map (fun e => e.sock) := by
  intro ds
  induction ds with
  | nil => intro g h; simp at h
  | cons e rest ih =>
    intro g hmem hnd
    have hnd1 : (rest.map (fun e => e.sock)).Nodup := (List.nodup_cons.1 hnd).2
    have he : e.sock ∉ rest.map (fun e => e.sock) := (List.nodup_cons.1 hnd).1
    rcases List.mem_cons.1 hmem with hd | hd
    · subst hd
      have hu := update_not_handled ev X Y Z g d hq
      rw [if_pos hidle] at hu
      rw [loop_cons_none _ _ _ _ _ _ _ _ hu]
      intro hin
      exact he ((loop_socks_sublist _ _ _ _ rest _).subset hin)
    · have hne : e.sock ≠ d.sock := by
        intro e2
        exact he (e2 ▸ List.mem_map_of_mem (fun e => e.sock) hd)
      rcases hu : scgi_update_connection ev (select ev.readable X) (select ev.writable Y)
          (select ev.exceptional Z) g e with ⟨g1, _ | e1⟩
      · rw [loop_cons_none _ _ _ _ _ _ _ _ hu]
        exact ih g1 hd hnd1
      · have hs := ((update_connection_frame _ _ _ _ g e).2 g1 e1 hu).1
        rw [loop_cons_some _ _ _ _ _ _ _ _ _ hu]
        simp only [List.map_cons, List.mem_cons, not_or]
        exact ⟨fun e2 => hne (hs ▸ e2.symm), ih g1 hd hnd1⟩

theorem answer_the_phone_descs (ev : pass_events) (g : scgi_globals) (p : scgi_port)
    (d : scgi_desc) (hmem : d ∈ p.descs) (hnd : (p.descs.map (fun e => e.sock)).Nodup)
    (hfresh : ∀ c, ev.accept = some c → c ∉ p.descs.map (fun e => e.sock)) :
    d ∈ (scgi_answer_the_phone ev g p).2.descs ∧
    ((scgi_answer_the_phone ev g p).2.descs.map (fun e => e.sock)).Nodup := by
  rcases ha : ev.accept with _ | caller
  · simp only [scgi_answer_the_phone, ha]
    exact ⟨hmem, hnd⟩
  · simp only [scgi_answer_the_phone, ha]
    split_ifs
    · exact ⟨hmem, hnd⟩
    · refine ⟨List.mem_append_left _ hmem, ?_⟩
      show ((p.descs ++ [scgi_answer_the_phone_desc caller]).map (fun e => e.sock)).Nodup
      rw [List.map_append, List.nodup_append]
      refine ⟨hnd, by simp, ?_⟩
      intro a h1 h2
      simp only [List.map_cons, List.map_nil, List.mem_singleton] at h2
      subst h2
      exact hfresh _ ha h1

/-- The pass that takes the idle count of a connection whose socket is not
handled beyond 600 tears the connection down: it leaves the list of the port,
and the integer of the host registered for it holds 1. -/
theorem pass_kill_not_handled (ev : pass_events) (g : scgi_globals) (p : scgi_port)
    (d : scgi_desc) (hs : ev.select_ok = true) (hq : not_handled ev d.sock)
    (hidle : d.idle + 1 > SCGI_KICK_IDLE_AFTER_X_SECS * SCGI_PULSES_PER_SEC)
    (hmem : d ∈ p.descs) (hnd : (p.descs.map (fun e => e.sock)).Nodup)
    (hfresh : ∀ c, ev.accept = some c → c ∉ p.descs.map (fun e => e.sock)) :
    ∃ g1 p1, scgi_update_connections_port ev g p = some (g1, p1) ∧
      d.sock ∉ p1.descs.map (fun e => e.sock) ∧
      (∀ c, d.req.dead = some c → c ∈ g1.dead_cells) ∧
      (d.sock ∉ g.first_scgi_unrecved_req → d.sock ∉ g1.first_scgi_unrecved_req) := by
  obtain ⟨hm2, hnd2⟩ := answer_the_phone_descs ev g p d hmem hnd hfresh
  refine ⟨(scgi_update_connections_port_ready ev (select ev.readable (scgi_inset p))
      (select ev.writable (scgi_outset p)) (select ev.exceptional (scgi_excset p)) g p).1,
    (scgi_update_connections_port_ready ev (select ev.readable (scgi_inset p))
      (select ev.writable (scgi_outset p)) (select ev.exceptional (scgi_excset p)) g p).2,
    port_pass_eq ev g p hs, ?_, ?_, pass_queue_not_handled ev g p d.sock hq⟩
  · rw [port_ready_descs]
    split_ifs
    · exact loop_kill_not_handled ev _ _ _ d hq hidle _ _ hm2 hnd2
    · exact loop_kill_not_handled ev _ _ _ d hq hidle _ _ hmem hnd
  · intro c hc
    rw [port_ready_globals]
    split_ifs
    · rw [loop_dead_cells ev _ _ _ _ _ hnd2 c]
      exact Or.inr ⟨d, hm2, hc, loop_kill_not_handled ev _ _ _ d hq hidle _ _ hm2 hnd2⟩
    · rw [loop_dead_cells ev _ _ _ _ _ hnd c]
      exact Or.inr ⟨d, hmem, hc, loop_kill_not_handled ev _ _ _ d hq hidle _ _ hmem hnd⟩

/-- A pass that handles the input or the output of a connection sets its idle
count to 0. -/
theorem update_handled (ev : pass_events) (inset outset excset : List Nat)
    (g g1 : scgi_globals) (d d1 : scgi_desc) (hexc : FD_ISSET d.sock excset = false)
    (hidle : d.idle + 1 ≤ SCGI_KICK_IDLE_AFTER_X_SECS * SCGI_PULSES_PER_SEC)
    (hio : (d.state = SCGI_SOCKSTATE_READING_REQUEST ∧ FD_ISSET d.sock inset = true) ∨
      (d.state = SCGI_SOCKSTATE_WRITING_RESPONSE ∧ d.outbuflen > 0
        ∧ FD_ISSET d.sock outset = true))
    (hu : scgi_update_connection ev inset outset excset g d = (g1, some d1)) :
    d1.idle = 0 := by
  simp only [scgi_update_connection, hexc, Bool.false_eq_true, false_or] at hu
  rw [if_neg (by omega)] at hu
  split_ifs at hu with h2 h3
  · exact ((listen_frame g _ _ _).2 g1 d1 hu).1.2.2.2
  · exact ((flush_frame g _ _).2 g1 d1 hu).1.2.2.2
  · rcases hio with h | h
    · exact absurd h h2
    · exact absurd h h3

theorem quiet_not_handled (s : Nat) : not_handled quiet_events s := ⟨rfl, rfl, rfl⟩

/-- A pass in which nothing is ready, over a port with the one connection of
`idle_port` at the idle count `k`. -/
theorem quiet_pass (k : Nat) (hk : k + 1 ≤ 600) :
    scgi_update_connections_port quiet_events sample_globals
        { idle_port with descs := [{ scgi_answer_the_phone_desc 7 with idle := k }] }
      = some (sample_globals,
          { idle_port with descs := [{ scgi_answer_the_phone_desc 7 with idle := k + 1 }] }) := by
  rw [port_pass_eq _ _ _ rfl]
  have hloop : ∀ X Y Z, scgi_update_connections_loop quiet_events
      (select quiet_events.readable X) (select quiet_events.writable Y)
      (select quiet_events.exceptional Z)
      [{ scgi_answer_the_phone_desc 7 with idle := k }] sample_globals
      = (sample_globals, [{ scgi_answer_the_phone_desc 7 with idle := k + 1 }]) := by
    intro X Y Z
    have hu := update_not_handled quiet_events X Y Z sample_globals
      { scgi_answer_the_phone_desc 7 with idle := k } (quiet_not_handled _)
    rw [if_neg (by
      show ¬ (k + 1 > SCGI_KICK_IDLE_AFTER_X_SECS * SCGI_PULSES_PER_SEC)
      simp only [SCGI_KICK_IDLE_AFTER_X_SECS, SCGI_PULSES_PER_SEC]
      omega)] at hu
    rw [loop_cons_some _ _ _ _ _ _ _ _ _ hu]
    rfl
  unfold scgi_update_connections_port_ready
  rw [if_neg (by
    rintro ⟨-, h⟩
    rw [FD_ISSET_select _ _ _ rfl] at h
    exact Bool.noConfusion h)]
  rw [hloop]

theorem quiet_passes (n : Nat) : ∀ k, k + n ≤ 600 →
    scgi_update_connections_port_all sample_globals
        { idle_port with descs := [{ scgi_answer_the_phone_desc 7 with idle := k }] }
        (List.replicate n quiet_events)
      = some (sample_globals,
          { idle_port with descs := [{ scgi_answer_the_phone_desc 7 with idle := k + n }] }) := by
  induction n with
  | zero => intro k _; rfl
  | succ n ih =>
    intro k hk
    rw [List.replicate_succ]
    simp only [scgi_update_connections_port_all, quiet_pass k (by omega)]
    rw [ih (k + 1) (by omega), Nat.add_assoc, Nat.add_comm 1 n]

/-- C18, as stated, fails: a connection that has just been handled and then
goes through 600 passes in none of which its socket is ready has been idle
for 600 consecutive checks, and the 600th pass does not tear it down: it is
in the list of its port with the idle count 600. -/
theorem idle_timeout_counterexample :
    (scgi_answer_the_phone_desc 7).idle = 0 ∧
    SCGI_KICK_IDLE_AFTER_X_SECS * SCGI_PULSES_PER_SEC = 600 ∧
    scgi_update_connections_port_all sample_globals idle_port (List.replicate 600 quiet_events)
      = some (sample_globals,
          { idle_port with descs := [{ scgi_answer_the_phone_desc 7 with idle := 600 }] }) :=
  ⟨rfl, by decide, quiet_passes 600 0 (by decide)⟩

/-- C18, amended.  Take a connection `d` of a port, whatever the state of its
parser, with no request of its in the ready queue.  (1) Through passes in none
of which its socket is ready, as long as the idle count stays at most 600, the
connection is not torn down: it is in the list of its port with the idle count
raised by the number of passes, and no request of its has become ready.
(2) A pass in which its socket is not ready and which raises the idle count
above 600 (the 601st such pass in a row) tears it down: it leaves the list of
its port, its request goes to the dead cells, and no request of its is ready.
(3) A pass that handles its read or its write resets the idle count to 0. -/
theorem idle_timeout (evs : List pass_events) (ev : pass_events) (g : scgi_globals)
    (p : scgi_port) (d : scgi_desc)
    (hfind : p.descs.find? (fun e => e.sock == d.sock) = some d)
    (hq : ∀ e ∈ evs, e.select_ok = true ∧ not_handled e d.sock)
    (hqueue : d.sock ∉ g.first_scgi_unrecved_req) :
    (d.idle + evs.length ≤ SCGI_KICK_IDLE_AFTER_X_SECS * SCGI_PULSES_PER_SEC →
      ∃ g1 p1, scgi_update_connections_port_all g p evs = some (g1, p1) ∧
        p1.descs.find? (fun e => e.sock == d.sock)
          = some { d with idle := d.idle + evs.length } ∧
        d.sock ∉ g1.first_scgi_unrecved_req) ∧
    (ev.select_ok = true → not_handled ev d.sock →
      d.idle + 1 > SCGI_KICK_IDLE_AFTER_X_SECS * SCGI_PULSES_PER_SEC →
      (p.descs.map (fun e => e.sock)).Nodup →
      (∀ c, ev.accept = some c → c ∉ p.descs.map (fun e => e.sock)) →
      ∃ g1 p1, scgi_update_connections_port ev g p = some (g1, p1) ∧
        d.sock ∉ p1.descs.map (fun e => e.sock) ∧
        (∀ c, d.req.dead = some c → c ∈ g1.dead_cells) ∧
        d.sock ∉ g1.first_scgi_unrecved_req) ∧
    (∀ (inset outset excset : List Nat) (g1 : scgi_globals) (d1 : scgi_desc),
      FD_ISSET d.sock excset = false →
      d.idle + 1 ≤ SCGI_KICK_IDLE_AFTER_X_SECS * SCGI_PULSES_PER_SEC →
      ((d.state = SCGI_SOCKSTATE_READING_REQUEST ∧ FD_ISSET d.sock inset = true) ∨
        (d.state = SCGI_SOCKSTATE_WRITING_RESPONSE ∧ d.outbuflen > 0 ∧
          FD_ISSET d.sock outset = true)) →
      scgi_update_connection ev inset outset excset g d = (g1, some d1) →
      d1.idle = 0) := by
  refine ⟨?_, ?_, ?_⟩
  · intro hle
    obtain ⟨g1, p1, h1, h2⟩ := passes_not_handled evs g p d hq hle hfind
    exact ⟨g1, p1, h1, h2, passes_queue_not_handled evs d.sock g g1 p p1 hq hqueue h1⟩
  · intro hs hn hidle hnd hfresh
    obtain ⟨g1, p1, h1, h2, h3, h4⟩ :=
      pass_kill_not_handled ev g p d hs hn hidle (List.mem_of_find?_eq_some hfind) hnd hfresh
    exact ⟨g1, p1, h1, h2, h3, h4 hqueue⟩
  · intro inset outset excset g1 d1 hexc hidle hio hu
    exact update_handled ev inset outset excset g g1 d d1 hexc hidle hio hu
/-- C18, amended, at a port with one fresh connection on the socket 7 and two passes in which nothing is ready. -/
theorem idle_timeout_witness :
    (idle_port.descs.find? (fun e => e.sock == (scgi_answer_the_phone_desc 7).sock) = some (scgi_answer_the_phone_desc 7)) ∧
    (∀ e ∈ [quiet_events, quiet_events], e.select_ok = true ∧ not_handled e (scgi_answer_the_phone_desc 7).sock) ∧
    ((scgi_answer_the_phone_desc 7).sock ∉ sample_globals.first_scgi_unrecved_req) ∧
    (((scgi_answer_the_phone_desc 7).idle + [quiet_events, quiet_events].length ≤ SCGI_KICK_IDLE_AFTER_X_SECS * SCGI_PULSES_PER_SEC →
      ∃ g1 p1, scgi_update_connections_port_all sample_globals idle_port [quiet_events, quiet_events] = some (g1, p1) ∧
        p1.descs.find? (fun e => e.sock == (scgi_answer_the_phone_desc 7).sock)
          = some { (scgi_answer_the_phone_desc 7) with idle := (scgi_answer_the_phone_desc 7).idle + [quiet_events, quiet_events].length } ∧
        (scgi_answer_the_phone_desc 7).sock ∉ g1.first_scgi_unrecved_req) ∧
    (quiet_events.select_ok = true → not_handled quiet_events (scgi_answer_the_phone_desc 7).sock →
      (scgi_answer_the_phone_desc 7).idle + 1 > SCGI_KICK_IDLE_AFTER_X_SECS * SCGI_PULSES_PER_SEC →
      (idle_port.descs.map (fun e => e.sock)).Nodup →
      (∀ c, quiet_events.accept = some c → c ∉ idle_port.descs.map (fun e => e.sock)) →
      ∃ g1 p1, scgi_update_connections_port quiet_events sample_globals idle_port = some (g1, p1) ∧
        (scgi_answer_the_phone_desc 7).sock ∉ p1.descs.map (fun e => e.sock) ∧
        (∀ c, (scgi_answer_the_phone_desc 7).req.dead = some c → c ∈ g1.dead_cells) ∧
        (scgi_answer_the_phone_desc 7).sock ∉ g1.first_scgi_unrecved_req) ∧
    (∀ (inset outset excset : List Nat) (g1 : scgi_globals) (d1 : scgi_desc),
      FD_ISSET (scgi_answer_the_phone_desc 7).sock excset = false →
      (scgi_answer_the_phone_desc 7).idle + 1 ≤ SCGI_KICK_IDLE_AFTER_X_SECS * SCGI_PULSES_PER_SEC →
      (((scgi_answer_the_phone_desc 7).state = SCGI_SOCKSTATE_READING_REQUEST ∧ FD_ISSET (scgi_answer_the_phone_desc 7).sock inset = true) ∨
        ((scgi_answer_the_phone_desc 7).state = SCGI_SOCKSTATE_WRITING_RESPONSE ∧ (scgi_answer_the_phone_desc 7).outbuflen > 0 ∧
          FD_ISSET (scgi_answer_the_phone_desc 7).sock outset = true)) →
      scgi_update_connection quiet_events inset outset excset sample_globals (scgi_answer_the_phone_desc 7) = (g1, some d1) →
      d1.idle = 0)) :=
  ⟨rfl, fun e he => by
    simp only [List.mem_cons, List.mem_singleton, List.not_mem_nil, or_false, or_self] at he
    rw [he]
    exact ⟨rfl, quiet_not_handled _⟩,
   by decide,
   idle_timeout [quiet_events, quiet_events] quiet_events sample_globals idle_port
     (scgi_answer_the_phone_desc 7) rfl
     (fun e he => by
       simp only [List.mem_cons, List.mem_singleton, List.not_mem_nil, or_false, or_self] at he
       rw [he]
       exact ⟨rfl, quiet_not_handled _⟩)
     (by decide)⟩


/-! ## The syntax of a numeric value -/

theorem is_number_loop_false (ds : List Nat) : scgi_is_number_loop false ds = ds.all isdigit := by
  induction ds with
  | nil => rfl
  | cons c t ih =>
    simp only [scgi_is_number_loop, Bool.false_and, Bool.false_eq_true, if_false, List.all_cons]
    rw [ih]
    cases isdigit c <;> simp

/-- The function `scgi_is_number` in closed form: a leading `-` is skipped,
and what is left has to be digits, none included. -/
theorem is_number_eq (arg : List Nat) :
    scgi_is_number arg
      = (decide (arg ≠ []) &&
          (if arg.head? = some 45 then arg.tail.all isdigit else arg.all isdigit)) := by
  cases arg with
  | nil => rfl
  | cons c t =>
    by_cases hc : c = 45
    · subst hc
      simp [scgi_is_number, scgi_is_number_loop, is_number_loop_false]
    · have h45 : (c == 45) = false := by simpa using hc
      simp only [scgi_is_number, scgi_is_number_loop, h45, Bool.and_false, Bool.false_eq_true,
        if_false, is_number_loop_false, List.head?_cons, Option.some.injEq, hc, List.all_cons]
      cases isdigit c <;> simp

/-- C21 against the code.  The string `-` is a minus sign followed by no
digit, so it is outside the syntax the claim gives, and `scgi_is_number`
returns true for it.  It is the only string on which the two differ: on every
other string `scgi_is_number` returns true exactly when the string is an
optional leading `-` followed by one or more digits and nothing else. -/
theorem is_number_lone_minus :
    scgi_is_number [45] = true ∧ optional_minus_digits [45] = false ∧
    ∀ arg, arg ≠ [45] → scgi_is_number arg = optional_minus_digits arg := by
  refine ⟨by decide, by decide, fun arg hne => ?_⟩
  rw [is_number_eq, optional_minus_digits]
  cases arg with
  | nil => rfl
  | cons c t =>
    by_cases hc : c = 45
    · subst hc
      have ht : t ≠ [] := fun h => hne (by rw [h])
      simp [ht]
    · simp [hc]


/-! ## The declared length of the body -/

theorem strtoul_minus_digits (ds : List Nat) (hd : ∀ c ∈ ds, isdigit c = true) :
    strtoul (45 :: ds)
      = if decimal_value ds > ULONG_MAX then ULONG_MAX
        else (2 ^ 64 - decimal_value ds) % 2 ^ 64 := by
  have h4 : ds.takeWhile isdigit = ds := by
    rw [List.takeWhile_eq_self_iff]; exact hd
  have h1 : (45 :: ds).dropWhile isspace = 45 :: ds := by
    rw [List.dropWhile_cons]
    rfl
  simp only [strtoul, h1, List.head?_cons, List.tail_cons, beq_self_eq_true, Bool.true_or,
    if_true, h4]

theorem to_int_neg (v : Nat) (h0 : 0 < v) (h1 : v ≤ 2 ^ 31) :
    to_int ((2 ^ 64 - v) % 2 ^ 64) = -(v : Int) := by
  unfold to_int int32
  omega

/-- The function `scgi_add_header` with the converted value named. -/
theorem add_header_eq (g : scgi_globals) (d : scgi_desc) (name val : List Nat) (x : Int)
    (hx : x = to_int (strtoul val)) :
    scgi_add_header g d name val
      = if d.req.headers = [] then
          if name ≠ CONTENT_LENGTH ∨ scgi_is_number val = false then (scgi_kill_socket g d, none)
          else if x < 0 then
            (scgi_kill_socket g { d with req := { d.req with scgi_content_length := x } }, none)
          else
            (g, some { d with req :=
              scgi_add_header_record { d.req with scgi_content_length := x } name val })
        else (g, some { d with req := scgi_add_header_record d.req name val }) := by
  unfold scgi_add_header
  rw [hx]

theorem add_header_first_some (g g1 : scgi_globals) (d d1 : scgi_desc) (name val : List Nat)
    (x : Int) (hx : x = to_int (strtoul val)) (h0 : d.req.headers = [])
    (h : scgi_add_header g d name val = (g1, some d1)) :
    name = CONTENT_LENGTH ∧ scgi_is_number val = true ∧ 0 ≤ x ∧
      d1.req.scgi_content_length = x := by
  rw [add_header_eq g d name val x hx, if_pos h0] at h
  by_cases hbad : name ≠ CONTENT_LENGTH ∨ scgi_is_number val = false
  · rw [if_pos hbad] at h
    injection h with _ h2
    exact Option.noConfusion h2
  · rw [if_neg hbad] at h
    by_cases hneg : x < 0
    · rw [if_pos hneg] at h
      injection h with _ h2
      exact Option.noConfusion h2
    · rw [if_neg hneg] at h
      injection h with _ h2
      injection h2 with h3
      have hn : name = CONTENT_LENGTH := by
        by_contra hc
        exact hbad (Or.inl hc)
      have hv : scgi_is_number val = true := by
        cases hv : scgi_is_number val
        · exact absurd (Or.inr hv) hbad
        · rfl
      refine ⟨hn, hv, by omega, ?_⟩
      rw [← h3]
      exact record_content_length _ _ _

theorem add_header_first_neg (g : scgi_globals) (d : scgi_desc) (val : List Nat) (x : Int)
    (hx : x = to_int (strtoul val)) (h0 : d.req.headers = [])
    (hnum : scgi_is_number val = true) (hneg : x < 0) :
    scgi_add_header g d CONTENT_LENGTH val = (scgi_kill_socket g d, none) := by
  rw [add_header_eq g d CONTENT_LENGTH val x hx, if_pos h0, if_neg (by simp [hnum]),
    if_pos hneg]
  congr 1

theorem add_header_first_nonneg (g : scgi_globals) (d : scgi_desc) (val : List Nat) (x : Int)
    (hx : x = to_int (strtoul val)) (h0 : d.req.headers = [])
    (hnum : scgi_is_number val = true) (hpos : 0 ≤ x) :
    scgi_add_header g d CONTENT_LENGTH val
      = (g, some { d with req :=
          scgi_add_header_record { d.req with scgi_content_length := x } CONTENT_LENGTH val }) := by
  rw [add_header_eq g d CONTENT_LENGTH val x hx, if_pos h0, if_neg (by simp [hnum]),
    if_neg (by omega)]

theorem is_number_minus_digits (ds : List Nat) (hd : ∀ c ∈ ds, isdigit c = true) :
    scgi_is_number (45 :: ds) = true := by
  rw [is_number_eq]
  simp only [ne_eq, reduceCtorEq, not_false_eq_true, decide_True, List.head?_cons, if_true,
    List.tail_cons, Bool.true_and, List.all_eq_true]
  exact hd

/-- C22, against the code.  The value `-4294967296` denotes a negative integer,
and `scgi_add_header` accepts it as the first header: it returns 1, the
connection stays as it is, and the stored length is 0.  And the value
`4294967301` is accepted with the stored length 5, which is not the integer
the value denotes.  `strtoul` gives an `unsigned long`, and the test for a
negative length sees the `int` it has been cut down to. -/
theorem negative_length_accepted :
    minus_two_pow_32.head? = some 45 ∧ decimal_value minus_two_pow_32.tail = 2 ^ 32 ∧
    (scgi_add_header sample_globals (scgi_answer_the_phone_desc 7) CONTENT_LENGTH
        minus_two_pow_32).1 = sample_globals ∧
    (scgi_add_header sample_globals (scgi_answer_the_phone_desc 7) CONTENT_LENGTH
        minus_two_pow_32).2.map (fun d => (d.req.headers, d.req.scgi_content_length))
      = some ([⟨CONTENT_LENGTH, minus_two_pow_32⟩], 0) ∧
    decimal_value two_pow_32_plus_5 = 2 ^ 32 + 5 ∧
    (scgi_add_header sample_globals (scgi_answer_the_phone_desc 7) CONTENT_LENGTH
        two_pow_32_plus_5).2.map (fun d => (d.req.headers, d.req.scgi_content_length))
      = some ([⟨CONTENT_LENGTH, two_pow_32_plus_5⟩], 5) := by
  refine ⟨by decide, by decide, by decide, by decide, by decide, by decide⟩

/-- Where the rule for the declared length holds.  On a connection with no
header yet and for digits `ds`, one or more: (1) the first header
`CONTENT_LENGTH` whose value is `-` followed by `ds`, when the integer it
denotes is negative and not below minus 2 to the power 31, is rejected:
`scgi_add_header` returns 0 and tears the connection down; (2) the first header
`CONTENT_LENGTH` with the value `ds`, when the integer it denotes is below 2 to
the power 31, is accepted and the stored `scgi_content_length` is that integer;
(3) for every accepted first header the name is `CONTENT_LENGTH`, the value
passes `scgi_is_number`, and the stored `scgi_content_length` is at least 0 and
is the result of `strtoul` on the value converted to `int`. -/
theorem declared_length_rule (g : scgi_globals) (d : scgi_desc) (ds : List Nat)
    (h0 : d.req.headers = []) (hne : ds ≠ []) (hd : ∀ c ∈ ds, isdigit c = true) :
    (0 < decimal_value ds → decimal_value ds ≤ 2 ^ 31 →
      scgi_add_header g d CONTENT_LENGTH (45 :: ds) = (scgi_kill_socket g d, none)) ∧
    (decimal_value ds < 2 ^ 31 →
      scgi_add_header g d CONTENT_LENGTH ds
        = (g, some { d with
            req := scgi_add_header_record
              { d.req with scgi_content_length := (decimal_value ds : Int) } CONTENT_LENGTH ds })) ∧
    (∀ (name val : List Nat) (g1 : scgi_globals) (d1 : scgi_desc),
      scgi_add_header g d name val = (g1, some d1) →
      name = CONTENT_LENGTH ∧ scgi_is_number val = true ∧ 0 ≤ d1.req.scgi_content_length ∧
        d1.req.scgi_content_length = to_int (strtoul val)) := by
  refine ⟨fun hpos hle => ?_, fun hlt => ?_, fun name val g1 d1 h => ?_⟩
  · have hx : -(decimal_value ds : Int) = to_int (strtoul (45 :: ds)) := by
      rw [strtoul_minus_digits ds hd, if_neg (by unfold ULONG_MAX; omega),
        to_int_neg _ hpos hle]
    exact add_header_first_neg g d _ _ hx h0 (is_number_minus_digits ds hd) (by omega)
  · have hx : (decimal_value ds : Int) = to_int (strtoul ds) := by
      rw [strtoul_digits ds hd, if_neg (by unfold ULONG_MAX; omega), to_int_small _ hlt]
    exact add_header_first_nonneg g d _ _ hx h0 (is_number_digits ds hne hd) (by omega)
  · obtain ⟨h1, h2, h3, h4⟩ := add_header_first_some g g1 d d1 name val _ rfl h0 h
    exact ⟨h1, h2, by rw [h4]; exact h3, h4⟩

/-! ## How the parser changes the request -/

theorem add_header_some_cases (g g1 : scgi_globals) (d d2 : scgi_desc) (name val : List Nat)
    (x : Int) (hx : x = to_int (strtoul val))
    (h : scgi_add_header g d name val = (g1, some d2)) :
    g1 = g ∧
    ((d.req.headers ≠ [] ∧ d2 = { d with req := scgi_add_header_record d.req name val }) ∨
      (d.req.headers = [] ∧ name = CONTENT_LENGTH ∧ scgi_is_number val = true ∧ 0 ≤ x ∧
        d2 = { d with
          req := scgi_add_header_record { d.req with scgi_content_length := x } name val })) := by
  rw [add_header_eq g d name val x hx] at h
  by_cases h0 : d.req.headers = []
  · rw [if_pos h0] at h
    by_cases hbad : name ≠ CONTENT_LENGTH ∨ scgi_is_number val = false
    · rw [if_pos hbad] at h
      injection h with _ h2
      exact Option.noConfusion h2
    · rw [if_neg hbad] at h
      by_cases hneg : x < 0
      · rw [if_pos hneg] at h
        injection h with _ h2
        exact Option.noConfusion h2
      · rw [if_neg hneg] at h
        injection h with h1 h2
        injection h2 with h3
        have hn : name = CONTENT_LENGTH := by
          by_contra hc
          exact hbad (Or.inl hc)
        have hv : scgi_is_number val = true := by
          cases hv : scgi_is_number val
          · exact absurd (Or.inr hv) hbad
          · rfl
        exact ⟨h1.symm, Or.inr ⟨h0, hn, hv, by omega, h3.symm⟩⟩
  · rw [if_neg h0] at h
    injection h with h1 h2
    injection h2 with h3
    exact ⟨h1.symm, Or.inl ⟨h0, h3.symm⟩⟩

/-- What a round of the parser that goes on does to the request: nothing, or
it records a header behind those the request has, or it records the first
header, `CONTENT_LENGTH` with a numeric value, and the length `x` that
`strtoul` and the conversion to `int` make of it, which is not negative. -/
theorem step_req_next (g : scgi_globals) (d d1 : scgi_desc)
    (hs : scgi_parse_input_step g d = next d1) :
    d1.req = d.req ∨
    (∃ name val, d.parser_state = SCGI_PARSE_HEADVAL ∧ d.req.headers ≠ [] ∧
      d1.req = scgi_add_header_record d.req name val) ∨
    (∃ val x, d.parser_state = SCGI_PARSE_HEADVAL ∧ d.req.headers = [] ∧
      scgi_is_number val = true ∧ 0 ≤ x ∧ x = to_int (strtoul val) ∧
      d1.req = scgi_add_header_record { d.req with scgi_content_length := x }
        CONTENT_LENGTH val) := by
  cases hst : d.parser_state <;> simp only [scgi_parse_input_step, hst] at hs
  · split_ifs at hs <;> injection hs with hs <;> subst hs <;> exact Or.inl rfl
  · split_ifs at hs <;> injection hs with hs <;> subst hs <;> exact Or.inl rfl
  · split_ifs at hs
    · revert hs
      generalize hr : scgi_add_header g _ _ _ = r
      rcases r with ⟨g1, _ | d2⟩
      · intro hs; simp at hs
      · intro hs
        injection hs with hs
        subst hs
        obtain ⟨-, hc | hc⟩ := add_header_some_cases g g1 _ d2 _ _ _ rfl hr
        · obtain ⟨h0, e⟩ := hc
          subst e
          exact Or.inr (Or.inl ⟨cstr d.buf d.string_starts,
            cstr d.buf (d.string_starts + strlen d.buf d.string_starts + 1), rfl, h0, rfl⟩)
        · obtain ⟨h0, hn, hv, hx, e⟩ := hc
          subst e
          refine Or.inr (Or.inr ⟨cstr d.buf (d.string_starts + strlen d.buf d.string_starts + 1),
            _, rfl, h0, hv, hx, rfl, ?_⟩)
          show scgi_add_header_record _ (cstr d.buf d.string_starts) _ = _
          rw [hn]
    · injection hs with hs
      subst hs
      exact Or.inl rfl
  · split_ifs at hs <;> injection hs with hs <;> subst hs <;> exact Or.inl rfl

/-- What a round of the parser that returns with the connection alive does:
it puts the request into the queue and gives it a body, the empty one at the
end of the header block of a request with the length 0, and at the end of the
body the C string at the start of the body. -/
theorem step_req_ret (g g1 : scgi_globals) (d d1 : scgi_desc)
    (hs : scgi_parse_input_step g d = ret g1 (some d1)) :
    g1 = { g with first_scgi_unrecved_req := SCGI_LINK d.sock g.first_scgi_unrecved_req } ∧
    d1.sock = d.sock ∧ d1.parsed_chars = d.parsed_chars + 1 ∧
    d1.parser_state = d.parser_state ∧ d1.true_header_length = d.true_header_length ∧
    d1.string_starts = d.string_starts ∧
    ((d.parser_state = SCGI_PARSE_HEADNAME ∧ d.req.scgi_content_length = 0 ∧
        d.req.scgi_scgiheader ≠ 0 ∧ ((d.parsed_chars + 1 : Nat) : Int) = d.true_header_length ∧
        d1.req = { d.req with body := some [] }) ∨
      (d.parser_state = SCGI_PARSE_BODY ∧
        ((d.parsed_chars + 1 : Nat) : Int)
          = int32 (d.true_header_length + d.req.scgi_content_length) ∧
        d1.req = { d.req with
          body := some (cstr (d.buf.set (d.parsed_chars + 1) 0) d.string_starts) })) := by
  cases hst : d.parser_state <;> simp only [scgi_parse_input_step, hst] at hs
  · split_ifs at hs <;> simp at hs
  · split_ifs at hs with hc1 hc2 hc3 hc4 hc5 hc6
    · simp at hs
    · simp at hs
    · injection hs with e1 e2
      injection e2 with e2
      subst e1 e2
      exact ⟨rfl, rfl, rfl, rfl, rfl, rfl, Or.inl ⟨rfl, hc4, hc3, hc1, rfl⟩⟩
    · simp at hs
  · split_ifs at hs
    · simp at hs
    · revert hs
      generalize scgi_add_header g _ _ _ = r
      rcases r with ⟨g2, _ | d2⟩ <;> intro hs <;> simp at hs
  · split_ifs at hs with hc
    · injection hs with e1 e2
      injection e2 with e2
      subst e1 e2
      exact ⟨rfl, rfl, rfl, rfl, rfl, rfl, Or.inr ⟨rfl, hc, rfl⟩⟩

/-- A property of the request that the fresh connection has and that the
recording of a header and the storing of a body keep holds of every connection
the library can hold. -/
theorem reachable_req (P : scgi_request → Prop)
    (hfresh : ∀ caller, P (scgi_answer_the_phone_desc caller).req)
    (hrec : ∀ req name val, P req → req.headers ≠ [] → P (scgi_add_header_record req name val))
    (hfirst : ∀ req val x, P req → req.headers = [] → scgi_is_number val = true → 0 ≤ x →
      x = to_int (strtoul val) →
      P (scgi_add_header_record { req with scgi_content_length := x } CONTENT_LENGTH val))
    (hbody : ∀ req b, P req → P { req with body := some b })
    (d : scgi_desc) (h : reachable d) : P d.req := by
  induction h with
  | fresh caller => exact hfresh caller
  | received d data _ ih => exact ih
  | round g d d1 _ hlen hs ih =>
    rcases step_req_next g d d1 hs with e | ⟨name, val, -, h0, e⟩ | ⟨val, x, -, h0, hv, hx, hxe, e⟩
    · rw [e]; exact ih
    · rw [e]; exact hrec _ _ _ ih h0
    · rw [e]; exact hfirst _ _ _ ih h0 hv hx hxe
  | returned g g1 d d1 _ hlen hs ih =>
    obtain ⟨-, -, -, -, -, -, hc | hc⟩ := step_req_ret g g1 d d1 hs
    · rw [hc.2.2.2.2]; exact hbody _ _ ih
    · rw [hc.2.2]; exact hbody _ _ ih

theorem sample_ready_desc_reachable : reachable sample_ready_desc :=
  receive_all_reachable [sample_stream]
    (sample_globals, some (scgi_answer_the_phone_desc 7))
    (fun d hd => by
      simp only [Option.some.injEq] at hd
      subst hd
      exact reachable.fresh 7)
    sample_ready_desc (by decide)

/-! ## The request method -/

theorem add_header_fields_method (req : scgi_request) (name val : List Nat) :
    (scgi_add_header_fields req name val).request_method
      = if name = REQUEST_METHOD then method_of_value val else req.request_method := by
  simp only [scgi_add_header_fields, apply_ite scgi_request.request_method, ite_self]
  by_cases h : name = REQUEST_METHOD
  · subst h
    rw [if_neg (by decide), if_pos rfl, if_pos rfl]
    rfl
  · rw [if_neg h, if_neg h, ite_self]

theorem record_method (req : scgi_request) (name val : List Nat) :
    (scgi_add_header_record req name val).request_method
      = if name = REQUEST_METHOD then method_of_value val else req.request_method := by
  simp only [scgi_add_header_record, add_header_fields_method]
  split_ifs <;> rfl

theorem method_of_headers_append (hs : List scgi_header) (name val : List Nat) :
    method_of_headers (hs ++ [⟨name, val⟩])
      = if name = REQUEST_METHOD then method_of_value val else method_of_headers hs := by
  unfold method_of_headers
  rw [List.filter_append]
  by_cases h : name = REQUEST_METHOD
  · rw [if_pos h]
    have : List.filter (fun h => decide (h.name = REQUEST_METHOD)) [(⟨name, val⟩ : scgi_header)]
        = [⟨name, val⟩] := by
      simp [List.filter, h]
    rw [this, List.getLast?_append]
    rfl
  · rw [if_neg h]
    have : List.filter (fun h => decide (h.name = REQUEST_METHOD)) [(⟨name, val⟩ : scgi_header)]
        = [] := by
      simp [List.filter, h]
    rw [this, List.append_nil]

theorem method_of_headers_none (hs : List scgi_header)
    (h : ∀ x ∈ hs, x.name ≠ REQUEST_METHOD) : method_of_headers hs = SCGI_METHOD_UNSPECIFIED := by
  unfold method_of_headers
  have : hs.filter (fun h => decide (h.name = REQUEST_METHOD)) = [] := by
    rw [List.filter_eq_nil_iff]
    intro x hx
    simpa using h x hx
  rw [this]
  rfl

theorem method_of_headers_last (pre post : List scgi_header) (val : List Nat)
    (h : ∀ x ∈ post, x.name ≠ REQUEST_METHOD) :
    method_of_headers (pre ++ ⟨REQUEST_METHOD, val⟩ :: post) = method_of_value val := by
  unfold method_of_headers
  have hpost : post.filter (fun h => decide (h.name = REQUEST_METHOD)) = [] := by
    rw [List.filter_eq_nil_iff]
    intro x hx
    simpa using h x hx
  rw [List.filter_append, List.filter_cons_of_pos (by simp), hpost, List.getLast?_append]
  rfl

theorem reachable_method (d : scgi_desc) (hr : reachable d) :
    d.req.request_method = method_of_headers d.req.headers := by
  refine reachable_req (fun req => req.request_method = method_of_headers req.headers)
    (fun _ => rfl) (fun req name val h _ => ?_) (fun req val x h _ _ _ _ => ?_)
    (fun req b h => h) d hr
  · show (scgi_add_header_record req name val).request_method
      = method_of_headers (scgi_add_header_record req name val).headers
    rw [record_method, record_headers_eq, method_of_headers_append, h]
  · show (scgi_add_header_record _ CONTENT_LENGTH val).request_method
      = method_of_headers (scgi_add_header_record _ CONTENT_LENGTH val).headers
    rw [record_method, record_headers_eq, method_of_headers_append]
    exact congrArg _ h

/-- C23. Request-method mapping: for every connection the library can hold,
and so for every ready request, `request_method` is what the received headers
stand for: `SCGI_METHOD_UNSPECIFIED` when no header `REQUEST_METHOD` has been
received, and otherwise what the value of the last header `REQUEST_METHOD`
stands for, where `GET`, `POST` and `HEAD` stand for `SCGI_METHOD_GET`,
`SCGI_METHOD_POST` and `SCGI_METHOD_HEAD` and every other value, `get` in lower
case among them, for `SCGI_METHOD_UNKNOWN`. -/
theorem request_method_mapping (d : scgi_desc) (hr : reachable d) :
    d.req.request_method = method_of_headers d.req.headers ∧
    ((∀ h ∈ d.req.headers, h.name ≠ REQUEST_METHOD) →
      d.req.request_method = SCGI_METHOD_UNSPECIFIED) ∧
    (∀ pre post val, d.req.headers = pre ++ ⟨REQUEST_METHOD, val⟩ :: post →
      (∀ h ∈ post, h.name ≠ REQUEST_METHOD) → d.req.request_method = method_of_value val) ∧
    method_of_value GET = SCGI_METHOD_GET ∧ method_of_value POST = SCGI_METHOD_POST ∧
    method_of_value HEAD = SCGI_METHOD_HEAD ∧
    (∀ val, val ≠ GET → val ≠ POST → val ≠ HEAD → method_of_value val = SCGI_METHOD_UNKNOWN) ∧
    method_of_value get_lower = SCGI_METHOD_UNKNOWN := by
  have hm := reachable_method d hr
  refine ⟨hm, fun h => ?_, fun pre post val e h => ?_, by decide, by decide, by decide,
    fun val h1 h2 h3 => ?_, by decide⟩
  · rw [hm, method_of_headers_none _ h]
  · rw [hm, e, method_of_headers_last _ _ _ h]
  · unfold method_of_value
    rw [if_neg h1, if_neg h2, if_neg h3]
/-- C23, at the ready request of the sample stream, whose header REQUEST_METHOD has the value GET. -/
theorem request_method_mapping_witness :
    (reachable sample_ready_desc) ∧
    (sample_ready_desc.req.request_method = method_of_headers sample_ready_desc.req.headers ∧
    ((∀ h ∈ sample_ready_desc.req.headers, h.name ≠ REQUEST_METHOD) →
      sample_ready_desc.req.request_method = SCGI_METHOD_UNSPECIFIED) ∧
    (∀ pre post val, sample_ready_desc.req.headers = pre ++ ⟨REQUEST_METHOD, val⟩ :: post →
      (∀ h ∈ post, h.name ≠ REQUEST_METHOD) → sample_ready_desc.req.request_method = method_of_value val) ∧
    method_of_value GET = SCGI_METHOD_GET ∧ method_of_value POST = SCGI_METHOD_POST ∧
    method_of_value HEAD = SCGI_METHOD_HEAD ∧
    (∀ val, val ≠ GET → val ≠ POST → val ≠ HEAD → method_of_value val = SCGI_METHOD_UNKNOWN) ∧
    method_of_value get_lower = SCGI_METHOD_UNKNOWN) :=
  ⟨sample_ready_desc_reachable, request_method_mapping sample_ready_desc sample_ready_desc_reachable⟩


/-! ## The redirect helper -/

theorem redirect_text_length (address : List Nat) :
    (redirect_text address).length = 52 + strlen address 0 := by
  unfold redirect_text strlen
  rw [List.length_append, List.length_append]
  show 29 + (cstr address 0).length + 23 = 52 + (cstr address 0).length
  omega

theorem redirect_small (d : scgi_desc) (address stack : List Nat) (heap memory : Bool)
    (n : Nat) (hn : strlen address 0 = n) (h : n < 150) :
    scgi_302_redirect d address stack heap memory
      = some (scgi_send d (sprintf_redirect stack address) ((100 + n : Nat) : Int) memory) := by
  have hl : to_int (100 + strlen address 0) = ((100 + n : Nat) : Int) := by
    rw [hn, to_int_small _ (by omega)]
  unfold scgi_302_redirect
  rw [hl, if_neg (by omega)]

/-- C24 against the code.  For the address `/a` on a fresh connection, the
formatted text has 54 bytes, and `scgi_302_redirect` stages 102: `outbuflen`
is 102, and the staged bytes are the text, its terminating NUL, and 47 bytes
that the local array held before the call.  So it is for every address of
fewer than 150 bytes on a connection with room for the response: the staged
length is 48 more than the length of the formatted text, and behind the text
come a NUL and 47 bytes of the array. -/
theorem redirect_stages_too_much :
    (redirect_text sample_address).length = 54 ∧
    (scgi_302_redirect (scgi_answer_the_phone_desc 7) sample_address sample_stack true true).map
        (fun r => (r.1, r.2.outbuflen, r.2.outbuf))
      = some (1, 102, redirect_text sample_address ++ 0 :: List.replicate 47 170) ∧
    ∀ (d : scgi_desc) (address stack : List Nat) (heap memory : Bool),
      strlen address 0 < 150 → stack.length = 256 →
      ((100 + strlen address 0 : Nat) : Int) < d.outbufsize - 5 →
      ∃ d1, scgi_302_redirect d address stack heap memory = some (1, d1) ∧
        d1.outbuflen = (((redirect_text address).length + 48 : Nat) : Int) ∧
        d1.outbuf.take ((redirect_text address).length + 48)
          = redirect_text address
              ++ 0 :: (stack.drop ((redirect_text address).length + 1)).take 47 := by
  refine ⟨by decide, by decide, fun d address stack heap memory hn hs hroom => ?_⟩
  rw [redirect_small d address stack heap memory _ rfl hn, send_small _ _ _ _ (by omega)]
  refine ⟨_, rfl, ?_, ?_⟩
  · show ((100 + strlen address 0 : Nat) : Int) = _
    rw [redirect_text_length]
    congr 1
    omega
  · show (memcpy d.outbuf (sprintf_redirect stack address)
      (size_t ((100 + strlen address 0 : Nat) : Int))).take _ = _
    have hsz : size_t ((100 + strlen address 0 : Nat) : Int) = 100 + strlen address 0 := by
      rw [size_t_of_nonneg _ (by omega) (by omega)]
      exact Int.toNat_natCast _
    have hlen : (redirect_text address).length + 48 = 100 + strlen address 0 := by
      rw [redirect_text_length]
      omega
    rw [hsz, hlen, memcpy_take _ _ _ (by
      unfold sprintf_redirect
      rw [List.length_append, List.length_cons, List.length_drop, redirect_text_length, hs]
      omega)]
    unfold sprintf_redirect
    rw [List.take_append_eq_append_take, List.take_of_length_le (by
      rw [redirect_text_length]
      omega)]
    congr 1
    rw [redirect_text_length, show 100 + strlen address 0 - (52 + strlen address 0) = 47 + 1 by
      omega, List.take_succ_cons]


/-! ## The order of the parser states -/

/-- A relation between the connection before and after that every round of the
parser keeps, that the arrival of bytes keeps, and that is reflexive and
transitive, holds over the loop of the parser. -/
theorem loop_rel (R : scgi_desc → scgi_desc → Prop) (hrefl : ∀ d, R d d)
    (htrans : ∀ a b c, R a b → R b c → R a c)
    (hnext : ∀ g d d1, scgi_parse_input_step g d = next d1 → R d d1)
    (hret : ∀ g g1 d d1, scgi_parse_input_step g d = ret g1 (some d1) → R d d1)
    (fuel : Nat) : ∀ (g g1 : scgi_globals) (d d1 : scgi_desc),
      scgi_parse_input_loop fuel g d = (g1, some d1) → R d d1 := by
  induction fuel with
  | zero =>
    intro g g1 d d1 hl
    simp only [scgi_parse_input_loop] at hl
    injection hl with _ e
    injection e with e
    subst e
    exact hrefl d
  | succ n ih =>
    intro g g1 d d1 hl
    simp only [scgi_parse_input_loop, scgi_desc.buflen] at hl
    split_ifs at hl with hlt
    · rcases hs : scgi_parse_input_step g d with d0 | ⟨g0, r⟩
      · rw [hs] at hl
        exact htrans _ _ _ (hnext g d d0 hs) (ih g g1 d0 d1 hl)
      · rw [hs] at hl
        dsimp only at hl
        injection hl with e1 e2
        subst e1 e2
        exact hret g g0 d d1 hs
    · injection hl with _ e
      injection e with e
      subst e
      exact hrefl d

theorem parse_input_rel (R : scgi_desc → scgi_desc → Prop) (hrefl : ∀ d, R d d)
    (htrans : ∀ a b c, R a b → R b c → R a c)
    (hnext : ∀ g d d1, scgi_parse_input_step g d = next d1 → R d d1)
    (hret : ∀ g g1 d d1, scgi_parse_input_step g d = ret g1 (some d1) → R d d1)
    (g g1 : scgi_globals) (d d1 : scgi_desc) (hp : scgi_parse_input g d = (g1, some d1)) :
    R d d1 := by
  unfold scgi_parse_input at hp
  split_ifs at hp
  · injection hp with _ e
    injection e with e
    subst e
    exact hrefl d
  · simp at hp
  · exact loop_rel R hrefl htrans hnext hret _ g g1 d d1 hp

theorem receive_all_rel (R : scgi_desc → scgi_desc → Prop) (hrefl : ∀ d, R d d)
    (htrans : ∀ a b c, R a b → R b c → R a c)
    (hnext : ∀ g d d1, scgi_parse_input_step g d = next d1 → R d d1)
    (hret : ∀ g g1 d d1, scgi_parse_input_step g d = ret g1 (some d1) → R d d1)
    (hdata : ∀ (d : scgi_desc) (data : List Nat), R d { d with buf := d.buf ++ data })
    (frags : List (List Nat)) : ∀ (g g1 : scgi_globals) (d d1 : scgi_desc),
      scgi_receive_all (g, some d) frags = (g1, some d1) → R d d1 := by
  induction frags with
  | nil =>
    intro g g1 d d1 h
    simp only [scgi_receive_all, List.foldl_nil] at h
    injection h with _ e
    injection e with e
    subst e
    exact hrefl d
  | cons f rest ih =>
    intro g g1 d d1 h
    rw [receive_all_cons] at h
    rcases hr : scgi_receive (g, some d) f with ⟨g2, _ | d2⟩
    · rw [hr, receive_all_none] at h
      injection h with _ e
      exact Option.noConfusion e
    · rw [hr] at h
      have h2 : scgi_parse_input g { d with buf := d.buf ++ f } = (g2, some d2) := hr
      exact htrans _ _ _ (htrans _ _ _ (hdata d f)
        (parse_input_rel R hrefl htrans hnext hret g g2 _ d2 h2)) (ih g2 g1 d2 d1 h)

/-- The moves of the parser state in one round that goes on. -/
theorem step_state_next (g : scgi_globals) (d d1 : scgi_desc)
    (hs : scgi_parse_input_step g d = next d1) :
    (d.parser_state = SCGI_PARSE_HEADLENGTH ∧
      (d1.parser_state = SCGI_PARSE_HEADLENGTH ∨
        (d1.parser_state = SCGI_PARSE_HEADNAME ∧ byteAt d.buf d.parsed_chars = 58))) ∨
    (d.parser_state = SCGI_PARSE_HEADNAME ∧
      (d1.parser_state = SCGI_PARSE_HEADNAME ∨
        (d1.parser_state = SCGI_PARSE_HEADVAL ∧ byteAt d.buf d.parsed_chars = 0) ∨
        (d1.parser_state = SCGI_PARSE_BODY ∧
          ((d.parsed_chars + 1 : Nat) : Int) = d.true_header_length ∧
          byteAt d.buf d.parsed_chars = 44))) ∨
    (d.parser_state = SCGI_PARSE_HEADVAL ∧
      (d1.parser_state = SCGI_PARSE_HEADVAL ∨
        (d1.parser_state = SCGI_PARSE_HEADNAME ∧ byteAt d.buf d.parsed_chars = 0 ∧
          ∃ h, d1.req.headers = d.req.headers ++ [h]))) ∨
    (d.parser_state = SCGI_PARSE_BODY ∧ d1.parser_state = SCGI_PARSE_BODY) := by
  cases hst : d.parser_state <;> simp only [scgi_parse_input_step, hst] at hs
  · split_ifs at hs with hc
    · injection hs with hs
      subst hs
      exact Or.inl ⟨rfl, Or.inr ⟨rfl, hc⟩⟩
    · injection hs with hs
      subst hs
      exact Or.inl ⟨rfl, Or.inl rfl⟩
  · split_ifs at hs with hc1 hc2 hc3 hc4 hc5 hc6
    · injection hs with hs
      subst hs
      refine Or.inr (Or.inl ⟨rfl, Or.inr (Or.inr ⟨rfl, hc1, ?_⟩)⟩)
      by_contra hne
      exact hc2 (Or.inl hne)
    · injection hs with hs
      subst hs
      exact Or.inr (Or.inl ⟨rfl, Or.inr (Or.inl ⟨rfl, hc5⟩)⟩)
    · injection hs with hs
      subst hs
      exact Or.inr (Or.inl ⟨rfl, Or.inl rfl⟩)
  · split_ifs at hs with hc1 hc2
    · revert hs
      generalize hr : scgi_add_header g _ _ _ = r
      rcases r with ⟨g1, _ | d2⟩
      · intro hs; simp at hs
      · intro hs
        injection hs with hs
        subst hs
        refine Or.inr (Or.inr (Or.inl ⟨rfl, Or.inr ⟨rfl, hc2, ?_⟩⟩))
        obtain ⟨-, hc | hc⟩ := add_header_some_cases g g1 _ d2 _ _ _ rfl hr
        · obtain ⟨-, e⟩ := hc
          subst e
          exact ⟨_, record_headers_eq _ _ _⟩
        · obtain ⟨-, -, -, -, e⟩ := hc
          subst e
          exact ⟨_, record_headers_eq _ _ _⟩
    · injection hs with hs
      subst hs
      exact Or.inr (Or.inr (Or.inl ⟨rfl, Or.inl rfl⟩))
  · split_ifs at hs <;> injection hs with hs <;> subst hs <;>
      exact Or.inr (Or.inr (Or.inr ⟨rfl, rfl⟩))

/-- C25. Parser state order.  A fresh connection starts in the state
HEADLENGTH.  A round of the parser that goes on moves from HEADLENGTH to
HEADLENGTH or, at the colon, to HEADNAME; from HEADNAME to HEADNAME, at a NUL
to HEADVAL, or, at the comma at the end offset of the header block, to BODY;
from HEADVAL to HEADVAL or, at the NUL that ends the value, back to HEADNAME
with the pair recorded as one more header; from BODY to BODY.  A round that
returns with the connection alive leaves the state as it is.  So over every
sequence of arrivals of bytes, each followed by a call of `scgi_parse_input`,
a connection that has left HEADLENGTH never is in it again, and one that has
entered BODY stays in BODY. -/
theorem parser_state_order :
    (∀ caller, (scgi_answer_the_phone_desc caller).parser_state = SCGI_PARSE_HEADLENGTH) ∧
    (∀ (g : scgi_globals) (d d1 : scgi_desc), scgi_parse_input_step g d = next d1 →
      (d.parser_state = SCGI_PARSE_HEADLENGTH ∧
        (d1.parser_state = SCGI_PARSE_HEADLENGTH ∨
          (d1.parser_state = SCGI_PARSE_HEADNAME ∧ byteAt d.buf d.parsed_chars = 58))) ∨
      (d.parser_state = SCGI_PARSE_HEADNAME ∧
        (d1.parser_state = SCGI_PARSE_HEADNAME ∨
          (d1.parser_state = SCGI_PARSE_HEADVAL ∧ byteAt d.buf d.parsed_chars = 0) ∨
          (d1.parser_state = SCGI_PARSE_BODY ∧
            ((d.parsed_chars + 1 : Nat) : Int) = d.true_header_length ∧
            byteAt d.buf d.parsed_chars = 44))) ∨
      (d.parser_state = SCGI_PARSE_HEADVAL ∧
        (d1.parser_state = SCGI_PARSE_HEADVAL ∨
          (d1.parser_state = SCGI_PARSE_HEADNAME ∧ byteAt d.buf d.parsed_chars = 0 ∧
            ∃ h, d1.req.headers = d.req.headers ++ [h]))) ∨
      (d.parser_state = SCGI_PARSE_BODY ∧ d1.parser_state = SCGI_PARSE_BODY)) ∧
    (∀ (g g1 : scgi_globals) (d d1 : scgi_desc),
      scgi_parse_input_step g d = ret g1 (some d1) → d1.parser_state = d.parser_state) ∧
    (∀ (frags : List (List Nat)) (g g1 : scgi_globals) (d d1 : scgi_desc),
      scgi_receive_all (g, some d) frags = (g1, some d1) →
      (d.parser_state ≠ SCGI_PARSE_HEADLENGTH → d1.parser_state ≠ SCGI_PARSE_HEADLENGTH) ∧
      (d.parser_state = SCGI_PARSE_BODY → d1.parser_state = SCGI_PARSE_BODY)) := by
  have hret : ∀ (g g1 : scgi_globals) (d d1 : scgi_desc),
      scgi_parse_input_step g d = ret g1 (some d1) → d1.parser_state = d.parser_state :=
    fun g g1 d d1 hs => (step_req_ret g g1 d d1 hs).2.2.2.1
  refine ⟨fun _ => rfl, step_state_next, hret, fun frags g g1 d d1 h => ?_⟩
  refine receive_all_rel
    (fun a b => (a.parser_state ≠ SCGI_PARSE_HEADLENGTH → b.parser_state ≠ SCGI_PARSE_HEADLENGTH) ∧
      (a.parser_state = SCGI_PARSE_BODY → b.parser_state = SCGI_PARSE_BODY))
    (fun a => ⟨id, id⟩) (fun a b c hab hbc => ⟨fun x => hbc.1 (hab.1 x), fun x => hbc.2 (hab.2 x)⟩)
    (fun g0 a b hs => ?_) (fun g0 g2 a b hs => ?_) (fun a data => ⟨id, id⟩) frags g g1 d d1 h
  · rcases step_state_next g0 a b hs with ⟨h1, h2 | h2⟩ | ⟨h1, h2 | h2 | h2⟩ | ⟨h1, h2 | h2⟩ |
        ⟨h1, h2⟩
    · exact ⟨fun x => absurd h1 x, fun x => by rw [h1] at x; cases x⟩
    · exact ⟨fun x => absurd h1 x, fun x => by rw [h1] at x; cases x⟩
    · exact ⟨fun _ => by rw [h2]; decide, fun x => by rw [h1] at x; cases x⟩
    · exact ⟨fun _ => by rw [h2.1]; decide, fun x => by rw [h1] at x; cases x⟩
    · exact ⟨fun _ => by rw [h2.1]; decide, fun _ => h2.1⟩
    · exact ⟨fun _ => by rw [h2]; decide, fun x => by rw [h1] at x; cases x⟩
    · exact ⟨fun _ => by rw [h2.1]; decide, fun x => by rw [h1] at x; cases x⟩
    · exact ⟨fun _ => by rw [h2]; decide, fun _ => h2⟩
  · have e := hret g0 g2 a b hs
    exact ⟨fun x => by rw [e]; exact x, fun x => by rw [e]; exact x⟩


/-! ## Malformed pairs -/

theorem fields_raw_http_cookie (req : scgi_request) (name val : List Nat) :
    (scgi_add_header_fields req name val).raw_http_cookie
      = if name ∈ [HTTP_COOKIE] then some val else req.raw_http_cookie := by
  simp only [scgi_add_header_fields, apply_ite scgi_request.raw_http_cookie, ite_self,
    List.mem_singleton]

theorem fields_http_connection (req : scgi_request) (name val : List Nat) :
    (scgi_add_header_fields req name val).http_connection
      = if name ∈ [HTTP_CONNECTION] then some val else req.http_connection := by
  simp only [scgi_add_header_fields, apply_ite scgi_request.http_connection, ite_self,
    List.mem_singleton]
  by_cases h : name = HTTP_CONNECTION
  · subst h
    simp [HTTP_COOKIE, REQUEST_METHOD, HTTP_CONNECTION, HTTP_CACHE_CONTROL, HTTP_ACCEPT_CHARSET,
      HTTP_ACCEPT_ENCODING, HTTP_ACCEPT_LANGUAGE, HTTP_ACCEPT, HTTP_USER_AGENT, USER_AGENT,
      HTTP_HOST, QUERY_STRING, REQUEST_URI, REMOTE_ADDR, SERVER_ADDR, SERVER_PORT,
      SERVER_PROTOCOL]
  · simp only [if_neg h, ite_self]

theorem fields_http_cache_control (req : scgi_request) (name val : List Nat) :
    (scgi_add_header_fields req name val).http_cache_control
      = if name ∈ [HTTP_CACHE_CONTROL] then some val else req.http_cache_control := by
  simp only [scgi_add_header_fields, apply_ite scgi_request.http_cache_control, ite_self,
    List.mem_singleton]
  by_cases h : name = HTTP_CACHE_CONTROL
  · subst h
    simp [HTTP_COOKIE, REQUEST_METHOD, HTTP_CONNECTION, HTTP_CACHE_CONTROL, HTTP_ACCEPT_CHARSET,
      HTTP_ACCEPT_ENCODING, HTTP_ACCEPT_LANGUAGE, HTTP_ACCEPT, HTTP_USER_AGENT, USER_AGENT,
      HTTP_HOST, QUERY_STRING, REQUEST_URI, REMOTE_ADDR, SERVER_ADDR, SERVER_PORT,
      SERVER_PROTOCOL]
  · simp only [if_neg h, ite_self]

theorem fields_http_accept_charset (req : scgi_request) (name val : List Nat) :
    (scgi_add_header_fields req name val).http_accept_charset
      = if name ∈ [HTTP_ACCEPT_CHARSET] then some val else req.http_accept_charset := by
  simp only [scgi_add_header_fields, apply_ite scgi_request.http_accept_charset, ite_self,
    List.mem_singleton]
  by_cases h : name = HTTP_ACCEPT_CHARSET
  · subst h
    simp [HTTP_COOKIE, REQUEST_METHOD, HTTP_CONNECTION, HTTP_CACHE_CONTROL, HTTP_ACCEPT_CHARSET,
      HTTP_ACCEPT_ENCODING, HTTP_ACCEPT_LANGUAGE, HTTP_ACCEPT, HTTP_USER_AGENT, USER_AGENT,
      HTTP_HOST, QUERY_STRING, REQUEST_URI, REMOTE_ADDR, SERVER_ADDR, SERVER_PORT,
      SERVER_PROTOCOL]
  · simp only [if_neg h, ite_self]

theorem fields_http_accept_encoding (req : scgi_request) (name val : List Nat) :
    (scgi_add_header_fields req name val).http_accept_encoding
      = if name ∈ [HTTP_ACCEPT_ENCODING] then some val else req.http_accept_encoding := by
  simp only [scgi_add_header_fields, apply_ite scgi_request.http_accept_encoding, ite_self,
    List.mem_singleton]
  by_cases h : name = HTTP_ACCEPT_ENCODING
  · subst h
    simp [HTTP_COOKIE, REQUEST_METHOD, HTTP_CONNECTION, HTTP_CACHE_CONTROL, HTTP_ACCEPT_CHARSET,
      HTTP_ACCEPT_ENCODING, HTTP_ACCEPT_LANGUAGE, HTTP_ACCEPT, HTTP_USER_AGENT, USER_AGENT,
      HTTP_HOST, QUERY_STRING, REQUEST_URI, REMOTE_ADDR, SERVER_ADDR, SERVER_PORT,
      SERVER_PROTOCOL]
  · simp only [if_neg h, ite_self]

theorem fields_http_accept_language (req : scgi_request) (name val : List Nat) :
    (scgi_add_header_fields req name val).http_accept_language
      = if name ∈ [HTTP_ACCEPT_LANGUAGE] then some val else req.http_accept_language := by
  simp only [scgi_add_header_fields, apply_ite scgi_request.http_accept_language, ite_self,
    List.mem_singleton]
  by_cases h : name = HTTP_ACCEPT_LANGUAGE
  · subst h
    simp [HTTP_COOKIE, REQUEST_METHOD, HTTP_CONNECTION, HTTP_CACHE_CONTROL, HTTP_ACCEPT_CHARSET,
      HTTP_ACCEPT_ENCODING, HTTP_ACCEPT_LANGUAGE, HTTP_ACCEPT, HTTP_USER_AGENT, USER_AGENT,
      HTTP_HOST, QUERY_STRING, REQUEST_URI, REMOTE_ADDR, SERVER_ADDR, SERVER_PORT,
      SERVER_PROTOCOL]
  · simp only [if_neg h, ite_self]

theorem fields_http_accept (req : scgi_request) (name val : List Nat) :
    (scgi_add_header_fields req name val).http_accept
      = if name ∈ [HTTP_ACCEPT] then some val else req.http_accept := by
  simp only [scgi_add_header_fields, apply_ite scgi_request.http_accept, ite_self,
    List.mem_singleton]
  by_cases h : name = HTTP_ACCEPT
  · subst h
    simp [HTTP_COOKIE, REQUEST_METHOD, HTTP_CONNECTION, HTTP_CACHE_CONTROL, HTTP_ACCEPT_CHARSET,
      HTTP_ACCEPT_ENCODING, HTTP_ACCEPT_LANGUAGE, HTTP_ACCEPT, HTTP_USER_AGENT, USER_AGENT,
      HTTP_HOST, QUERY_STRING, REQUEST_URI, REMOTE_ADDR, SERVER_ADDR, SERVER_PORT,
      SERVER_PROTOCOL]
  · simp only [if_neg h, ite_self]

theorem fields_user_agent (req : scgi_request) (name val : List Nat) :
    (scgi_add_header_fields req name val).user_agent
      = if name ∈ [HTTP_USER_AGENT, USER_AGENT] then some val else req.user_agent := by
  simp only [scgi_add_header_fields, apply_ite scgi_request.user_agent, ite_self,
    List.mem_cons, List.mem_singleton, List.not_mem_nil, or_false]
  by_cases h : name = HTTP_USER_AGENT
  · subst h
    simp [HTTP_COOKIE, REQUEST_METHOD, HTTP_CONNECTION, HTTP_CACHE_CONTROL, HTTP_ACCEPT_CHARSET,
      HTTP_ACCEPT_ENCODING, HTTP_ACCEPT_LANGUAGE, HTTP_ACCEPT, HTTP_USER_AGENT, USER_AGENT,
      HTTP_HOST, QUERY_STRING, REQUEST_URI, REMOTE_ADDR, SERVER_ADDR, SERVER_PORT,
      SERVER_PROTOCOL]
  · by_cases h2 : name = USER_AGENT
    · subst h2
      simp [HTTP_COOKIE, REQUEST_METHOD, HTTP_CONNECTION, HTTP_CACHE_CONTROL, HTTP_ACCEPT_CHARSET,
      HTTP_ACCEPT_ENCODING, HTTP_ACCEPT_LANGUAGE, HTTP_ACCEPT, HTTP_USER_AGENT, USER_AGENT,
      HTTP_HOST, QUERY_STRING, REQUEST_URI, REMOTE_ADDR, SERVER_ADDR, SERVER_PORT,
      SERVER_PROTOCOL]
    · simp only [if_neg h, if_neg h2, ite_self, h, h2, or_self, if_false]

theorem fields_http_host (req : scgi_request) (name val : List Nat) :
    (scgi_add_header_fields req name val).http_host
      = if name ∈ [HTTP_HOST] then some val else req.http_host := by
  simp only [scgi_add_header_fields, apply_ite scgi_request.http_host, ite_self,
    List.mem_singleton]
  by_cases h : name = HTTP_HOST
  · subst h
    simp [HTTP_COOKIE, REQUEST_METHOD, HTTP_CONNECTION, HTTP_CACHE_CONTROL, HTTP_ACCEPT_CHARSET,
      HTTP_ACCEPT_ENCODING, HTTP_ACCEPT_LANGUAGE, HTTP_ACCEPT, HTTP_USER_AGENT, USER_AGENT,
      HTTP_HOST, QUERY_STRING, REQUEST_URI, REMOTE_ADDR, SERVER_ADDR, SERVER_PORT,
      SERVER_PROTOCOL]
  · simp only [if_neg h, ite_self]

theorem fields_query_string (req : scgi_request) (name val : List Nat) :
    (scgi_add_header_fields req name val).query_string
      = if name ∈ [QUERY_STRING] then some val else req.query_string := by
  simp only [scgi_add_header_fields, apply_ite scgi_request.query_string, ite_self,
    List.mem_singleton]
  by_cases h : name = QUERY_STRING
  · subst h
    simp [HTTP_COOKIE, REQUEST_METHOD, HTTP_CONNECTION, HTTP_CACHE_CONTROL, HTTP_ACCEPT_CHARSET,
      HTTP_ACCEPT_ENCODING, HTTP_ACCEPT_LANGUAGE, HTTP_ACCEPT, HTTP_USER_AGENT, USER_AGENT,
      HTTP_HOST, QUERY_STRING, REQUEST_URI, REMOTE_ADDR, SERVER_ADDR, SERVER_PORT,
      SERVER_PROTOCOL]
  · simp only [if_neg h, ite_self]

theorem fields_request_uri (req : scgi_request) (name val : List Nat) :
    (scgi_add_header_fields req name val).request_uri
      = if name ∈ [REQUEST_URI] then some val else req.request_uri := by
  simp only [scgi_add_header_fields, apply_ite scgi_request.request_uri, ite_self,
    List.mem_singleton]
  by_cases h : name = REQUEST_URI
  · subst h
    simp [HTTP_COOKIE, REQUEST_METHOD, HTTP_CONNECTION, HTTP_CACHE_CONTROL, HTTP_ACCEPT_CHARSET,
      HTTP_ACCEPT_ENCODING, HTTP_ACCEPT_LANGUAGE, HTTP_ACCEPT, HTTP_USER_AGENT, USER_AGENT,
      HTTP_HOST, QUERY_STRING, REQUEST_URI, REMOTE_ADDR, SERVER_ADDR, SERVER_PORT,
      SERVER_PROTOCOL]
  · simp only [if_neg h, ite_self]

theorem fields_remote_addr (req : scgi_request) (name val : List Nat) :
    (scgi_add_header_fields req name val).remote_addr
      = if name ∈ [REMOTE_ADDR] then some val else req.remote_addr := by
  simp only [scgi_add_header_fields, apply_ite scgi_request.remote_addr, ite_self,
    List.mem_singleton]
  by_cases h : name = REMOTE_ADDR
  · subst h
    simp [HTTP_COOKIE, REQUEST_METHOD, HTTP_CONNECTION, HTTP_CACHE_CONTROL, HTTP_ACCEPT_CHARSET,
      HTTP_ACCEPT_ENCODING, HTTP_ACCEPT_LANGUAGE, HTTP_ACCEPT, HTTP_USER_AGENT, USER_AGENT,
      HTTP_HOST, QUERY_STRING, REQUEST_URI, REMOTE_ADDR, SERVER_ADDR, SERVER_PORT,
      SERVER_PROTOCOL]
  · simp only [if_neg h, ite_self]

theorem fields_server_addr (req : scgi_request) (name val : List Nat) :
    (scgi_add_header_fields req name val).server_addr
      = if name ∈ [SERVER_ADDR] then some val else req.server_addr := by
  simp only [scgi_add_header_fields, apply_ite scgi_request.server_addr, ite_self,
    List.mem_singleton]
  by_cases h : name = SERVER_ADDR
  · subst h
    simp [HTTP_COOKIE, REQUEST_METHOD, HTTP_CONNECTION, HTTP_CACHE_CONTROL, HTTP_ACCEPT_CHARSET,
      HTTP_ACCEPT_ENCODING, HTTP_ACCEPT_LANGUAGE, HTTP_ACCEPT, HTTP_USER_AGENT, USER_AGENT,
      HTTP_HOST, QUERY_STRING, REQUEST_URI, REMOTE_ADDR, SERVER_ADDR, SERVER_PORT,
      SERVER_PROTOCOL]
  · simp only [if_neg h, ite_self]

theorem fields_server_port (req : scgi_request) (name val : List Nat) :
    (scgi_add_header_fields req name val).server_port
      = if name ∈ [SERVER_PORT] then some val else req.server_port := by
  simp only [scgi_add_header_fields, apply_ite scgi_request.server_port, ite_self,
    List.mem_singleton]
  by_cases h : name = SERVER_PORT
  · subst h
    simp [HTTP_COOKIE, REQUEST_METHOD, HTTP_CONNECTION, HTTP_CACHE_CONTROL, HTTP_ACCEPT_CHARSET,
      HTTP_ACCEPT_ENCODING, HTTP_ACCEPT_LANGUAGE, HTTP_ACCEPT, HTTP_USER_AGENT, USER_AGENT,
      HTTP_HOST, QUERY_STRING, REQUEST_URI, REMOTE_ADDR, SERVER_ADDR, SERVER_PORT,
      SERVER_PROTOCOL]
  · simp only [if_neg h, ite_self]

theorem fields_server_protocol (req : scgi_request) (name val : List Nat) :
    (scgi_add_header_fields req name val).server_protocol
      = if name ∈ [SERVER_PROTOCOL] then some val else req.server_protocol := by
  simp only [scgi_add_header_fields, apply_ite scgi_request.server_protocol, ite_self,
    List.mem_singleton]
  by_cases h : name = SERVER_PROTOCOL
  · subst h
    simp [HTTP_COOKIE, REQUEST_METHOD, HTTP_CONNECTION, HTTP_CACHE_CONTROL, HTTP_ACCEPT_CHARSET,
      HTTP_ACCEPT_ENCODING, HTTP_ACCEPT_LANGUAGE, HTTP_ACCEPT, HTTP_USER_AGENT, USER_AGENT,
      HTTP_HOST, QUERY_STRING, REQUEST_URI, REMOTE_ADDR, SERVER_ADDR, SERVER_PORT,
      SERVER_PROTOCOL]
  · simp only [if_neg h, ite_self]

theorem record_fields (req : scgi_request) (name val : List Nat) :
    convenience_fields (scgi_add_header_record req name val)
      = List.zipWith (fun ns old => if name ∈ ns then some val else old) convenience_names
          (convenience_fields req) := by
  simp only [convenience_fields, convenience_names, List.zipWith, scgi_add_header_record,
    fields_raw_http_cookie, fields_http_connection, fields_http_cache_control, fields_http_accept_charset, fields_http_accept_encoding, fields_http_accept_language, fields_http_accept, fields_user_agent, fields_http_host, fields_query_string, fields_request_uri, fields_remote_addr, fields_server_addr, fields_server_port, fields_server_protocol]
  by_cases hc : name = SCGI ∧ val = ONE
  · simp only [if_pos hc]
  · simp only [if_neg hc]

theorem last_value_append (ns : List (List Nat)) (hs : List scgi_header) (name val : List Nat) :
    last_value ns (hs ++ [⟨name, val⟩])
      = if name ∈ ns then some val else last_value ns hs := by
  unfold last_value
  rw [List.filter_append]
  by_cases h : name ∈ ns
  · rw [if_pos h]
    have : List.filter (fun h => decide (h.name ∈ ns)) [(⟨name, val⟩ : scgi_header)]
        = [⟨name, val⟩] := by
      simp [List.filter, h]
    rw [this, List.getLast?_append]
    rfl
  · rw [if_neg h]
    have : List.filter (fun h => decide (h.name ∈ ns)) [(⟨name, val⟩ : scgi_header)] = [] := by
      simp [List.filter, h]
    rw [this, List.append_nil]

theorem record_fields_inv (req : scgi_request) (name val : List Nat)
    (h : convenience_fields req = convenience_names.map (fun ns => last_value ns req.headers)) :
    convenience_fields (scgi_add_header_record req name val)
      = convenience_names.map
          (fun ns => last_value ns (scgi_add_header_record req name val).headers) := by
  rw [record_fields, record_headers_eq, h]
  simp only [convenience_names, List.map, List.zipWith, last_value_append]

theorem reachable_fields (d : scgi_desc) (hr : reachable d) :
    convenience_fields d.req = convenience_names.map (fun ns => last_value ns d.req.headers) := by
  refine reachable_req
    (fun req => convenience_fields req
      = convenience_names.map (fun ns => last_value ns req.headers))
    (fun _ => rfl) (fun req name val h _ => record_fields_inv req name val h)
    (fun req val x h _ _ _ _ => ?_) (fun req b h => h) d hr
  exact record_fields_inv _ CONTENT_LENGTH val h

theorem record_fields_first (req : scgi_request) (x : Int) (name val : List Nat) :
    convenience_fields (scgi_add_header_record { req with scgi_content_length := x } name val)
      = List.zipWith (fun ns old => if name ∈ ns then some val else old) convenience_names
          (convenience_fields req) :=
  record_fields _ name val

theorem add_header_fields_step (g g1 : scgi_globals) (d d1 : scgi_desc) (name val : List Nat)
    (x : Int) (hx : x = to_int (strtoul val))
    (h : scgi_add_header g d name val = (g1, some d1)) :
    convenience_fields d1.req
      = List.zipWith (fun ns old => if name ∈ ns then some val else old) convenience_names
          (convenience_fields d.req) := by
  obtain ⟨-, hc | hc⟩ := add_header_some_cases g g1 d d1 name val x hx h
  · obtain ⟨-, e⟩ := hc
    subst e
    exact record_fields d.req name val
  · obtain ⟨-, -, -, -, e⟩ := hc
    subst e
    exact record_fields_first d.req x name val

/-- C27. Convenience fields.  When `scgi_add_header` accepts a header, each
of the fields set aside for the headers `HTTP_COOKIE`, `HTTP_CONNECTION`,
`HTTP_CACHE_CONTROL`, `HTTP_ACCEPT_CHARSET`, `HTTP_ACCEPT_ENCODING`,
`HTTP_ACCEPT_LANGUAGE`, `HTTP_ACCEPT`, `HTTP_USER_AGENT` and `USER_AGENT` (one
field for the two), `HTTP_HOST`, `QUERY_STRING`, `REQUEST_URI`, `REMOTE_ADDR`,
`SERVER_ADDR`, `SERVER_PORT` and `SERVER_PROTOCOL` is the value of the header
if the header has the name of the field, and is unchanged otherwise; so a
header with another name changes none of them.  And on every connection the
library can hold each of these fields is the value of the last received header
with the name of the field, and is unset when there is no such header. -/
theorem convenience_field_mapping (d : scgi_desc) (hr : reachable d) :
    convenience_fields d.req
      = convenience_names.map (fun ns => last_value ns d.req.headers) ∧
    (∀ (g g1 : scgi_globals) (name val : List Nat) (d1 : scgi_desc),
      scgi_add_header g d name val = (g1, some d1) →
      convenience_fields d1.req
        = List.zipWith (fun ns old => if name ∈ ns then some val else old) convenience_names
            (convenience_fields d.req)) ∧
    (∀ ns ∈ convenience_names, last_value ns [] = none) := by
  exact ⟨reachable_fields d hr,
    fun g g1 name val d1 h => add_header_fields_step g g1 d d1 name val _ rfl h, by decide⟩
/-- C27, at the ready request of the sample stream. -/
theorem convenience_field_mapping_witness :
    (reachable sample_ready_desc) ∧
    (convenience_fields sample_ready_desc.req
      = convenience_names.map (fun ns => last_value ns sample_ready_desc.req.headers) ∧
    (∀ (g g1 : scgi_globals) (name val : List Nat) (d1 : scgi_desc),
      scgi_add_header g sample_ready_desc name val = (g1, some d1) →
      convenience_fields d1.req
        = List.zipWith (fun ns old => if name ∈ ns then some val else old) convenience_names
            (convenience_fields sample_ready_desc.req)) ∧
    (∀ ns ∈ convenience_names, last_value ns [] = none)) :=
  ⟨sample_ready_desc_reachable, convenience_field_mapping sample_ready_desc sample_ready_desc_reachable⟩


/-! ## What the growth of the inbound buffer keeps -/

theorem sprintf_s_cut (w post : List Nat) (n : Nat) (hw : ∀ c ∈ w, c ≠ 0) :
    sprintf_s (w ++ 0 :: post) n = w ++ List.replicate (n - w.length) 0 := by
  unfold sprintf_s strlen
  rw [cstr_nul w post hw]

theorem resize_buffer_cut (g : scgi_globals) (d : scgi_desc) (w post : List Nat)
    (hbuf : d.buf = w ++ 0 :: post) (hw : ∀ c ∈ w, c ≠ 0)
    (hsize : d.bufsize * 2 < SCGI_MAX_INBUF_SIZE) :
    resize_buffer g d true true
      = (g, some { d with
          bufsize := d.bufsize * 2
          buf := w ++ List.replicate (post.length + 1) 0 }) := by
  rw [resize_buffer_inbound, if_neg (by
    rintro (h | h)
    · omega
    · exact Bool.noConfusion h)]
  have hlen : d.buflen - w.length = post.length + 1 := by
    unfold scgi_desc.buflen
    rw [hbuf, List.length_append, List.length_cons]
    omega
  rw [hbuf, sprintf_s_cut w post _ hw, hlen]

theorem upload_desc_buflen : upload_desc.buflen = 16379 := by
  show (upload_head ++ List.replicate 16347 66).length = 16379
  rw [List.length_append, List.length_replicate]
  rfl

/-- C28 against the code.  A successful `resize_buffer` keeps of the inbound
buffer only the bytes before its first NUL: the new block holds them and zeros
behind them, whatever the old one held there.  So on the connection of an
upload of 20000 bytes whose buffer is full to within the margin, with the
parser in the state BODY and the body starting at offset 32, a readable event
(on which `recv` has nothing yet) leaves a buffer of the same length 16379
that holds the 17 bytes `28:CONTENT_LENGTH` and zeros: the headers behind the
first name and the 16347 bytes of the body received so far are gone, and the
byte at offset 32, the first of the body, has changed from `B` to NUL. -/
theorem growth_cuts_buffer :
    (∀ (g : scgi_globals) (d : scgi_desc) (w post : List Nat), d.buf = w ++ 0 :: post →
      (∀ c ∈ w, c ≠ 0) → d.bufsize * 2 < SCGI_MAX_INBUF_SIZE →
      resize_buffer g d true true
        = (g, some { d with
            bufsize := d.bufsize * 2
            buf := w ++ List.replicate (post.length + 1) 0 })) ∧
    upload_desc.parser_state = SCGI_PARSE_BODY ∧ upload_desc.string_starts = 32 ∧
    upload_desc.bufsize = 16384 ∧ upload_desc.buflen = 16379 ∧
    byteAt upload_desc.buf 32 = 66 ∧
    scgi_listen_to_request sample_globals upload_desc true recv_result.would_block
      = (sample_globals, some { upload_desc with
          bufsize := 32768
          buf := upload_head.take 17 ++ List.replicate 16362 0 }) ∧
    (upload_head.take 17 ++ List.replicate 16362 0).length = 16379 ∧
    byteAt (upload_head.take 17 ++ List.replicate 16362 0) 32 = 0 := by
  have hw : ∀ c ∈ upload_head.take 17, c ≠ 0 := by decide
  have hbuf : upload_desc.buf
      = upload_head.take 17 ++ 0 :: (upload_head.drop 18 ++ List.replicate 16347 66) := by
    show upload_head ++ List.replicate 16347 66 = _
    have : upload_head = upload_head.take 17 ++ 0 :: upload_head.drop 18 := by decide
    conv_lhs => rw [this]
    rw [List.append_assoc, List.cons_append]
  have hsize : upload_desc.bufsize = 16384 := by decide
  refine ⟨resize_buffer_cut, by decide, by decide, hsize, upload_desc_buflen, ?_, ?_, ?_, ?_⟩
  · show byteAt (upload_head ++ List.replicate 16347 66) (upload_head.length + 0) = 66
    rw [byteAt_append_right]
    rfl
  · rw [listen_grown _ _ _ _ (by rw [upload_desc_buflen, hsize]) (by
      rintro (h | h)
      · rw [hsize] at h
        exact absurd h (by decide)
      · exact Bool.noConfusion h)]
    show (sample_globals, some { upload_desc with
      bufsize := upload_desc.bufsize * 2
      buf := sprintf_s upload_desc.buf upload_desc.buflen }) = _
    rw [hbuf, sprintf_s_cut _ _ _ hw, upload_desc_buflen, hsize]
    rfl
  · rw [List.length_append, List.length_replicate]
    rfl
  · show byteAt (upload_head.take 17 ++ List.replicate 16362 0) ((upload_head.take 17).length + 15)
      = 0
    rw [byteAt_append_right]
    rfl


/-! ## The headroom of the inbound buffer -/

theorem step_cursor_next (g : scgi_globals) (d d1 : scgi_desc)
    (hs : scgi_parse_input_step g d = next d1) : d1.parsed_chars = d.parsed_chars + 1 := by
  cases hst : d.parser_state <;> simp only [scgi_parse_input_step, hst] at hs
  · split_ifs at hs <;> injection hs with hs <;> subst hs <;> rfl
  · split_ifs at hs <;> injection hs with hs <;> subst hs <;> rfl
  · split_ifs at hs
    · revert hs
      generalize hr : scgi_add_header g _ _ _ = r
      rcases r with ⟨g1, _ | d2⟩
      · intro hs; simp at hs
      · intro hs
        injection hs with hs
        subst hs
        obtain ⟨-, hc | hc⟩ := add_header_some_cases g g1 _ d2 _ _ _ rfl hr
        · obtain ⟨-, e⟩ := hc
          subst e
          rfl
        · obtain ⟨-, -, -, -, e⟩ := hc
          subst e
          rfl
    · injection hs with hs
      subst hs
      rfl
  · split_ifs at hs <;> injection hs with hs <;> subst hs <;> rfl

/-- Every state of a connection that reads its request keeps the cursor of the
parser within the bytes received and the bytes received within the capacity
less the margin of 5. -/
theorem listening_inv (d : scgi_desc) (h : listening d) :
    d.parsed_chars ≤ d.buflen ∧ d.buflen + 5 ≤ d.bufsize := by
  induction h with
  | fresh caller =>
    refine ⟨Nat.le_refl _, ?_⟩
    show (0 : Nat) + 5 ≤ 16384
    decide
  | grown g g1 d d1 calloc_ok _ hfull hres ih =>
    rw [resize_buffer_inbound] at hres
    split_ifs at hres with hc
    · injection hres with _ e
      exact Option.noConfusion e
    · injection hres with _ e
      injection e with e
      subst e
      have hlen : (sprintf_s d.buf d.buf.length).length = d.buf.length := sprintf_s_length d.buf
      obtain ⟨i1, i2⟩ := ih
      simp only [scgi_desc.buflen] at i1 i2 ⊢
      rw [hlen]
      exact ⟨i1, by omega⟩
  | received d bytes _ ih =>
    obtain ⟨i1, i2⟩ := ih
    simp only [scgi_desc.buflen] at i1 i2 ⊢
    rw [List.length_append, List.length_take]
    omega
  | round g d d1 _ hlt hs ih =>
    obtain ⟨i1, i2⟩ := ih
    obtain ⟨-, -, f3, f4, -⟩ := step_frame_next g d d1 hs
    have hp := step_cursor_next g d d1 hs
    simp only [scgi_desc.buflen] at i1 i2 hlt ⊢
    rw [f3, f4, hp]
    omega
  | returned g g1 d d1 _ hlt hs ih =>
    obtain ⟨i1, i2⟩ := ih
    obtain ⟨⟨-, -, f3, f4, -⟩, -⟩ := step_frame_ret_some g g1 d d1 hs
    obtain ⟨-, hp⟩ := step_ret_some g g1 d d1 hs
    simp only [scgi_desc.buflen] at i1 i2 hlt ⊢
    rw [f3, f4, hp]
    omega

theorem loop_listening (fuel : Nat) (g g1 : scgi_globals) (d d1 : scgi_desc) (h : listening d)
    (hl : scgi_parse_input_loop fuel g d = (g1, some d1)) : listening d1 := by
  induction fuel generalizing d with
  | zero =>
    simp only [scgi_parse_input_loop] at hl
    injection hl with _ e
    injection e with e
    subst e
    exact h
  | succ n ih =>
    simp only [scgi_parse_input_loop] at hl
    split_ifs at hl with hlt
    · rcases hs : scgi_parse_input_step g d with d0 | ⟨g0, r⟩
      · rw [hs] at hl
        exact ih d0 (listening.round g d d0 h hlt hs) hl
      · rw [hs] at hl
        dsimp only at hl
        injection hl with e1 e2
        subst e1 e2
        exact listening.returned g g0 d d1 h hlt hs
    · injection hl with _ e
      injection e with e
      subst e
      exact h

theorem parse_input_listening (g g1 : scgi_globals) (d d1 : scgi_desc) (h : listening d)
    (hp : scgi_parse_input g d = (g1, some d1)) : listening d1 := by
  unfold scgi_parse_input at hp
  split_ifs at hp
  · injection hp with _ e
    injection e with e
    subst e
    exact h
  · simp at hp
  · exact loop_listening _ g g1 d d1 h hp

theorem listen_read_listening (g g1 : scgi_globals) (d d1 : scgi_desc) (incoming : recv_result)
    (start : Nat) (hstart : start = d.buflen) (h : listening d)
    (hr : scgi_listen_to_request_read g d start incoming = (g1, some d1)) :
    listening d1 := by
  subst hstart
  cases incoming with
  | data bytes =>
    simp only [scgi_listen_to_request_read] at hr
    split_ifs at hr
    · exact parse_input_listening g g1 _ d1 (listening.received d bytes h) hr
    · injection hr with _ e
      exact Option.noConfusion e
  | would_block =>
    simp only [scgi_listen_to_request_read] at hr
    injection hr with _ e
    injection e with e
    subst e
    exact h
  | failure =>
    simp only [scgi_listen_to_request_read] at hr
    injection hr with _ e
    exact Option.noConfusion e

theorem listen_listening (g g1 : scgi_globals) (d d1 : scgi_desc) (calloc_ok : Bool)
    (incoming : recv_result) (h : listening d)
    (hl : scgi_listen_to_request g d calloc_ok incoming = (g1, some d1)) : listening d1 := by
  by_cases h1 : d.buflen ≥ d.bufsize - 5
  · by_cases h2 : d.bufsize * 2 ≥ SCGI_MAX_INBUF_SIZE ∨ calloc_ok = false
    · rw [listen_refused g d calloc_ok incoming h1 h2] at hl
      injection hl with _ e
      exact Option.noConfusion e
    · rw [listen_grown g d calloc_ok incoming h1 h2] at hl
      have hg : listening { d with bufsize := d.bufsize * 2, buf := sprintf_s d.buf d.buflen } :=
        listening.grown g g d _ calloc_ok h h1 (by rw [resize_buffer_inbound, if_neg h2])
      have hlen : (sprintf_s d.buf d.buf.length).length = d.buf.length := sprintf_s_length d.buf
      have hb : ({ d with bufsize := d.bufsize * 2, buf := sprintf_s d.buf d.buflen }
          : scgi_desc).buflen = d.buflen := hlen
      exact listen_read_listening g g1 _ d1 incoming d.buflen hb.symm hg hl
  · rw [listen_room g d calloc_ok incoming (by omega)] at hl
    exact listen_read_listening g g1 d d1 incoming d.buflen rfl h hl

theorem listen_all_listening (events : List (Bool × recv_result)) :
    ∀ (g g1 : scgi_globals) (d d1 : scgi_desc), listening d →
      scgi_listen_all (g, some d) events = (g1, some d1) → listening d1 := by
  induction events with
  | nil =>
    intro g g1 d d1 h hl
    simp only [scgi_listen_all, List.foldl_nil] at hl
    injection hl with _ e
    injection e with e
    subst e
    exact h
  | cons ev rest ih =>
    intro g g1 d d1 h hl
    simp only [scgi_listen_all, List.foldl_cons] at hl
    rcases hs : scgi_listen_to_request g d ev.1 ev.2 with ⟨g2, _ | d2⟩
    · rw [hs] at hl
      have hnone : ∀ (l : List (Bool × recv_result)) (g0 : scgi_globals),
          List.foldl (fun (s : scgi_globals × Option scgi_desc) (e : Bool × recv_result) =>
            match s.2 with
            | none => s
            | some d => scgi_listen_to_request s.1 d e.1 e.2) (g0, none) l = (g0, none) := by
        intro l
        induction l with
        | nil => intro g0; rfl
        | cons a l ihl => intro g0; exact ihl g0
      rw [hnone] at hl
      injection hl with _ e
      exact Option.noConfusion e
    · rw [hs] at hl
      exact ih g2 g1 d2 d1 (listen_listening g g2 d d2 ev.1 ev.2 h hs) hl

theorem heard_desc_listening : listening heard_desc :=
  listen_all_listening [(true, recv_result.data sample_stream)] sample_globals
    (scgi_listen_all (sample_globals, some (scgi_answer_the_phone_desc 7))
      [(true, recv_result.data sample_stream)]).1
    (scgi_answer_the_phone_desc 7) heard_desc (listening.fresh 7) (by decide)

/-- C29. Inbound headroom invariant.  In every state of a connection that
reads its request, `parsed_chars <= buflen <= bufsize - 5`.  So the number of
bytes that `scgi_listen_to_request` asks of `recv`, `bufsize - 5 - buflen`, is
at least 1: when the buffer is not full to within the margin, as it is; and
when it is, after the growth, which keeps `buflen` and doubles `bufsize`.  And
when the round of the parser at the end of the body writes the terminator at
the offset `parsed_chars + 1`, one past the last byte of the body, that offset
is at most `buflen` and so inside the block of `bufsize + 1` bytes.  The
states of a connection after any run of readable events are such states. -/
theorem inbound_headroom (d : scgi_desc) (h : listening d) :
    d.parsed_chars ≤ d.buflen ∧ d.buflen ≤ d.bufsize - 5 ∧ 5 ≤ d.bufsize ∧
    (d.buflen < d.bufsize - 5 → 1 ≤ d.bufsize - 5 - d.buflen) ∧
    (∀ (g g1 : scgi_globals) (calloc_ok : Bool) (d1 : scgi_desc), d.buflen ≥ d.bufsize - 5 →
      resize_buffer g d true calloc_ok = (g1, some d1) →
      d1.buflen = d.buflen ∧ d1.bufsize = d.bufsize * 2 ∧ 1 ≤ d1.bufsize - 5 - d1.buflen) ∧
    (∀ (g g1 : scgi_globals) (d1 : scgi_desc), d.parser_state = SCGI_PARSE_BODY →
      d.parsed_chars < d.buflen → scgi_parse_input_step g d = ret g1 (some d1) →
      d1.buf = d.buf.set (d.parsed_chars + 1) 0 ∧ d.parsed_chars + 1 ≤ d.buflen ∧
        d.parsed_chars + 1 < d.bufsize + 1) ∧
    (∀ (g g1 : scgi_globals) (sock : Nat) (events : List (Bool × recv_result))
      (d1 : scgi_desc),
      scgi_listen_all (g, some (scgi_answer_the_phone_desc sock)) events = (g1, some d1) →
      listening d1) := by
  obtain ⟨i1, i2⟩ := listening_inv d h
  refine ⟨i1, by omega, by omega, fun hlt => by omega, fun g g1 calloc_ok d1 hfull hres => ?_,
    fun g g1 d1 hst hlt hs => ?_, fun g g1 sock events d1 hl =>
      listen_all_listening events g g1 _ d1 (listening.fresh sock) hl⟩
  · obtain ⟨j1, j2⟩ := listening_inv d1 (listening.grown g g1 d d1 calloc_ok h hfull hres)
    rw [resize_buffer_inbound] at hres
    split_ifs at hres with hc
    · injection hres with _ e
      exact Option.noConfusion e
    · injection hres with _ e
      injection e with e
      subst e
      have hlen : (sprintf_s d.buf d.buf.length).length = d.buf.length := sprintf_s_length d.buf
      refine ⟨hlen, rfl, ?_⟩
      simp only [scgi_desc.buflen] at i2 ⊢
      rw [hlen]
      omega
  · simp only [scgi_parse_input_step, hst] at hs
    split_ifs at hs with hc
    injection hs with e1 e2
    injection e2 with e2
    subst e2
    exact ⟨rfl, by omega, by omega⟩
/-- C29, at the connection of the sample request after the readable event that delivers the whole stream. -/
theorem inbound_headroom_witness :
    (listening heard_desc) ∧
    (heard_desc.parsed_chars ≤ heard_desc.buflen ∧ heard_desc.buflen ≤ heard_desc.bufsize - 5 ∧ 5 ≤ heard_desc.bufsize ∧
    (heard_desc.buflen < heard_desc.bufsize - 5 → 1 ≤ heard_desc.bufsize - 5 - heard_desc.buflen) ∧
    (∀ (g g1 : scgi_globals) (calloc_ok : Bool) (d1 : scgi_desc), heard_desc.buflen ≥ heard_desc.bufsize - 5 →
      resize_buffer g heard_desc true calloc_ok = (g1, some d1) →
      d1.buflen = heard_desc.buflen ∧ d1.bufsize = heard_desc.bufsize * 2 ∧ 1 ≤ d1.bufsize - 5 - d1.buflen) ∧
    (∀ (g g1 : scgi_globals) (d1 : scgi_desc), heard_desc.parser_state = SCGI_PARSE_BODY →
      heard_desc.parsed_chars < heard_desc.buflen → scgi_parse_input_step g heard_desc = ret g1 (some d1) →
      d1.buf = heard_desc.buf.set (heard_desc.parsed_chars + 1) 0 ∧ heard_desc.parsed_chars + 1 ≤ heard_desc.buflen ∧
        heard_desc.parsed_chars + 1 < heard_desc.bufsize + 1) ∧
    (∀ (g g1 : scgi_globals) (sock : Nat) (events : List (Bool × recv_result))
      (d1 : scgi_desc),
      scgi_listen_all (g, some (scgi_answer_the_phone_desc sock)) events = (g1, some d1) →
      listening d1)) :=
  ⟨heard_desc_listening, inbound_headroom heard_desc heard_desc_listening⟩


/-! ## The requests in the ready queue -/

theorem takeWhile_length_le_of_nul (l : List Nat) :
    ∀ j, byteAt l j = 0 → (l.takeWhile (fun c => c != 0)).length ≤ j := by
  induction l with
  | nil => intro j _; exact Nat.zero_le _
  | cons a t ih =>
    intro j hj
    cases j with
    | zero =>
      have ha : a = 0 := hj
      subst ha
      simp
    | succ j =>
      have ht : byteAt t j = 0 := by
        unfold byteAt at hj ⊢
        simpa using hj
      have := ih j ht
      rw [List.takeWhile_cons]
      split_ifs
      · simp only [List.length_cons]
        omega
      · simp

theorem byteAt_set_self (buf : List Nat) (k : Nat) : byteAt (buf.set k 0) k = 0 := by
  unfold byteAt
  by_cases h : k < buf.length
  · rw [List.getD_eq_getElem _ _ (by rw [List.length_set]; exact h)]
    simp
  · rw [List.getD_eq_default _ _ (by rw [List.length_set]; omega)]

theorem byteAt_drop (buf : List Nat) (s i : Nat) : byteAt (buf.drop s) i = byteAt buf (s + i) := by
  unfold byteAt
  simp only [List.getD_eq_getElem?_getD, List.getElem?_drop]

/-- The C string that starts at the offset `s` of a buffer with a NUL at the
offset `k` ends before `k`. -/
theorem cstr_set_length (buf : List Nat) (s k : Nat) (h : s ≤ k) :
    (cstr (buf.set k 0) s).length ≤ k - s := by
  unfold cstr
  apply takeWhile_length_le_of_nul
  rw [byteAt_drop, show s + (k - s) = k by omega]
  exact byteAt_set_self buf k

theorem int32_le_self (y : Int) (h : 0 ≤ y) : int32 y ≤ y := by
  unfold int32
  omega

/-- A request whose flag is set and whose first header is `CONTENT_LENGTH` has
two headers at least. -/
theorem two_headers (req : scgi_request) (hf : flag_inv req) (h1 : req.scgi_scgiheader = 1)
    (hh : req.headers.head?.map (fun h => h.name) = some CONTENT_LENGTH) :
    2 ≤ req.headers.length := by
  have hm := hf.1.1 h1
  rcases hl : req.headers with _ | ⟨a, _ | ⟨b, t⟩⟩
  · rw [hl] at hm
    cases hm
  · rw [hl] at hm hh
    simp only [List.mem_singleton] at hm
    simp only [List.head?_cons, Option.map_some', Option.some.injEq] at hh
    rw [← hm] at hh
    exact absurd hh (by decide)
  · simp

/-- The rounds of the parser that go on, case by case. -/
theorem step_next_cases (g : scgi_globals) (d d1 : scgi_desc)
    (hs : scgi_parse_input_step g d = next d1) :
    d1 = { d with parsed_chars := d.parsed_chars + 1 } ∨
    (d.parser_state = SCGI_PARSE_HEADLENGTH ∧ ∃ x : Int, d1 = { d with
      parsed_chars := d.parsed_chars + 1
      parser_state := SCGI_PARSE_HEADNAME
      true_header_length := x
      string_starts := d.parsed_chars + 1 }) ∨
    (d.parser_state = SCGI_PARSE_HEADNAME ∧
      ((d.parsed_chars + 1 : Nat) : Int) = d.true_header_length ∧
      d.req.scgi_scgiheader ≠ 0 ∧ ∃ y : Int, d1 = { d with
        parsed_chars := d.parsed_chars + 1
        true_request_length := y
        string_starts := d.parsed_chars + 1
        parser_state := SCGI_PARSE_BODY }) ∨
    (d.parser_state = SCGI_PARSE_HEADNAME ∧ d1 = { d with
      parsed_chars := d.parsed_chars + 1
      parser_state := SCGI_PARSE_HEADVAL }) ∨
    (d.parser_state = SCGI_PARSE_HEADVAL ∧ ∃ name val, d1 = { d with
      parsed_chars := d.parsed_chars + 1
      req := scgi_add_header_record d.req name val
      parser_state := SCGI_PARSE_HEADNAME
      string_starts := d.parsed_chars + 1 } ∧ d.req.headers ≠ []) ∨
    (d.parser_state = SCGI_PARSE_HEADVAL ∧ ∃ (val : List Nat) (x : Int), d1 = { d with
      parsed_chars := d.parsed_chars + 1
      req := scgi_add_header_record { d.req with scgi_content_length := x } CONTENT_LENGTH val
      parser_state := SCGI_PARSE_HEADNAME
      string_starts := d.parsed_chars + 1 } ∧ d.req.headers = [] ∧ 0 ≤ x) := by
  cases hst : d.parser_state <;> simp only [scgi_parse_input_step, hst] at hs
  · split_ifs at hs with hc
    · injection hs with hs
      subst hs
      exact Or.inr (Or.inl ⟨rfl, _, rfl⟩)
    · injection hs with hs
      subst hs
      exact Or.inl rfl
  · split_ifs at hs with hc1 hc2 hc3 hc4 hc5 hc6
    · injection hs with hs
      subst hs
      exact Or.inr (Or.inr (Or.inl ⟨rfl, hc1, hc3, _, rfl⟩))
    · injection hs with hs
      subst hs
      exact Or.inr (Or.inr (Or.inr (Or.inl ⟨rfl, rfl⟩)))
    · injection hs with hs
      subst hs
      exact Or.inl rfl
  · split_ifs at hs with hc1 hc2
    · revert hs
      generalize hr : scgi_add_header g _ _ _ = r
      rcases r with ⟨g1, _ | d2⟩
      · intro hs; simp at hs
      · intro hs
        injection hs with hs
        subst hs
        obtain ⟨-, hc | hc⟩ := add_header_some_cases g g1 _ d2 _ _ _ rfl hr
        · obtain ⟨h0, e⟩ := hc
          subst e
          exact Or.inr (Or.inr (Or.inr (Or.inr (Or.inl
            ⟨rfl, cstr d.buf d.string_starts,
              cstr d.buf (d.string_starts + strlen d.buf d.string_starts + 1), rfl, h0⟩))))
        · obtain ⟨h0, hn, -, hx, e⟩ := hc
          subst e
          refine Or.inr (Or.inr (Or.inr (Or.inr (Or.inr
            ⟨rfl, cstr d.buf (d.string_starts + strlen d.buf d.string_starts + 1), _, ?_, h0,
              hx⟩))))
          show ({ d with
            parsed_chars := d.parsed_chars + 1
            req := scgi_add_header_record _ (cstr d.buf d.string_starts) _
            parser_state := SCGI_PARSE_HEADNAME
            string_starts := d.parsed_chars + 1 } : scgi_desc) = _
          rw [hn]
    · injection hs with hs
      subst hs
      exact Or.inl rfl
  · split_ifs at hs <;> injection hs with hs <;> subst hs <;> exact Or.inl rfl

theorem queue_inv_fresh (caller : Nat) : queue_inv (scgi_answer_the_phone_desc caller) := by
  refine ⟨⟨?_, Or.inl rfl⟩, fun h => absurd rfl h, fun h => ?_, fun h => absurd rfl h⟩
  · constructor
    · intro h
      have h1 : (0 : Nat) = 1 := h
      exact absurd h1 (by decide)
    · intro h
      cases h
  · cases h

theorem queue_inv_congr (d d1 : scgi_desc) (hreq : d1.req = d.req)
    (hst : d1.parser_state = d.parser_state) (hp : d1.parsed_chars = d.parsed_chars)
    (hss : d1.string_starts = d.string_starts)
    (hthl : d1.true_header_length = d.true_header_length) (h : queue_inv d) : queue_inv d1 := by
  unfold queue_inv past_end at h ⊢
  rw [hreq, hst, hp, hss, hthl]
  exact h

/-- The flag of a request with `queue_inv` that is not 0 is 1, the request has
a header, its first header is `CONTENT_LENGTH`, its length is not negative, and
it has two headers at least. -/
theorem queue_inv_flag (d : scgi_desc) (h : queue_inv d) (hf : d.req.scgi_scgiheader ≠ 0) :
    d.req.scgi_scgiheader = 1 ∧ 2 ≤ d.req.headers.length ∧
    d.req.headers.head?.map (fun h => h.name) = some CONTENT_LENGTH ∧
    0 ≤ d.req.scgi_content_length := by
  obtain ⟨hflag, hhead, -, -⟩ := h
  have h1 : d.req.scgi_scgiheader = 1 := by
    rcases hflag.2 with h0 | h1
    · exact absurd h0 hf
    · exact h1
  have hne : d.req.headers ≠ [] := by
    intro e
    have := hflag.1.1 h1
    rw [e] at this
    cases this
  obtain ⟨hh, hc⟩ := hhead hne
  exact ⟨h1, two_headers d.req hflag h1 hh, hh, hc⟩

theorem ready_request_record (req : scgi_request) (name val : List Nat)
    (h : ready_request req) : ready_request (scgi_add_header_record req name val) := by
  obtain ⟨h1, h2, h3, h4, b, h5, h6⟩ := h
  refine ⟨?_, ?_, ?_, ?_, b, ?_, ?_⟩
  · rw [record_scgiheader]
    split_ifs
    · rfl
    · exact h1
  · rw [record_headers_eq, List.length_append]
    omega
  · rw [record_headers_eq]
    rcases hl : req.headers with _ | ⟨a, t⟩
    · rw [hl] at h2
      simp at h2
    · rw [hl] at h3
      exact h3
  · rw [record_content_length]
    exact h4
  · rw [record_body]
    exact h5
  · rw [record_content_length]
    exact h6

theorem queue_inv_next (g : scgi_globals) (d d1 : scgi_desc) (h : queue_inv d)
    (hs : scgi_parse_input_step g d = next d1) :
    queue_inv d1 ∧ d1.sock = d.sock ∧ d1.req.body = d.req.body := by
  obtain ⟨hflag, hhead, hbody, hready⟩ := h
  rcases step_next_cases g d d1 hs with e | ⟨hst, x, e⟩ | ⟨hst, hb, hf, y, e⟩ | ⟨hst, e⟩ |
      ⟨hst, name, val, e, h0⟩ | ⟨hst, val, x, e, h0, hx⟩
  · -- a plain byte
    subst e
    refine ⟨⟨hflag, hhead, fun hs1 => ?_, fun hb1 => ?_⟩, rfl, rfl⟩
    · obtain ⟨a1, a2, a3⟩ := hbody hs1
      exact ⟨a1, Nat.le_succ_of_le a2, a3⟩
    · obtain ⟨r1, p1, p2⟩ := hready hb1
      refine ⟨r1, fun hs1 => ?_, fun hs1 => ?_⟩
      · have := p1 hs1
        dsimp only
        omega
      · obtain ⟨q1, q2⟩ := p2 hs1
        refine ⟨q1, ?_⟩
        dsimp only
        omega
  · -- the colon
    subst e
    refine ⟨⟨hflag, hhead, fun hs1 => (by cases hs1), fun hb1 => ?_⟩, rfl, rfl⟩
    obtain ⟨-, -, p2⟩ := hready hb1
    exact absurd hst (p2 (by rw [hst]; decide)).1
  · -- the comma at the end of the header block, a body to come
    subst e
    refine ⟨⟨hflag, hhead, fun _ => ⟨hb, Nat.le_refl _, ?_⟩, fun hb1 => ?_⟩, rfl, rfl⟩
    · exact (queue_inv_flag d ⟨hflag, hhead, hbody, hready⟩ hf).1
    · obtain ⟨-, -, p2⟩ := hready hb1
      have := (p2 (by rw [hst]; decide)).2
      omega
  · -- the NUL that ends a name
    subst e
    refine ⟨⟨hflag, hhead, fun hs1 => (by cases hs1), fun hb1 => ?_⟩, rfl, rfl⟩
    obtain ⟨r1, -, p2⟩ := hready hb1
    refine ⟨r1, fun hs1 => (by cases hs1), fun _ => ⟨fun hne => (by cases hne), ?_⟩⟩
    have := (p2 (by rw [hst]; decide)).2
    dsimp only
    omega
  · -- the NUL that ends a value, a header behind the first
    subst e
    refine ⟨⟨flag_inv_record _ _ _ hflag, fun _ => ?_, fun hs1 => (by cases hs1), fun hb1 => ?_⟩,
      rfl, record_body _ _ _⟩
    · obtain ⟨a1, a2⟩ := hhead h0
      refine ⟨?_, ?_⟩
      · show (scgi_add_header_record d.req name val).headers.head?.map _ = _
        rw [record_headers_eq]
        rcases hl : d.req.headers with _ | ⟨a, t⟩
        · exact absurd hl h0
        · rw [hl] at a1
          exact a1
      · show 0 ≤ (scgi_add_header_record d.req name val).scgi_content_length
        rw [record_content_length]
        exact a2
    · have hb0 : d.req.body ≠ none := by
        intro e
        apply hb1
        show (scgi_add_header_record d.req name val).body = none
        rw [record_body]
        exact e
      obtain ⟨r1, -, p2⟩ := hready hb0
      refine ⟨ready_request_record _ _ _ r1, fun hs1 => (by cases hs1), fun _ => ⟨fun hne => (by cases hne), ?_⟩⟩
      have := (p2 (by rw [hst]; decide)).2
      dsimp only
      omega
  · -- the NUL that ends the value of the first header
    subst e
    have hb0 : d.req.body = none := by
      by_contra hb0
      obtain ⟨⟨-, r2, -⟩, -⟩ := hready hb0
      rw [h0] at r2
      simp at r2
    refine ⟨⟨flag_inv_record _ _ _ ⟨hflag.1, hflag.2⟩, fun _ => ⟨?_, ?_⟩,
      fun hs1 => (by cases hs1), fun hb1 => ?_⟩, rfl, ?_⟩
    · show (scgi_add_header_record _ CONTENT_LENGTH val).headers.head?.map _ = _
      rw [record_headers_eq]
      show (d.req.headers ++ _).head?.map _ = _
      rw [h0]
      rfl
    · show 0 ≤ (scgi_add_header_record _ CONTENT_LENGTH val).scgi_content_length
      rw [record_content_length]
      exact hx
    · exfalso
      apply hb1
      show (scgi_add_header_record _ CONTENT_LENGTH val).body = none
      rw [record_body]
      exact hb0
    · show (scgi_add_header_record _ CONTENT_LENGTH val).body = d.req.body
      rw [record_body]

theorem queue_inv_ret (g g1 : scgi_globals) (d d1 : scgi_desc) (h : queue_inv d)
    (hs : scgi_parse_input_step g d = ret g1 (some d1)) :
    queue_inv d1 ∧ d1.sock = d.sock ∧
    g1 = { g with first_scgi_unrecved_req := SCGI_LINK d.sock g.first_scgi_unrecved_req } ∧
    d.req.body = none ∧ d1.req.body ≠ none := by
  obtain ⟨hg, hsock, hp, hst, hthl, hss, hc⟩ := step_req_ret g g1 d d1 hs
  have hflag := h.1
  have hhead := h.2.1
  have hbody := h.2.2.1
  have hready := h.2.2.2
  rcases hc with ⟨s1, hcl, hf, hb, e⟩ | ⟨s1, hb, e⟩
  · -- the comma at the end of the header block, no body to come
    obtain ⟨f1, f2, f3, f4⟩ := queue_inv_flag d h hf
    have hnone : d.req.body = none := by
      by_contra hb0
      obtain ⟨-, -, p2⟩ := hready hb0
      have := (p2 (by rw [s1]; decide)).2
      omega
    have hsome : d1.req.body ≠ none := by
      rw [e]
      exact Option.noConfusion
    refine ⟨⟨?_, ?_, ?_, ?_⟩, hsock, hg, hnone, hsome⟩
    · rw [e]
      exact ⟨hflag.1, hflag.2⟩
    · intro _
      rw [e]
      exact ⟨f3, f4⟩
    · intro hs1
      rw [hst, s1] at hs1
      cases hs1
    · intro _
      refine ⟨?_, ?_, ?_⟩
      · rw [e]
        exact ⟨f1, f2, f3, f4, [], rfl, by
          show ((0 : Nat) : Int) ≤ d.req.scgi_content_length
          rw [hcl]
          exact Int.le_refl _⟩
      · intro hs1
        rw [hst, s1] at hs1
        cases hs1
      · intro _
        rw [hst, hthl, hp]
        exact ⟨by rw [s1]; decide, by omega⟩
  · -- the end of the body
    obtain ⟨b1, b2, b3⟩ := hbody s1
    obtain ⟨f1, f2, f3, f4⟩ := queue_inv_flag d h (by rw [b3]; decide)
    have hnone : d.req.body = none := by
      by_contra hb0
      obtain ⟨-, p1, -⟩ := hready hb0
      have := p1 s1
      omega
    have hsome : d1.req.body ≠ none := by
      rw [e]
      exact Option.noConfusion
    have hlen := cstr_set_length d.buf d.string_starts (d.parsed_chars + 1) (by omega)
    have hle := int32_le_self (d.true_header_length + d.req.scgi_content_length) (by omega)
    refine ⟨⟨?_, ?_, ?_, ?_⟩, hsock, hg, hnone, hsome⟩
    · rw [e]
      exact ⟨hflag.1, hflag.2⟩
    · intro _
      rw [e]
      exact ⟨f3, f4⟩
    · intro _
      rw [hss, hthl, hp, e]
      exact ⟨b1, by omega, b3⟩
    · intro _
      refine ⟨?_, ?_, ?_⟩
      · rw [e]
        refine ⟨f1, f2, f3, f4, _, rfl, ?_⟩
        show ((cstr (d.buf.set (d.parsed_chars + 1) 0) d.string_starts).length : Int)
          ≤ d.req.scgi_content_length
        omega
      · intro _
        rw [hthl, hp, e]
        show int32 (d.true_header_length + d.req.scgi_content_length) ≤ _
        omega
      · intro hs1
        rw [hst] at hs1
        exact absurd s1 hs1

theorem advance_refl (g : scgi_globals) (d : scgi_desc) (h : queue_inv d) : advance g d g d :=
  ⟨h, rfl, Or.inl ⟨rfl, id⟩⟩

theorem loop_advance (fuel : Nat) : ∀ (g g1 : scgi_globals) (d d1 : scgi_desc), queue_inv d →
    scgi_parse_input_loop fuel g d = (g1, some d1) → advance g d g1 d1 := by
  induction fuel with
  | zero =>
    intro g g1 d d1 h hl
    simp only [scgi_parse_input_loop] at hl
    injection hl with e1 e2
    injection e2 with e2
    subst e1 e2
    exact advance_refl g d h
  | succ n ih =>
    intro g g1 d d1 h hl
    simp only [scgi_parse_input_loop] at hl
    split_ifs at hl with hlt
    · rcases hs : scgi_parse_input_step g d with d0 | ⟨g0, r⟩
      · rw [hs] at hl
        obtain ⟨i1, i2, i3⟩ := queue_inv_next g d d0 h hs
        obtain ⟨j1, j2, j3⟩ := ih g g1 d0 d1 i1 hl
        refine ⟨j1, j2.trans i2, ?_⟩
        rcases j3 with ⟨k1, k2⟩ | ⟨k1, k2, k3⟩
        · exact Or.inl ⟨k1, fun hb => k2 (by rw [i3]; exact hb)⟩
        · refine Or.inr ⟨?_, by rw [← i3]; exact k2, k3⟩
          rw [k1, i2]
      · rw [hs] at hl
        dsimp only at hl
        injection hl with e1 e2
        subst e1 e2
        obtain ⟨i1, i2, i3, i4, i5⟩ := queue_inv_ret g g0 d d1 h hs
        exact ⟨i1, i2, Or.inr ⟨i3, i4, i5⟩⟩
    · injection hl with e1 e2
      injection e2 with e2
      subst e1 e2
      exact advance_refl g d h

theorem parse_input_advance (g g1 : scgi_globals) (d d1 : scgi_desc) (h : queue_inv d)
    (hp : scgi_parse_input g d = (g1, some d1)) : advance g d g1 d1 := by
  unfold scgi_parse_input at hp
  split_ifs at hp
  · injection hp with e1 e2
    injection e2 with e2
    subst e1 e2
    exact advance_refl g d h
  · simp at hp
  · exact loop_advance _ g g1 d d1 h hp

/-- A change of the connection outside the parser and the request keeps
`advance`. -/
theorem advance_congr (g g1 : scgi_globals) (d d0 d1 : scgi_desc) (hsock : d0.sock = d.sock)
    (hreq : d0.req = d.req) (h : advance g d0 g1 d1) : advance g d g1 d1 := by
  obtain ⟨a1, a2, a3⟩ := h
  refine ⟨a1, a2.trans hsock, ?_⟩
  rw [hsock, hreq] at a3
  exact a3

theorem listen_read_advance (g g1 : scgi_globals) (d d1 : scgi_desc) (start : Nat)
    (incoming : recv_result) (h : queue_inv d)
    (hr : scgi_listen_to_request_read g d start incoming = (g1, some d1)) :
    advance g d g1 d1 := by
  cases incoming with
  | data bytes =>
    simp only [scgi_listen_to_request_read] at hr
    split_ifs at hr
    · have key := fun hq => parse_input_advance g g1 _ d1 hq hr
      exact advance_congr g g1 d _ d1 rfl rfl (key (queue_inv_congr d _ rfl rfl rfl rfl rfl h))
    · injection hr with _ e
      exact Option.noConfusion e
  | would_block =>
    simp only [scgi_listen_to_request_read] at hr
    injection hr with e1 e2
    injection e2 with e2
    subst e1 e2
    exact advance_refl g d h
  | failure =>
    simp only [scgi_listen_to_request_read] at hr
    injection hr with _ e
    exact Option.noConfusion e

theorem listen_advance (g g1 : scgi_globals) (d d1 : scgi_desc) (calloc_ok : Bool)
    (incoming : recv_result) (h : queue_inv d)
    (hl : scgi_listen_to_request g d calloc_ok incoming = (g1, some d1)) :
    advance g d g1 d1 := by
  by_cases h1 : d.buflen ≥ d.bufsize - 5
  · by_cases h2 : d.bufsize * 2 ≥ SCGI_MAX_INBUF_SIZE ∨ calloc_ok = false
    · rw [listen_refused g d calloc_ok incoming h1 h2] at hl
      injection hl with _ e
      exact Option.noConfusion e
    · rw [listen_grown g d calloc_ok incoming h1 h2] at hl
      have key := fun hq => listen_read_advance g g1 _ d1 _ incoming hq hl
      exact advance_congr g g1 d _ d1 rfl rfl (key (queue_inv_congr d _ rfl rfl rfl rfl rfl h))
  · rw [listen_room g d calloc_ok incoming (by omega)] at hl
    exact listen_read_advance g g1 d d1 _ incoming h hl

theorem flush_advance (g g1 : scgi_globals) (d d1 : scgi_desc) (sent_amount : Int)
    (h : queue_inv d) (hf : scgi_flush_response g d sent_amount = (g1, some d1)) :
    advance g d g1 d1 := by
  simp only [scgi_flush_response] at hf
  split_ifs at hf
  · injection hf with _ e
    exact Option.noConfusion e
  · injection hf with e1 e2
    injection e2 with e2
    subst e1 e2
    exact ⟨queue_inv_congr d _ rfl rfl rfl rfl rfl h, rfl, Or.inl ⟨rfl, id⟩⟩

/-- The body of the loop of a pass for one connection that stays alive. -/
theorem update_connection_advance (ev : pass_events) (inset outset excset : List Nat)
    (g g1 : scgi_globals) (d d1 : scgi_desc) (h : queue_inv d)
    (hu : scgi_update_connection ev inset outset excset g d = (g1, some d1)) :
    advance g d g1 d1 := by
  simp only [scgi_update_connection] at hu
  split_ifs at hu with h1 h2 h3
  · injection hu with _ e
    exact Option.noConfusion e
  · have key := fun hq => listen_advance g g1 _ d1 _ _ hq hu
    exact advance_congr g g1 d _ d1 rfl rfl (key (queue_inv_congr d _ rfl rfl rfl rfl rfl h))
  · have key := fun hq => flush_advance g g1 _ d1 _ hq hu
    exact advance_congr g g1 d _ d1 rfl rfl (key (queue_inv_congr d _ rfl rfl rfl rfl rfl h))
  · injection hu with e1 e2
    injection e2 with e2
    subst e1 e2
    exact ⟨queue_inv_congr d _ rfl rfl rfl rfl rfl h, rfl, Or.inl ⟨rfl, id⟩⟩

theorem map_sock_mid (pre post : List scgi_desc) (d d1 : scgi_desc) (h : d1.sock = d.sock) :
    (pre ++ d1 :: post).map (fun e => e.sock) = (pre ++ d :: post).map (fun e => e.sock) := by
  simp only [List.map_append, List.map_cons, h]

theorem nodup_mid (pre post : List scgi_desc) (d : scgi_desc)
    (h : ((pre ++ d :: post).map (fun e => e.sock)).Nodup) :
    ((pre ++ post).map (fun e => e.sock)).Nodup ∧
    ∀ e ∈ pre ++ post, e.sock ≠ d.sock := by
  rw [List.map_append, List.map_cons, List.nodup_middle, List.nodup_cons, ← List.map_append] at h
  refine ⟨h.2, fun e he hs => h.1 ?_⟩
  rw [← hs]
  exact List.mem_map_of_mem _ he

theorem eq_of_sock (ds : List scgi_desc) (h : (ds.map (fun e => e.sock)).Nodup)
    (a b : scgi_desc) (ha : a ∈ ds) (hb : b ∈ ds) (hs : a.sock = b.sock) : a = b :=
  List.inj_on_of_nodup_map h ha hb hs

theorem mem_mid (pre post : List scgi_desc) (d e : scgi_desc) :
    e ∈ pre ++ d :: post ↔ e = d ∨ e ∈ pre ++ post := by
  simp only [List.mem_append, List.mem_cons]
  tauto

/-- Teardown of one connection keeps `queue_sound` for the others. -/
theorem kill_sound (g : scgi_globals) (pre post : List scgi_desc) (d : scgi_desc)
    (h : queue_sound g (pre ++ d :: post)) :
    queue_sound (scgi_kill_socket g d) (pre ++ post) := by
  obtain ⟨hq, hs, hI, hQ⟩ := h
  obtain ⟨hs1, hne⟩ := nodup_mid pre post d hs
  have hnot := kill_not_in_queue g d hq
  have hsub : ∀ x, x ∈ (scgi_kill_socket g d).first_scgi_unrecved_req →
      x ∈ g.first_scgi_unrecved_req := by
    intro x hx
    simp only [scgi_kill_socket, free_scgi_request, SCGI_UNLINK] at hx
    split_ifs at hx
    · exact List.mem_of_mem_erase hx
    · exact hx
  refine ⟨?_, hs1, fun e he => ?_, fun s hsq => ?_⟩
  · simp only [scgi_kill_socket, free_scgi_request, SCGI_UNLINK]
    split_ifs
    · exact hq.erase _
    · exact hq
  · obtain ⟨i1, i2⟩ := hI e ((mem_mid pre post d e).2 (Or.inr he))
    refine ⟨i1, ?_⟩
    show e.sock ∈ SCGI_UNLINK d.sock g.first_scgi_req
    exact (List.mem_erase_of_ne (hne e he)).2 i2
  · obtain ⟨e, he, e1, e2⟩ := hQ s (hsub s hsq)
    rcases (mem_mid pre post d e).1 he with hd | hd
    · have hds : d.sock = s := by
        rw [← hd]
        exact e1
      exfalso
      apply hnot
      rw [hds]
      exact hsq
    · exact ⟨e, hd, e1, e2⟩

/-- An operation that leaves a connection alive keeps `queue_sound`. -/
theorem advance_sound (g g1 : scgi_globals) (pre post : List scgi_desc) (d d1 : scgi_desc)
    (h : queue_sound g (pre ++ d :: post)) (ha : advance g d g1 d1) :
    queue_sound g1 (pre ++ d1 :: post) := by
  obtain ⟨hq, hs, hI, hQ⟩ := h
  obtain ⟨a1, a2, a3⟩ := ha
  have hd : d ∈ pre ++ d :: post := (mem_mid pre post d d).2 (Or.inl rfl)
  have hmem : ∀ e, e ∈ pre ++ post → e ∈ pre ++ d :: post := fun e he =>
    (mem_mid pre post d e).2 (Or.inr he)
  have hmem1 : ∀ e, e ∈ pre ++ post → e ∈ pre ++ d1 :: post := fun e he =>
    (mem_mid pre post d1 e).2 (Or.inr he)
  have hd1 : d1 ∈ pre ++ d1 :: post := (mem_mid pre post d1 d1).2 (Or.inl rfl)
  rcases a3 with ⟨k1, k2⟩ | ⟨k1, k2, k3⟩
  · subst k1
    refine ⟨hq, by rw [map_sock_mid pre post d d1 a2]; exact hs, fun e he => ?_, fun s hsq => ?_⟩
    · rcases (mem_mid pre post d1 e).1 he with he | he
      · rw [he]
        exact ⟨a1, by rw [a2]; exact (hI d hd).2⟩
      · exact hI e (hmem e he)
    · obtain ⟨e, he, e1, e2⟩ := hQ s hsq
      rcases (mem_mid pre post d e).1 he with he | he
      · subst he
        exact ⟨d1, hd1, a2.trans e1, k2 e2⟩
      · exact ⟨e, hmem1 e he, e1, e2⟩
  · have hnot : d.sock ∉ g.first_scgi_unrecved_req := by
      intro hin
      obtain ⟨e, he, e1, e2⟩ := hQ _ hin
      have := eq_of_sock _ hs e d he hd e1
      rw [this] at e2
      exact e2 k2
    subst k1
    refine ⟨?_, by rw [map_sock_mid pre post d d1 a2]; exact hs, fun e he => ?_, fun s hsq => ?_⟩
    · show (g.first_scgi_unrecved_req ++ [d.sock]).Nodup
      rw [List.nodup_append]
      refine ⟨hq, List.nodup_singleton _, ?_⟩
      intro x hx hx1
      rw [List.mem_singleton] at hx1
      subst hx1
      exact hnot hx
    · rcases (mem_mid pre post d1 e).1 he with he | he
      · rw [he]
        exact ⟨a1, by rw [a2]; exact (hI d hd).2⟩
      · exact hI e (hmem e he)
    · have hsq1 : s ∈ g.first_scgi_unrecved_req ++ [d.sock] := hsq
      rw [List.mem_append, List.mem_singleton] at hsq1
      rcases hsq1 with hsq1 | hsq1
      · obtain ⟨e, he, e1, e2⟩ := hQ s hsq1
        rcases (mem_mid pre post d e).1 he with he | he
        · subst he
          exact absurd k2 e2
        · exact ⟨e, hmem1 e he, e1, e2⟩
      · exact ⟨d1, hd1, by rw [a2, hsq1], k3⟩

/-- The loop of a pass over the connections `rest` of a port keeps
`queue_sound`, whatever connections the library holds before and behind. -/
theorem loop_sound (ev : pass_events) (inset outset excset : List Nat) (rest : List scgi_desc) :
    ∀ (pre post : List scgi_desc) (g : scgi_globals), queue_sound g (pre ++ (rest ++ post)) →
      queue_sound (scgi_update_connections_loop ev inset outset excset rest g).1
        (pre ++ ((scgi_update_connections_loop ev inset outset excset rest g).2 ++ post)) := by
  induction rest with
  | nil => intro pre post g h; exact h
  | cons d rest ih =>
    intro pre post g h
    rcases hu : scgi_update_connection ev inset outset excset g d with ⟨g1, _ | d1⟩
    · rw [loop_cons_none ev inset outset excset d rest g g1 hu]
      have hk := (update_connection_frame ev inset outset excset g d).1 g1 hu
      rw [hk]
      exact ih pre post _ (kill_sound g pre (rest ++ post) d h)
    · rw [loop_cons_some ev inset outset excset d d1 rest g g1 hu]
      have ha := update_connection_advance ev inset outset excset g g1 d d1
        ((h.2.2.1 d (by simp)).1) hu
      have h1 := advance_sound g g1 pre (rest ++ post) d d1 h ha
      have h2 := ih (pre ++ [d1]) post g1 (by
        rw [List.append_assoc]
        exact h1)
      rw [List.append_assoc] at h2
      exact h2

theorem insert_sound (g : scgi_globals) (pre post : List scgi_desc) (c : Nat)
    (h : queue_sound g (pre ++ post)) (hc : c ∉ (pre ++ post).map (fun e => e.sock)) :
    queue_sound { g with first_scgi_req := SCGI_LINK c g.first_scgi_req }
      (pre ++ scgi_answer_the_phone_desc c :: post) := by
  obtain ⟨hq, hs, hI, hQ⟩ := h
  refine ⟨hq, ?_, fun e he => ?_, fun s hsq => ?_⟩
  · rw [List.map_append, List.map_cons, List.nodup_middle, List.nodup_cons, ← List.map_append]
    exact ⟨hc, hs⟩
  · rcases (mem_mid pre post _ e).1 he with he | he
    · rw [he]
      refine ⟨queue_inv_fresh c, ?_⟩
      show c ∈ g.first_scgi_req ++ [c]
      simp
    · obtain ⟨i1, i2⟩ := hI e he
      refine ⟨i1, ?_⟩
      show e.sock ∈ g.first_scgi_req ++ [c]
      exact List.mem_append_left _ i2
  · obtain ⟨e, he, e1, e2⟩ := hQ s hsq
    exact ⟨e, (mem_mid pre post _ e).2 (Or.inr he), e1, e2⟩

theorem answer_sound (ev : pass_events) (g : scgi_globals) (p : scgi_port)
    (pre post : List scgi_desc) (h : queue_sound g (pre ++ (p.descs ++ post)))
    (hfresh : ∀ c, ev.accept = some c → c ∉ (pre ++ (p.descs ++ post)).map (fun e => e.sock)) :
    queue_sound (scgi_answer_the_phone ev g p).1
      (pre ++ ((scgi_answer_the_phone ev g p).2.descs ++ post)) := by
  rcases ha : ev.accept with _ | caller
  · simp only [scgi_answer_the_phone, ha]
    exact h
  · simp only [scgi_answer_the_phone, ha]
    split_ifs
    · exact h
    · show queue_sound { g with first_scgi_req := SCGI_LINK caller g.first_scgi_req }
        (pre ++ ((p.descs ++ [scgi_answer_the_phone_desc caller]) ++ post))
      have h1 : queue_sound g ((pre ++ p.descs) ++ post) := by
        rw [List.append_assoc]
        exact h
      have h2 := insert_sound g (pre ++ p.descs) post caller h1 (by
        rw [List.append_assoc]
        exact hfresh caller ha)
      rw [List.append_assoc] at h2
      rw [List.append_assoc]
      exact h2

/-- A pass over one port keeps `queue_sound`, whatever connections the other
ports hold. -/
theorem pass_sound (ev : pass_events) (g g1 : scgi_globals) (p p1 : scgi_port)
    (pre post : List scgi_desc) (h : queue_sound g (pre ++ (p.descs ++ post)))
    (hfresh : ∀ c, ev.accept = some c → c ∉ (pre ++ (p.descs ++ post)).map (fun e => e.sock))
    (hp : scgi_update_connections_port ev g p = some (g1, p1)) :
    queue_sound g1 (pre ++ (p1.descs ++ post)) := by
  unfold scgi_update_connections_port at hp
  split_ifs at hp
  injection hp with hp
  have e1 := congrArg Prod.fst hp
  have e2 := congrArg Prod.snd hp
  dsimp only at e1 e2
  rw [← e1, ← e2, port_ready_globals, port_ready_descs]
  split_ifs
  · exact loop_sound ev _ _ _ _ pre post _ (answer_sound ev g p pre post h hfresh)
  · exact loop_sound ev _ _ _ _ pre post _ h

theorem send_same (d : scgi_desc) (txt : List Nat) (len : Int) (memory : Bool) :
    (scgi_send d txt len memory).2.sock = d.sock ∧ (scgi_send d txt len memory).2.req = d.req ∧
    (scgi_send d txt len memory).2.parser_state = d.parser_state ∧
    (scgi_send d txt len memory).2.parsed_chars = d.parsed_chars ∧
    (scgi_send d txt len memory).2.string_starts = d.string_starts ∧
    (scgi_send d txt len memory).2.true_header_length = d.true_header_length := by
  unfold scgi_send
  split_ifs <;> exact ⟨rfl, rfl, rfl, rfl, rfl, rfl⟩

theorem send_sound (g : scgi_globals) (pre post : List scgi_desc) (d : scgi_desc)
    (txt : List Nat) (len : Int) (memory : Bool) (h : queue_sound g (pre ++ d :: post)) :
    queue_sound g (pre ++ (scgi_send d txt len memory).2 :: post) := by
  obtain ⟨s1, s2, s3, s4, s5, s6⟩ := send_same d txt len memory
  have hd : d ∈ pre ++ d :: post := (mem_mid pre post d d).2 (Or.inl rfl)
  refine advance_sound g g pre post d _ h
    ⟨queue_inv_congr d _ s2 s3 s4 s5 s6 (h.2.2.1 d hd).1, s1, Or.inl ⟨rfl, fun hb => ?_⟩⟩
  rw [s2]
  exact hb

/-- The store of the state WRITING_RESPONSE and the unlinking of a request
from the ready queue keep `queue_sound`. -/
theorem fetch_sound (g : scgi_globals) (ds : List scgi_desc) (req : Nat)
    (h : queue_sound g ds) :
    queue_sound
      { g with first_scgi_unrecved_req := SCGI_UNLINK req g.first_scgi_unrecved_req }
      (ds.map (fun d =>
        if d.sock = req then { d with state := SCGI_SOCKSTATE_WRITING_RESPONSE } else d)) := by
  obtain ⟨hq, hs, hI, hQ⟩ := h
  have hf : ∀ d : scgi_desc,
      (if d.sock = req then { d with state := SCGI_SOCKSTATE_WRITING_RESPONSE } else d).sock
        = d.sock ∧
      (if d.sock = req then { d with state := SCGI_SOCKSTATE_WRITING_RESPONSE } else d).req
        = d.req ∧
      (queue_inv d →
        queue_inv (if d.sock = req then { d with state := SCGI_SOCKSTATE_WRITING_RESPONSE }
          else d)) := by
    intro d
    split_ifs
    · exact ⟨rfl, rfl, fun hd => queue_inv_congr d _ rfl rfl rfl rfl rfl hd⟩
    · exact ⟨rfl, rfl, id⟩
  refine ⟨hq.erase _, ?_, fun e he => ?_, fun s hsq => ?_⟩
  · rw [List.map_map]
    have : ((fun d : scgi_desc => d.sock) ∘ fun d : scgi_desc =>
        if d.sock = req then { d with state := SCGI_SOCKSTATE_WRITING_RESPONSE } else d)
        = fun d => d.sock := by
      funext d
      exact (hf d).1
    rw [this]
    exact hs
  · rw [List.mem_map] at he
    obtain ⟨d, hd, rfl⟩ := he
    obtain ⟨i1, i2⟩ := hI d hd
    exact ⟨(hf d).2.2 i1, by rw [(hf d).1]; exact i2⟩
  · obtain ⟨d, hd, e1, e2⟩ := hQ s (List.mem_of_mem_erase hsq)
    refine ⟨_, List.mem_map_of_mem _ hd, (hf d).1.trans e1, ?_⟩
    rw [(hf d).2.1]
    exact e2

theorem descs_split (before behind : List scgi_port) (p : scgi_port) :
    ((before ++ p :: behind).map (fun q => q.descs)).flatten
      = (before.map (fun q => q.descs)).flatten
        ++ (p.descs ++ (behind.map (fun q => q.descs)).flatten) := by
  simp only [List.map_append, List.map_cons, List.flatten_append, List.flatten_cons]

theorem descs_set_writing (req : Nat) (ports : List scgi_port) :
    ((set_writing_response req ports).map (fun q => q.descs)).flatten
      = ((ports.map (fun q => q.descs)).flatten).map (fun d =>
          if d.sock = req then { d with state := SCGI_SOCKSTATE_WRITING_RESPONSE } else d) := by
  induction ports with
  | nil => rfl
  | cons p rest ih =>
    simp only [set_writing_response, List.map_cons, List.flatten_cons, List.map_append] at ih ⊢
    rw [ih]

theorem descs_start (ports : List scgi_port) (h : ∀ p ∈ ports, p.descs = []) :
    (ports.map (fun q => q.descs)).flatten = [] := by
  induction ports with
  | nil => rfl
  | cons p rest ih =>
    simp only [List.map_cons, List.flatten_cons]
    rw [h p (by simp), ih (fun q hq => h q (by simp [hq]))]
    rfl

theorem recv_nothing (s : scgi_library) (hq : s.globals.first_scgi_unrecved_req = []) :
    (scgi_recv (fun x => x) s).2 = s := by
  simp only [scgi_recv, ite_self, hq]

theorem recv_fetch (s : scgi_library) (req : Nat) (rest : List Nat)
    (hq : s.globals.first_scgi_unrecved_req = req :: rest) :
    (scgi_recv (fun x => x) s).2
      = { ports := set_writing_response req s.ports
          globals := { s.globals with
            first_scgi_unrecved_req := SCGI_UNLINK req s.globals.first_scgi_unrecved_req } } := by
  simp only [scgi_recv, ite_self, hq]

/-- Every state of `running` satisfies `queue_sound`. -/
theorem running_sound (s : scgi_library) (h : running s) : queue_sound s.globals s.descs := by
  induction h with
  | start ports h0 =>
    show queue_sound _ ((ports.map (fun q => q.descs)).flatten)
    rw [descs_start ports h0]
    exact ⟨List.nodup_nil, List.nodup_nil, fun d hd => (by cases hd), fun s hs => (by cases hs)⟩
  | pass s before behind p p1 ev g1 _ hports hfresh _ hp ih =>
    show queue_sound g1 (((before ++ p1 :: behind).map (fun q => q.descs)).flatten)
    rw [descs_split]
    have hd : s.descs = (before.map (fun q => q.descs)).flatten
        ++ (p.descs ++ (behind.map (fun q => q.descs)).flatten) := by
      unfold scgi_library.descs
      rw [hports, descs_split]
    rw [hd] at ih hfresh
    exact pass_sound ev s.globals g1 p p1 _ _ ih hfresh hp
  | recv s _ ih =>
    rcases hq : s.globals.first_scgi_unrecved_req with _ | ⟨req, rest⟩
    · rw [recv_nothing s hq]
      exact ih
    · rw [recv_fetch s req rest hq]
      show queue_sound _ (((set_writing_response req s.ports).map (fun q => q.descs)).flatten)
      rw [descs_set_writing]
      exact fetch_sound s.globals _ req ih
  | send s before behind p pre post d txt len memory _ hports hdescs ih =>
    show queue_sound s.globals (((before ++ { p with
      descs := pre ++ (scgi_send d txt len memory).2 :: post } :: behind).map
        (fun q => q.descs)).flatten)
    rw [descs_split]
    have hd : s.descs = ((before.map (fun q => q.descs)).flatten ++ pre)
        ++ d :: (post ++ (behind.map (fun q => q.descs)).flatten) := by
      unfold scgi_library.descs
      rw [hports, descs_split, hdescs]
      simp only [List.append_assoc, List.cons_append]
    rw [hd] at ih
    have := send_sound s.globals _ _ d txt len memory ih
    show queue_sound s.globals ((before.map (fun q => q.descs)).flatten
      ++ ((pre ++ (scgi_send d txt len memory).2 :: post)
        ++ (behind.map (fun q => q.descs)).flatten))
    simp only [List.append_assoc, List.cons_append] at this ⊢
    exact this

theorem mem_descs (s : scgi_library) (d : scgi_desc) :
    d ∈ s.descs ↔ ∃ p ∈ s.ports, d ∈ p.descs := by
  unfold scgi_library.descs
  simp only [List.mem_flatten, List.mem_map]
  constructor
  · rintro ⟨l, ⟨p, hp, rfl⟩, hd⟩
    exact ⟨p, hp, hd⟩
  · rintro ⟨p, hp, hd⟩
    exact ⟨_, ⟨p, hp, rfl⟩, hd⟩

theorem run_queue_inv (n : Nat) : ∀ (g : scgi_globals) (d d1 : scgi_desc), queue_inv d →
    scgi_parse_input_run n g d = next d1 → queue_inv d1 := by
  induction n with
  | zero =>
    intro g d d1 h hr
    simp only [scgi_parse_input_run] at hr
    injection hr with hr
    subst hr
    exact h
  | succ n ih =>
    intro g d d1 h hr
    simp only [scgi_parse_input_run] at hr
    rcases hs : scgi_parse_input_step g d with d0 | ⟨g0, r⟩
    · rw [hs] at hr
      exact ih g d0 d1 (queue_inv_next g d d0 h hs).1 hr
    · rw [hs] at hr
      cases hr

theorem ready_library_running : running ready_library :=
  running.pass { ports := [] ++ accepted_port :: [], globals := sample_globals } [] []
    accepted_port ready_pass.2 sending_events ready_pass.1
    (running.pass
      { ports := [empty_port]
        globals := { first_scgi_req := [], first_scgi_unrecved_req := [], dead_cells := [] } }
      [] [] empty_port accepted_port ringing_events sample_globals
      (running.start [empty_port] (by decide)) rfl
      (fun c _ hc => by cases hc) (by decide) (by decide))
    rfl (fun c hc => by cases hc) (by decide) (by decide)

theorem ready_library_queue : ready_library.globals.first_scgi_unrecved_req = [7] := by
  decide

/-! ## The empty response -/

theorem send_empty (d : scgi_desc) (txt : List Nat) (memory : Bool)
    (h : (scgi_send d txt 0 memory).1 = 1) :
    (scgi_send d txt 0 memory).2.outbuflen = 0 ∧
    (scgi_send d txt 0 memory).2.state = d.state ∧
    (scgi_send d txt 0 memory).2.idle = d.idle ∧
    (scgi_send d txt 0 memory).2.sock = d.sock := by
  unfold scgi_send at h ⊢
  split_ifs at h ⊢
  · exact absurd (show (0 : Int) = 1 from h) (by decide)
  · exact ⟨rfl, rfl, rfl, rfl⟩
  · exact ⟨rfl, rfl, rfl, rfl⟩

/-- The body of the loop of a pass for a connection in the state
WRITING_RESPONSE with nothing staged: no test but those for an exception and
for the idle count applies. -/
theorem update_empty_response (ev : pass_events) (inset outset excset : List Nat)
    (g : scgi_globals) (d : scgi_desc) (hst : d.state = SCGI_SOCKSTATE_WRITING_RESPONSE)
    (hlen : d.outbuflen = 0) :
    scgi_update_connection ev inset outset excset g d
      = if FD_ISSET d.sock excset = true
            ∨ d.idle + 1 > SCGI_KICK_IDLE_AFTER_X_SECS * SCGI_PULSES_PER_SEC then
          (scgi_kill_socket g d, none)
        else (g, some { d with idle := d.idle + 1 }) := by
  unfold scgi_update_connection
  by_cases h1 : FD_ISSET d.sock excset = true
      ∨ d.idle + 1 > SCGI_KICK_IDLE_AFTER_X_SECS * SCGI_PULSES_PER_SEC
  · rw [if_pos h1, if_pos h1]
    rfl
  · rw [if_neg h1, if_neg h1, if_neg (by rw [hst]; simp), if_neg (by rw [hlen]; simp)]

theorem loop_find_idle (ev : pass_events) (inset outset excset : List Nat) (d : scgi_desc)
    (hu : ∀ g, scgi_update_connection ev inset outset excset g d
      = (g, some { d with idle := d.idle + 1 })) :
    ∀ (ds : List scgi_desc) (g : scgi_globals),
      ds.find? (fun e => e.sock == d.sock) = some d →
      (scgi_update_connections_loop ev inset outset excset ds g).2.find?
          (fun e => e.sock == d.sock)
        = some { d with idle := d.idle + 1 } := by
  intro ds
  induction ds with
  | nil => intro g h; simp at h
  | cons e rest ih =>
    intro g h
    by_cases he : e.sock = d.sock
    · have hed : e = d := by
        simpa [List.find?_cons, he] using h
      subst hed
      rw [loop_cons_some _ _ _ _ _ _ _ _ _ (hu g)]
      simp [List.find?_cons]
    · have hrest : rest.find? (fun e => e.sock == d.sock) = some d := by
        simpa [List.find?_cons, he] using h
      rcases hu1 : scgi_update_connection ev inset outset excset g e with ⟨g1, _ | e1⟩
      · rw [loop_cons_none _ _ _ _ _ _ _ _ hu1]
        exact ih g1 hrest
      · have hs := ((update_connection_frame _ _ _ _ g e).2 g1 e1 hu1).1
        rw [loop_cons_some _ _ _ _ _ _ _ _ _ hu1]
        have hb : (e1.sock == d.sock) = false := by
          rw [hs]
          simpa using he
        dsimp only
        rw [List.find?_cons]
        simp only [hb]
        exact ih g1 hrest

theorem loop_kill_idle (ev : pass_events) (inset outset excset : List Nat) (d : scgi_desc)
    (hu : ∀ g, scgi_update_connection ev inset outset excset g d = (scgi_kill_socket g d, none)) :
    ∀ (ds : List scgi_desc) (g : scgi_globals), d ∈ ds → (ds.map (fun e => e.sock)).Nodup →
      d.sock ∉ (scgi_update_connections_loop ev inset outset excset ds g).2.map
        (fun e => e.sock) := by
  intro ds
  induction ds with
  | nil => intro g h; simp at h
  | cons e rest ih =>
    intro g hmem hnd
    have hnd1 : (rest.map (fun e => e.sock)).Nodup := (List.nodup_cons.1 hnd).2
    have he : e.sock ∉ rest.map (fun e => e.sock) := (List.nodup_cons.1 hnd).1
    rcases List.mem_cons.1 hmem with hd | hd
    · subst hd
      rw [loop_cons_none _ _ _ _ _ _ _ _ (hu g)]
      intro hin
      exact he ((loop_socks_sublist _ _ _ _ rest _).subset hin)
    · have hne : e.sock ≠ d.sock := by
        intro e2
        exact he (e2 ▸ List.mem_map_of_mem (fun e => e.sock) hd)
      rcases hu1 : scgi_update_connection ev inset outset excset g e with ⟨g1, _ | e1⟩
      · rw [loop_cons_none _ _ _ _ _ _ _ _ hu1]
        exact ih g1 hd hnd1
      · have hs := ((update_connection_frame _ _ _ _ g e).2 g1 e1 hu1).1
        rw [loop_cons_some _ _ _ _ _ _ _ _ _ hu1]
        simp only [List.map_cons, List.mem_cons, not_or]
        exact ⟨fun e2 => hne (hs ▸ e2.symm), ih g1 hd hnd1⟩

/-- A pass leaves a connection with the empty response staged, on which there
is no exception and which has not been idle for 600 passes before, as it is
but for the idle count, which is one up. -/
theorem pass_empty_response (ev : pass_events) (g : scgi_globals) (p : scgi_port)
    (d : scgi_desc) (hst : d.state = SCGI_SOCKSTATE_WRITING_RESPONSE) (hlen : d.outbuflen = 0)
    (hs : ev.select_ok = true) (hexc : ev.exceptional d.sock = false)
    (hidle : d.idle + 1 ≤ SCGI_KICK_IDLE_AFTER_X_SECS * SCGI_PULSES_PER_SEC)
    (h : p.descs.find? (fun e => e.sock == d.sock) = some d) :
    ∃ g1 p1, scgi_update_connections_port ev g p = some (g1, p1) ∧
      p1.descs.find? (fun e => e.sock == d.sock) = some { d with idle := d.idle + 1 } := by
  have hu : ∀ (X Y Z : List Nat) (g0 : scgi_globals),
      scgi_update_connection ev X Y (select ev.exceptional Z) g0 d
        = (g0, some { d with idle := d.idle + 1 }) := by
    intro X Y Z g0
    rw [update_empty_response ev X Y _ g0 d hst hlen, if_neg (by
      rintro (h1 | h1)
      · rw [FD_ISSET_select _ _ _ hexc] at h1
        exact Bool.noConfusion h1
      · omega)]
  refine ⟨(scgi_update_connections_port_ready ev (select ev.readable (scgi_inset p))
      (select ev.writable (scgi_outset p)) (select ev.exceptional (scgi_excset p)) g p).1,
    (scgi_update_connections_port_ready ev (select ev.readable (scgi_inset p))
      (select ev.writable (scgi_outset p)) (select ev.exceptional (scgi_excset p)) g p).2,
    port_pass_eq ev g p hs, ?_⟩
  rw [port_ready_descs]
  split_ifs
  · exact loop_find_idle ev _ _ _ d (hu _ _ _) _ _ (answer_the_phone_find ev g p d h)
  · exact loop_find_idle ev _ _ _ d (hu _ _ _) _ _ h

theorem passes_empty_response (evs : List pass_events) :
    ∀ (g : scgi_globals) (p : scgi_port) (d : scgi_desc),
      d.state = SCGI_SOCKSTATE_WRITING_RESPONSE → d.outbuflen = 0 →
      (∀ ev ∈ evs, ev.select_ok = true ∧ ev.exceptional d.sock = false) →
      d.idle + evs.length ≤ SCGI_KICK_IDLE_AFTER_X_SECS * SCGI_PULSES_PER_SEC →
      p.descs.find? (fun e => e.sock == d.sock) = some d →
      ∃ g1 p1, scgi_update_connections_port_all g p evs = some (g1, p1) ∧
        p1.descs.find? (fun e => e.sock == d.sock)
          = some { d with idle := d.idle + evs.length } := by
  induction evs with
  | nil =>
    intro g p d _ _ _ _ h
    exact ⟨g, p, rfl, h⟩
  | cons ev evs ih =>
    intro g p d hst hlen hq hidle h
    obtain ⟨hs, hn⟩ := hq ev (List.mem_cons_self _ _)
    simp only [List.length_cons] at hidle
    obtain ⟨g1, p1, e1, f1⟩ := pass_empty_response ev g p d hst hlen hs hn (by omega) h
    obtain ⟨g2, p2, e2, f2⟩ := ih g1 p1 { d with idle := d.idle + 1 } hst hlen
      (fun e he => hq e (List.mem_cons_of_mem _ he)) (by show d.idle + 1 + evs.length ≤ _; omega)
      f1
    refine ⟨g2, p2, ?_, ?_⟩
    · simp only [scgi_update_connections_port_all, e1]
      exact e2
    · rw [f2]
      simp only [List.length_cons]
      congr 1
      show ({ d with idle := d.idle + 1 + evs.length } : scgi_desc)
        = { d with idle := d.idle + (evs.length + 1) }
      rw [Nat.add_assoc, Nat.add_comm 1]

/-- The pass in which a connection with the empty response staged has an
exception or has its idle count taken beyond 600 tears it down. -/
theorem pass_kill_empty_response (ev : pass_events) (g : scgi_globals) (p : scgi_port)
    (d : scgi_desc) (hst : d.state = SCGI_SOCKSTATE_WRITING_RESPONSE) (hlen : d.outbuflen = 0)
    (hs : ev.select_ok = true)
    (hkick : ev.exceptional d.sock = true
      ∨ d.idle + 1 > SCGI_KICK_IDLE_AFTER_X_SECS * SCGI_PULSES_PER_SEC)
    (hmem : d ∈ p.descs) (hnd : (p.descs.map (fun e => e.sock)).Nodup)
    (hfresh : ∀ c, ev.accept = some c → c ∉ p.descs.map (fun e => e.sock)) :
    ∃ g1 p1, scgi_update_connections_port ev g p = some (g1, p1) ∧
      d.sock ∉ p1.descs.map (fun e => e.sock) := by
  have hu : ∀ (X Y : List Nat) (g0 : scgi_globals),
      scgi_update_connection ev X Y (select ev.exceptional (scgi_excset p)) g0 d
        = (scgi_kill_socket g0 d, none) := by
    intro X Y g0
    rw [update_empty_response ev X Y _ g0 d hst hlen, if_pos (by
      rcases hkick with h1 | h1
      · left
        simp only [FD_ISSET, select, scgi_excset, List.mem_filter, decide_eq_true_eq]
        exact ⟨List.mem_map_of_mem (fun e => e.sock) hmem, h1⟩
      · exact Or.inr h1)]
  obtain ⟨hm2, hnd2⟩ := answer_the_phone_descs ev g p d hmem hnd hfresh
  refine ⟨(scgi_update_connections_port_ready ev (select ev.readable (scgi_inset p))
      (select ev.writable (scgi_outset p)) (select ev.exceptional (scgi_excset p)) g p).1,
    (scgi_update_connections_port_ready ev (select ev.readable (scgi_inset p))
      (select ev.writable (scgi_outset p)) (select ev.exceptional (scgi_excset p)) g p).2,
    port_pass_eq ev g p hs, ?_⟩
  rw [port_ready_descs]
  split_ifs
  · exact loop_kill_idle ev _ _ _ d (hu _ _) _ _ hm2 hnd2
  · exact loop_kill_idle ev _ _ _ d (hu _ _) _ _ hmem hnd

/-- C31. Empty response is never flushed.  When `scgi_send` stages a response
of length 0 on a connection in the state WRITING_RESPONSE, the connection is
left in that state with `outbuflen` 0 and its idle count as it was.  For such a
connection the body of the loop of a pass does one of two things, whatever
`select` says of its socket for writing: on an exception or an idle count taken
beyond 600 it tears the connection down, and otherwise it raises the idle
count by one and leaves all else; it never comes to `scgi_flush_response` and
never resets the idle count.  So through passes without an exception on its
socket the connection stays in the list of its port with the idle count up by
the number of passes, as long as that is at most 600, and the pass with an
exception or with the idle count beyond 600 takes it out of the list. -/
theorem empty_response_never_flushed (d e : scgi_desc) (txt : List Nat) (memory : Bool)
    (hst : d.state = SCGI_SOCKSTATE_WRITING_RESPONSE)
    (hsend : scgi_send d txt 0 memory = (1, e)) :
    e.state = SCGI_SOCKSTATE_WRITING_RESPONSE ∧ e.outbuflen = 0 ∧ e.idle = d.idle ∧
    (∀ (ev : pass_events) (inset outset excset : List Nat) (g : scgi_globals),
      scgi_update_connection ev inset outset excset g e
        = if FD_ISSET e.sock excset = true
              ∨ e.idle + 1 > SCGI_KICK_IDLE_AFTER_X_SECS * SCGI_PULSES_PER_SEC then
            (scgi_kill_socket g e, none)
          else (g, some { e with idle := e.idle + 1 })) ∧
    (∀ (evs : List pass_events) (g : scgi_globals) (p : scgi_port),
      (∀ ev ∈ evs, ev.select_ok = true ∧ ev.exceptional e.sock = false) →
      e.idle + evs.length ≤ SCGI_KICK_IDLE_AFTER_X_SECS * SCGI_PULSES_PER_SEC →
      p.descs.find? (fun x => x.sock == e.sock) = some e →
      ∃ g1 p1, scgi_update_connections_port_all g p evs = some (g1, p1) ∧
        p1.descs.find? (fun x => x.sock == e.sock)
          = some { e with idle := e.idle + evs.length }) ∧
    (∀ (ev : pass_events) (g : scgi_globals) (p : scgi_port), ev.select_ok = true →
      (ev.exceptional e.sock = true
        ∨ e.idle + 1 > SCGI_KICK_IDLE_AFTER_X_SECS * SCGI_PULSES_PER_SEC) →
      e ∈ p.descs → (p.descs.map (fun x => x.sock)).Nodup →
      (∀ c, ev.accept = some c → c ∉ p.descs.map (fun x => x.sock)) →
      ∃ g1 p1, scgi_update_connections_port ev g p = some (g1, p1) ∧
        e.sock ∉ p1.descs.map (fun x => x.sock)) := by
  have h1 : (scgi_send d txt 0 memory).1 = 1 := by rw [hsend]
  obtain ⟨s1, s2, s3, -⟩ := send_empty d txt memory h1
  rw [hsend] at s1 s2 s3
  have hste : e.state = SCGI_SOCKSTATE_WRITING_RESPONSE := s2.trans hst
  exact ⟨hste, s1, s3,
    fun ev inset outset excset g => update_empty_response ev inset outset excset g e hste s1,
    fun evs g p hq hidle h => passes_empty_response evs g p e hste s1 hq hidle h,
    fun ev g p hs hkick hmem hnd hfresh =>
      pass_kill_empty_response ev g p e hste s1 hs hkick hmem hnd hfresh⟩

theorem empty_response_writable :
    scgi_update_connections_port_all sample_globals empty_response_port
        [writable_events, writable_events]
      = some (sample_globals,
          { empty_response_port with descs := [{ empty_response_desc with idle := 2 }] }) := by
  decide
/-- C31, at the connection of the staged response on which the empty response is staged. -/
theorem empty_response_never_flushed_witness :
    (staged_desc.state = SCGI_SOCKSTATE_WRITING_RESPONSE) ∧
    (scgi_send staged_desc ([] : List Nat) 0 true = (1, empty_response_desc)) ∧
    (empty_response_desc.state = SCGI_SOCKSTATE_WRITING_RESPONSE ∧ empty_response_desc.outbuflen = 0 ∧ empty_response_desc.idle = staged_desc.idle ∧
    (∀ (ev : pass_events) (inset outset excset : List Nat) (g : scgi_globals),
      scgi_update_connection ev inset outset excset g empty_response_desc
        = if FD_ISSET empty_response_desc.sock excset = true
              ∨ empty_response_desc.idle + 1 > SCGI_KICK_IDLE_AFTER_X_SECS * SCGI_PULSES_PER_SEC then
            (scgi_kill_socket g empty_response_desc, none)
          else (g, some { empty_response_desc with idle := empty_response_desc.idle + 1 })) ∧
    (∀ (evs : List pass_events) (g : scgi_globals) (p : scgi_port),
      (∀ ev ∈ evs, ev.select_ok = true ∧ ev.exceptional empty_response_desc.sock = false) →
      empty_response_desc.idle + evs.length ≤ SCGI_KICK_IDLE_AFTER_X_SECS * SCGI_PULSES_PER_SEC →
      p.descs.find? (fun x => x.sock == empty_response_desc.sock) = some empty_response_desc →
      ∃ g1 p1, scgi_update_connections_port_all g p evs = some (g1, p1) ∧
        p1.descs.find? (fun x => x.sock == empty_response_desc.sock)
          = some { empty_response_desc with idle := empty_response_desc.idle + evs.length }) ∧
    (∀ (ev : pass_events) (g : scgi_globals) (p : scgi_port), ev.select_ok = true →
      (ev.exceptional empty_response_desc.sock = true
        ∨ empty_response_desc.idle + 1 > SCGI_KICK_IDLE_AFTER_X_SECS * SCGI_PULSES_PER_SEC) →
      empty_response_desc ∈ p.descs → (p.descs.map (fun x => x.sock)).Nodup →
      (∀ c, ev.accept = some c → c ∉ p.descs.map (fun x => x.sock)) →
      ∃ g1 p1, scgi_update_connections_port ev g p = some (g1, p1) ∧
        empty_response_desc.sock ∉ p1.descs.map (fun x => x.sock))) :=
  ⟨by decide, by decide,
    empty_response_never_flushed staged_desc empty_response_desc [] true (by decide)
      (by decide)⟩

/-! ## Reads into a buffer that has room -/

theorem listen_all_nil (s : scgi_globals × Option scgi_desc) : scgi_listen_all s [] = s := rfl

theorem listen_all_cons (g : scgi_globals) (d : scgi_desc) (e : Bool × recv_result)
    (es : List (Bool × recv_result)) :
    scgi_listen_all (g, some d) (e :: es)
      = scgi_listen_all (scgi_listen_to_request g d e.1 e.2) es := rfl

theorem listen_all_none (events : List (Bool × recv_result)) (g : scgi_globals) :
    scgi_listen_all (g, none) events = (g, none) := by
  induction events with
  | nil => rfl
  | cons e es ih =>
    simp only [scgi_listen_all, List.foldl_cons] at ih ⊢
    exact ih

/-- A read into a buffer that has room for all the bytes the socket holds
stores them behind the bytes received so far and runs the parser: it is the
parser's half of a read, `scgi_receive`. -/
theorem listen_eq_receive (g : scgi_globals) (d : scgi_desc) (calloc_ok : Bool) (f : List Nat)
    (hf : f ≠ []) (hfit : d.buflen + f.length ≤ d.bufsize - 5) :
    scgi_listen_to_request g d calloc_ok (recv_result.data f) = scgi_receive (g, some d) f := by
  have hpos : 0 < f.length := List.length_pos.mpr hf
  rw [listen_room g d calloc_ok _ (by omega)]
  simp only [scgi_listen_to_request_read, scgi_receive]
  rw [List.take_of_length_le (by omega), if_pos hpos]

theorem receive_buflen (g g1 : scgi_globals) (d d1 : scgi_desc) (f : List Nat)
    (h : scgi_receive (g, some d) f = (g1, some d1)) :
    d1.buflen = d.buflen + f.length ∧ d1.bufsize = d.bufsize := by
  simp only [scgi_receive] at h
  obtain ⟨hfr, -⟩ := (parse_input_frame g _).2 g1 d1 h
  obtain ⟨-, -, hb, hs, -⟩ := hfr
  refine ⟨?_, hs⟩
  show d1.buf.length = d.buf.length + f.length
  rw [hb]
  simp

/-- A run of reads whose fragments together fit the buffer is the parser fed
with the fragments one after the other. -/
theorem listen_all_eq_receive_all (frags : List (List Nat)) :
    ∀ (g : scgi_globals) (d : scgi_desc) (events : List (Bool × recv_result)),
      events.map Prod.snd = frags.map recv_result.data → (∀ f ∈ frags, f ≠ []) →
      d.buflen + frags.flatten.length ≤ d.bufsize - 5 →
      scgi_listen_all (g, some d) events = scgi_receive_all (g, some d) frags := by
  induction frags with
  | nil =>
    intro g d events hev _ _
    have : events = [] := by simpa using hev
    subst this
    rfl
  | cons f rest ih =>
    intro g d events hev hne hfit
    rcases events with _ | ⟨e, es⟩
    · simp at hev
    · simp only [List.map_cons, List.cons.injEq] at hev
      obtain ⟨he, hes⟩ := hev
      simp only [List.flatten_cons, List.length_append] at hfit
      rw [listen_all_cons, receive_all_cons, he,
        listen_eq_receive g d e.1 f (hne f (List.mem_cons_self _ _)) (by omega)]
      rcases hr : scgi_receive (g, some d) f with ⟨g1, _ | d1⟩
      · rw [listen_all_none, receive_all_none]
      · obtain ⟨hb, hs⟩ := receive_buflen g g1 d d1 f hr
        exact ih g1 d1 es hes (fun x hx => hne x (List.mem_cons_of_mem _ hx))
          (by rw [hb, hs]; omega)

/-- The reads of a fresh connection while the bytes fit the initial capacity
less the margin. -/
theorem listen_all_fresh (g : scgi_globals) (sock : Nat) (frags : List (List Nat))
    (events : List (Bool × recv_result))
    (hev : events.map Prod.snd = frags.map recv_result.data) (hne : ∀ f ∈ frags, f ≠ [])
    (hfit : frags.flatten.length ≤ SCGI_INITIAL_INBUF_SIZE - 5) :
    scgi_listen_all (g, some (scgi_answer_the_phone_desc sock)) events
      = scgi_receive_all (g, some (scgi_answer_the_phone_desc sock)) frags :=
  listen_all_eq_receive_all frags g _ events hev hne (by
    show 0 + frags.flatten.length ≤ 16384 - 5
    unfold SCGI_INITIAL_INBUF_SIZE at hfit
    omega)

theorem events_take (frags : List (List Nat)) (events : List (Bool × recv_result))
    (hev : events.map Prod.snd = frags.map recv_result.data) (k : Nat) :
    (events.take k).map Prod.snd = (frags.take k).map recv_result.data := by
  rw [List.map_take, List.map_take, hev]

theorem flatten_take_length_le (frags : List (List Nat)) (k : Nat) :
    (frags.take k).flatten.length ≤ frags.flatten.length := by
  have h := congrArg List.length (flatten_take_drop frags k)
  rw [List.length_append] at h
  omega

/-! ## Requests that the initial buffer holds -/

theorem listen_well_formed (g : scgi_globals) (sock : Nat) (ds v : List Nat)
    (rest : List scgi_header) (body : List Nat) (frags : List (List Nat))
    (events : List (Bool × recv_result))
    (hfit : (wire_request ds (⟨CONTENT_LENGTH, v⟩ :: rest) body).length
      ≤ SCGI_INITIAL_INBUF_SIZE - 5)
    (hne : ∀ f ∈ frags, f ≠ [])
    (hcat : frags.flatten = wire_request ds (⟨CONTENT_LENGTH, v⟩ :: rest) body)
    (hev : events.map Prod.snd = frags.map recv_result.data) (k : Nat) :
    scgi_listen_all (g, some (scgi_answer_the_phone_desc sock)) (events.take k)
      = scgi_receive_all (g, some (scgi_answer_the_phone_desc sock)) (frags.take k) :=
  listen_all_fresh g sock (frags.take k) (events.take k) (events_take frags events hev k)
    (fun f hf => hne f (List.mem_of_mem_take hf))
    (Nat.le_trans (flatten_take_length_le frags k) (by rw [hcat]; exact hfit))

theorem events_length (frags : List (List Nat)) (events : List (Bool × recv_result))
    (hev : events.map Prod.snd = frags.map recv_result.data) : events.length = frags.length := by
  have := congrArg List.length hev
  simpa using this

theorem listen_well_formed_all (g : scgi_globals) (sock : Nat) (ds v : List Nat)
    (rest : List scgi_header) (body : List Nat) (frags : List (List Nat))
    (events : List (Bool × recv_result))
    (hfit : (wire_request ds (⟨CONTENT_LENGTH, v⟩ :: rest) body).length
      ≤ SCGI_INITIAL_INBUF_SIZE - 5)
    (hne : ∀ f ∈ frags, f ≠ [])
    (hcat : frags.flatten = wire_request ds (⟨CONTENT_LENGTH, v⟩ :: rest) body)
    (hev : events.map Prod.snd = frags.map recv_result.data) :
    scgi_listen_all (g, some (scgi_answer_the_phone_desc sock)) events
      = scgi_receive_all (g, some (scgi_answer_the_phone_desc sock)) frags := by
  have h := listen_well_formed g sock ds v rest body frags events hfit hne hcat hev frags.length
  rw [List.take_length, ← events_length frags events hev, List.take_length] at h
  exact h

/-- C2, amended. Parser completeness within the initial buffer: for every
well-formed request of at most `SCGI_INITIAL_INBUF_SIZE - 5` bytes, however the
socket delivers it in non-empty fragments, one read of `scgi_listen_to_request`
for each, the connection is never torn down, the queue of parsed requests is
untouched until the last read and then has the request appended once at its
end, and the header list of the request is the sequence of pairs in wire
order. -/
theorem parser_completeness (g : scgi_globals) (sock : Nat) (ds v : List Nat)
    (rest : List scgi_header) (body : List Nat) (frags : List (List Nat))
    (events : List (Bool × recv_result))
    (hw : well_formed ds v rest body)
    (hfit : (wire_request ds (⟨CONTENT_LENGTH, v⟩ :: rest) body).length
      ≤ SCGI_INITIAL_INBUF_SIZE - 5)
    (hne : ∀ f ∈ frags, f ≠ [])
    (hcat : frags.flatten = wire_request ds (⟨CONTENT_LENGTH, v⟩ :: rest) body)
    (hev : events.map Prod.snd = frags.map recv_result.data) :
    (∀ k, (scgi_listen_all (g, some (scgi_answer_the_phone_desc sock)) (events.take k)).2
      ≠ none) ∧
    (∀ k, k < events.length →
      (scgi_listen_all (g, some (scgi_answer_the_phone_desc sock)) (events.take k)).1 = g) ∧
    ∃ d : scgi_desc,
      scgi_listen_all (g, some (scgi_answer_the_phone_desc sock)) events
        = ({ g with first_scgi_unrecved_req := g.first_scgi_unrecved_req ++ [sock] }, some d) ∧
      d.req.headers = ⟨CONTENT_LENGTH, v⟩ :: rest := by
  obtain ⟨h1, h2, d, h3, h4⟩ := receive_complete g sock ds v rest body frags hw hne hcat
  refine ⟨fun k => ?_, fun k hk => ?_, d, ?_, h4⟩
  · rw [listen_well_formed g sock ds v rest body frags events hfit hne hcat hev k]
    exact h1 k
  · rw [listen_well_formed g sock ds v rest body frags events hfit hne hcat hev k]
    exact h2 k (by rw [← events_length frags events hev]; exact hk)
  · rw [listen_well_formed_all g sock ds v rest body frags events hfit hne hcat hev]
    exact h3

/-- C2 amended, at the sample request read in three fragments. -/
theorem parser_completeness_witness :
    well_formed sample_digits sample_value sample_rest sample_body ∧
    (wire_request sample_digits (⟨CONTENT_LENGTH, sample_value⟩ :: sample_rest) sample_body).length
      ≤ SCGI_INITIAL_INBUF_SIZE - 5 ∧
    (∀ f ∈ sample_fragments, f ≠ []) ∧
    sample_fragments.flatten
      = wire_request sample_digits (⟨CONTENT_LENGTH, sample_value⟩ :: sample_rest) sample_body ∧
    (events_of sample_fragments).map Prod.snd = sample_fragments.map recv_result.data ∧
    ((∀ k, (scgi_listen_all (sample_globals, some (scgi_answer_the_phone_desc 7))
        ((events_of sample_fragments).take k)).2 ≠ none) ∧
    (∀ k, k < (events_of sample_fragments).length →
      (scgi_listen_all (sample_globals, some (scgi_answer_the_phone_desc 7))
        ((events_of sample_fragments).take k)).1 = sample_globals) ∧
    ∃ d : scgi_desc,
      scgi_listen_all (sample_globals, some (scgi_answer_the_phone_desc 7))
          (events_of sample_fragments)
        = ({ sample_globals with
              first_scgi_unrecved_req := sample_globals.first_scgi_unrecved_req ++ [7] },
            some d) ∧
      d.req.headers = ⟨CONTENT_LENGTH, sample_value⟩ :: sample_rest) :=
  ⟨sample_well_formed, by decide, by decide, by decide, by decide,
    parser_completeness sample_globals 7 sample_digits sample_value sample_rest sample_body
      sample_fragments (events_of sample_fragments) sample_well_formed (by decide) (by decide)
      (by decide) (by decide)⟩

/-- C3, amended. Body fidelity up to the first NUL, within the initial buffer:
for every well-formed request of at most `SCGI_INITIAL_INBUF_SIZE - 5` bytes
with a body of n > 0 bytes, however the socket delivers it in non-empty
fragments, one read of `scgi_listen_to_request` for each, when the parser
reaches the end offset `true_header_length + n` the request is linked into the
queue and its body is the run of body bytes before the first NUL among them:
all n bytes when none of them is NUL. -/
theorem body_fidelity (g : scgi_globals) (sock : Nat) (ds v : List Nat)
    (rest : List scgi_header) (body : List Nat) (frags : List (List Nat))
    (events : List (Bool × recv_result))
    (hw : well_formed ds v rest body) (hb : body ≠ [])
    (hfit : (wire_request ds (⟨CONTENT_LENGTH, v⟩ :: rest) body).length
      ≤ SCGI_INITIAL_INBUF_SIZE - 5)
    (hne : ∀ f ∈ frags, f ≠ [])
    (hcat : frags.flatten = wire_request ds (⟨CONTENT_LENGTH, v⟩ :: rest) body)
    (hev : events.map Prod.snd = frags.map recv_result.data) :
    ∃ d : scgi_desc,
      scgi_listen_all (g, some (scgi_answer_the_phone_desc sock)) events
        = ({ g with first_scgi_unrecved_req := g.first_scgi_unrecved_req ++ [sock] }, some d) ∧
      d.req.scgi_content_length = (body.length : Int) ∧
      (d.parsed_chars : Int) = d.true_header_length + d.req.scgi_content_length ∧
      d.req.body = some (body.takeWhile (fun c => c != 0)) ∧
      ((∀ c ∈ body, c ≠ 0) → d.req.body = some body) := by
  obtain ⟨d, h1, h2⟩ := receive_body g sock ds v rest body frags hw hb hne hcat
  refine ⟨d, ?_, h2⟩
  rw [listen_well_formed_all g sock ds v rest body frags events hfit hne hcat hev]
  exact h1

/-- C3 amended, at the sample request read in three fragments. -/
theorem body_fidelity_witness :
    well_formed sample_digits sample_value sample_rest sample_body ∧ sample_body ≠ [] ∧
    (wire_request sample_digits (⟨CONTENT_LENGTH, sample_value⟩ :: sample_rest) sample_body).length
      ≤ SCGI_INITIAL_INBUF_SIZE - 5 ∧
    (∀ f ∈ sample_fragments, f ≠ []) ∧
    sample_fragments.flatten
      = wire_request sample_digits (⟨CONTENT_LENGTH, sample_value⟩ :: sample_rest) sample_body ∧
    (events_of sample_fragments).map Prod.snd = sample_fragments.map recv_result.data ∧
    ∃ d : scgi_desc,
      scgi_listen_all (sample_globals, some (scgi_answer_the_phone_desc 7))
          (events_of sample_fragments)
        = ({ sample_globals with
              first_scgi_unrecved_req := sample_globals.first_scgi_unrecved_req ++ [7] },
            some d) ∧
      d.req.scgi_content_length = (sample_body.length : Int) ∧
      (d.parsed_chars : Int) = d.true_header_length + d.req.scgi_content_length ∧
      d.req.body = some (sample_body.takeWhile (fun c => c != 0)) ∧
      ((∀ c ∈ sample_body, c ≠ 0) → d.req.body = some sample_body) :=
  ⟨sample_well_formed, by decide, by decide, by decide, by decide, by decide,
    body_fidelity sample_globals 7 sample_digits sample_value sample_rest sample_body
      sample_fragments (events_of sample_fragments) sample_well_formed (by decide) (by decide)
      (by decide) (by decide) (by decide)⟩

/-- C7, amended. Zero-length body within the initial buffer: for every
well-formed request of at most `SCGI_INITIAL_INBUF_SIZE - 5` bytes whose first
header announces a body of no bytes, however the socket delivers it in
non-empty fragments, one read of `scgi_listen_to_request` for each, the parser
is never in the Body state, the queue is untouched while fragments are
outstanding, and the parse call of the last read, the one that consumes the
closing comma, links the request into the queue with a body that is present
and empty. -/
theorem zero_length_body (g : scgi_globals) (sock : Nat) (ds v : List Nat)
    (rest : List scgi_header) (frags : List (List Nat)) (events : List (Bool × recv_result))
    (hw : well_formed ds v rest [])
    (hfit : (wire_request ds (⟨CONTENT_LENGTH, v⟩ :: rest) []).length
      ≤ SCGI_INITIAL_INBUF_SIZE - 5)
    (hne : ∀ f ∈ frags, f ≠ [])
    (hcat : frags.flatten = wire_request ds (⟨CONTENT_LENGTH, v⟩ :: rest) [])
    (hev : events.map Prod.snd = frags.map recv_result.data) :
    (∀ k, k < events.length → ∃ dk : scgi_desc,
      scgi_listen_all (g, some (scgi_answer_the_phone_desc sock)) (events.take k)
        = (g, some dk) ∧ dk.parser_state ≠ SCGI_PARSE_BODY) ∧
    ∃ d : scgi_desc,
      scgi_listen_all (g, some (scgi_answer_the_phone_desc sock)) events
        = ({ g with first_scgi_unrecved_req := g.first_scgi_unrecved_req ++ [sock] }, some d) ∧
      d.req.scgi_content_length = 0 ∧ d.req.body = some [] ∧
      d.parser_state = SCGI_PARSE_HEADNAME ∧
      byteAt d.buf (d.parsed_chars - 1) = 44 ∧ d.parsed_chars = d.buf.length := by
  obtain ⟨h1, d, h2, h3⟩ := receive_zero_length g sock ds v rest frags hw hne hcat
  refine ⟨fun k hk => ?_, d, ?_, h3⟩
  · rw [listen_well_formed g sock ds v rest [] frags events hfit hne hcat hev k]
    exact h1 k (by rw [← events_length frags events hev]; exact hk)
  · rw [listen_well_formed_all g sock ds v rest [] frags events hfit hne hcat hev]
    exact h2

/-- C7 amended, at a request of 24 header bytes with `CONTENT_LENGTH` 0, read
in two fragments. -/
theorem zero_length_body_witness :
    well_formed [50, 52] [48] [⟨SCGI, ONE⟩] [] ∧
    (wire_request [50, 52] (⟨CONTENT_LENGTH, [48]⟩ :: [⟨SCGI, ONE⟩]) []).length
      ≤ SCGI_INITIAL_INBUF_SIZE - 5 ∧
    (∀ f ∈ empty_body_fragments, f ≠ []) ∧
    empty_body_fragments.flatten
      = wire_request [50, 52] (⟨CONTENT_LENGTH, [48]⟩ :: [⟨SCGI, ONE⟩]) [] ∧
    (events_of empty_body_fragments).map Prod.snd
      = empty_body_fragments.map recv_result.data ∧
    ((∀ k, k < (events_of empty_body_fragments).length → ∃ dk : scgi_desc,
      scgi_listen_all (sample_globals, some (scgi_answer_the_phone_desc 7))
          ((events_of empty_body_fragments).take k)
        = (sample_globals, some dk) ∧ dk.parser_state ≠ SCGI_PARSE_BODY) ∧
    ∃ d : scgi_desc,
      scgi_listen_all (sample_globals, some (scgi_answer_the_phone_desc 7))
          (events_of empty_body_fragments)
        = ({ sample_globals with
              first_scgi_unrecved_req := sample_globals.first_scgi_unrecved_req ++ [7] },
            some d) ∧
      d.req.scgi_content_length = 0 ∧ d.req.body = some [] ∧
      d.parser_state = SCGI_PARSE_HEADNAME ∧
      byteAt d.buf (d.parsed_chars - 1) = 44 ∧ d.parsed_chars = d.buf.length) :=
  ⟨⟨by decide, by decide, by decide, by decide, by decide, by decide, by decide, by decide,
      by decide⟩, by decide, by decide, by decide, by decide,
    zero_length_body sample_globals 7 [50, 52] [48] [⟨SCGI, ONE⟩] empty_body_fragments
      (events_of empty_body_fragments)
      ⟨by decide, by decide, by decide, by decide, by decide, by decide, by decide, by decide,
        by decide⟩ (by decide) (by decide) (by decide) (by decide)⟩

/-- C8, amended. Length-prefix validation within the initial buffer, for every
stream of which the socket has delivered at most `SCGI_INITIAL_INBUF_SIZE - 5`
bytes so far, in whatever non-empty fragments, one read of
`scgi_listen_to_request` for each.  A stream of one or more digits, the first
not `0`, and a colon leaves the parser alive in HeaderName.  The parser is
alive and out of HeaderLength only if the stream begins with one or more
digits, the first not `0`, followed by a colon.  And if the first byte is `0`
or a colon, or a byte that is not a digit comes before the first colon, the
connection is torn down and its request is not in the queue. -/
theorem length_validation (g : scgi_globals) (sock : Nat) (frags : List (List Nat))
    (events : List (Bool × recv_result))
    (hfit : frags.flatten.length ≤ SCGI_INITIAL_INBUF_SIZE - 5)
    (hne : ∀ f ∈ frags, f ≠ []) (hq : g.first_scgi_unrecved_req.Nodup)
    (hev : events.map Prod.snd = frags.map recv_result.data) :
    (∀ ds, frags.flatten = ds ++ [58] → ds ≠ [] → (∀ c ∈ ds, isdigit c = true) →
      ds.head? ≠ some 48 →
      ∃ d : scgi_desc,
        scgi_listen_all (g, some (scgi_answer_the_phone_desc sock)) events = (g, some d) ∧
        d.parser_state = SCGI_PARSE_HEADNAME) ∧
    (∀ g1 d, scgi_listen_all (g, some (scgi_answer_the_phone_desc sock)) events = (g1, some d) →
      d.parser_state ≠ SCGI_PARSE_HEADLENGTH →
      ∃ ds post, frags.flatten = ds ++ 58 :: post ∧ ds ≠ [] ∧ (∀ c ∈ ds, isdigit c = true) ∧
        ds.head? ≠ some 48) ∧
    ((frags.flatten.head? = some 48 ∨ frags.flatten.head? = some 58 ∨
        ∃ pre b post, frags.flatten = pre ++ b :: post ∧ 58 ∉ pre ∧ b ≠ 58 ∧
          isdigit b = false) →
      scgi_listen_all (g, some (scgi_answer_the_phone_desc sock)) events
        = (scgi_kill_socket g (scgi_answer_the_phone_desc sock), none) ∧
      sock ∉ (scgi_kill_socket g (scgi_answer_the_phone_desc sock)).first_scgi_unrecved_req) := by
  rw [listen_all_fresh g sock frags events hev hne hfit]
  exact receive_length_validation g sock frags hne hq

/-- C8 amended, at the stream `4a:` read byte by byte. -/
theorem length_validation_witness :
    bad_length_fragments.flatten.length ≤ SCGI_INITIAL_INBUF_SIZE - 5 ∧
    (∀ f ∈ bad_length_fragments, f ≠ []) ∧ sample_globals.first_scgi_unrecved_req.Nodup ∧
    (events_of bad_length_fragments).map Prod.snd = bad_length_fragments.map recv_result.data ∧
    ((∀ ds, bad_length_fragments.flatten = ds ++ [58] → ds ≠ [] →
      (∀ c ∈ ds, isdigit c = true) → ds.head? ≠ some 48 →
      ∃ d : scgi_desc,
        scgi_listen_all (sample_globals, some (scgi_answer_the_phone_desc 7))
            (events_of bad_length_fragments) = (sample_globals, some d) ∧
        d.parser_state = SCGI_PARSE_HEADNAME) ∧
    (∀ g1 d, scgi_listen_all (sample_globals, some (scgi_answer_the_phone_desc 7))
        (events_of bad_length_fragments) = (g1, some d) →
      d.parser_state ≠ SCGI_PARSE_HEADLENGTH →
      ∃ ds post, bad_length_fragments.flatten = ds ++ 58 :: post ∧ ds ≠ [] ∧
        (∀ c ∈ ds, isdigit c = true) ∧ ds.head? ≠ some 48) ∧
    ((bad_length_fragments.flatten.head? = some 48 ∨
        bad_length_fragments.flatten.head? = some 58 ∨
        ∃ pre b post, bad_length_fragments.flatten = pre ++ b :: post ∧ 58 ∉ pre ∧ b ≠ 58 ∧
          isdigit b = false) →
      scgi_listen_all (sample_globals, some (scgi_answer_the_phone_desc 7))
          (events_of bad_length_fragments)
        = (scgi_kill_socket sample_globals (scgi_answer_the_phone_desc 7), none) ∧
      7 ∉ (scgi_kill_socket sample_globals
        (scgi_answer_the_phone_desc 7)).first_scgi_unrecved_req)) :=
  ⟨by decide, by decide, by decide, by decide,
    length_validation sample_globals 7 bad_length_fragments (events_of bad_length_fragments)
      (by decide) (by decide) (by decide) (by decide)⟩

/-! ## Connections whose buffer has not grown -/

theorem resize_buffer_some (g g1 : scgi_globals) (d d1 : scgi_desc) (calloc_ok : Bool)
    (h : resize_buffer g d true calloc_ok = (g1, some d1)) :
    d1 = { d with bufsize := d.bufsize * 2, buf := sprintf_s d.buf d.buflen } := by
  rw [resize_buffer_inbound] at h
  split_ifs at h
  · cases h
  · injection h with _ h2
    injection h2 with h2
    exact h2.symm

/-- A connection that reads its request has the initial capacity at least, and
while it has just that, its buffer has not grown: it is among the states of
`reachable`. -/
theorem listening_reachable (d : scgi_desc) (h : listening d) :
    SCGI_INITIAL_INBUF_SIZE ≤ d.bufsize ∧
    (d.bufsize = SCGI_INITIAL_INBUF_SIZE → reachable d) := by
  induction h with
  | fresh caller => exact ⟨Nat.le_refl _, fun _ => reachable.fresh caller⟩
  | grown g g1 d d1 calloc_ok _ _ hr ih =>
    have e := resize_buffer_some g g1 d d1 calloc_ok hr
    have hs : d1.bufsize = d.bufsize * 2 := by rw [e]
    have h1 := ih.1
    unfold SCGI_INITIAL_INBUF_SIZE at h1 ⊢
    exact ⟨by omega, fun h2 => by omega⟩
  | received d bytes _ ih =>
    exact ⟨ih.1, fun h2 => reachable.received d _ (ih.2 h2)⟩
  | round g d d1 _ hlt hs ih =>
    have hf := step_frame_next g d d1 hs
    obtain ⟨-, -, -, hb, -⟩ := hf
    rw [hb]
    exact ⟨ih.1, fun h2 => reachable.round g d d1 (ih.2 h2) hlt hs⟩
  | returned g g1 d d1 _ hlt hs ih =>
    obtain ⟨hf, -⟩ := step_frame_ret_some g g1 d d1 hs
    obtain ⟨-, -, -, hb, -⟩ := hf
    rw [hb]
    exact ⟨ih.1, fun h2 => reachable.returned g g1 d d1 (ih.2 h2) hlt hs⟩

theorem decimal_foldl_ge (t : List Nat) (acc : Nat) :
    acc * 10 ^ t.length ≤ t.foldl (fun a c => a * 10 + (c - 48)) acc := by
  induction t generalizing acc with
  | nil => simp
  | cons c t ih =>
    simp only [List.foldl_cons, List.length_cons]
    have := ih (acc * 10 + (c - 48))
    calc acc * 10 ^ (t.length + 1) = acc * 10 * 10 ^ t.length := by ring
      _ ≤ (acc * 10 + (c - 48)) * 10 ^ t.length := Nat.mul_le_mul_right _ (Nat.le_add_right _ _)
      _ ≤ _ := this

/-- A decimal number without a leading zero that is below 2^31 has ten digits
at most. -/
theorem digits_length_le (ds : List Nat) (hd : ∀ c ∈ ds, isdigit c = true)
    (hz : ds.head? ≠ some 48) (hsmall : decimal_value ds < 2 ^ 31) : ds.length ≤ 10 := by
  cases ds with
  | nil => simp
  | cons c t =>
    have hc := (isdigit_iff c).1 (hd c (by simp))
    have hc2 : c ≠ 48 := fun e => hz (by simp [e])
    have h1 := decimal_foldl_ge t (0 * 10 + (c - 48))
    have h2 : decimal_value (c :: t) = t.foldl (fun a c => a * 10 + (c - 48)) (0 * 10 + (c - 48)) :=
      rfl
    rw [h2] at hsmall
    have h3 : 1 * 10 ^ t.length ≤ (0 * 10 + (c - 48)) * 10 ^ t.length :=
      Nat.mul_le_mul_right _ (by omega)
    have h4 : 10 ^ t.length < 2 ^ 31 := by omega
    by_contra hlen
    simp only [List.length_cons, not_le] at hlen
    have h5 : 10 ^ 10 ≤ 10 ^ t.length := Nat.pow_le_pow_right (by decide) (by omega)
    have h6 : (2 : Nat) ^ 31 < 10 ^ 10 := by norm_num
    omega

/-- C9, amended. Header-block boundary: when the colon is consumed after d
digits (the first not `0`) that denote N, with N + d + 2 at most 2^31 - 1,
`true_header_length` is N + d + 2, however the socket delivers the bytes in
fragments, one read of `scgi_listen_to_request` for each.  In the state
HeaderName the header block is accepted as finished (the request is linked
into the queue, or the parser moves to Body) only by the round whose byte has
that 1-based position, only if that byte is a comma and the byte before it in
the buffer is NUL; and on a connection that reads its request and whose buffer
has not grown, that NUL closes the value of the last recorded header: the
cursor is at the start of a name and a header is recorded.  Any other byte
found at that position in HeaderName, or another byte before it, tears the
connection down. -/
theorem header_block_boundary (g : scgi_globals) (sock : Nat) (ds : List Nat)
    (frags : List (List Nat)) (events : List (Bool × recv_result))
    (hne0 : ds ≠ []) (hd : ∀ c ∈ ds, isdigit c = true)
    (hz : ds.head? ≠ some 48) (hsmall : decimal_value ds + ds.length + 2 < 2 ^ 31)
    (hne : ∀ f ∈ frags, f ≠ []) (hcat : frags.flatten = ds ++ [58])
    (hev : events.map Prod.snd = frags.map recv_result.data) :
    (∃ d : scgi_desc,
      scgi_listen_all (g, some (scgi_answer_the_phone_desc sock)) events = (g, some d) ∧
      d.parser_state = SCGI_PARSE_HEADNAME ∧
      d.true_header_length = ((decimal_value ds + ds.length + 2 : Nat) : Int)) ∧
    (∀ (g0 : scgi_globals) (d : scgi_desc), d.parser_state = SCGI_PARSE_HEADNAME →
      ((∃ g1 d1, scgi_parse_input_step g0 d = ret g1 (some d1)) ∨
        (∃ d1, scgi_parse_input_step g0 d = next d1 ∧ d1.parser_state = SCGI_PARSE_BODY)) →
      ((d.parsed_chars + 1 : Nat) : Int) = d.true_header_length ∧
      byteAt d.buf d.parsed_chars = 44 ∧ byteAt d.buf (d.parsed_chars - 1) = 0 ∧
      (listening d → d.bufsize = SCGI_INITIAL_INBUF_SIZE →
        d.parsed_chars = d.string_starts ∧ d.req.headers ≠ [])) ∧
    (∀ (g0 : scgi_globals) (d : scgi_desc), d.parser_state = SCGI_PARSE_HEADNAME →
      ((d.parsed_chars + 1 : Nat) : Int) = d.true_header_length →
      (byteAt d.buf d.parsed_chars ≠ 44 ∨ byteAt d.buf (d.parsed_chars - 1) ≠ 0) →
      scgi_parse_input_step g0 d = ret (scgi_kill_socket g0 d) none) := by
  refine ⟨?_, ?_, ?_⟩
  · have hp := parse_length g sock ds hne0 hd hz
    have hall := receive_all_fresh g sock (ds ++ [58]) frags hne hcat
      (Or.inr ⟨_, by rw [hp], by simp⟩)
    rw [hp] at hall
    have hlen := digits_length_le ds hd hz (by omega)
    rw [listen_all_fresh g sock frags events hev hne (by
      rw [hcat]
      unfold SCGI_INITIAL_INBUF_SIZE
      simp only [List.length_append, List.length_singleton]
      omega)]
    refine ⟨_, hall, rfl, ?_⟩
    show to_int ((strtoul ds + ds.length + 2) % 2 ^ 64) = _
    have hv : strtoul ds = decimal_value ds := by
      rw [strtoul_digits ds hd, if_neg]
      unfold ULONG_MAX
      omega
    rw [hv, Nat.mod_eq_of_lt (by omega), to_int_small _ hsmall]
  · intro g0 d hst hacc
    have key : ((d.parsed_chars + 1 : Nat) : Int) = d.true_header_length ∧
        byteAt d.buf d.parsed_chars = 44 ∧ byteAt d.buf (d.parsed_chars - 1) = 0 := by
      simp only [scgi_parse_input_step, hst] at hacc
      split_ifs at hacc with h1 h2 h3 h4 h5 h6
      · simp at hacc
      · simp at hacc
      · refine ⟨h1, ?_, ?_⟩
        · by_contra hc; exact h2 (Or.inl hc)
        · by_contra hc; exact h2 (Or.inr hc)
      · refine ⟨h1, ?_, ?_⟩
        · by_contra hc; exact h2 (Or.inl hc)
        · by_contra hc; exact h2 (Or.inr hc)
      · simp at hacc
      · simp at hacc
      · simp [hst] at hacc
    refine ⟨key.1, key.2.1, key.2.2, fun hl hsize => ?_⟩
    have hr := (listening_reachable d hl).2 hsize
    obtain ⟨⟨hss, -⟩, -, -, hname⟩ := reachable_inv d hr
    obtain ⟨hn1, hn2⟩ := hname hst
    have hps : d.parsed_chars = d.string_starts := by
      by_contra hcon
      exact hn1 (d.parsed_chars - 1) (by omega) (by omega) key.2.2
    refine ⟨hps, fun hh => ?_⟩
    obtain ⟨h1, h2⟩ := hn2 hh
    rw [← hps, key.2.2] at h2
    simp at h2
  · intro g0 d hst hb hbad
    simp only [scgi_parse_input_step, hst]
    rw [if_pos hb, if_pos hbad]
    rfl

/-- C9 amended, at the digits `44` and the colon, read in two fragments. -/
theorem header_block_boundary_witness :
    sample_digits ≠ [] ∧ (∀ c ∈ sample_digits, isdigit c = true) ∧
    sample_digits.head? ≠ some 48 ∧
    decimal_value sample_digits + sample_digits.length + 2 < 2 ^ 31 ∧
    (∀ f ∈ length_fragments, f ≠ []) ∧ length_fragments.flatten = sample_digits ++ [58] ∧
    (events_of length_fragments).map Prod.snd = length_fragments.map recv_result.data ∧
    ((∃ d : scgi_desc,
      scgi_listen_all (sample_globals, some (scgi_answer_the_phone_desc 7))
          (events_of length_fragments) = (sample_globals, some d) ∧
      d.parser_state = SCGI_PARSE_HEADNAME ∧
      d.true_header_length
        = ((decimal_value sample_digits + sample_digits.length + 2 : Nat) : Int)) ∧
    (∀ (g0 : scgi_globals) (d : scgi_desc), d.parser_state = SCGI_PARSE_HEADNAME →
      ((∃ g1 d1, scgi_parse_input_step g0 d = ret g1 (some d1)) ∨
        (∃ d1, scgi_parse_input_step g0 d = next d1 ∧ d1.parser_state = SCGI_PARSE_BODY)) →
      ((d.parsed_chars + 1 : Nat) : Int) = d.true_header_length ∧
      byteAt d.buf d.parsed_chars = 44 ∧ byteAt d.buf (d.parsed_chars - 1) = 0 ∧
      (listening d → d.bufsize = SCGI_INITIAL_INBUF_SIZE →
        d.parsed_chars = d.string_starts ∧ d.req.headers ≠ [])) ∧
    (∀ (g0 : scgi_globals) (d : scgi_desc), d.parser_state = SCGI_PARSE_HEADNAME →
      ((d.parsed_chars + 1 : Nat) : Int) = d.true_header_length →
      (byteAt d.buf d.parsed_chars ≠ 44 ∨ byteAt d.buf (d.parsed_chars - 1) ≠ 0) →
      scgi_parse_input_step g0 d = ret (scgi_kill_socket g0 d) none)) :=
  ⟨by decide, by decide, by decide, by decide, by decide, by decide, by decide,
    header_block_boundary sample_globals 7 sample_digits length_fragments
      (events_of length_fragments) (by decide) (by decide) (by decide) (by decide) (by decide)
      (by decide) (by decide)⟩

/-! ## Reads that the initial buffer does not hold -/

theorem byteAt_replicate (n c i : Nat) (h : i < n) : byteAt (List.replicate n c) i = c := by
  unfold byteAt
  rw [List.getD_eq_getElem?_getD, List.getElem?_replicate, if_pos h]
  rfl

theorem listen_read_data (g : scgi_globals) (d : scgi_desc) (start : Nat) (bytes : List Nat)
    (hne : bytes ≠ []) (hfit : bytes.length ≤ d.bufsize - 5 - start) :
    scgi_listen_to_request_read g d start (recv_result.data bytes)
      = scgi_parse_input g { d with buf := d.buf ++ bytes } := by
  have hpos : 0 < bytes.length := List.length_pos.mpr hne
  simp only [scgi_listen_to_request_read]
  rw [List.take_of_length_le hfit, if_pos hpos]

/-- The parser on rounds that all go on without another change than the
cursor: it consumes the buffer to its end. -/
theorem parse_plain (g : scgi_globals) (d : scgi_desc) (hinv : parse_inv d)
    (hlen : d.parsed_chars < d.buf.length) (h0 : d.parsed_chars ≠ 0)
    (h : ∀ i, i < d.buf.length - d.parsed_chars →
      scgi_parse_input_step g { d with parsed_chars := d.parsed_chars + i }
        = next { d with parsed_chars := d.parsed_chars + i + 1 }) :
    scgi_parse_input g d = (g, some { d with parsed_chars := d.buf.length }) := by
  rw [parse_input_eq_run g d hinv hlen (fun hh => h0 hh.1), run_skip g _ d h]
  show (g, some { d with parsed_chars := d.parsed_chars + (d.buf.length - d.parsed_chars) }) = _
  rw [Nat.add_sub_cancel' (Nat.le_of_lt hlen)]

/-- The first rounds of the parser on a longer buffer are its rounds on the
bytes they consume. -/
theorem run_on_longer (g : scgi_globals) (sock : Nat) (head tail : List Nat) (dS : scgi_desc)
    (hrun : scgi_parse_input_run head.length g
      { scgi_answer_the_phone_desc sock with buf := head } = next dS) :
    scgi_parse_input_run head.length g
        { scgi_answer_the_phone_desc sock with buf := head ++ tail }
      = next { dS with buf := head ++ tail } := by
  have hup := run_upto g head.length head.length
    { scgi_answer_the_phone_desc sock with buf := head ++ tail } (parse_inv_fresh sock _)
    (by show 0 + head.length ≤ head.length; omega)
    (by show 0 + head.length ≤ (head ++ tail).length; simp)
  have hD : ({ scgi_answer_the_phone_desc sock with buf := head ++ tail } : scgi_desc).upto
      head.length = { scgi_answer_the_phone_desc sock with buf := head } := by
    simp [scgi_desc.upto]
  rw [hD, hrun] at hup
  rcases hr : scgi_parse_input_run head.length g
      { scgi_answer_the_phone_desc sock with buf := head ++ tail } with d1 | ⟨g1, r⟩
  · rw [hr] at hup
    simp only [parse_result.upto] at hup
    injection hup with hup
    obtain ⟨hb, -, -, -⟩ := run_next g head.length _ d1 (parse_inv_fresh sock _)
      (by show 0 + head.length ≤ (head ++ tail).length; simp) hr
    have hb1 : d1.buf = head ++ tail := hb
    rw [hup]
    cases d1
    simp only [scgi_desc.upto] at hb1 ⊢
    rw [hb1]
  · rw [hr] at hup
    simp [parse_result.upto] at hup

/-- The first read of a connection, when the parser consumes the first bytes
as `hrun` says and the bytes behind them by rounds that change the cursor
only. -/
theorem listen_first_plain (g : scgi_globals) (sock : Nat) (head tail : List Nat)
    (dS : scgi_desc) (calloc_ok : Bool)
    (hrun : scgi_parse_input_run head.length g
      { scgi_answer_the_phone_desc sock with buf := head } = next dS)
    (hhead : head ≠ []) (hfirst : ¬ (byteAt head 0 = 48 ∨ byteAt head 0 = 58))
    (hfit : head.length + tail.length ≤ SCGI_INITIAL_INBUF_SIZE - 5)
    (hplain : ∀ i, i < tail.length →
      scgi_parse_input_step g { dS with buf := head ++ tail, parsed_chars := head.length + i }
        = next { dS with buf := head ++ tail, parsed_chars := head.length + i + 1 }) :
    scgi_listen_to_request g (scgi_answer_the_phone_desc sock) calloc_ok
        (recv_result.data (head ++ tail))
      = (g, some { dS with buf := head ++ tail, parsed_chars := head.length + tail.length }) := by
  have hpos : 0 < head.length := List.length_pos.mpr hhead
  obtain ⟨-, hpS, -, -⟩ := run_next g head.length _ dS (parse_inv_fresh sock _)
    (by show 0 + head.length ≤ head.length; omega) hrun
  have hpS : dS.parsed_chars = head.length := by
    rw [hpS]
    show 0 + head.length = head.length
    omega
  rw [listen_eq_receive g _ calloc_ok _ (by simp [hhead]) (by
    show 0 + (head ++ tail).length ≤ 16384 - 5
    unfold SCGI_INITIAL_INBUF_SIZE at hfit
    simp only [List.length_append]
    omega)]
  show scgi_parse_input g { scgi_answer_the_phone_desc sock with buf := head ++ tail } = _
  rw [parse_input_eq_run g _ (parse_inv_fresh sock _) (by
    show 0 < (head ++ tail).length
    simp only [List.length_append]
    omega) (fun hh => hfirst (by
      have h2 := hh.2
      simp only [] at h2
      rw [byteAt_append_left _ _ _ hpos] at h2
      exact h2))]
  show (scgi_parse_input_run ((head ++ tail).length - 0) g _).finish g = _
  rw [Nat.sub_zero, List.length_append, run_add, run_on_longer g sock head tail dS hrun]
  dsimp only
  rw [run_skip g tail.length { dS with buf := head ++ tail } (fun i hi => by
    show scgi_parse_input_step g { dS with buf := head ++ tail, parsed_chars := dS.parsed_chars + i }
      = next { dS with buf := head ++ tail, parsed_chars := dS.parsed_chars + i + 1 }
    rw [hpS]
    exact hplain i hi)]
  show (g, some { dS with buf := head ++ tail, parsed_chars := dS.parsed_chars + tail.length }) = _
  rw [hpS]

/-- A later read of a connection whose parser has consumed all it has, when the
rounds on the new bytes change the cursor only: the buffer grows first if it is
full to within the margin, the bytes are stored, and the parser consumes them.
The connection stays alive, its request out of the queue. -/
theorem listen_plain (g : scgi_globals) (d : scgi_desc) (calloc_ok : Bool) (bytes : List Nat)
    (hss : d.string_starts ≤ d.parsed_chars) (hnv : d.parser_state ≠ SCGI_PARSE_HEADVAL)
    (hp : d.parsed_chars = d.buflen) (h0 : d.buflen ≠ 0)
    (hcap : d.buflen ≥ d.bufsize - 5 → d.bufsize * 2 < SCGI_MAX_INBUF_SIZE ∧ calloc_ok = true)
    (hne : bytes ≠ [])
    (hfit : d.buflen + bytes.length
      ≤ (if d.buflen ≥ d.bufsize - 5 then d.bufsize * 2 else d.bufsize) - 5)
    (hplain : ∀ (d0 : scgi_desc) (i : Nat), d0.parser_state = d.parser_state →
      d0.true_header_length = d.true_header_length → d0.req = d.req →
      d0.parsed_chars = d.buflen + i → i < bytes.length →
      byteAt d0.buf d0.parsed_chars = byteAt bytes i →
      scgi_parse_input_step g d0 = next { d0 with parsed_chars := d0.parsed_chars + 1 }) :
    ∃ d1 : scgi_desc,
      scgi_listen_to_request g d calloc_ok (recv_result.data bytes) = (g, some d1) ∧
      d1.parser_state = d.parser_state ∧ d1.string_starts = d.string_starts ∧
      d1.parsed_chars = d1.buflen ∧ d1.buflen = d.buflen + bytes.length ∧
      d1.bufsize = (if d.buflen ≥ d.bufsize - 5 then d.bufsize * 2 else d.bufsize) ∧
      d1.true_header_length = d.true_header_length ∧ d1.req = d.req ∧ d1.sock = d.sock := by
  have hpos : 0 < bytes.length := List.length_pos.mpr hne
  have key : ∀ d0 : scgi_desc, d0.parser_state = d.parser_state →
      d0.string_starts = d.string_starts → d0.parsed_chars = d.parsed_chars →
      d0.buf.length = d.buflen → d0.true_header_length = d.true_header_length →
      d0.req = d.req → d0.sock = d.sock →
      bytes.length ≤ d0.bufsize - 5 - d.buflen →
      ∃ d1 : scgi_desc,
        scgi_listen_to_request_read g d0 d.buflen (recv_result.data bytes) = (g, some d1) ∧
        d1.parser_state = d.parser_state ∧ d1.string_starts = d.string_starts ∧
        d1.parsed_chars = d1.buflen ∧ d1.buflen = d.buflen + bytes.length ∧
        d1.bufsize = d0.bufsize ∧
        d1.true_header_length = d.true_header_length ∧ d1.req = d.req ∧ d1.sock = d.sock := by
    intro d0 e1 e2 e3 e4 e5 e6 e7 hroom
    rw [listen_read_data g d0 d.buflen bytes hne hroom]
    have hpl := parse_plain g { d0 with buf := d0.buf ++ bytes }
      ⟨by show d0.string_starts ≤ d0.parsed_chars; rw [e2, e3]; exact hss,
        fun hv => absurd (by
          show d.parser_state = SCGI_PARSE_HEADVAL
          rw [← e1]; exact hv) hnv⟩
      (by
        show d0.parsed_chars < (d0.buf ++ bytes).length
        rw [List.length_append, e3, hp, e4]
        omega)
      (by show d0.parsed_chars ≠ 0; rw [e3, hp]; exact h0)
      (fun i hi => by
        have hi2 : i < bytes.length := by
          have : (d0.buf ++ bytes).length - d0.parsed_chars = bytes.length := by
            rw [List.length_append, e3, hp, e4]
            omega
          have hi3 : i < (d0.buf ++ bytes).length - d0.parsed_chars := hi
          omega
        exact hplain { d0 with buf := d0.buf ++ bytes, parsed_chars := d0.parsed_chars + i } i
          e1 e5 e6 (by show d0.parsed_chars + i = d.buflen + i; rw [e3, hp]) hi2 (by
            show byteAt (d0.buf ++ bytes) (d0.parsed_chars + i) = byteAt bytes i
            rw [e3, hp, ← e4, byteAt_append_right]))
    rw [hpl]
    refine ⟨_, rfl, e1, e2, rfl, ?_, rfl, e5, e6, e7⟩
    show (d0.buf ++ bytes).length = d.buflen + bytes.length
    rw [List.length_append, e4]
  by_cases hfull : d.buflen ≥ d.bufsize - 5
  · obtain ⟨hc1, hc2⟩ := hcap hfull
    rw [if_pos hfull] at hfit ⊢
    rw [listen_grown g d calloc_ok _ hfull (by
      rintro (h | h)
      · omega
      · rw [hc2] at h
        cases h)]
    exact key { d with bufsize := d.bufsize * 2, buf := sprintf_s d.buf d.buflen } rfl rfl rfl
      (sprintf_s_length d.buf) rfl rfl rfl (by
        show bytes.length ≤ d.bufsize * 2 - 5 - d.buflen
        omega)
  · rw [if_neg hfull] at hfit ⊢
    rw [listen_room g d calloc_ok _ (by omega)]
    exact key d rfl rfl rfl rfl rfl rfl rfl (by omega)

/-- A read of body bytes that do not end the body. -/
theorem listen_body_plain (g : scgi_globals) (d : scgi_desc) (calloc_ok : Bool)
    (bytes : List Nat) (hst : d.parser_state = SCGI_PARSE_BODY)
    (hss : d.string_starts ≤ d.parsed_chars) (hp : d.parsed_chars = d.buflen)
    (h0 : d.buflen ≠ 0)
    (hcap : d.buflen ≥ d.bufsize - 5 → d.bufsize * 2 < SCGI_MAX_INBUF_SIZE ∧ calloc_ok = true)
    (hne : bytes ≠ [])
    (hfit : d.buflen + bytes.length
      ≤ (if d.buflen ≥ d.bufsize - 5 then d.bufsize * 2 else d.bufsize) - 5)
    (hfar : ((d.buflen + bytes.length : Nat) : Int)
      < int32 (d.true_header_length + d.req.scgi_content_length)) :
    ∃ d1 : scgi_desc,
      scgi_listen_to_request g d calloc_ok (recv_result.data bytes) = (g, some d1) ∧
      d1.parser_state = d.parser_state ∧ d1.string_starts = d.string_starts ∧
      d1.parsed_chars = d1.buflen ∧ d1.buflen = d.buflen + bytes.length ∧
      d1.bufsize = (if d.buflen ≥ d.bufsize - 5 then d.bufsize * 2 else d.bufsize) ∧
      d1.true_header_length = d.true_header_length ∧ d1.req = d.req ∧ d1.sock = d.sock :=
  listen_plain g d calloc_ok bytes hss (by rw [hst]; decide) hp h0 hcap hne hfit
    (fun d0 i e1 e2 e3 e4 hi _ => step_body_plain g d0 (by rw [e1, hst]) (by
      rw [e2, e3, e4]
      intro hc
      rw [← hc] at hfar
      omega))

/-- A read of bytes of a header name that is not yet at its end. -/
theorem listen_headname_plain (g : scgi_globals) (d : scgi_desc) (calloc_ok : Bool)
    (bytes : List Nat) (hst : d.parser_state = SCGI_PARSE_HEADNAME)
    (hss : d.string_starts ≤ d.parsed_chars) (hp : d.parsed_chars = d.buflen)
    (h0 : d.buflen ≠ 0)
    (hcap : d.buflen ≥ d.bufsize - 5 → d.bufsize * 2 < SCGI_MAX_INBUF_SIZE ∧ calloc_ok = true)
    (hne : bytes ≠ [])
    (hfit : d.buflen + bytes.length
      ≤ (if d.buflen ≥ d.bufsize - 5 then d.bufsize * 2 else d.bufsize) - 5)
    (hfar : ((d.buflen + bytes.length : Nat) : Int) < d.true_header_length)
    (hb : ∀ c ∈ bytes, c ≠ 0) :
    ∃ d1 : scgi_desc,
      scgi_listen_to_request g d calloc_ok (recv_result.data bytes) = (g, some d1) ∧
      d1.parser_state = d.parser_state ∧ d1.string_starts = d.string_starts ∧
      d1.parsed_chars = d1.buflen ∧ d1.buflen = d.buflen + bytes.length ∧
      d1.bufsize = (if d.buflen ≥ d.bufsize - 5 then d.bufsize * 2 else d.bufsize) ∧
      d1.true_header_length = d.true_header_length ∧ d1.req = d.req ∧ d1.sock = d.sock :=
  listen_plain g d calloc_ok bytes hss (by rw [hst]; decide) hp h0 hcap hne hfit
    (fun d0 i e1 e2 _ e4 hi e5 => step_headname_plain g d0 (by rw [e1, hst]) (by
      rw [e2, e4]
      intro hc
      rw [← hc] at hfar
      omega) (by
      rw [e5]
      exact hb _ (byteAt_mem bytes i hi)))

/-- A read of digits of the length before the colon. -/
theorem listen_headlength_plain (g : scgi_globals) (d : scgi_desc) (calloc_ok : Bool)
    (bytes : List Nat) (hst : d.parser_state = SCGI_PARSE_HEADLENGTH)
    (hss : d.string_starts ≤ d.parsed_chars) (hp : d.parsed_chars = d.buflen)
    (h0 : d.buflen ≠ 0)
    (hcap : d.buflen ≥ d.bufsize - 5 → d.bufsize * 2 < SCGI_MAX_INBUF_SIZE ∧ calloc_ok = true)
    (hne : bytes ≠ [])
    (hfit : d.buflen + bytes.length
      ≤ (if d.buflen ≥ d.bufsize - 5 then d.bufsize * 2 else d.bufsize) - 5)
    (hb : ∀ c ∈ bytes, isdigit c = true) :
    ∃ d1 : scgi_desc,
      scgi_listen_to_request g d calloc_ok (recv_result.data bytes) = (g, some d1) ∧
      d1.parser_state = d.parser_state ∧ d1.string_starts = d.string_starts ∧
      d1.parsed_chars = d1.buflen ∧ d1.buflen = d.buflen + bytes.length ∧
      d1.bufsize = (if d.buflen ≥ d.bufsize - 5 then d.bufsize * 2 else d.bufsize) ∧
      d1.true_header_length = d.true_header_length ∧ d1.req = d.req ∧ d1.sock = d.sock :=
  listen_plain g d calloc_ok bytes hss (by rw [hst]; decide) hp h0 hcap hne hfit
    (fun d0 i e1 _ _ _ hi e5 => step_headlength_digit g d0 (by rw [e1, hst]) (by
      rw [e5]
      exact hb _ (byteAt_mem bytes i hi)))

/-- Two reads of bytes that the parser consumes without another change than the
cursor, on a connection whose initial buffer is full to within the margin: the
buffer grows twice and is full again at the capacity 65536, and the read after
them is refused its growth: the connection is torn down without a call of
`recv`. -/
theorem plain_reads_refused (g : scgi_globals) (d1 : scgi_desc) (b2 b3 : List Nat)
    (hss : d1.string_starts ≤ d1.parsed_chars) (hnv : d1.parser_state ≠ SCGI_PARSE_HEADVAL)
    (hp : d1.parsed_chars = d1.buflen) (hlen : d1.buflen = 16379) (hsize : d1.bufsize = 16384)
    (hb2 : b2.length = 16384) (hb3 : b3.length = 32768)
    (hplain : ∀ (d0 : scgi_desc) (c : Nat), d0.parser_state = d1.parser_state →
      d0.true_header_length = d1.true_header_length → d0.req = d1.req →
      d0.parsed_chars < 65531 → (c ∈ b2 ∨ c ∈ b3) → byteAt d0.buf d0.parsed_chars = c →
      scgi_parse_input_step g d0 = next { d0 with parsed_chars := d0.parsed_chars + 1 }) :
    (∃ d3 : scgi_desc,
      scgi_listen_all (g, some d1) [(true, recv_result.data b2), (true, recv_result.data b3)]
        = (g, some d3) ∧
      d3.parser_state = d1.parser_state ∧ d3.buflen = 65531 ∧ d3.bufsize = 65536 ∧
      d3.req = d1.req ∧ d3.sock = d1.sock) ∧
    ∀ e4 : Bool × recv_result,
      scgi_listen_all (g, some d1)
          [(true, recv_result.data b2), (true, recv_result.data b3), e4]
        = (scgi_kill_socket g d1, none) := by
  have hne2 : b2 ≠ [] := by
    intro h
    rw [h] at hb2
    simp at hb2
  have hne3 : b3 ≠ [] := by
    intro h
    rw [h] at hb3
    simp at hb3
  obtain ⟨d2, h2, s2, t2, p2, l2, z2, thl2, r2, k2⟩ := listen_plain g d1 true b2 hss hnv hp
    (by omega) (fun _ => ⟨by rw [hsize]; unfold SCGI_MAX_INBUF_SIZE; omega, rfl⟩) hne2
    (by rw [if_pos (by omega), hsize, hlen, hb2])
    (fun d0 i e1 e2 e3 e4 hi e5 => hplain d0 (byteAt b2 i) e1 e2 e3 (by omega)
      (Or.inl (byteAt_mem b2 i hi)) e5)
  rw [if_pos (by omega), hsize] at z2
  rw [hlen, hb2] at l2
  obtain ⟨d3, h3, s3, t3, p3, l3, z3, thl3, r3, k3⟩ := listen_plain g d2 true b3
    (by rw [t2, p2, l2]; omega) (by rw [s2]; exact hnv) p2 (by omega)
    (fun _ => ⟨by rw [z2]; unfold SCGI_MAX_INBUF_SIZE; omega, rfl⟩) hne3
    (by rw [if_pos (by omega), z2, l2, hb3])
    (fun d0 i e1 e2 e3 e4 hi e5 => hplain d0 (byteAt b3 i) (by rw [e1, s2]) (by rw [e2, thl2])
      (by rw [e3, r2]) (by omega) (Or.inr (byteAt_mem b3 i hi)) e5)
  rw [if_pos (by omega), z2] at z3
  rw [l2, hb3] at l3
  have hall : scgi_listen_all (g, some d1)
      [(true, recv_result.data b2), (true, recv_result.data b3)] = (g, some d3) := by
    rw [listen_all_cons]
    show scgi_listen_all (scgi_listen_to_request g d1 true (recv_result.data b2)) _ = _
    rw [h2, listen_all_cons]
    show scgi_listen_all (scgi_listen_to_request g d2 true (recv_result.data b3)) _ = _
    rw [h3]
    rfl
  refine ⟨⟨d3, hall, by rw [s3, s2], l3, z3, by rw [r3, r2], by rw [k3, k2]⟩, fun e4 => ?_⟩
  rw [listen_all_cons]
  show scgi_listen_all (scgi_listen_to_request g d1 true (recv_result.data b2)) _ = _
  rw [h2, listen_all_cons]
  show scgi_listen_all (scgi_listen_to_request g d2 true (recv_result.data b3)) _ = _
  rw [h3, listen_all_cons,
    listen_refused g d3 e4.1 e4.2 (by omega) (Or.inl (by
      rw [z3]
      unfold SCGI_MAX_INBUF_SIZE
      omega)),
    listen_all_nil]
  rw [kill_socket_congr g d1 d3 (by rw [k3, k2]) (by rw [r3, r2])]

theorem flatten_four (h a b c d : List Nat) :
    [h ++ a, b, c, d].flatten = h ++ (a ++ (b ++ (c ++ d))) := by
  simp

theorem replicate_four (x : Nat) (a b c d : Nat) :
    List.replicate a x ++ (List.replicate b x ++ (List.replicate c x ++ List.replicate d x))
      = List.replicate (a + (b + (c + d))) x := by
  rw [← List.replicate_add, ← List.replicate_add, ← List.replicate_add]

/-! ### An upload that the inbound buffer refuses -/

theorem oversize_run :
    scgi_parse_input_run oversize_head.length sample_globals
        { scgi_answer_the_phone_desc 7 with buf := oversize_head }
      = next oversize_parsed := by
  decide

theorem oversize_first_read :
    scgi_listen_to_request sample_globals (scgi_answer_the_phone_desc 7) true
        (recv_result.data (oversize_head ++ List.replicate 16347 66))
      = (sample_globals, some { oversize_parsed with
          buf := oversize_head ++ List.replicate 16347 66
          parsed_chars := oversize_head.length + (List.replicate 16347 66).length }) :=
  listen_first_plain sample_globals 7 oversize_head (List.replicate 16347 66) oversize_parsed true
    oversize_run (by decide) (by decide) (by rw [List.length_replicate]; decide)
    (fun i hi => step_body_plain _ _ (by show oversize_parsed.parser_state = _; decide) (by
      show ((oversize_head.length + i + 1 : Nat) : Int)
        ≠ int32 (oversize_parsed.true_header_length + oversize_parsed.req.scgi_content_length)
      have h1 : oversize_head.length = 32 := by decide
      have h2 : int32 (oversize_parsed.true_header_length
          + oversize_parsed.req.scgi_content_length) = 70032 := by decide
      rw [h1, h2]
      rw [List.length_replicate] at hi
      omega))

theorem oversize_well_formed :
    well_formed [50, 56] [55, 48, 48, 48, 48] [⟨SCGI, ONE⟩] (List.replicate 70000 66) :=
  ⟨by decide, by decide, by decide, by decide, by decide,
    by rw [List.length_replicate]; decide, by decide, by decide,
    by rw [wire_request_length, List.length_replicate]; decide⟩

/-- C2, as stated, fails: the well-formed request with a body of 70000 bytes,
70032 bytes in all and so below `SCGI_MAX_INBUF_SIZE`, fills the buffer at the
capacities 16384, 32768 and 65536 with its first 65531 bytes, the request not
yet in the queue, and the read behind them finds the growth to 131072 refused:
the connection is torn down, and the request never comes into the queue. -/
theorem parser_completeness_counterexample :
    well_formed [50, 56] [55, 48, 48, 48, 48] [⟨SCGI, ONE⟩] (List.replicate 70000 66) ∧
    oversize_fragments.flatten
      = wire_request [50, 56] (⟨CONTENT_LENGTH, [55, 48, 48, 48, 48]⟩ :: [⟨SCGI, ONE⟩])
          (List.replicate 70000 66) ∧
    (∀ f ∈ oversize_fragments, f ≠ []) ∧
    (∃ d : scgi_desc,
      scgi_listen_all (sample_globals, some (scgi_answer_the_phone_desc 7))
          ((events_of oversize_fragments).take 3) = (sample_globals, some d) ∧
      d.buflen = 65531 ∧ d.bufsize = 65536 ∧ d.parser_state = SCGI_PARSE_BODY ∧
      d.req.body = none) ∧
    scgi_listen_all (sample_globals, some (scgi_answer_the_phone_desc 7))
        (events_of oversize_fragments)
      = (scgi_kill_socket sample_globals (scgi_answer_the_phone_desc 7), none) ∧
    (scgi_kill_socket sample_globals (scgi_answer_the_phone_desc 7)).first_scgi_unrecved_req
      = [] := by
  have hchain := plain_reads_refused sample_globals
    { oversize_parsed with
      buf := oversize_head ++ List.replicate 16347 66
      parsed_chars := oversize_head.length + (List.replicate 16347 66).length }
    (List.replicate 16384 66) (List.replicate 32768 66)
    (by
      show oversize_parsed.string_starts ≤ oversize_head.length + (List.replicate 16347 66).length
      have h1 : oversize_parsed.string_starts = 32 := by decide
      have h2 : oversize_head.length = 32 := by decide
      rw [h1, h2]
      omega)
    (by show oversize_parsed.parser_state ≠ _; decide)
    (by
      show oversize_head.length + (List.replicate 16347 66).length
        = (oversize_head ++ List.replicate 16347 66).length
      rw [List.length_append])
    (by
      show (oversize_head ++ List.replicate 16347 66).length = 16379
      rw [List.length_append, List.length_replicate]
      decide)
    (by show oversize_parsed.bufsize = 16384; decide)
    (List.length_replicate _ _) (List.length_replicate _ _)
    (fun d0 c e1 e2 e3 hlt _ _ => step_body_plain _ d0 (by
      rw [e1]
      show oversize_parsed.parser_state = _
      decide) (by
      rw [e2, e3]
      show ((d0.parsed_chars + 1 : Nat) : Int)
        ≠ int32 (oversize_parsed.true_header_length + oversize_parsed.req.scgi_content_length)
      have h2 : int32 (oversize_parsed.true_header_length
          + oversize_parsed.req.scgi_content_length) = 70032 := by decide
      rw [h2]
      omega))
  obtain ⟨⟨d3, h3, s3, l3, z3, r3, -⟩, hkill⟩ := hchain
  refine ⟨oversize_well_formed, ?_, ?_, ⟨d3, ?_, l3, z3, ?_, ?_⟩, ?_, by decide⟩
  · show [oversize_head ++ List.replicate 16347 66, List.replicate 16384 66,
      List.replicate 32768 66, List.replicate 4501 66].flatten = _
    rw [flatten_four, replicate_four]
    have e : oversize_head ++ List.replicate 70000 66
        = wire_request [50, 56] (⟨CONTENT_LENGTH, [55, 48, 48, 48, 48]⟩ :: [⟨SCGI, ONE⟩])
          (List.replicate 70000 66) := by
      generalize List.replicate 70000 66 = body
      simp [oversize_head, wire_request, wire_headers, wire_header]
    exact e
  · intro f hf
    have hl : f.length ≠ 0 := by
      simp only [oversize_fragments, List.mem_cons, List.mem_singleton, List.not_mem_nil,
        or_false] at hf
      rcases hf with rfl | rfl | rfl | rfl
      · rw [List.length_append, List.length_replicate]; omega
      · rw [List.length_replicate]; omega
      · rw [List.length_replicate]; omega
      · rw [List.length_replicate]; omega
    intro h
    rw [h] at hl
    exact hl rfl
  · show scgi_listen_all (sample_globals, some (scgi_answer_the_phone_desc 7))
      [(true, recv_result.data (oversize_head ++ List.replicate 16347 66)),
        (true, recv_result.data (List.replicate 16384 66)),
        (true, recv_result.data (List.replicate 32768 66))] = _
    rw [listen_all_cons]
    show scgi_listen_all (scgi_listen_to_request sample_globals (scgi_answer_the_phone_desc 7)
      true (recv_result.data (oversize_head ++ List.replicate 16347 66))) _ = _
    rw [oversize_first_read]
    exact h3
  · rw [s3]
    show oversize_parsed.parser_state = _
    decide
  · rw [r3]
    show oversize_parsed.req.body = none
    decide
  · show scgi_listen_all (sample_globals, some (scgi_answer_the_phone_desc 7))
      [(true, recv_result.data (oversize_head ++ List.replicate 16347 66)),
        (true, recv_result.data (List.replicate 16384 66)),
        (true, recv_result.data (List.replicate 32768 66)),
        (true, recv_result.data (List.replicate 4501 66))] = _
    rw [listen_all_cons]
    show scgi_listen_all (scgi_listen_to_request sample_globals (scgi_answer_the_phone_desc 7)
      true (recv_result.data (oversize_head ++ List.replicate 16347 66))) _ = _
    rw [oversize_first_read, hkill]
    rfl

/-! ### A header block that the inbound buffer refuses -/

theorem long_name_run :
    scgi_parse_input_run long_name_head.length sample_globals
        { scgi_answer_the_phone_desc 7 with buf := long_name_head }
      = next long_name_parsed := by
  decide

theorem long_name_first_read :
    scgi_listen_to_request sample_globals (scgi_answer_the_phone_desc 7) true
        (recv_result.data (long_name_head ++ List.replicate 16349 65))
      = (sample_globals, some { long_name_parsed with
          buf := long_name_head ++ List.replicate 16349 65
          parsed_chars := long_name_head.length + (List.replicate 16349 65).length }) :=
  listen_first_plain sample_globals 7 long_name_head (List.replicate 16349 65) long_name_parsed
    true long_name_run (by decide) (by decide) (by rw [List.length_replicate]; decide)
    (fun i hi => step_headname_plain _ _ (by show long_name_parsed.parser_state = _; decide)
      (by
        show ((long_name_head.length + i + 1 : Nat) : Int) ≠ long_name_parsed.true_header_length
        have h1 : long_name_head.length = 30 := by decide
        have h2 : long_name_parsed.true_header_length = 65634 := by decide
        rw [h1, h2]
        rw [List.length_replicate] at hi
        omega)
      (by
        show byteAt (long_name_head ++ List.replicate 16349 65) (long_name_head.length + i) ≠ 0
        rw [List.length_replicate] at hi
        rw [byteAt_append_right, byteAt_replicate _ _ _ hi]
        decide))

theorem long_name_block_length (name : List Nat) :
    (wire_headers (⟨CONTENT_LENGTH, [48]⟩ :: [⟨SCGI, ONE⟩, ⟨name, ONE⟩])).length
      = name.length + 27 := by
  simp [wire_headers, wire_header, CONTENT_LENGTH, SCGI, ONE]

theorem long_name_length : long_name.length = 65600 := List.length_replicate _ _

theorem long_name_well_formed :
    well_formed [54, 53, 54, 50, 55] [48] [⟨SCGI, ONE⟩, ⟨long_name, ONE⟩] [] := by
  refine ⟨by decide, by decide, ?_, by decide, by decide, by decide, ?_, ?_, ?_⟩
  · rw [long_name_block_length, long_name_length]
    decide
  · intro h hh
    rw [List.mem_cons, List.mem_singleton] at hh
    rcases hh with rfl | rfl
    · exact ⟨by decide, by decide, by decide⟩
    · refine ⟨?_, ?_, by decide⟩
      · intro e
        have h1 := congrArg List.length e
        rw [long_name_length] at h1
        cases h1
      · intro c hc
        have := List.eq_of_mem_replicate hc
        omega
  · exact List.mem_cons_self _ _
  · rw [wire_request_length, long_name_block_length, long_name_length]
    decide

/-- C7, as stated, fails: the well-formed request without a body whose header
block of 65627 bytes holds `CONTENT_LENGTH` with the value `0`, `SCGI` with the
value `1` and a header with a name of 65600 letters, 65634 bytes in all and so
below `SCGI_MAX_INBUF_SIZE`, fills the buffer at the capacities 16384, 32768
and 65536 with its first 65531 bytes, and the read behind them finds the growth
to 131072 refused: the connection is torn down before the closing comma is
read, and the request never comes into the queue. -/
theorem zero_length_body_counterexample :
    well_formed [54, 53, 54, 50, 55] [48] [⟨SCGI, ONE⟩, ⟨long_name, ONE⟩] [] ∧
    long_name_fragments.flatten
      = wire_request [54, 53, 54, 50, 55]
          (⟨CONTENT_LENGTH, [48]⟩ :: [⟨SCGI, ONE⟩, ⟨long_name, ONE⟩]) [] ∧
    (∀ f ∈ long_name_fragments, f ≠ []) ∧
    (∃ d : scgi_desc,
      scgi_listen_all (sample_globals, some (scgi_answer_the_phone_desc 7))
          ((events_of long_name_fragments).take 3) = (sample_globals, some d) ∧
      d.buflen = 65531 ∧ d.bufsize = 65536 ∧ d.parser_state = SCGI_PARSE_HEADNAME ∧
      d.req.body = none) ∧
    scgi_listen_all (sample_globals, some (scgi_answer_the_phone_desc 7))
        (events_of long_name_fragments)
      = (scgi_kill_socket sample_globals (scgi_answer_the_phone_desc 7), none) ∧
    (scgi_kill_socket sample_globals (scgi_answer_the_phone_desc 7)).first_scgi_unrecved_req
      = [] := by
  have hchain := plain_reads_refused sample_globals
    { long_name_parsed with
      buf := long_name_head ++ List.replicate 16349 65
      parsed_chars := long_name_head.length + (List.replicate 16349 65).length }
    (List.replicate 16384 65) (List.replicate 32768 65)
    (by
      show long_name_parsed.string_starts ≤ long_name_head.length + (List.replicate 16349 65).length
      have h1 : long_name_parsed.string_starts = 30 := by decide
      have h2 : long_name_head.length = 30 := by decide
      rw [h1, h2]
      omega)
    (by show long_name_parsed.parser_state ≠ _; decide)
    (by
      show long_name_head.length + (List.replicate 16349 65).length
        = (long_name_head ++ List.replicate 16349 65).length
      rw [List.length_append])
    (by
      show (long_name_head ++ List.replicate 16349 65).length = 16379
      rw [List.length_append, List.length_replicate]
      decide)
    (by show long_name_parsed.bufsize = 16384; decide)
    (List.length_replicate _ _) (List.length_replicate _ _)
    (fun d0 c e1 e2 _ hlt hc e5 => step_headname_plain _ d0 (by
      rw [e1]
      show long_name_parsed.parser_state = _
      decide) (by
      rw [e2]
      show ((d0.parsed_chars + 1 : Nat) : Int) ≠ long_name_parsed.true_header_length
      have h2 : long_name_parsed.true_header_length = 65634 := by decide
      rw [h2]
      omega) (by
      rw [e5]
      rcases hc with hc | hc
      · have := List.eq_of_mem_replicate hc
        omega
      · have := List.eq_of_mem_replicate hc
        omega))
  obtain ⟨⟨d3, h3, s3, l3, z3, r3, -⟩, hkill⟩ := hchain
  refine ⟨long_name_well_formed, ?_, ?_, ⟨d3, ?_, l3, z3, ?_, ?_⟩, ?_, by decide⟩
  · show [long_name_head ++ List.replicate 16349 65, List.replicate 16384 65,
      List.replicate 32768 65, List.replicate 99 65 ++ [0, 49, 0, 44]].flatten = _
    rw [flatten_four, ← List.append_assoc (List.replicate 32768 65),
      ← List.append_assoc (List.replicate 16384 65), ← List.append_assoc (List.replicate 16349 65),
      ← List.replicate_add, ← List.replicate_add, ← List.replicate_add]
    have e : ∀ name : List Nat, long_name_head ++ (name ++ [0, 49, 0, 44])
        = wire_request [54, 53, 54, 50, 55]
          (⟨CONTENT_LENGTH, [48]⟩ :: [⟨SCGI, ONE⟩, ⟨name, ONE⟩]) [] := by
      intro name
      simp [long_name_head, wire_request, wire_headers, wire_header, ONE]
    exact e (List.replicate 65600 65)
  · intro f hf
    have hl : f.length ≠ 0 := by
      simp only [long_name_fragments, List.mem_cons, List.mem_singleton, List.not_mem_nil,
        or_false] at hf
      rcases hf with rfl | rfl | rfl | rfl
      · rw [List.length_append, List.length_replicate]; omega
      · rw [List.length_replicate]; omega
      · rw [List.length_replicate]; omega
      · rw [List.length_append, List.length_replicate]; omega
    intro h
    rw [h] at hl
    exact hl rfl
  · show scgi_listen_all (sample_globals, some (scgi_answer_the_phone_desc 7))
      [(true, recv_result.data (long_name_head ++ List.replicate 16349 65)),
        (true, recv_result.data (List.replicate 16384 65)),
        (true, recv_result.data (List.replicate 32768 65))] = _
    rw [listen_all_cons]
    show scgi_listen_all (scgi_listen_to_request sample_globals (scgi_answer_the_phone_desc 7)
      true (recv_result.data (long_name_head ++ List.replicate 16349 65))) _ = _
    rw [long_name_first_read]
    exact h3
  · rw [s3]
    show long_name_parsed.parser_state = _
    decide
  · rw [r3]
    show long_name_parsed.req.body = none
    decide
  · show scgi_listen_all (sample_globals, some (scgi_answer_the_phone_desc 7))
      [(true, recv_result.data (long_name_head ++ List.replicate 16349 65)),
        (true, recv_result.data (List.replicate 16384 65)),
        (true, recv_result.data (List.replicate 32768 65)),
        (true, recv_result.data (List.replicate 99 65 ++ [0, 49, 0, 44]))] = _
    rw [listen_all_cons]
    show scgi_listen_all (scgi_listen_to_request sample_globals (scgi_answer_the_phone_desc 7)
      true (recv_result.data (long_name_head ++ List.replicate 16349 65))) _ = _
    rw [long_name_first_read, hkill]
    rfl

/-! ### A length that the inbound buffer refuses -/

theorem long_digits_first_read :
    scgi_listen_to_request sample_globals (scgi_answer_the_phone_desc 7) true
        (recv_result.data (List.replicate 16379 49))
      = (sample_globals, some { scgi_answer_the_phone_desc 7 with
          buf := List.replicate 16379 49
          parsed_chars := (List.replicate 16379 49).length }) := by
  have hne : List.replicate 16379 49 ≠ [] := by
    intro e
    have := congrArg List.length e
    simp only [List.length_replicate, List.length_nil] at this
    omega
  rw [listen_eq_receive sample_globals _ true _ hne (by
    rw [List.length_replicate]
    decide)]
  exact parse_digits_only sample_globals 7 (List.replicate 16379 49) hne
    (fun c hc => by
      have := List.eq_of_mem_replicate hc
      rw [this]
      decide)
    (by
      rw [List.head?_replicate]
      decide)

/-- C8, as stated, fails: a stream that begins with 65531 digits `1` followed
by a colon fills the buffer at the capacities 16384, 32768 and 65536 with the
digits, the parser still in HeaderLength, and the read that would take the
colon finds the growth to 131072 refused: the connection is torn down, and the
parser has never left HeaderLength for HeaderName. -/
theorem length_validation_counterexample :
    long_digits_fragments.flatten = List.replicate 65531 49 ++ [58] ∧
    (∀ c ∈ List.replicate 65531 49, isdigit c = true) ∧
    (List.replicate 65531 49).head? = some 49 ∧
    (∃ d : scgi_desc,
      scgi_listen_all (sample_globals, some (scgi_answer_the_phone_desc 7))
          ((events_of long_digits_fragments).take 3) = (sample_globals, some d) ∧
      d.buflen = 65531 ∧ d.bufsize = 65536 ∧ d.parser_state = SCGI_PARSE_HEADLENGTH) ∧
    scgi_listen_all (sample_globals, some (scgi_answer_the_phone_desc 7))
        (events_of long_digits_fragments)
      = (scgi_kill_socket sample_globals (scgi_answer_the_phone_desc 7), none) := by
  have hchain := plain_reads_refused sample_globals
    { scgi_answer_the_phone_desc 7 with
      buf := List.replicate 16379 49
      parsed_chars := (List.replicate 16379 49).length }
    (List.replicate 16384 49) (List.replicate 32768 49)
    (by show 0 ≤ (List.replicate 16379 49).length; omega)
    (by show SCGI_PARSE_HEADLENGTH ≠ SCGI_PARSE_HEADVAL; decide)
    rfl
    (by show (List.replicate 16379 49).length = 16379; rw [List.length_replicate])
    rfl
    (List.length_replicate _ _) (List.length_replicate _ _)
    (fun d0 c e1 _ _ _ hc e5 => step_headlength_digit _ d0 (by rw [e1]; rfl) (by
      rw [e5]
      rcases hc with hc | hc
      · rw [List.eq_of_mem_replicate hc]
        decide
      · rw [List.eq_of_mem_replicate hc]
        decide))
  obtain ⟨⟨d3, h3, s3, l3, z3, -, -⟩, hkill⟩ := hchain
  refine ⟨?_, ?_, ?_, ⟨d3, ?_, l3, z3, ?_⟩, ?_⟩
  · show [List.replicate 16379 49, List.replicate 16384 49, List.replicate 32768 49,
      [58]].flatten = _
    have e := flatten_four [] (List.replicate 16379 49) (List.replicate 16384 49)
      (List.replicate 32768 49) [58]
    rw [List.nil_append] at e
    rw [e, ← List.append_assoc (List.replicate 16384 49),
      ← List.append_assoc (List.replicate 16379 49), ← List.replicate_add, ← List.replicate_add]
    rfl
  · intro c hc
    rw [List.eq_of_mem_replicate hc]
    decide
  · rw [List.head?_replicate]
    decide
  · show scgi_listen_all (sample_globals, some (scgi_answer_the_phone_desc 7))
      [(true, recv_result.data (List.replicate 16379 49)),
        (true, recv_result.data (List.replicate 16384 49)),
        (true, recv_result.data (List.replicate 32768 49))] = _
    rw [listen_all_cons]
    show scgi_listen_all (scgi_listen_to_request sample_globals (scgi_answer_the_phone_desc 7)
      true (recv_result.data (List.replicate 16379 49))) _ = _
    rw [long_digits_first_read]
    exact h3
  · rw [s3]
    rfl
  · show scgi_listen_all (sample_globals, some (scgi_answer_the_phone_desc 7))
      [(true, recv_result.data (List.replicate 16379 49)),
        (true, recv_result.data (List.replicate 16384 49)),
        (true, recv_result.data (List.replicate 32768 49)),
        (true, recv_result.data [58])] = _
    rw [listen_all_cons]
    show scgi_listen_all (scgi_listen_to_request sample_globals (scgi_answer_the_phone_desc 7)
      true (recv_result.data (List.replicate 16379 49))) _ = _
    rw [long_digits_first_read, hkill]
    rfl

/-! ### An upload that the inbound buffer grows for -/

/-- The parser on body bytes that end the body: the rounds consume them, and
the last links the request into the queue with the C string at `string_starts`
as its body. -/
theorem parse_body_end (g : scgi_globals) (d : scgi_desc)
    (hst : d.parser_state = SCGI_PARSE_BODY) (hss : d.string_starts ≤ d.parsed_chars)
    (hlen : d.parsed_chars < d.buf.length) (h0 : d.parsed_chars ≠ 0)
    (hend : (d.buf.length : Int) = int32 (d.true_header_length + d.req.scgi_content_length)) :
    scgi_parse_input g d
      = ({ g with first_scgi_unrecved_req := SCGI_LINK d.sock g.first_scgi_unrecved_req },
          some { d with
            parsed_chars := d.buf.length
            buf := d.buf.set d.buf.length 0
            req := { d.req with
              body := some (cstr (d.buf.set d.buf.length 0) d.string_starts) } }) := by
  obtain ⟨m, hm⟩ : ∃ m, d.parsed_chars + m + 1 = d.buf.length := ⟨d.buf.length - d.parsed_chars - 1, by omega⟩
  rw [parse_input_eq_run g d ⟨hss, fun hv => by rw [hst] at hv; cases hv⟩ hlen
    (fun hh => h0 hh.1)]
  rw [show d.buf.length - d.parsed_chars = m + 1 by omega, run_add,
    run_skip g m d (fun i hi => step_body_plain g _ hst (by
      show ((d.parsed_chars + i + 1 : Nat) : Int)
        ≠ int32 (d.true_header_length + d.req.scgi_content_length)
      rw [← hend]
      omega))]
  dsimp only
  rw [run_one, step_body_end g { d with parsed_chars := d.parsed_chars + m } hst (by
    show ((d.parsed_chars + m + 1 : Nat) : Int)
      = int32 (d.true_header_length + d.req.scgi_content_length)
    rw [← hend, hm])]
  show ({ g with first_scgi_unrecved_req := SCGI_LINK d.sock g.first_scgi_unrecved_req },
    some { d with
      parsed_chars := d.parsed_chars + m + 1
      buf := d.buf.set (d.parsed_chars + m + 1) 0
      req := { d.req with
        body := some (cstr (d.buf.set (d.parsed_chars + m + 1) 0) d.string_starts) } }) = _
  rw [hm]

theorem cstr_of_nul (buf : List Nat) (i : Nat) (hi : i < buf.length) (h : byteAt buf i = 0) :
    cstr buf i = [] := by
  have := strlen_le_of_byteAt buf i i (Nat.le_refl _) hi h
  unfold strlen at this
  exact List.length_eq_zero.1 (by omega)

/-- The end of a body of 20000 bytes behind a header block of 32 bytes, in a
buffer that holds a NUL where the body starts: the body stored is empty. -/
theorem parse_body_end_cut (g : scgi_globals) (d0 : scgi_desc) (B : List Nat)
    (hbuf : d0.buf = B) (hB : B.length = 20032) (hz : byteAt B 32 = 0)
    (hst : d0.parser_state = SCGI_PARSE_BODY) (hss : d0.string_starts = 32)
    (hp : d0.parsed_chars = 16379) (hthl : d0.true_header_length = 32)
    (hcl : d0.req.scgi_content_length = 20000) :
    ∃ d : scgi_desc,
      scgi_parse_input g d0
        = ({ g with first_scgi_unrecved_req := SCGI_LINK d0.sock g.first_scgi_unrecved_req },
            some d) ∧
      d.bufsize = d0.bufsize ∧ d.buflen = 20032 ∧ d.string_starts = 32 ∧
      d.req.scgi_content_length = 20000 ∧ d.req.body = some [] := by
  rw [parse_body_end g d0 hst (by omega) (by rw [hbuf, hB, hp]; omega) (by omega) (by
    rw [hbuf, hB, hthl, hcl]
    decide)]
  refine ⟨_, rfl, rfl, ?_, hss, hcl, ?_⟩
  · show (d0.buf.set d0.buf.length 0).length = 20032
    rw [List.length_set, hbuf, hB]
  · show some (cstr (d0.buf.set d0.buf.length 0) d0.string_starts) = some []
    rw [List.set_eq_of_length_le (Nat.le_refl _), hss, hbuf,
      cstr_of_nul B 32 (by rw [hB]; omega) hz]

theorem upload_run :
    scgi_parse_input_run upload_head.length sample_globals
        { scgi_answer_the_phone_desc 7 with buf := upload_head }
      = next upload_parsed := by
  decide

theorem upload_first_read :
    scgi_listen_to_request sample_globals (scgi_answer_the_phone_desc 7) true
        (recv_result.data (upload_head ++ List.replicate 16347 66))
      = (sample_globals, some upload_desc) := by
  rw [listen_first_plain sample_globals 7 upload_head (List.replicate 16347 66) upload_parsed true
    upload_run (by decide) (by decide) (by rw [List.length_replicate]; decide)
    (fun i hi => step_body_plain _ _ (by show upload_parsed.parser_state = _; decide) (by
      show ((upload_head.length + i + 1 : Nat) : Int)
        ≠ int32 (upload_parsed.true_header_length + upload_parsed.req.scgi_content_length)
      have h1 : upload_head.length = 32 := by decide
      have h2 : int32 (upload_parsed.true_header_length
          + upload_parsed.req.scgi_content_length) = 20032 := by decide
      rw [h1, h2]
      rw [List.length_replicate] at hi
      omega))]
  have h1 : upload_head.length + (List.replicate 16347 66).length = 16379 := by
    rw [List.length_replicate]
    decide
  rw [h1]
  rfl

/-- The read of `upload_desc`, whose buffer is full to within the margin: the
buffer grows to 32768 bytes and keeps the 17 bytes before its first NUL. -/
theorem upload_grown (g : scgi_globals) (incoming : recv_result) :
    scgi_listen_to_request g upload_desc true incoming
      = scgi_listen_to_request_read g
          { upload_desc with
            bufsize := 32768
            buf := upload_head.take 17 ++ List.replicate 16362 0 }
          16379 incoming := by
  have hw : ∀ c ∈ upload_head.take 17, c ≠ 0 := by decide
  have hbuf : upload_desc.buf
      = upload_head.take 17 ++ 0 :: (upload_head.drop 18 ++ List.replicate 16347 66) := by
    show upload_head ++ List.replicate 16347 66 = _
    have : upload_head = upload_head.take 17 ++ 0 :: upload_head.drop 18 := by decide
    conv_lhs => rw [this]
    rw [List.append_assoc, List.cons_append]
  have hsize : upload_desc.bufsize = 16384 := by decide
  rw [listen_grown _ _ _ _ (by rw [upload_desc_buflen, hsize]) (by
    rw [hsize]
    decide)]
  rw [hbuf, sprintf_s_cut _ _ _ hw, upload_desc_buflen, hsize]
  rfl

/-- The two reads of the upload of 20032 bytes.  The first fills the initial
buffer; the second grows the buffer, stores the 3653 bytes that remain, and at
the end offset links the request into the ready queue.  `string_starts` is the
offset 32 that the parser gave it before the growth, and the byte there is the
NUL that the growth has left: the body stored for the 20000 bytes is empty. -/
theorem upload_two_reads :
    ∃ d : scgi_desc,
      scgi_listen_all (sample_globals, some (scgi_answer_the_phone_desc 7))
          (events_of upload_fragments)
        = ({ sample_globals with first_scgi_unrecved_req := [7] }, some d) ∧
      d.bufsize = 32768 ∧ d.buflen = 20032 ∧ d.string_starts = 32 ∧
      d.req.scgi_content_length = 20000 ∧ d.req.body = some [] := by
  have hcut : (upload_head.take 17 ++ List.replicate 16362 0).length = 16379 := by
    rw [List.length_append, List.length_replicate]
    decide
  have hz : byteAt (upload_head.take 17 ++ List.replicate 16362 0 ++ List.replicate 3653 66) 32
      = 0 := by
    rw [byteAt_append_left _ _ _ (by rw [hcut]; omega)]
    show byteAt (upload_head.take 17 ++ List.replicate 16362 0) ((upload_head.take 17).length + 15)
      = 0
    rw [byteAt_append_right, byteAt_replicate _ _ _ (by omega)]
  have hlen2 : (upload_head.take 17 ++ List.replicate 16362 0 ++ List.replicate 3653 66).length
      = 20032 := by
    rw [List.length_append, hcut, List.length_replicate]
  show ∃ d : scgi_desc,
    scgi_listen_all (sample_globals, some (scgi_answer_the_phone_desc 7))
        [(true, recv_result.data (upload_head ++ List.replicate 16347 66)),
          (true, recv_result.data (List.replicate 3653 66))]
      = ({ sample_globals with first_scgi_unrecved_req := [7] }, some d) ∧
    d.bufsize = 32768 ∧ d.buflen = 20032 ∧ d.string_starts = 32 ∧
    d.req.scgi_content_length = 20000 ∧ d.req.body = some []
  rw [listen_all_cons]
  show ∃ d : scgi_desc,
    scgi_listen_all (scgi_listen_to_request sample_globals (scgi_answer_the_phone_desc 7) true
        (recv_result.data (upload_head ++ List.replicate 16347 66)))
        [(true, recv_result.data (List.replicate 3653 66))] = _ ∧ _
  rw [upload_first_read, listen_all_cons, listen_all_nil]
  show ∃ d : scgi_desc,
    scgi_listen_to_request sample_globals upload_desc true
        (recv_result.data (List.replicate 3653 66)) = _ ∧ _
  rw [upload_grown, listen_read_data _ _ _ _ (by
    intro e
    have := congrArg List.length e
    rw [List.length_replicate] at this
    cases this) (by rw [List.length_replicate]; decide)]
  exact parse_body_end_cut sample_globals _ _ rfl hlen2 hz
    (by show upload_desc.parser_state = _; decide)
    (by show upload_desc.string_starts = 32; decide)
    (by show upload_desc.parsed_chars = 16379; decide)
    (by show upload_desc.true_header_length = 32; decide)
    (by show upload_desc.req.scgi_content_length = 20000; decide)

/-- C30, against the code.  While no inbound buffer grows the claim holds: in
every state of `running`, no request is twice in the ready queue, and every
request in the ready queue is in the list of all requests and is the request of
a connection of some port with `scgi_scgiheader` 1, at least two headers of
which the first is named `CONTENT_LENGTH`, `scgi_content_length` at least 0, and
a body that is not NULL and no longer than `scgi_content_length`; and whatever
the buffer of a connection holds, whenever the rounds of the parser bring it to
a state with the flag `scgi_scgiheader` set, as it has to be where the end of
the header block reads the value of `first_header`, the header list is not
empty.  Behind a growth it does not: for the upload of 20032 bytes the first
read leaves `upload_desc`, with the body starting at `string_starts` 32 in a
full buffer of the capacity 16384; the second read grows the buffer to 32768
and links the request into the ready queue with a body read through
`string_starts`, which is the 32 of before the growth.  In the C program that
is a pointer into the block that `resize_buffer` has freed, and the length of
what `strlen` finds there is bounded by nothing; the offset of the model finds
the NUL that the growth has left in the new block. -/
theorem ready_queue_sound :
    (∀ s : scgi_library, running s →
      s.globals.first_scgi_unrecved_req.Nodup ∧
      (∀ r ∈ s.globals.first_scgi_unrecved_req,
        r ∈ s.globals.first_scgi_req ∧
        ∃ p ∈ s.ports, ∃ d ∈ p.descs, d.sock = r ∧ ready_request d.req) ∧
      (∀ p ∈ s.ports, ∀ d ∈ p.descs,
        ∀ (buf : List Nat) (n : Nat) (g : scgi_globals) (d1 : scgi_desc),
          scgi_parse_input_run n g { d with buf := buf } = next d1 →
          d1.req.scgi_scgiheader ≠ 0 → d1.req.headers ≠ [])) ∧
    (scgi_listen_all (sample_globals, some (scgi_answer_the_phone_desc 7))
        ((events_of upload_fragments).take 1) = (sample_globals, some upload_desc) ∧
      upload_desc.parser_state = SCGI_PARSE_BODY ∧ upload_desc.string_starts = 32 ∧
      upload_desc.buflen = 16379 ∧ upload_desc.bufsize = 16384 ∧
      ∃ d : scgi_desc,
        scgi_listen_all (sample_globals, some (scgi_answer_the_phone_desc 7))
            (events_of upload_fragments)
          = ({ sample_globals with first_scgi_unrecved_req := [7] }, some d) ∧
        d.bufsize = 32768 ∧ d.string_starts = 32 ∧ d.req.scgi_content_length = 20000 ∧
        d.req.body = some []) := by
  refine ⟨fun s h => ?_, ?_, by decide, by decide, upload_desc_buflen, by decide, ?_⟩
  · obtain ⟨hq, -, hI, hQ⟩ := running_sound s h
    refine ⟨hq, fun r hr => ?_, fun p hp d hd buf n g d1 hrun hf => ?_⟩
    · obtain ⟨d, hd, e1, e2⟩ := hQ r hr
      obtain ⟨i1, i2⟩ := hI d hd
      obtain ⟨p, hp, hdp⟩ := (mem_descs s d).1 hd
      exact ⟨e1 ▸ i2, p, hp, d, hdp, e1, (i1.2.2.2 e2).1⟩
    · have hd0 := (hI d ((mem_descs s d).2 ⟨p, hp, hd⟩)).1
      have key := fun hq => run_queue_inv n g _ d1 hq hrun
      have h1 := key (queue_inv_congr d _ rfl rfl rfl rfl rfl hd0)
      have h2 := (queue_inv_flag d1 h1 hf).2.1
      intro e
      rw [e] at h2
      simp at h2
  · show scgi_listen_all (sample_globals, some (scgi_answer_the_phone_desc 7))
      [(true, recv_result.data (upload_head ++ List.replicate 16347 66))] = _
    rw [listen_all_cons, listen_all_nil]
    exact upload_first_read
  · obtain ⟨d, h1, h2, -, h3, h4, h5⟩ := upload_two_reads
    exact ⟨d, h1, h2, h3, h4, h5⟩

/-- C30, where it holds, at the library with one port after a pass that accepts
a connection and a pass that reads the sample request: the request is in the
ready queue. -/
theorem ready_queue_sound_witness :
    running ready_library ∧
    ready_library.globals.first_scgi_unrecved_req = [7] ∧
    (ready_library.globals.first_scgi_unrecved_req.Nodup ∧
    (∀ r ∈ ready_library.globals.first_scgi_unrecved_req,
      r ∈ ready_library.globals.first_scgi_req ∧
      ∃ p ∈ ready_library.ports, ∃ d ∈ p.descs, d.sock = r ∧ ready_request d.req) ∧
    (∀ p ∈ ready_library.ports, ∀ d ∈ p.descs,
      ∀ (buf : List Nat) (n : Nat) (g : scgi_globals) (d1 : scgi_desc),
        scgi_parse_input_run n g { d with buf := buf } = next d1 →
        d1.req.scgi_scgiheader ≠ 0 → d1.req.headers ≠ [])) :=
  ⟨ready_library_running, ready_library_queue,
    ready_queue_sound.1 ready_library ready_library_running⟩

end Scgilib
